import Mathlib

/-!
# Step pulse generator of mbed_marlin (src/marlin/stepper.cpp)

A shallow embedding of the stepper driver interrupt: the speed lookup
(calc_timer), the trapezoid generator, the Bresenham step loop, the endstop
checks, the advance interrupt, st_init and the small foreground API
(position get/set, quickStop, enable_endstops).

Conventions of the embedding.

* The globals of stepper.cpp are the fields of State; every function of the
  source is a function on State.  The effects on the outside world (pin
  writes, timer re-arming, serial output, the planner's discard) are
  recorded, in program order, in the field log; the writes of the advance
  interrupt to the extruder pins are recorded in the field writes of Timer0.
* Unsigned machine integers are Nat, reduced modulo 2^16 (unsigned short)
  or 2^32 (unsigned int, unsigned long) wherever the source stores into a
  variable of that type.  The Bresenham counters are reduced to the signed
  32-bit range by wrapLong.  The remaining signed longs (count_position,
  acceleration_time, ...) are Int: their overflow is undefined in C++ and
  executions that overflow them are outside the model.
* The headers the file includes are not part of the sources.  Their
  compile-time options are the fields of Config, the two speed tables are
  the fields of Tables, the planner queue is a list of blocks.
-/

namespace Marlin

/-! ## Configuration, tables, blocks -/

/-- Compile-time options of Configuration.h / Configuration_adv.h / pins.h that
stepper.cpp tests.  A pin field is true when the pin is defined and > -1. -/
structure Config where
  MAX_STEP_FREQUENCY : Nat
  COREXY : Bool
  DUAL_X_CARRIAGE : Bool
  Z_DUAL_STEPPER_DRIVERS : Bool
  Z_LATE_ENABLE : Bool
  ADVANCE : Bool
  X_HOME_DIR : Int
  X2_HOME_DIR : Int
  X_MIN_PIN : Bool
  X_MAX_PIN : Bool
  Y_MIN_PIN : Bool
  Y_MAX_PIN : Bool
  Z_MIN_PIN : Bool
  Z_MAX_PIN : Bool
  X_MIN_ENDSTOP_INVERTING : Bool
  X_MAX_ENDSTOP_INVERTING : Bool
  Y_MIN_ENDSTOP_INVERTING : Bool
  Y_MAX_ENDSTOP_INVERTING : Bool
  Z_MIN_ENDSTOP_INVERTING : Bool
  Z_MAX_ENDSTOP_INVERTING : Bool
  INVERT_X_DIR : Bool
  INVERT_Y_DIR : Bool
  INVERT_Z_DIR : Bool
  INVERT_X_STEP_PIN : Bool
  INVERT_Y_STEP_PIN : Bool
  INVERT_Z_STEP_PIN : Bool
  INVERT_E_STEP_PIN : Bool
  /-- The symbol spelled INVER_Z_STEP_PIN at line 517 of stepper.cpp. -/
  INVER_Z_STEP_PIN : Bool

/-- The two tables of speed_lookuptable.h, seen the way calc_timer reads them:
as arrays of unsigned short indexed by the element offset from
&speed_lookuptable_fast[0][0] (resp. slow).  Row r, column c of the
two-column table is offset 2 * r + c. -/
structure Tables where
  speed_lookuptable_fast : Nat → Nat
  speed_lookuptable_slow : Nat → Nat

/-- Modelled from the spec: block_t of planner.h (not in the sources), with the
fields the step generator reads.  Step counts, rates and event indices are
non-negative. -/
structure block_t where
  steps_x : Nat
  steps_y : Nat
  steps_z : Nat
  steps_e : Nat
  step_event_count : Nat
  accelerate_until : Nat
  decelerate_after : Nat
  acceleration_rate : Nat
  direction_bits : Nat
  active_extruder : Nat
  nominal_rate : Nat
  initial_rate : Nat
  final_rate : Nat
  initial_advance : Int
  final_advance : Int
  busy : Bool
deriving DecidableEq, Repr

/-- AxisEnum of Marlin.h. -/
def X_AXIS : Nat := 0

/-- AxisEnum of Marlin.h. -/
def Y_AXIS : Nat := 1

/-- AxisEnum of Marlin.h. -/
def Z_AXIS : Nat := 2

/-- AxisEnum of Marlin.h. -/
def E_AXIS : Nat := 3

/-- The step count of a block on an axis: steps_x, steps_y, steps_z, steps_e. -/
def block_t.steps (b : block_t) (axis : Nat) : Nat :=
  match axis with
  | 0 => b.steps_x
  | 1 => b.steps_y
  | 2 => b.steps_z
  | 3 => b.steps_e
  | _ => 0

/-- The test (bits & (1<<axis)) != 0 of the source. -/
def bit_set (bits axis : Nat) : Bool := (bits &&& (1 <<< axis)) != 0

/-! ## Outputs -/

/-- The output pins stepper_int_handler writes. -/
inductive Pin
  | x_step | x2_step | y_step | z_step | z2_step | e_step
  | x_dir | x2_dir | y_dir | z_dir | z2_dir
deriving DecidableEq, Repr

/-- One effect on the outside world.  step_event is a marker without effect,
recorded where the source executes step_events_completed += 1. -/
inductive Event
  | write (p : Pin) (level : Bool)
  | rev_e_dir
  | norm_e_dir
  | enable_z
  | timer_detach
  | timer_attach_us (us : Int)
  | serial_print_stepper_too_high
  | serial_println (n : Nat)
  | plan_discard_current_block
  | step_event
deriving DecidableEq, Repr

/-- The levels READ returns for the six endstop pins during one interrupt. -/
structure Pins where
  x_min : Bool
  x_max : Bool
  y_min : Bool
  y_max : Bool
  z_min : Bool
  z_max : Bool
deriving DecidableEq, Repr

/-! ## Generator state -/

/-- The globals of stepper.cpp, the planner queue, the one foreign global the
interrupt reads (extruder_duplication_enabled) and the record of effects. -/
structure State where
  current_block : Option block_t
  out_bits : Nat
  counter_x : Int
  counter_y : Int
  counter_z : Int
  counter_e : Int
  step_events_completed : Nat
  advance_rate : Int
  advance : Int
  final_advance : Int
  old_advance : Int
  e_steps_0 : Int
  e_steps_1 : Int
  e_steps_2 : Int
  acceleration_time : Int
  deceleration_time : Int
  acc_step_rate : Nat
  step_loops : Nat
  OCR1A_nominal : Nat
  step_loops_nominal : Nat
  endstops_trigsteps_x : Int
  endstops_trigsteps_y : Int
  endstops_trigsteps_z : Int
  endstop_x_hit : Bool
  endstop_y_hit : Bool
  endstop_z_hit : Bool
  old_x_min_endstop : Bool
  old_x_max_endstop : Bool
  old_y_min_endstop : Bool
  old_y_max_endstop : Bool
  old_z_min_endstop : Bool
  old_z_max_endstop : Bool
  check_endstops : Bool
  count_position_x : Int
  count_position_y : Int
  count_position_z : Int
  count_position_e : Int
  count_direction_x : Int
  count_direction_y : Int
  count_direction_z : Int
  count_direction_e : Int
  do_int : Int
  extruder_duplication_enabled : Bool
  queue : List block_t
  log : List Event

/-- The static initialisers of stepper.cpp (lines 40-89); statics without an
initialiser are zero. -/
def initial_state : State :=
  { current_block := none, out_bits := 0,
    counter_x := 0, counter_y := 0, counter_z := 0, counter_e := 0,
    step_events_completed := 0,
    advance_rate := 0, advance := 0, final_advance := 0, old_advance := 0,
    e_steps_0 := 0, e_steps_1 := 0, e_steps_2 := 0,
    acceleration_time := 0, deceleration_time := 0, acc_step_rate := 0,
    step_loops := 0, OCR1A_nominal := 0, step_loops_nominal := 0,
    endstops_trigsteps_x := 0, endstops_trigsteps_y := 0, endstops_trigsteps_z := 0,
    endstop_x_hit := false, endstop_y_hit := false, endstop_z_hit := false,
    old_x_min_endstop := false, old_x_max_endstop := false,
    old_y_min_endstop := false, old_y_max_endstop := false,
    old_z_min_endstop := false, old_z_max_endstop := false,
    check_endstops := true,
    count_position_x := 0, count_position_y := 0, count_position_z := 0,
    count_position_e := 0,
    count_direction_x := 1, count_direction_y := 1, count_direction_z := 1,
    count_direction_e := 1,
    do_int := 0, extruder_duplication_enabled := false, queue := [], log := [] }

/-- Record one effect. -/
def State.emit (s : State) (e : Event) : State := { s with log := s.log ++ [e] }

/-- Conversion of a signed value to unsigned short. -/
def u16 (x : Int) : Nat := (x % 65536).toNat

/-- Conversion to the signed 32-bit long of the target (two's complement). -/
def wrapLong (x : Int) : Int := (x + 2147483648) % 4294967296 - 2147483648

/-- The element e_steps[i] += d of the source; the array has three elements. -/
def State.e_steps_add (s : State) (i : Nat) (d : Int) : State :=
  match i with
  | 0 => { s with e_steps_0 := s.e_steps_0 + d }
  | 1 => { s with e_steps_1 := s.e_steps_1 + d }
  | 2 => { s with e_steps_2 := s.e_steps_2 + d }
  | _ => s

/-! ## Planner queue interface -/

/-- Modelled from the spec: plan_get_current_block of planner.cpp (not in the
sources) returns the head of the queue without removing it, or null. -/
def plan_get_current_block (s : State) : Option block_t := s.queue.head?

/-- Modelled from the spec: plan_discard_current_block of planner.cpp (not in
the sources) pops the head of the queue. -/
def plan_discard_current_block (s : State) : State :=
  { s with queue := s.queue.tail, log := s.log ++ [Event.plan_discard_current_block] }

/-- Modelled from the spec: blocks_queued of planner.cpp (not in the sources)
tells whether the queue is non-empty. -/
def blocks_queued (s : State) : Bool := !s.queue.isEmpty

/-! ## Foreground API (lines 138-169, 795-839) -/

/-- Lines 138-143. -/
def endstops_hit_on_purpose (s : State) : State :=
  { s with endstop_x_hit := false, endstop_y_hit := false, endstop_z_hit := false }

/-- Lines 145-148. -/
def enable_endstops (check : Bool) (s : State) : State :=
  { s with check_endstops := check }

/-- Lines 166-169. -/
def st_wake_up (s : State) : State := { s with do_int := 1 }

/-- Lines 795-803. -/
def st_set_position (x y z e : Int) (s : State) : State :=
  { s with count_position_x := x, count_position_y := y,
           count_position_z := z, count_position_e := e }

/-- Lines 805-810. -/
def st_set_e_position (e : Int) (s : State) : State :=
  { s with count_position_e := e }

/-- Lines 812-819; count_position has NUM_AXIS = 4 elements, a read past them
has no value. -/
def st_get_position (s : State) (axis : Nat) : Option Int :=
  match axis with
  | 0 => some s.count_position_x
  | 1 => some s.count_position_y
  | 2 => some s.count_position_z
  | 3 => some s.count_position_e
  | _ => none

/-- The loop while(blocks_queued()) plan_discard_current_block(); of quickStop.
The fuel bounds the number of iterations; none when it runs out. -/
def quickStop_loop : Nat → State → Option State
  | 0, s => if blocks_queued s then none else some s
  | fuel + 1, s =>
    if blocks_queued s then quickStop_loop fuel (plan_discard_current_block s)
    else some s

/-- Lines 832-839, with fuel for the loop. -/
def quickStop (fuel : Nat) (s : State) : Option State :=
  match quickStop_loop fuel { s with do_int := 0 } with
  | none => none
  | some s1 => some { s1 with current_block := none, do_int := 1 }

/-! ## Speed lookup and trapezoid generator (lines 94-98, 171-234) -/

/-- Lines 173-184 of calc_timer: the step rate after the limit to
MAX_STEP_FREQUENCY and the division by 4 or 2. -/
def calc_timer_step_rate (cfg : Config) (step_rate : Nat) : Nat :=
  let step_rate := step_rate % 4294967296
  let step_rate := if step_rate > cfg.MAX_STEP_FREQUENCY then cfg.MAX_STEP_FREQUENCY else step_rate
  if step_rate > 20000 then (step_rate >>> 2) &&& 0x3fff
  else if step_rate > 10000 then (step_rate >>> 1) &&& 0x7fff
  else step_rate

/-- Lines 173-184 of calc_timer: the value stored in step_loops. -/
def calc_timer_step_loops (cfg : Config) (step_rate : Nat) : Nat :=
  let step_rate := step_rate % 4294967296
  let step_rate := if step_rate > cfg.MAX_STEP_FREQUENCY then cfg.MAX_STEP_FREQUENCY else step_rate
  if step_rate > 20000 then 4
  else if step_rate > 10000 then 2
  else 1

/-- Lines 187-199 of calc_timer: the table lookup for the reduced step rate.

MultiU16X8toH16(timer, tmp_step_rate, gain) expands (line 95) to
timer = tmp_step_rate * (gain >> 16).  table_address is an unsigned short*,
so table_address[2] is two elements past table_address[0]. -/
def calc_timer_lookup (tb : Tables) (step_rate : Nat) : Nat :=
  if step_rate ≥ 8 * 256 then
    let table_address := 2 * ((step_rate >>> 8) % 256)
    let tmp_step_rate := (step_rate &&& 0x00ff) % 256
    let gain := tb.speed_lookuptable_fast (table_address + 2) % 65536
    let timer := (tmp_step_rate * (gain >>> 16)) % 4294967296
    (tb.speed_lookuptable_fast table_address % 65536 + 4294967296 - timer) % 4294967296
  else
    let table_address := (step_rate >>> 1) &&& 0xfffc
    let timer := tb.speed_lookuptable_slow table_address % 65536
    (timer + 4294967296
      - (((tb.speed_lookuptable_slow (table_address + 2) % 65536)
            * ((step_rate &&& 0x0007) % 256)) >>> 3)) % 4294967296

/-- Lines 171-202.  Returns the timer period and the state with step_loops set
(and the diagnostic printed when the floor of 100 applies). -/
def calc_timer (cfg : Config) (tb : Tables) (step_rate : Nat) (s : State) : Nat × State :=
  let s := { s with step_loops := calc_timer_step_loops cfg step_rate }
  let step_rate := calc_timer_step_rate cfg step_rate
  let timer := calc_timer_lookup tb step_rate
  if timer < 100 then
    (100, (s.emit Event.serial_print_stepper_too_high).emit (Event.serial_println step_rate))
  else (timer, s)

/-- Lines 206-234, for the block current_block points to. -/
def trapezoid_generator_reset (cfg : Config) (tb : Tables) (b : block_t) (s : State) : State :=
  let s :=
    if cfg.ADVANCE then
      let s := { s with advance := b.initial_advance, final_advance := b.final_advance }
      let s := s.e_steps_add b.active_extruder ((s.advance >>> 8) - s.old_advance)
      { s with old_advance := s.advance >>> 8 }
    else s
  let s := { s with deceleration_time := 0 }
  let r := calc_timer cfg tb b.nominal_rate s
  let s := { r.2 with OCR1A_nominal := r.1 % 65536 }
  let s := { s with step_loops_nominal := s.step_loops }
  let s := { s with acc_step_rate := b.initial_rate % 65536 }
  let r := calc_timer cfg tb s.acc_step_rate s
  let s := { r.2 with acceleration_time := wrapLong r.1 }
  (s.emit Event.timer_detach).emit (Event.timer_attach_us s.acceleration_time)

/-! ## The stepper interrupt (lines 236-612) -/

/-- Lines 242-271: with no current block, try to take one from the planner.
The second component tells that the handler returns at line 259. -/
def acquire_block (cfg : Config) (tb : Tables) (s : State) : State × Bool :=
  match s.current_block with
  | some _ => (s, false)
  | none =>
    match plan_get_current_block s with
    | some b0 =>
      let b := { b0 with busy := true }
      let s := { s with current_block := some b, queue := b :: s.queue.tail }
      let s := trapezoid_generator_reset cfg tb b s
      let s := { s with counter_x := wrapLong (-((b.step_event_count >>> 1 : Nat) : Int)) }
      let s := { s with counter_y := s.counter_x }
      let s := { s with counter_z := s.counter_x }
      let s := { s with counter_e := s.counter_x }
      let s := { s with step_events_completed := 0 }
      if cfg.Z_LATE_ENABLE && decide (b.steps_z > 0) then
        (((s.emit Event.enable_z).emit Event.timer_detach).emit (Event.timer_attach_us 1000), true)
      else (s, false)
    | none =>
      ((s.emit Event.timer_detach).emit (Event.timer_attach_us 1000), false)

/-- The X direction pin write of lines 279-292 and 296-309. -/
def write_x_dir (cfg : Config) (b : block_t) (level : Bool) (s : State) : State :=
  if cfg.DUAL_X_CARRIAGE then
    if s.extruder_duplication_enabled then
      (s.emit (Event.write Pin.x_dir level)).emit (Event.write Pin.x2_dir level)
    else if b.active_extruder != 0 then s.emit (Event.write Pin.x2_dir level)
    else s.emit (Event.write Pin.x_dir level)
  else s.emit (Event.write Pin.x_dir level)

/-- The X step pin write of lines 472-485 and 488-501. -/
def write_x_step (cfg : Config) (b : block_t) (level : Bool) (s : State) : State :=
  if cfg.DUAL_X_CARRIAGE then
    if s.extruder_duplication_enabled then
      (s.emit (Event.write Pin.x_step level)).emit (Event.write Pin.x2_step level)
    else if b.active_extruder != 0 then s.emit (Event.write Pin.x2_step level)
    else s.emit (Event.write Pin.x_step level)
  else s.emit (Event.write Pin.x_step level)

/-- Lines 275-319: out_bits and the X and Y direction pins. -/
def set_xy_directions (cfg : Config) (b : block_t) (s : State) : State :=
  let s := { s with out_bits := b.direction_bits }
  let s :=
    if bit_set s.out_bits X_AXIS then
      { write_x_dir cfg b cfg.INVERT_X_DIR s with count_direction_x := -1 }
    else
      { write_x_dir cfg b (!cfg.INVERT_X_DIR) s with count_direction_x := 1 }
  if bit_set s.out_bits Y_AXIS then
    { s.emit (Event.write Pin.y_dir cfg.INVERT_Y_DIR) with count_direction_y := -1 }
  else
    { s.emit (Event.write Pin.y_dir (!cfg.INVERT_Y_DIR)) with count_direction_y := 1 }

/-- The condition of lines 323/325 on out_bits: the move is towards X min. -/
def x_negative (cfg : Config) (bits : Nat) : Bool :=
  if cfg.COREXY then bit_set bits X_AXIS && bit_set bits Y_AXIS
  else bit_set bits X_AXIS

/-- The condition of lines 370/372 on out_bits: the move is towards Y min. -/
def y_negative (cfg : Config) (bits : Nat) : Bool :=
  if cfg.COREXY then bit_set bits X_AXIS && !bit_set bits Y_AXIS
  else bit_set bits Y_AXIS

/-- The condition of lines 331-332 and 352-353: with two X carriages the X
endstops are read only in the homing direction dir of the active carriage. -/
def x_home_ok (cfg : Config) (b : block_t) (dir : Int) : Bool :=
  !cfg.DUAL_X_CARRIAGE
    || ((b.active_extruder == 0 && cfg.X_HOME_DIR == dir)
        || (b.active_extruder != 0 && cfg.X2_HOME_DIR == dir))

/-- Lines 322-367: the X endstops. -/
def check_x_endstops (cfg : Config) (pins : Pins) (b : block_t) (s : State) : State :=
  if x_negative cfg s.out_bits then
    if s.check_endstops then
      if x_home_ok cfg b (-1) then
        if cfg.X_MIN_PIN then
          let x_min_endstop := pins.x_min != cfg.X_MIN_ENDSTOP_INVERTING
          let s :=
            if x_min_endstop && s.old_x_min_endstop && decide (b.steps_x > 0) then
              { s with endstops_trigsteps_x := s.count_position_x,
                       endstop_x_hit := true,
                       step_events_completed := b.step_event_count % 4294967296 }
            else s
          { s with old_x_min_endstop := x_min_endstop }
        else s
      else s
    else s
  else
    if s.check_endstops then
      if x_home_ok cfg b 1 then
        if cfg.X_MAX_PIN then
          let x_max_endstop := pins.x_max != cfg.X_MAX_ENDSTOP_INVERTING
          let s :=
            if x_max_endstop && s.old_x_max_endstop && decide (b.steps_x > 0) then
              { s with endstops_trigsteps_x := s.count_position_x,
                       endstop_x_hit := true,
                       step_events_completed := b.step_event_count % 4294967296 }
            else s
          { s with old_x_max_endstop := x_max_endstop }
        else s
      else s
    else s

/-- Lines 369-400: the Y endstops. -/
def check_y_endstops (cfg : Config) (pins : Pins) (b : block_t) (s : State) : State :=
  if y_negative cfg s.out_bits then
    if s.check_endstops then
      if cfg.Y_MIN_PIN then
        let y_min_endstop := pins.y_min != cfg.Y_MIN_ENDSTOP_INVERTING
        let s :=
          if y_min_endstop && s.old_y_min_endstop && decide (b.steps_y > 0) then
            { s with endstops_trigsteps_y := s.count_position_y,
                     endstop_y_hit := true,
                     step_events_completed := b.step_event_count % 4294967296 }
          else s
        { s with old_y_min_endstop := y_min_endstop }
      else s
    else s
  else
    if s.check_endstops then
      if cfg.Y_MAX_PIN then
        let y_max_endstop := pins.y_max != cfg.Y_MAX_ENDSTOP_INVERTING
        let s :=
          if y_max_endstop && s.old_y_max_endstop && decide (b.steps_y > 0) then
            { s with endstops_trigsteps_y := s.count_position_y,
                     endstop_y_hit := true,
                     step_events_completed := b.step_event_count % 4294967296 }
          else s
        { s with old_y_max_endstop := y_max_endstop }
      else s
    else s

/-- The Z direction pin write of lines 403-407 and 424-428. -/
def write_z_dir (cfg : Config) (level : Bool) (s : State) : State :=
  let s := s.emit (Event.write Pin.z_dir level)
  if cfg.Z_DUAL_STEPPER_DRIVERS then s.emit (Event.write Pin.z2_dir level) else s

/-- Lines 402-443: the Z direction pin and the Z endstops. -/
def set_z_direction_check_endstops (cfg : Config) (pins : Pins) (b : block_t) (s : State) :
    State :=
  if bit_set s.out_bits Z_AXIS then
    let s := write_z_dir cfg cfg.INVERT_Z_DIR s
    let s := { s with count_direction_z := -1 }
    if s.check_endstops then
      if cfg.Z_MIN_PIN then
        let z_min_endstop := pins.z_min != cfg.Z_MIN_ENDSTOP_INVERTING
        let s :=
          if z_min_endstop && s.old_z_min_endstop && decide (b.steps_z > 0) then
            { s with endstops_trigsteps_z := s.count_position_z,
                     endstop_z_hit := true,
                     step_events_completed := b.step_event_count % 4294967296 }
          else s
        { s with old_z_min_endstop := z_min_endstop }
      else s
    else s
  else
    let s := write_z_dir cfg (!cfg.INVERT_Z_DIR) s
    let s := { s with count_direction_z := 1 }
    if s.check_endstops then
      if cfg.Z_MAX_PIN then
        let z_max_endstop := pins.z_max != cfg.Z_MAX_ENDSTOP_INVERTING
        let s :=
          if z_max_endstop && s.old_z_max_endstop && decide (b.steps_z > 0) then
            { s with endstops_trigsteps_z := s.count_position_z,
                     endstop_z_hit := true,
                     step_events_completed := b.step_event_count % 4294967296 }
          else s
        { s with old_z_max_endstop := z_max_endstop }
      else s
    else s

/-- Lines 445-454: the E direction, when the extruder is stepped inline. -/
def set_e_direction (cfg : Config) (s : State) : State :=
  if cfg.ADVANCE then s
  else if bit_set s.out_bits E_AXIS then
    { s.emit Event.rev_e_dir with count_direction_e := -1 }
  else
    { s.emit Event.norm_e_dir with count_direction_e := 1 }

/-- Lines 275-454: directions and limit switches. -/
def set_directions_check_endstops (cfg : Config) (pins : Pins) (b : block_t) (s : State) :
    State :=
  set_e_direction cfg
    (set_z_direction_check_endstops cfg pins b
      (check_y_endstops cfg pins b
        (check_x_endstops cfg pins b
          (set_xy_directions cfg b s))))

/-- Lines 457-468: the E counter under ADVANCE feeds e_steps. -/
def step_advance_e (cfg : Config) (b : block_t) (s : State) : State :=
  if cfg.ADVANCE then
    let s := { s with counter_e := wrapLong (s.counter_e + b.steps_e) }
    if s.counter_e > 0 then
      let s := { s with counter_e := wrapLong (s.counter_e - b.step_event_count) }
      if bit_set s.out_bits E_AXIS then s.e_steps_add b.active_extruder (-1)
      else s.e_steps_add b.active_extruder 1
    else s
  else s

/-- Lines 470-502: the X axis of one step event. -/
def step_x (cfg : Config) (b : block_t) (s : State) : State :=
  let s := { s with counter_x := wrapLong (s.counter_x + b.steps_x) }
  if s.counter_x > 0 then
    let s := write_x_step cfg b (!cfg.INVERT_X_STEP_PIN) s
    let s := { s with counter_x := wrapLong (s.counter_x - b.step_event_count) }
    let s := { s with count_position_x := s.count_position_x + s.count_direction_x }
    write_x_step cfg b cfg.INVERT_X_STEP_PIN s
  else s

/-- Lines 504-510: the Y axis of one step event. -/
def step_y (cfg : Config) (b : block_t) (s : State) : State :=
  let s := { s with counter_y := wrapLong (s.counter_y + b.steps_y) }
  if s.counter_y > 0 then
    let s := s.emit (Event.write Pin.y_step (!cfg.INVERT_Y_STEP_PIN))
    let s := { s with counter_y := wrapLong (s.counter_y - b.step_event_count) }
    let s := { s with count_position_y := s.count_position_y + s.count_direction_y }
    s.emit (Event.write Pin.y_step cfg.INVERT_Y_STEP_PIN)
  else s

/-- Lines 512-527: the Z axis of one step event. -/
def step_z (cfg : Config) (b : block_t) (s : State) : State :=
  let s := { s with counter_z := wrapLong (s.counter_z + b.steps_z) }
  if s.counter_z > 0 then
    let s := s.emit (Event.write Pin.z_step (!cfg.INVERT_Z_STEP_PIN))
    let s :=
      if cfg.Z_DUAL_STEPPER_DRIVERS then s.emit (Event.write Pin.z2_step (!cfg.INVER_Z_STEP_PIN))
      else s
    let s := { s with counter_z := wrapLong (s.counter_z - b.step_event_count) }
    let s := { s with count_position_z := s.count_position_z + s.count_direction_z }
    let s := s.emit (Event.write Pin.z_step cfg.INVERT_Z_STEP_PIN)
    if cfg.Z_DUAL_STEPPER_DRIVERS then s.emit (Event.write Pin.z2_step cfg.INVERT_Z_STEP_PIN)
    else s
  else s

/-- Lines 529-537: the E axis of one step event, when stepped inline. -/
def step_e (cfg : Config) (b : block_t) (s : State) : State :=
  if cfg.ADVANCE then s
  else
    let s := { s with counter_e := wrapLong (s.counter_e + b.steps_e) }
    if s.counter_e > 0 then
      let s := s.emit (Event.write Pin.e_step (!cfg.INVERT_E_STEP_PIN))
      let s := { s with counter_e := wrapLong (s.counter_e - b.step_event_count) }
      let s := { s with count_position_e := s.count_position_e + s.count_direction_e }
      s.emit (Event.write Pin.e_step cfg.INVERT_E_STEP_PIN)
    else s

/-- Lines 457-538: the body of the step loop, one step event. -/
def step_event (cfg : Config) (b : block_t) (s : State) : State :=
  let s := step_e cfg b (step_z cfg b (step_y cfg b (step_x cfg b (step_advance_e cfg b s))))
  { s with step_events_completed := (s.step_events_completed + 1) % 4294967296,
           log := s.log ++ [Event.step_event] }

/-- Lines 456-540: for(i = 0; i < step_loops; i++) with the break of line 539;
the first argument is the number of iterations still allowed by i < step_loops. -/
def step_loop (cfg : Config) (b : block_t) : Nat → State → State
  | 0, s => s
  | n + 1, s =>
    let s := step_event cfg b s
    if s.step_events_completed ≥ b.step_event_count then s else step_loop cfg b n s

/-- The loops for(i = 0; i < step_loops; i++) advance += advance_rate (lines 559-561)
and advance -= advance_rate (lines 589-591), with d = ± advance_rate. -/
def advance_loop (d : Int) : Nat → State → State
  | 0, s => s
  | n + 1, s => advance_loop d n { s with advance := s.advance + d }

/-- Lines 563-565 and 593-595. -/
def push_advance (b : block_t) (s : State) : State :=
  let s := s.e_steps_add b.active_extruder ((s.advance >>> 8) - s.old_advance)
  { s with old_advance := s.advance >>> 8 }

/-- Lines 541-604: the new timer value.  MultiU24X24toH16(r, a, b) expands
(line 98) to r = a * (b >> 24); timer and step_rate are unsigned short. -/
def update_timer (cfg : Config) (tb : Tables) (b : block_t) (s : State) : State :=
  if s.step_events_completed ≤ b.accelerate_until then
    let s := { s with acc_step_rate := u16 (s.acceleration_time * ((b.acceleration_rate >>> 24 : Nat) : Int)) }
    let s := { s with acc_step_rate := (s.acc_step_rate + b.initial_rate) % 65536 }
    let s :=
      if s.acc_step_rate > b.nominal_rate then { s with acc_step_rate := b.nominal_rate % 65536 }
      else s
    let r := calc_timer cfg tb s.acc_step_rate s
    let timer := r.1 % 65536
    let s := (r.2.emit Event.timer_detach).emit (Event.timer_attach_us timer)
    let s := { s with acceleration_time := s.acceleration_time + timer }
    if cfg.ADVANCE then push_advance b (advance_loop s.advance_rate s.step_loops s)
    else s
  else if s.step_events_completed > b.decelerate_after then
    let step_rate := u16 (s.deceleration_time * ((b.acceleration_rate >>> 24 : Nat) : Int))
    let step_rate :=
      if step_rate > s.acc_step_rate then b.final_rate % 65536
      else s.acc_step_rate - step_rate
    let step_rate := if step_rate < b.final_rate then b.final_rate % 65536 else step_rate
    let r := calc_timer cfg tb step_rate s
    let timer := r.1 % 65536
    let s := (r.2.emit Event.timer_detach).emit (Event.timer_attach_us timer)
    let s := { s with deceleration_time := s.deceleration_time + timer }
    if cfg.ADVANCE then
      let s := advance_loop (-s.advance_rate) s.step_loops s
      let s := if s.advance < s.final_advance then { s with advance := s.final_advance } else s
      push_advance b s
    else s
  else
    let s := (s.emit Event.timer_detach).emit (Event.timer_attach_us s.OCR1A_nominal)
    { s with step_loops := s.step_loops_nominal % 256 }

/-- Lines 606-610: a finished block is given back to the planner. -/
def retire_block (b : block_t) (s : State) : State :=
  if s.step_events_completed ≥ b.step_event_count then
    plan_discard_current_block { s with current_block := none }
  else s

/-- Lines 273-611: the interrupt body for the current block b. -/
def trace_block (cfg : Config) (tb : Tables) (pins : Pins) (b : block_t) (s : State) : State :=
  let s := set_directions_check_endstops cfg pins b s
  let s := step_loop cfg b s.step_loops s
  let s := update_timer cfg tb b s
  retire_block b s

/-- Lines 236-612: one invocation of the stepper interrupt, with the endstop
levels it reads. -/
def stepper_int_handler (cfg : Config) (tb : Tables) (pins : Pins) (s : State) : State :=
  if s.do_int = 0 then s
  else
    let r := acquire_block cfg tb s
    if r.2 then r.1
    else
      match r.1.current_block with
      | some b => trace_block cfg tb pins b r.1
      | none => r.1

/-- The state after the first k invocations of the interrupt, invocation i
reading the endstop levels inp i. -/
def isr_run (cfg : Config) (tb : Tables) (inp : Nat → Pins) : Nat → State → State
  | 0, s => s
  | k + 1, s => stepper_int_handler cfg tb (inp k) (isr_run cfg tb inp k s)

/-- An endstop latches in the invocation from s: started with the three
latches cleared, the invocation ends with one of them set. -/
def isr_latches (cfg : Config) (tb : Tables) (pins : Pins) (s : State) : Bool :=
  let s1 := stepper_int_handler cfg tb pins (endstops_hit_on_purpose s)
  s1.endstop_x_hit || s1.endstop_y_hit || s1.endstop_z_hit

/-! ## Vocabulary of the statements -/

/-- Number of times pin p was driven to level in the record of effects. -/
def pin_writes (p : Pin) (level : Bool) (l : List Event) : Nat := l.count (Event.write p level)

/-- Number of step events in the record of effects. -/
def step_events (l : List Event) : Nat := l.count Event.step_event

/-- Number of calls of plan_discard_current_block in the record of effects. -/
def discards (l : List Event) : Nat := l.count Event.plan_discard_current_block

/-- The X step pins the source drives for block b: lines 472-485. -/
def x_step_pins (cfg : Config) (b : block_t) (s : State) : List Pin :=
  if cfg.DUAL_X_CARRIAGE then
    if s.extruder_duplication_enabled then [Pin.x_step, Pin.x2_step]
    else if b.active_extruder != 0 then [Pin.x2_step]
    else [Pin.x_step]
  else [Pin.x_step]

/-- The step pins of an axis with the level that starts a pulse on them
(!INVERT_<axis>_STEP_PIN): lines 484, 506, 514, 532. -/
def axis_pins (cfg : Config) (b : block_t) (s : State) (axis : Nat) : List (Pin × Bool) :=
  match axis with
  | 0 => (x_step_pins cfg b s).map (fun p => (p, !cfg.INVERT_X_STEP_PIN))
  | 1 => [(Pin.y_step, !cfg.INVERT_Y_STEP_PIN)]
  | 2 => [(Pin.z_step, !cfg.INVERT_Z_STEP_PIN)]
  | 3 => [(Pin.e_step, !cfg.INVERT_E_STEP_PIN)]
  | _ => []

/-- The element counter_x, counter_y, counter_z, counter_e of an axis. -/
def State.counter (s : State) (axis : Nat) : Int :=
  match axis with
  | 0 => s.counter_x
  | 1 => s.counter_y
  | 2 => s.counter_z
  | 3 => s.counter_e
  | _ => 0

/-- The element count_position[axis]. -/
def State.count_position (s : State) (axis : Nat) : Int :=
  match axis with
  | 0 => s.count_position_x
  | 1 => s.count_position_y
  | 2 => s.count_position_z
  | 3 => s.count_position_e
  | _ => 0

/-- The element count_direction[axis]. -/
def State.count_direction (s : State) (axis : Nat) : Int :=
  match axis with
  | 0 => s.count_direction_x
  | 1 => s.count_direction_y
  | 2 => s.count_direction_z
  | 3 => s.count_direction_e
  | _ => 0

/-- The latch endstop_x_hit, endstop_y_hit, endstop_z_hit of an axis. -/
def State.endstop_hit (s : State) (axis : Nat) : Bool :=
  match axis with
  | 0 => s.endstop_x_hit
  | 1 => s.endstop_y_hit
  | 2 => s.endstop_z_hit
  | _ => false

/-- The element endstops_trigsteps[axis]. -/
def State.endstops_trigsteps (s : State) (axis : Nat) : Int :=
  match axis with
  | 0 => s.endstops_trigsteps_x
  | 1 => s.endstops_trigsteps_y
  | 2 => s.endstops_trigsteps_z
  | _ => 0

/-- The count_direction value the interrupt derives from the direction bit of
an axis: -1 when the bit is set, 1 when it is clear. -/
def block_t.direction (b : block_t) (axis : Nat) : Int :=
  if bit_set b.direction_bits axis then -1 else 1

/-- The six limit switches. -/
inductive Endstop
  | x_min | x_max | y_min | y_max | z_min | z_max
deriving DecidableEq, Repr

/-- The axis of a limit switch. -/
def Endstop.axis : Endstop → Nat
  | Endstop.x_min => 0
  | Endstop.x_max => 0
  | Endstop.y_min => 1
  | Endstop.y_max => 1
  | Endstop.z_min => 2
  | Endstop.z_max => 2

/-- The reading READ(pin) != <pin>_ENDSTOP_INVERTING of a limit switch. -/
def endstop_reading (cfg : Config) (pins : Pins) : Endstop → Bool
  | Endstop.x_min => pins.x_min != cfg.X_MIN_ENDSTOP_INVERTING
  | Endstop.x_max => pins.x_max != cfg.X_MAX_ENDSTOP_INVERTING
  | Endstop.y_min => pins.y_min != cfg.Y_MIN_ENDSTOP_INVERTING
  | Endstop.y_max => pins.y_max != cfg.Y_MAX_ENDSTOP_INVERTING
  | Endstop.z_min => pins.z_min != cfg.Z_MIN_ENDSTOP_INVERTING
  | Endstop.z_max => pins.z_max != cfg.Z_MAX_ENDSTOP_INVERTING

/-- The stored previous reading old_<axis>_<min|max>_endstop of a limit switch. -/
def State.old_endstop (s : State) : Endstop → Bool
  | Endstop.x_min => s.old_x_min_endstop
  | Endstop.x_max => s.old_x_max_endstop
  | Endstop.y_min => s.old_y_min_endstop
  | Endstop.y_max => s.old_y_max_endstop
  | Endstop.z_min => s.old_z_min_endstop
  | Endstop.z_max => s.old_z_max_endstop

/-- The guards of lines 323-443 under which the interrupt, tracing block b
with the endstop gate as given, reads the pin of a limit switch. -/
def endstop_sampled (cfg : Config) (check_endstops : Bool) (b : block_t) : Endstop → Bool
  | Endstop.x_min =>
    x_negative cfg b.direction_bits && check_endstops && x_home_ok cfg b (-1) && cfg.X_MIN_PIN
  | Endstop.x_max =>
    !x_negative cfg b.direction_bits && check_endstops && x_home_ok cfg b 1 && cfg.X_MAX_PIN
  | Endstop.y_min => y_negative cfg b.direction_bits && check_endstops && cfg.Y_MIN_PIN
  | Endstop.y_max => !y_negative cfg b.direction_bits && check_endstops && cfg.Y_MAX_PIN
  | Endstop.z_min => bit_set b.direction_bits Z_AXIS && check_endstops && cfg.Z_MIN_PIN
  | Endstop.z_max => !bit_set b.direction_bits Z_AXIS && check_endstops && cfg.Z_MAX_PIN

/-- The block an invocation from s traces: the current block, or the one
acquired in this invocation unless the handler returns at line 259; none
when the handler returns at line 239 or finds no block. -/
def isr_block (cfg : Config) (tb : Tables) (s : State) : Option block_t :=
  if s.do_int = 0 then none
  else if (acquire_block cfg tb s).2 then none
  else (acquire_block cfg tb s).1.current_block

/-- The invocation from s reads the pin of the limit switch. -/
def isr_samples (cfg : Config) (tb : Tables) (s : State) (e : Endstop) : Bool :=
  match isr_block cfg tb s with
  | some b => endstop_sampled cfg s.check_endstops b e
  | none => false

/-- The reading of a limit switch stored by its last sampling before
invocation i of a run, or the value stored in the start state. -/
def prev_reading (cfg : Config) (tb : Tables) (inp : Nat → Pins) (s : State) (e : Endstop) :
    Nat → Bool
  | 0 => s.old_endstop e
  | i + 1 =>
    if isr_samples cfg tb (isr_run cfg tb inp i s) e then endstop_reading cfg (inp i) e
    else prev_reading cfg tb inp s e i

/-- The generator is idle: the interrupt is gated off, or there is no current
block and nothing queued. -/
def State.idle (s : State) : Prop :=
  s.do_int = 0 ∨ (s.current_block = none ∧ s.queue = [])

/-- The period calc_timer returns for a step rate: the lookup floored at 100. -/
def calc_timer_period (cfg : Config) (tb : Tables) (step_rate : Nat) : Nat :=
  if calc_timer_lookup tb (calc_timer_step_rate cfg step_rate) < 100 then 100
  else calc_timer_lookup tb (calc_timer_step_rate cfg step_rate)

/-- The diagnostic calc_timer prints for a step rate. -/
def calc_timer_log (cfg : Config) (tb : Tables) (step_rate : Nat) : List Event :=
  if calc_timer_lookup tb (calc_timer_step_rate cfg step_rate) < 100 then
    [Event.serial_print_stepper_too_high,
     Event.serial_println (calc_timer_step_rate cfg step_rate)]
  else []

/-- Effects that are neither a step pin write, nor a step event, nor a discard. -/
def Event.quiet : Event → Bool
  | Event.write Pin.x_step _ => false
  | Event.write Pin.x2_step _ => false
  | Event.write Pin.y_step _ => false
  | Event.write Pin.z_step _ => false
  | Event.write Pin.z2_step _ => false
  | Event.write Pin.e_step _ => false
  | Event.step_event => false
  | Event.plan_discard_current_block => false
  | _ => true

/-- The state of the Bresenham tracer on one axis after k step events of block
b, relative to the state base in which the block was acquired: for some
number p of pulses, the counter is -(N >> 1) + k * steps - p * N and lies in
(-N, 0], the position moved p steps in the block's direction, and each step
pin of the axis was pulsed p times. -/
def Tracking (cfg : Config) (b : block_t) (base : State) (axis k : Nat) (s : State) : Prop :=
  ∃ p : Nat,
    s.counter axis
      = -((b.step_event_count >>> 1 : Nat) : Int) + (k : Int) * (b.steps axis : Int)
          - (p : Int) * (b.step_event_count : Int) ∧
    -(b.step_event_count : Int) < s.counter axis ∧ s.counter axis ≤ 0 ∧
    s.count_position axis = base.count_position axis + b.direction axis * (p : Int) ∧
    ∀ q ∈ axis_pins cfg b base axis,
      pin_writes q.1 q.2 s.log = pin_writes q.1 q.2 base.log + p

/-! ## Sample configuration and inputs -/

/-- A single-carriage cartesian machine with all six endstops, no inversion. -/
def sample_config : Config :=
  { MAX_STEP_FREQUENCY := 40000, COREXY := false, DUAL_X_CARRIAGE := false,
    Z_DUAL_STEPPER_DRIVERS := false, Z_LATE_ENABLE := false, ADVANCE := false,
    X_HOME_DIR := -1, X2_HOME_DIR := 1,
    X_MIN_PIN := true, X_MAX_PIN := true, Y_MIN_PIN := true, Y_MAX_PIN := true,
    Z_MIN_PIN := true, Z_MAX_PIN := true,
    X_MIN_ENDSTOP_INVERTING := false, X_MAX_ENDSTOP_INVERTING := false,
    Y_MIN_ENDSTOP_INVERTING := false, Y_MAX_ENDSTOP_INVERTING := false,
    Z_MIN_ENDSTOP_INVERTING := false, Z_MAX_ENDSTOP_INVERTING := false,
    INVERT_X_DIR := false, INVERT_Y_DIR := false, INVERT_Z_DIR := false,
    INVERT_X_STEP_PIN := false, INVERT_Y_STEP_PIN := false, INVERT_Z_STEP_PIN := false,
    INVERT_E_STEP_PIN := false, INVER_Z_STEP_PIN := false }

/-- Speed tables holding 1000 everywhere. -/
def sample_tables : Tables :=
  { speed_lookuptable_fast := fun _ => 1000, speed_lookuptable_slow := fun _ => 1000 }

/-- A block without ramps at 1000 steps/s. -/
def sample_block (sx sy sz se n bits : Nat) : block_t :=
  { steps_x := sx, steps_y := sy, steps_z := sz, steps_e := se, step_event_count := n,
    accelerate_until := 0, decelerate_after := n, acceleration_rate := 0,
    direction_bits := bits, active_extruder := 0,
    nominal_rate := 1000, initial_rate := 1000, final_rate := 1000,
    initial_advance := 0, final_advance := 0, busy := false }

/-- All six endstop pins low. -/
def pins_low : Pins :=
  { x_min := false, x_max := false, y_min := false, y_max := false,
    z_min := false, z_max := false }

/-- The X min endstop pin at the given level, the others low. -/
def pins_x_min (level : Bool) : Pins := { pins_low with x_min := level }

/-- The generator after static initialisation, st_wake_up and
enable_endstops(true), with the given blocks queued by the planner. -/
def sample_start (q : List block_t) : State :=
  { enable_endstops true (st_wake_up initial_state) with queue := q }

/-- The latch condition of lines 337, 358, 378, 392, 414, 435 for a limit
switch: its pin is read, the reading and the stored previous reading are
both asserted, and the block has steps on the axis. -/
def endstop_trigger (cfg : Config) (pins : Pins) (s : State) (b : block_t) (e : Endstop) : Bool :=
  endstop_sampled cfg s.check_endstops b e && endstop_reading cfg pins e && s.old_endstop e
    && decide (0 < b.steps e.axis)

/-- One of the two limit switches of an axis meets the latch condition. -/
def axis_trigger (cfg : Config) (pins : Pins) (s : State) (b : block_t) (axis : Nat) : Bool :=
  match axis with
  | 0 => endstop_trigger cfg pins s b Endstop.x_min || endstop_trigger cfg pins s b Endstop.x_max
  | 1 => endstop_trigger cfg pins s b Endstop.y_min || endstop_trigger cfg pins s b Endstop.y_max
  | 2 => endstop_trigger cfg pins s b Endstop.z_min || endstop_trigger cfg pins s b Endstop.z_max
  | _ => false

/-- The previous reading of a limit switch after the endstop pass: the new
reading when the pin is read, the stored one otherwise. -/
def endstop_stored (cfg : Config) (pins : Pins) (s : State) (b : block_t) (e : Endstop) : Bool :=
  if endstop_sampled cfg s.check_endstops b e then endstop_reading cfg pins e
  else s.old_endstop e

/-- The pin writes of one X step pulse: lines 472-485 and 488-501. -/
def x_pulse (cfg : Config) (b : block_t) (s : State) : List Event :=
  (x_step_pins cfg b s).map (fun p => Event.write p (!cfg.INVERT_X_STEP_PIN))
    ++ (x_step_pins cfg b s).map (fun p => Event.write p cfg.INVERT_X_STEP_PIN)

/-- The pin writes of write_z_dir. -/
def z_dir_writes (cfg : Config) (level : Bool) : List Event :=
  if cfg.Z_DUAL_STEPPER_DRIVERS then [Event.write Pin.z_dir level, Event.write Pin.z2_dir level]
  else [Event.write Pin.z_dir level]

/-- The effects of lines 402-409 and 423-430: the Z direction pins. -/
def z_dir_log (cfg : Config) (b : block_t) : List Event :=
  if bit_set b.direction_bits Z_AXIS then z_dir_writes cfg cfg.INVERT_Z_DIR
  else z_dir_writes cfg (!cfg.INVERT_Z_DIR)

/-- The effects of lines 445-454: the E direction. -/
def e_dir_log (cfg : Config) (b : block_t) : List Event :=
  if cfg.ADVANCE then []
  else if bit_set b.direction_bits E_AXIS then [Event.rev_e_dir]
  else [Event.norm_e_dir]

/-- The pin writes of write_x_dir. -/
def x_dir_writes (cfg : Config) (b : block_t) (s : State) (level : Bool) : List Event :=
  if cfg.DUAL_X_CARRIAGE then
    if s.extruder_duplication_enabled then
      [Event.write Pin.x_dir level, Event.write Pin.x2_dir level]
    else if b.active_extruder != 0 then [Event.write Pin.x2_dir level]
    else [Event.write Pin.x_dir level]
  else [Event.write Pin.x_dir level]

/-- The effects of lines 275-319: the X and Y direction pins. -/
def xy_dir_log (cfg : Config) (b : block_t) (s : State) : List Event :=
  (if bit_set b.direction_bits X_AXIS then x_dir_writes cfg b s cfg.INVERT_X_DIR
   else x_dir_writes cfg b s (!cfg.INVERT_X_DIR))
  ++ [Event.write Pin.y_dir
        (if bit_set b.direction_bits Y_AXIS then cfg.INVERT_Y_DIR else !cfg.INVERT_Y_DIR)]

/-- The effects of lines 275-454: all direction pins. -/
def direction_log (cfg : Config) (b : block_t) (s : State) : List Event :=
  xy_dir_log cfg b s ++ z_dir_log cfg b ++ e_dir_log cfg b

/-- The pin writes of one Z step pulse: lines 514-526. -/
def z_pulse (cfg : Config) : List Event :=
  if cfg.Z_DUAL_STEPPER_DRIVERS then
    [Event.write Pin.z_step (!cfg.INVERT_Z_STEP_PIN),
     Event.write Pin.z2_step (!cfg.INVER_Z_STEP_PIN),
     Event.write Pin.z_step cfg.INVERT_Z_STEP_PIN,
     Event.write Pin.z2_step cfg.INVERT_Z_STEP_PIN]
  else
    [Event.write Pin.z_step (!cfg.INVERT_Z_STEP_PIN),
     Event.write Pin.z_step cfg.INVERT_Z_STEP_PIN]

/-- The pin writes of one step pulse of an axis (E stepped inline). -/
def axis_pulse (cfg : Config) (b : block_t) (s : State) (axis : Nat) : List Event :=
  match axis with
  | 0 => x_pulse cfg b s
  | 1 => [Event.write Pin.y_step (!cfg.INVERT_Y_STEP_PIN),
          Event.write Pin.y_step cfg.INVERT_Y_STEP_PIN]
  | 2 => z_pulse cfg
  | 3 => [Event.write Pin.e_step (!cfg.INVERT_E_STEP_PIN),
          Event.write Pin.e_step cfg.INVERT_E_STEP_PIN]
  | _ => []

/-- The axis a step pin belongs to; none for the direction pins. -/
def Pin.axis : Pin → Option Nat
  | Pin.x_step => some 0
  | Pin.x2_step => some 0
  | Pin.y_step => some 1
  | Pin.z_step => some 2
  | Pin.z2_step => some 2
  | Pin.e_step => some 3
  | _ => none

/-- The axis of the step pin an effect writes; none for any other effect. -/
def Event.pin_axis : Event → Option Nat
  | Event.write p _ => p.axis
  | _ => none

/-- The variables no phase of the interrupt after block acquisition writes. -/
structure Untouched (s s' : State) : Prop where
  do_int : s'.do_int = s.do_int
  check_endstops : s'.check_endstops = s.check_endstops
  dup : s'.extruder_duplication_enabled = s.extruder_duplication_enabled
  advance_rate : s'.advance_rate = s.advance_rate
  step_loops_nominal : s'.step_loops_nominal = s.step_loops_nominal
  OCR1A_nominal : s'.OCR1A_nominal = s.OCR1A_nominal
  final_advance : s'.final_advance = s.final_advance

/-- The current block, the queue and the number of discards are the same. -/
structure SameBlock (s s' : State) : Prop where
  current_block : s'.current_block = s.current_block
  queue : s'.queue = s.queue
  discards : discards s'.log = discards s.log

/-- The endstop latches, trigger positions and stored readings are the same. -/
structure SameEndstops (s s' : State) : Prop where
  hit_x : s'.endstop_x_hit = s.endstop_x_hit
  hit_y : s'.endstop_y_hit = s.endstop_y_hit
  hit_z : s'.endstop_z_hit = s.endstop_z_hit
  trig_x : s'.endstops_trigsteps_x = s.endstops_trigsteps_x
  trig_y : s'.endstops_trigsteps_y = s.endstops_trigsteps_y
  trig_z : s'.endstops_trigsteps_z = s.endstops_trigsteps_z
  old_x_min : s'.old_x_min_endstop = s.old_x_min_endstop
  old_x_max : s'.old_x_max_endstop = s.old_x_max_endstop
  old_y_min : s'.old_y_min_endstop = s.old_y_min_endstop
  old_y_max : s'.old_y_max_endstop = s.old_y_max_endstop
  old_z_min : s'.old_z_min_endstop = s.old_z_min_endstop
  old_z_max : s'.old_z_max_endstop = s.old_z_max_endstop

/-- The four elements of count_position are the same. -/
structure SamePosition (s s' : State) : Prop where
  x : s'.count_position_x = s.count_position_x
  y : s'.count_position_y = s.count_position_y
  z : s'.count_position_z = s.count_position_z
  e : s'.count_position_e = s.count_position_e

/-- The Bresenham counters, the positions and the progress counter are the
same, and the record of effects grew by quiet effects only. -/
structure SameTrace (s s' : State) : Prop where
  counter_x : s'.counter_x = s.counter_x
  counter_y : s'.counter_y = s.counter_y
  counter_z : s'.counter_z = s.counter_z
  counter_e : s'.counter_e = s.counter_e
  pos : SamePosition s s'
  sec : s'.step_events_completed = s.step_events_completed
  log : ∃ l, s'.log = s.log ++ l ∧ ∀ e ∈ l, Event.quiet e = true

/-- The invariant step_loops ∈ {1, 2, 4} for both step_loops and step_loops_nominal. -/
def LoopsOK (s : State) : Prop :=
  (s.step_loops = 1 ∨ s.step_loops = 2 ∨ s.step_loops = 4) ∧
  (s.step_loops_nominal = 1 ∨ s.step_loops_nominal = 2 ∨ s.step_loops_nominal = 4)

/-- The entries of both speed tables are unsigned short. -/
def Tables.entries_u16 (tb : Tables) : Prop :=
  ∀ i, tb.speed_lookuptable_fast i < 65536 ∧ tb.speed_lookuptable_slow i < 65536

/-- The period column of the fast table (column 0 of row i is element 2 * i)
falls weakly with the row index. -/
def Tables.fast_periods_decreasing (tb : Tables) : Prop :=
  ∀ i j, i ≤ j → tb.speed_lookuptable_fast (2 * j) ≤ tb.speed_lookuptable_fast (2 * i)

/-- The period column of the slow table falls weakly with the row index. -/
def Tables.slow_periods_decreasing (tb : Tables) : Prop :=
  ∀ i j, i ≤ j → tb.speed_lookuptable_slow (2 * j) ≤ tb.speed_lookuptable_slow (2 * i)

/-- Speed tables whose period column falls by 10 per row from 10000 and whose
slope column is 512, in both tables. -/
def ramp_tables : Tables :=
  { speed_lookuptable_fast := fun i => if i % 2 = 0 then 10000 - 10 * (i / 2) else 512,
    speed_lookuptable_slow := fun i => if i % 2 = 0 then 10000 - 10 * (i / 2) else 512 }

/-- The periods of the timer_attach_us calls in a record of effects, in order. -/
def attach_periods : List Event → List Int
  | [] => []
  | Event.timer_attach_us t :: l => t :: attach_periods l
  | _ :: l => attach_periods l

/-- The period the timer is left armed with: that of the last timer_attach_us. -/
def armed (l : List Event) : Option Int := (attach_periods l).getLast?

/-- The macro MultiU24X24toH16 of line 98 as it is written:
intRes = longIn1 * (longIn2 >> 24). -/
def MultiU24X24toH16 (longIn1 : Int) (longIn2 : Nat) : Int :=
  longIn1 * ((longIn2 >>> 24 : Nat) : Int)

/-- Lines 546-551: the unsigned short acc_step_rate the acceleration branch
computes and passes to calc_timer. -/
def accelerate_rate (b : block_t) (s : State) : Nat :=
  if (u16 (MultiU24X24toH16 s.acceleration_time b.acceleration_rate) + b.initial_rate) % 65536
      > b.nominal_rate then b.nominal_rate % 65536
  else (u16 (MultiU24X24toH16 s.acceleration_time b.acceleration_rate) + b.initial_rate) % 65536

/-- Line 570: the unsigned short step_rate MultiU24X24toH16 delivers in the
deceleration branch. -/
def decelerate_delta (b : block_t) (s : State) : Nat :=
  u16 (MultiU24X24toH16 s.deceleration_time b.acceleration_rate)

/-- Lines 570-582: the unsigned short step_rate the deceleration branch passes
to calc_timer. -/
def decelerate_rate (b : block_t) (s : State) : Nat :=
  let step_rate :=
    if decelerate_delta b s > s.acc_step_rate then b.final_rate % 65536
    else s.acc_step_rate - decelerate_delta b s
  if step_rate < b.final_rate then b.final_rate % 65536 else step_rate

/-- A block of n X steps at 30000 steps/s without ramps. -/
def fast_block (n : Nat) : block_t :=
  { sample_block n 0 0 0 n 0 with nominal_rate := 30000, initial_rate := 30000,
                                  final_rate := 30000 }

/-- A block of 100 X steps that accelerates from 1000 to 5000 steps/s over its
first 50 step events and decelerates after 80, with acceleration_rate = 2^24:
(acceleration_rate * t) >> 24 = t for every t. -/
def ramp_block : block_t :=
  { sample_block 100 0 0 0 100 0 with accelerate_until := 50, decelerate_after := 80,
                                      acceleration_rate := 16777216,
                                      nominal_rate := 5000, initial_rate := 1000,
                                      final_rate := 1000 }

/-- A block of 10 X steps that decelerates from 3000 to 1000 steps/s from its
first step event on, with acceleration_rate = 2^24. -/
def decel_block : block_t :=
  { sample_block 10 0 0 0 10 0 with accelerate_until := 0, decelerate_after := 0,
                                    acceleration_rate := 16777216,
                                    nominal_rate := 3000, initial_rate := 3000,
                                    final_rate := 1000 }

/-- The pulse count of one axis after k step events of block b, relative to
the state base in which the count starts: the counter is
-(N >> 1) + k * steps - p * N and lies in (-N, 0], and each step pin of the
axis was pulsed p times. -/
def Pulsing (cfg : Config) (b : block_t) (base : State) (axis k p : Nat) (s : State) : Prop :=
  s.counter axis
    = -((b.step_event_count >>> 1 : Nat) : Int) + (k : Int) * (b.steps axis : Int)
        - (p : Int) * (b.step_event_count : Int) ∧
  -(b.step_event_count : Int) < s.counter axis ∧ s.counter axis ≤ 0 ∧
  ∀ q ∈ axis_pins cfg b base axis,
    pin_writes q.1 q.2 s.log = pin_writes q.1 q.2 base.log + p
/-- The sample machine with the ADVANCE option on: E is not stepped inline. -/
def advance_config : Config := { sample_config with ADVANCE := true }

/-- Lines 671-783 of st_init, as far as the generator goes: the timer is
attached with 2000 µs, the interrupt gate is opened, e_steps is cleared under
ADVANCE and the endstops are enabled.  Lines 673-764 drive the enable lines,
the pull-ups and the idle levels of the step pins; they write no variable of
the generator and are not part of the record of effects. -/
def st_init (cfg : Config) (s : State) : State :=
  let s := s.emit (Event.timer_attach_us 2000)
  let s := { s with do_int := 1 }
  let s := if cfg.ADVANCE then { s with e_steps_0 := 0, e_steps_1 := 0, e_steps_2 := 0 } else s
  enable_endstops true s

/-- The states the generator reaches from static initialisation followed by
st_init: by an invocation of the interrupt with any endstop levels, by the
planner queueing a block, by foreign code writing extruder_duplication_enabled
and by the foreground calls of the file. -/
inductive Reachable (cfg : Config) (tb : Tables) : State → Prop
  | start : Reachable cfg tb (st_init cfg initial_state)
  | isr (pins : Pins) {s : State} :
      Reachable cfg tb s → Reachable cfg tb (stepper_int_handler cfg tb pins s)
  | queued (b : block_t) {s : State} :
      Reachable cfg tb s → Reachable cfg tb { s with queue := s.queue ++ [b] }
  | duplication (d : Bool) {s : State} :
      Reachable cfg tb s → Reachable cfg tb { s with extruder_duplication_enabled := d }
  | wake_up {s : State} : Reachable cfg tb s → Reachable cfg tb (st_wake_up s)
  | set_position (x y z e : Int) {s : State} :
      Reachable cfg tb s → Reachable cfg tb (st_set_position x y z e s)
  | set_e_position (e : Int) {s : State} :
      Reachable cfg tb s → Reachable cfg tb (st_set_e_position e s)
  | endstops (check : Bool) {s : State} :
      Reachable cfg tb s → Reachable cfg tb (enable_endstops check s)
  | hit_on_purpose {s : State} :
      Reachable cfg tb s → Reachable cfg tb (endstops_hit_on_purpose s)
  | quick_stop (fuel : Nat) {s s' : State} :
      Reachable cfg tb s → quickStop fuel s = some s' → Reachable cfg tb s'

/-- One step of a Bresenham counter (lines 470-471 and 499 for X, and their
likes for Y, Z and E): the axis steps are added, and step_event_count is
subtracted when the sum is positive. -/
def dda_next (N : Nat) (c : Int) (st : Nat) : Int :=
  if 0 < wrapLong (c + st) then wrapLong (wrapLong (c + st) - N) else wrapLong (c + st)

/-- A block of 100 X steps that starts at 1000 steps/s and cruises at 30000
steps/s. -/
def sprint_block : block_t :=
  { ramp_block with nominal_rate := 30000 }

/-! ## The advance interrupt (lines 614-669) -/

/-- The extruder pins the advance interrupt writes. -/
inductive EPin
  | e0_step | e1_step | e2_step | e0_dir | e1_dir | e2_dir
deriving DecidableEq, Repr

/-- Compile-time options of Configuration.h and pins.h that only the advance
interrupt tests. -/
structure AdvanceConfig where
  EXTRUDERS : Nat
  INVERT_E0_DIR : Bool
  INVERT_E1_DIR : Bool
  INVERT_E2_DIR : Bool
  /-- The symbol spelled INVER_E_STEP_PIN at line 655 of stepper.cpp. -/
  INVER_E_STEP_PIN : Bool

/-- The compare register of timer 0 with its shadow old_OCR0A (line 615), both
eight bits wide, and the record of the writes to the extruder pins. -/
structure Timer0 where
  old_OCR0A : Nat
  OCR0A : Nat
  writes : List (EPin × Bool)

/-- One of the three blocks of lines 621-633, 635-647 and 649-661, which
differ in the pins, in the direction constant and, at line 655, in the
spelling of the step level: e is e_steps[i] and w the record of pin writes. -/
def drain_extruder (step dir : EPin) (idle pulse_neg pulse_pos dir_neg : Bool) (e : Int)
    (w : List (EPin × Bool)) : Int × List (EPin × Bool) :=
  if e ≠ 0 then
    let w := w ++ [(step, idle)]
    if e < 0 then (e + 1, w ++ [(dir, dir_neg), (step, pulse_neg)])
    else if e > 0 then (e - 1, w ++ [(dir, !dir_neg), (step, pulse_pos)])
    else (e, w)
  else (e, w)

/-- Lines 620-662: the body of the loop of the advance interrupt. -/
def advance_pass (cfg : Config) (ac : AdvanceConfig) (r : State × Timer0) : State × Timer0 :=
  let d0 := drain_extruder EPin.e0_step EPin.e0_dir cfg.INVERT_E_STEP_PIN
    (!cfg.INVERT_E_STEP_PIN) (!cfg.INVERT_E_STEP_PIN) ac.INVERT_E0_DIR r.1.e_steps_0 r.2.writes
  let d1 :=
    if ac.EXTRUDERS > 1 then
      drain_extruder EPin.e1_step EPin.e1_dir cfg.INVERT_E_STEP_PIN
        (!cfg.INVERT_E_STEP_PIN) (!cfg.INVERT_E_STEP_PIN) ac.INVERT_E1_DIR r.1.e_steps_1 d0.2
    else (r.1.e_steps_1, d0.2)
  let d2 :=
    if ac.EXTRUDERS > 2 then
      drain_extruder EPin.e2_step EPin.e2_dir cfg.INVERT_E_STEP_PIN
        (!ac.INVER_E_STEP_PIN) (!cfg.INVERT_E_STEP_PIN) ac.INVERT_E2_DIR r.1.e_steps_2 d1.2
    else (r.1.e_steps_2, d1.2)
  ({ r.1 with e_steps_0 := d0.1, e_steps_1 := d1.1, e_steps_2 := d2.1 },
   { r.2 with writes := d2.2 })

/-- Line 619: for(unsigned char i = 0; i < 4; i++), the first argument being
the number of passes left. -/
def advance_passes (cfg : Config) (ac : AdvanceConfig) : Nat → State × Timer0 → State × Timer0
  | 0, r => r
  | n + 1, r => advance_passes cfg ac n (advance_pass cfg ac r)

/-- Lines 614-669: one tick of the advance interrupt ISR(TIMER0_COMPA_vect). -/
def TIMER0_COMPA_vect (cfg : Config) (ac : AdvanceConfig) (s : State) (t : Timer0) :
    State × Timer0 :=
  let t := { t with old_OCR0A := (t.old_OCR0A + 52) % 256 }
  let t := { t with OCR0A := t.old_OCR0A }
  advance_passes cfg ac 4 (s, t)

/-- The element e_steps[i]. -/
def State.e_steps (s : State) (i : Nat) : Int :=
  match i with
  | 0 => s.e_steps_0
  | 1 => s.e_steps_1
  | 2 => s.e_steps_2
  | _ => 0

/-- The step pin of extruder i. -/
def EPin.step_of (i : Nat) : EPin :=
  match i with
  | 0 => EPin.e0_step
  | 1 => EPin.e1_step
  | _ => EPin.e2_step

/-- The direction pin of extruder i. -/
def EPin.dir_of (i : Nat) : EPin :=
  match i with
  | 0 => EPin.e0_dir
  | 1 => EPin.e1_dir
  | _ => EPin.e2_dir

/-- The constant INVERT_E0_DIR, INVERT_E1_DIR, INVERT_E2_DIR of extruder i. -/
def AdvanceConfig.INVERT_E_DIR (ac : AdvanceConfig) (i : Nat) : Bool :=
  match i with
  | 0 => ac.INVERT_E0_DIR
  | 1 => ac.INVERT_E1_DIR
  | _ => ac.INVERT_E2_DIR

/-- Number of times extruder pin p was driven to level in a record of writes. -/
def epin_writes (p : EPin) (level : Bool) (l : List (EPin × Bool)) : Nat := l.count (p, level)

/-- One step of e_steps[i] toward zero. -/
def toward_zero (e : Int) : Int := if e < 0 then e + 1 else if e > 0 then e - 1 else e

/-- The pin writes of one of the three blocks of the loop body. -/
def drain_writes (step dir : EPin) (idle pulse_neg pulse_pos dir_neg : Bool) (e : Int) :
    List (EPin × Bool) :=
  if e < 0 then [(step, idle), (dir, dir_neg), (step, pulse_neg)]
  else if e > 0 then [(step, idle), (dir, !dir_neg), (step, pulse_pos)]
  else []

/-- A machine with one extruder. -/
def sample_advance : AdvanceConfig :=
  { EXTRUDERS := 1, INVERT_E0_DIR := false, INVERT_E1_DIR := false, INVERT_E2_DIR := false,
    INVER_E_STEP_PIN := false }

/-- Timer 0 at reset, nothing written to the extruder pins. -/
def timer0_start : Timer0 := { old_OCR0A := 0, OCR0A := 0, writes := [] }

/-- The pin writes of extruder i in one pass of the loop, e being e_steps[i]. -/
def extruder_writes (cfg : Config) (ac : AdvanceConfig) (i : Nat) (e : Int) :
    List (EPin × Bool) :=
  drain_writes (EPin.step_of i) (EPin.dir_of i) cfg.INVERT_E_STEP_PIN
    (if i = 2 then !ac.INVER_E_STEP_PIN else !cfg.INVERT_E_STEP_PIN)
    (!cfg.INVERT_E_STEP_PIN) (ac.INVERT_E_DIR i) e

/-- Speed tables holding 1000 everywhere, except the value v at element
offset i of the slow table. -/
def probe_tables (i v : Nat) : Tables :=
  { speed_lookuptable_fast := fun _ => 1000,
    speed_lookuptable_slow := fun j => if j = i then v else 1000 }

/-! # Properties -/

section Properties

theorem isr_run_zero (cfg : Config) (tb : Tables) (inp : Nat → Pins) (s : State) :
    isr_run cfg tb inp 0 s = s := rfl

theorem isr_run_succ (cfg : Config) (tb : Tables) (inp : Nat → Pins) (j : Nat) (s : State) :
    isr_run cfg tb inp (j + 1) s
      = stepper_int_handler cfg tb (inp j) (isr_run cfg tb inp j s) := rfl

attribute [local irreducible] calc_timer_lookup calc_timer_step_rate calc_timer_step_loops
  calc_timer_period calc_timer_log calc_timer trapezoid_generator_reset wrapLong u16
  acquire_block set_xy_directions check_x_endstops check_y_endstops
  set_z_direction_check_endstops set_e_direction set_directions_check_endstops
  step_advance_e step_x step_y step_z step_e step_event step_loop advance_loop push_advance
  update_timer retire_block trace_block stepper_int_handler isr_run bit_set
  write_x_dir write_x_step write_z_dir x_negative y_negative x_home_ok

/-! ## Speed lookup and block acquisition -/

theorem emit_log (s : State) (e : Event) : (s.emit e).log = s.log ++ [e] := rfl

theorem calc_timer_eq (cfg : Config) (tb : Tables) (r : Nat) (s : State) :
    calc_timer cfg tb r s
      = (calc_timer_period cfg tb r,
         { s with step_loops := calc_timer_step_loops cfg r,
                  log := s.log ++ calc_timer_log cfg tb r }) := by
  unfold calc_timer calc_timer_log calc_timer_period
  simp only []
  split
  · simp [State.emit]
  · simp

theorem calc_timer_step_loops_cases (cfg : Config) (r : Nat) :
    calc_timer_step_loops cfg r = 1 ∨ calc_timer_step_loops cfg r = 2
      ∨ calc_timer_step_loops cfg r = 4 := by
  unfold calc_timer_step_loops
  simp only []
  split_ifs <;> simp

theorem calc_timer_step_loops_pos (cfg : Config) (r : Nat) :
    1 ≤ calc_timer_step_loops cfg r ∧ calc_timer_step_loops cfg r % 256 = calc_timer_step_loops cfg r := by
  rcases calc_timer_step_loops_cases cfg r with h | h | h <;> simp [h]

theorem calc_timer_log_quiet (cfg : Config) (tb : Tables) (r : Nat) :
    ∀ e ∈ calc_timer_log cfg tb r, e.quiet = true := by
  unfold calc_timer_log
  split <;> simp [Event.quiet]

theorem e_steps_add_shape (s : State) (i : Nat) (d : Int) :
    ∃ e0 e1 e2,
      s.e_steps_add i d = { s with e_steps_0 := e0, e_steps_1 := e1, e_steps_2 := e2 } := by
  refine ⟨(s.e_steps_add i d).e_steps_0, (s.e_steps_add i d).e_steps_1,
    (s.e_steps_add i d).e_steps_2, ?_⟩
  unfold State.e_steps_add
  split <;> rfl

theorem trapezoid_generator_reset_shape (cfg : Config) (tb : Tables) (b : block_t) (s : State) :
    ∃ adv fadv oadv e0 e1 e2 l, (∀ e ∈ l, Event.quiet e = true) ∧
      trapezoid_generator_reset cfg tb b s =
        { s with advance := adv, final_advance := fadv, old_advance := oadv,
                 e_steps_0 := e0, e_steps_1 := e1, e_steps_2 := e2,
                 deceleration_time := 0,
                 OCR1A_nominal := calc_timer_period cfg tb b.nominal_rate % 65536,
                 step_loops_nominal := calc_timer_step_loops cfg b.nominal_rate,
                 acc_step_rate := b.initial_rate % 65536,
                 step_loops := calc_timer_step_loops cfg (b.initial_rate % 65536),
                 acceleration_time :=
                   wrapLong (calc_timer_period cfg tb (b.initial_rate % 65536)),
                 log := s.log ++ l } := by
  have hq : ∀ e ∈ calc_timer_log cfg tb b.nominal_rate
      ++ calc_timer_log cfg tb (b.initial_rate % 65536)
      ++ [Event.timer_detach,
          Event.timer_attach_us (wrapLong (calc_timer_period cfg tb (b.initial_rate % 65536)))],
      Event.quiet e = true := by
    intro e he
    simp only [List.mem_append, List.mem_cons, List.mem_singleton, List.not_mem_nil,
      or_false] at he
    rcases he with (he | he) | he | he
    · exact calc_timer_log_quiet _ _ _ e he
    · exact calc_timer_log_quiet _ _ _ e he
    · subst he; rfl
    · subst he; rfl
  refine ⟨(trapezoid_generator_reset cfg tb b s).advance,
    (trapezoid_generator_reset cfg tb b s).final_advance,
    (trapezoid_generator_reset cfg tb b s).old_advance,
    (trapezoid_generator_reset cfg tb b s).e_steps_0,
    (trapezoid_generator_reset cfg tb b s).e_steps_1,
    (trapezoid_generator_reset cfg tb b s).e_steps_2, _, hq, ?_⟩
  unfold trapezoid_generator_reset
  cases hA : cfg.ADVANCE
  · simp [calc_timer_eq, State.emit]
  · obtain ⟨e0, e1, e2, he⟩ :=
      e_steps_add_shape { s with advance := b.initial_advance, final_advance := b.final_advance }
        b.active_extruder (((b.initial_advance) >>> 8) - s.old_advance)
    simp [calc_timer_eq, State.emit, he]

/-- The state acquire_block leaves when it takes block b0 from the queue. -/
theorem acquire_block_some (cfg : Config) (tb : Tables) (s : State) (b0 : block_t)
    (rest : List block_t) (hcb : s.current_block = none) (hq : s.queue = b0 :: rest) :
    ∃ adv fadv oadv e0 e1 e2 l, (∀ e ∈ l, Event.quiet e = true) ∧
      acquire_block cfg tb s =
        ({ s with current_block := some { b0 with busy := true },
                  queue := { b0 with busy := true } :: rest,
                  advance := adv, final_advance := fadv, old_advance := oadv,
                  e_steps_0 := e0, e_steps_1 := e1, e_steps_2 := e2,
                  deceleration_time := 0,
                  OCR1A_nominal := calc_timer_period cfg tb b0.nominal_rate % 65536,
                  step_loops_nominal := calc_timer_step_loops cfg b0.nominal_rate,
                  acc_step_rate := b0.initial_rate % 65536,
                  step_loops := calc_timer_step_loops cfg (b0.initial_rate % 65536),
                  acceleration_time :=
                    wrapLong (calc_timer_period cfg tb (b0.initial_rate % 65536)),
                  counter_x := wrapLong (-((b0.step_event_count >>> 1 : Nat) : Int)),
                  counter_y := wrapLong (-((b0.step_event_count >>> 1 : Nat) : Int)),
                  counter_z := wrapLong (-((b0.step_event_count >>> 1 : Nat) : Int)),
                  counter_e := wrapLong (-((b0.step_event_count >>> 1 : Nat) : Int)),
                  step_events_completed := 0,
                  log := s.log ++ l },
         cfg.Z_LATE_ENABLE && decide (b0.steps_z > 0)) := by
  obtain ⟨adv, fadv, oadv, e0, e1, e2, l, hl, h⟩ :=
    trapezoid_generator_reset_shape cfg tb { b0 with busy := true }
      { s with current_block := some { b0 with busy := true },
               queue := { b0 with busy := true } :: s.queue.tail }
  unfold acquire_block plan_get_current_block
  simp only [hcb, hq, List.head?_cons, List.tail_cons] at h ⊢
  rw [h]
  by_cases hz : (cfg.Z_LATE_ENABLE && decide (b0.steps_z > 0)) = true
  · refine ⟨adv, fadv, oadv, e0, e1, e2,
      l ++ [Event.enable_z, Event.timer_detach, Event.timer_attach_us 1000], ?_, ?_⟩
    · intro e he
      simp only [List.mem_append, List.mem_cons, List.mem_singleton, List.not_mem_nil,
        or_false] at he
      rcases he with he | he | he | he
      · exact hl e he
      · subst he; rfl
      · subst he; rfl
      · subst he; rfl
    · simp [hz, State.emit]
  · refine ⟨adv, fadv, oadv, e0, e1, e2, l, hl, ?_⟩
    simp only [hz]
    simp at hz
    simp [hz]

/-- What acquire_block may change, whatever the case. -/
theorem acquire_block_shape (cfg : Config) (tb : Tables) (s : State) :
    ∃ cb q adv fadv oadv e0 e1 e2 dt ocr sln asr sl atm cx cy cz ce sec l,
      (∀ e ∈ l, Event.quiet e = true) ∧
      (acquire_block cfg tb s).1 =
        { s with current_block := cb, queue := q,
                 advance := adv, final_advance := fadv, old_advance := oadv,
                 e_steps_0 := e0, e_steps_1 := e1, e_steps_2 := e2,
                 deceleration_time := dt, OCR1A_nominal := ocr, step_loops_nominal := sln,
                 acc_step_rate := asr, step_loops := sl, acceleration_time := atm,
                 counter_x := cx, counter_y := cy, counter_z := cz, counter_e := ce,
                 step_events_completed := sec, log := s.log ++ l } := by
  rcases hcb : s.current_block with _ | b
  swap
  · refine ⟨s.current_block, s.queue, s.advance, s.final_advance, s.old_advance, s.e_steps_0,
      s.e_steps_1, s.e_steps_2, s.deceleration_time, s.OCR1A_nominal, s.step_loops_nominal,
      s.acc_step_rate, s.step_loops, s.acceleration_time, s.counter_x, s.counter_y, s.counter_z,
      s.counter_e, s.step_events_completed, [], by simp, ?_⟩
    unfold acquire_block
    simp only [hcb, List.append_nil]
    rw [← hcb]
  · rcases hq : s.queue with _ | ⟨b0, rest⟩
    · refine ⟨s.current_block, s.queue, s.advance, s.final_advance, s.old_advance, s.e_steps_0,
        s.e_steps_1, s.e_steps_2, s.deceleration_time, s.OCR1A_nominal, s.step_loops_nominal,
        s.acc_step_rate, s.step_loops, s.acceleration_time, s.counter_x, s.counter_y,
        s.counter_z, s.counter_e, s.step_events_completed,
        [Event.timer_detach, Event.timer_attach_us 1000], ?_, ?_⟩
      · intro e he
        simp only [List.mem_cons, List.mem_singleton, List.not_mem_nil, or_false] at he
        rcases he with he | he
        · subst he; rfl
        · subst he; rfl
      · unfold acquire_block plan_get_current_block
        simp [hcb, hq, State.emit]
    ·
      obtain ⟨adv, fadv, oadv, e0, e1, e2, l, hl, h⟩ := acquire_block_some cfg tb s b0 rest hcb hq
      rw [h]
      exact ⟨_, _, _, _, _, _, _, _, _, _, _, _, _, _, _, _, _, _, _, l, hl, rfl⟩

/-! ## Directions and limit switches -/

theorem write_x_dir_eq (cfg : Config) (b : block_t) (level : Bool) (s : State) :
    ∃ l, (∀ e ∈ l, Event.quiet e = true) ∧ write_x_dir cfg b level s = { s with log := s.log ++ l } := by
  unfold write_x_dir
  split_ifs
  · exact ⟨[Event.write Pin.x_dir level, Event.write Pin.x2_dir level], by simp [Event.quiet],
      by simp [State.emit]⟩
  · exact ⟨[Event.write Pin.x2_dir level], by simp [Event.quiet], by simp [State.emit]⟩
  · exact ⟨[Event.write Pin.x_dir level], by simp [Event.quiet], by simp [State.emit]⟩
  · exact ⟨[Event.write Pin.x_dir level], by simp [Event.quiet], by simp [State.emit]⟩

theorem write_z_dir_eq (cfg : Config) (level : Bool) (s : State) :
    ∃ l, (∀ e ∈ l, Event.quiet e = true) ∧ write_z_dir cfg level s = { s with log := s.log ++ l } := by
  unfold write_z_dir
  simp only []
  split_ifs
  · exact ⟨[Event.write Pin.z_dir level, Event.write Pin.z2_dir level], by simp [Event.quiet],
      by simp [State.emit]⟩
  · exact ⟨[Event.write Pin.z_dir level], by simp [Event.quiet], by simp [State.emit]⟩

theorem set_xy_directions_eq (cfg : Config) (b : block_t) (s : State) :
    ∃ l, (∀ e ∈ l, Event.quiet e = true) ∧
      set_xy_directions cfg b s =
        { s with out_bits := b.direction_bits,
                 count_direction_x := b.direction 0,
                 count_direction_y := b.direction 1,
                 log := s.log ++ l } := by
  unfold set_xy_directions block_t.direction X_AXIS Y_AXIS
  simp only []
  by_cases hx : bit_set b.direction_bits 0 = true
  · obtain ⟨l, hl, h⟩ := write_x_dir_eq cfg b cfg.INVERT_X_DIR { s with out_bits := b.direction_bits }
    by_cases hy : bit_set b.direction_bits 1 = true
    · refine ⟨l ++ [Event.write Pin.y_dir cfg.INVERT_Y_DIR], ?_, ?_⟩
      · intro e he
        rcases List.mem_append.1 he with he | he
        · exact hl e he
        · simp at he; subst he; rfl
      · simp [hx, hy, h, State.emit]
    · refine ⟨l ++ [Event.write Pin.y_dir (!cfg.INVERT_Y_DIR)], ?_, ?_⟩
      · intro e he
        rcases List.mem_append.1 he with he | he
        · exact hl e he
        · simp at he; subst he; rfl
      · simp [hx, hy, h, State.emit]
  · obtain ⟨l, hl, h⟩ := write_x_dir_eq cfg b (!cfg.INVERT_X_DIR) { s with out_bits := b.direction_bits }
    by_cases hy : bit_set b.direction_bits 1 = true
    · refine ⟨l ++ [Event.write Pin.y_dir cfg.INVERT_Y_DIR], ?_, ?_⟩
      · intro e he
        rcases List.mem_append.1 he with he | he
        · exact hl e he
        · simp at he; subst he; rfl
      · simp [hx, hy, h, State.emit]
    · refine ⟨l ++ [Event.write Pin.y_dir (!cfg.INVERT_Y_DIR)], ?_, ?_⟩
      · intro e he
        rcases List.mem_append.1 he with he | he
        · exact hl e he
        · simp at he; subst he; rfl
      · simp [hx, hy, h, State.emit]

theorem check_x_endstops_frame (cfg : Config) (pins : Pins) (b : block_t) (s : State) :
    check_x_endstops cfg pins b s =
      { s with endstops_trigsteps_x := (check_x_endstops cfg pins b s).endstops_trigsteps_x,
               endstop_x_hit := (check_x_endstops cfg pins b s).endstop_x_hit,
               step_events_completed := (check_x_endstops cfg pins b s).step_events_completed,
               old_x_min_endstop := (check_x_endstops cfg pins b s).old_x_min_endstop,
               old_x_max_endstop := (check_x_endstops cfg pins b s).old_x_max_endstop } := by
  unfold check_x_endstops
  simp only []
  split_ifs <;> rfl

theorem check_x_endstops_values (cfg : Config) (pins : Pins) (b : block_t) (s : State)
    (hb : s.out_bits = b.direction_bits) :
    (check_x_endstops cfg pins b s).endstop_x_hit
        = (s.endstop_x_hit || axis_trigger cfg pins s b 0) ∧
    (check_x_endstops cfg pins b s).endstops_trigsteps_x
        = (if axis_trigger cfg pins s b 0 then s.count_position_x
           else s.endstops_trigsteps_x) ∧
    (check_x_endstops cfg pins b s).step_events_completed
        = (if axis_trigger cfg pins s b 0 then b.step_event_count % 4294967296
           else s.step_events_completed) ∧
    (check_x_endstops cfg pins b s).old_x_min_endstop
        = endstop_stored cfg pins s b Endstop.x_min ∧
    (check_x_endstops cfg pins b s).old_x_max_endstop
        = endstop_stored cfg pins s b Endstop.x_max := by
  unfold check_x_endstops
  simp only [axis_trigger, endstop_trigger, endstop_stored, endstop_sampled,
    endstop_reading, State.old_endstop, Endstop.axis, block_t.steps, hb]
  split_ifs <;> simp_all

theorem check_x_endstops_eq (cfg : Config) (pins : Pins) (b : block_t) (s : State)
    (hb : s.out_bits = b.direction_bits) :
    check_x_endstops cfg pins b s =
      { s with endstops_trigsteps_x :=
                 if axis_trigger cfg pins s b 0 then s.count_position_x
                 else s.endstops_trigsteps_x,
               endstop_x_hit := s.endstop_x_hit || axis_trigger cfg pins s b 0,
               step_events_completed :=
                 if axis_trigger cfg pins s b 0 then b.step_event_count % 4294967296
                 else s.step_events_completed,
               old_x_min_endstop := endstop_stored cfg pins s b Endstop.x_min,
               old_x_max_endstop := endstop_stored cfg pins s b Endstop.x_max } := by
  obtain ⟨h1, h2, h3, h4, h5⟩ := check_x_endstops_values cfg pins b s hb
  rw [check_x_endstops_frame, h1, h2, h3, h4, h5]

theorem check_y_endstops_frame (cfg : Config) (pins : Pins) (b : block_t) (s : State) :
    check_y_endstops cfg pins b s =
      { s with endstops_trigsteps_y := (check_y_endstops cfg pins b s).endstops_trigsteps_y,
               endstop_y_hit := (check_y_endstops cfg pins b s).endstop_y_hit,
               step_events_completed := (check_y_endstops cfg pins b s).step_events_completed,
               old_y_min_endstop := (check_y_endstops cfg pins b s).old_y_min_endstop,
               old_y_max_endstop := (check_y_endstops cfg pins b s).old_y_max_endstop } := by
  unfold check_y_endstops
  simp only []
  split_ifs <;> rfl

theorem check_y_endstops_values (cfg : Config) (pins : Pins) (b : block_t) (s : State)
    (hb : s.out_bits = b.direction_bits) :
    (check_y_endstops cfg pins b s).endstop_y_hit
        = (s.endstop_y_hit || axis_trigger cfg pins s b 1) ∧
    (check_y_endstops cfg pins b s).endstops_trigsteps_y
        = (if axis_trigger cfg pins s b 1 then s.count_position_y
           else s.endstops_trigsteps_y) ∧
    (check_y_endstops cfg pins b s).step_events_completed
        = (if axis_trigger cfg pins s b 1 then b.step_event_count % 4294967296
           else s.step_events_completed) ∧
    (check_y_endstops cfg pins b s).old_y_min_endstop
        = endstop_stored cfg pins s b Endstop.y_min ∧
    (check_y_endstops cfg pins b s).old_y_max_endstop
        = endstop_stored cfg pins s b Endstop.y_max := by
  unfold check_y_endstops
  simp only [axis_trigger, endstop_trigger, endstop_stored, endstop_sampled,
    endstop_reading, State.old_endstop, Endstop.axis, block_t.steps, hb]
  split_ifs <;> simp_all

theorem check_y_endstops_eq (cfg : Config) (pins : Pins) (b : block_t) (s : State)
    (hb : s.out_bits = b.direction_bits) :
    check_y_endstops cfg pins b s =
      { s with endstops_trigsteps_y :=
                 if axis_trigger cfg pins s b 1 then s.count_position_y
                 else s.endstops_trigsteps_y,
               endstop_y_hit := s.endstop_y_hit || axis_trigger cfg pins s b 1,
               step_events_completed :=
                 if axis_trigger cfg pins s b 1 then b.step_event_count % 4294967296
                 else s.step_events_completed,
               old_y_min_endstop := endstop_stored cfg pins s b Endstop.y_min,
               old_y_max_endstop := endstop_stored cfg pins s b Endstop.y_max } := by
  obtain ⟨h1, h2, h3, h4, h5⟩ := check_y_endstops_values cfg pins b s hb
  rw [check_y_endstops_frame, h1, h2, h3, h4, h5]

theorem write_z_dir_eq2 (cfg : Config) (level : Bool) (s : State) :
    write_z_dir cfg level s = { s with log := s.log ++ z_dir_writes cfg level } := by
  unfold write_z_dir z_dir_writes
  simp only []
  split_ifs <;> simp [State.emit]

theorem z_dir_writes_quiet (cfg : Config) (level : Bool) :
    ∀ e ∈ z_dir_writes cfg level, Event.quiet e = true := by
  unfold z_dir_writes
  split_ifs <;> simp [Event.quiet]

theorem z_dir_log_quiet (cfg : Config) (b : block_t) :
    ∀ e ∈ z_dir_log cfg b, Event.quiet e = true := by
  unfold z_dir_log
  split_ifs <;> exact z_dir_writes_quiet _ _

theorem e_dir_log_quiet (cfg : Config) (b : block_t) :
    ∀ e ∈ e_dir_log cfg b, Event.quiet e = true := by
  unfold e_dir_log
  split_ifs <;> simp [Event.quiet]

theorem set_z_direction_check_endstops_frame (cfg : Config) (pins : Pins) (b : block_t)
    (s : State) :
    set_z_direction_check_endstops cfg pins b s =
      { s with endstops_trigsteps_z :=
                 (set_z_direction_check_endstops cfg pins b s).endstops_trigsteps_z,
               endstop_z_hit := (set_z_direction_check_endstops cfg pins b s).endstop_z_hit,
               step_events_completed :=
                 (set_z_direction_check_endstops cfg pins b s).step_events_completed,
               old_z_min_endstop := (set_z_direction_check_endstops cfg pins b s).old_z_min_endstop,
               old_z_max_endstop := (set_z_direction_check_endstops cfg pins b s).old_z_max_endstop,
               count_direction_z := (set_z_direction_check_endstops cfg pins b s).count_direction_z,
               log := (set_z_direction_check_endstops cfg pins b s).log } := by
  unfold set_z_direction_check_endstops
  simp only [write_z_dir_eq2]
  split_ifs <;> rfl

theorem set_z_direction_check_endstops_values (cfg : Config) (pins : Pins) (b : block_t)
    (s : State) (hb : s.out_bits = b.direction_bits) :
    (set_z_direction_check_endstops cfg pins b s).endstop_z_hit
        = (s.endstop_z_hit || axis_trigger cfg pins s b 2) ∧
    (set_z_direction_check_endstops cfg pins b s).endstops_trigsteps_z
        = (if axis_trigger cfg pins s b 2 then s.count_position_z
           else s.endstops_trigsteps_z) ∧
    (set_z_direction_check_endstops cfg pins b s).step_events_completed
        = (if axis_trigger cfg pins s b 2 then b.step_event_count % 4294967296
           else s.step_events_completed) ∧
    (set_z_direction_check_endstops cfg pins b s).old_z_min_endstop
        = endstop_stored cfg pins s b Endstop.z_min ∧
    (set_z_direction_check_endstops cfg pins b s).old_z_max_endstop
        = endstop_stored cfg pins s b Endstop.z_max ∧
    (set_z_direction_check_endstops cfg pins b s).count_direction_z = b.direction 2 ∧
    (set_z_direction_check_endstops cfg pins b s).log = s.log ++ z_dir_log cfg b := by
  unfold set_z_direction_check_endstops
  simp only [axis_trigger, endstop_trigger, endstop_stored, endstop_sampled,
    endstop_reading, State.old_endstop, Endstop.axis, block_t.steps, hb, write_z_dir_eq2,
    block_t.direction, z_dir_log, Z_AXIS]
  split_ifs <;> simp_all

theorem set_z_direction_check_endstops_eq (cfg : Config) (pins : Pins) (b : block_t)
    (s : State) (hb : s.out_bits = b.direction_bits) :
    set_z_direction_check_endstops cfg pins b s =
      { s with endstops_trigsteps_z :=
                 if axis_trigger cfg pins s b 2 then s.count_position_z
                 else s.endstops_trigsteps_z,
               endstop_z_hit := s.endstop_z_hit || axis_trigger cfg pins s b 2,
               step_events_completed :=
                 if axis_trigger cfg pins s b 2 then b.step_event_count % 4294967296
                 else s.step_events_completed,
               old_z_min_endstop := endstop_stored cfg pins s b Endstop.z_min,
               old_z_max_endstop := endstop_stored cfg pins s b Endstop.z_max,
               count_direction_z := b.direction 2,
               log := s.log ++ z_dir_log cfg b } := by
  obtain ⟨h1, h2, h3, h4, h5, h6, h7⟩ := set_z_direction_check_endstops_values cfg pins b s hb
  rw [set_z_direction_check_endstops_frame, h1, h2, h3, h4, h5, h6, h7]

theorem set_e_direction_eq (cfg : Config) (b : block_t) (s : State)
    (hb : s.out_bits = b.direction_bits) :
    set_e_direction cfg s =
      { s with count_direction_e := if cfg.ADVANCE then s.count_direction_e else b.direction 3,
               log := s.log ++ e_dir_log cfg b } := by
  have h3 : bit_set s.out_bits E_AXIS = bit_set b.direction_bits 3 := by rw [hb]; rfl
  unfold set_e_direction e_dir_log block_t.direction
  rw [h3]
  have h4 : bit_set b.direction_bits E_AXIS = bit_set b.direction_bits 3 := rfl
  rw [h4]
  split_ifs <;> simp [State.emit]

theorem write_x_dir_eq2 (cfg : Config) (b : block_t) (level : Bool) (s : State) :
    write_x_dir cfg b level s = { s with log := s.log ++ x_dir_writes cfg b s level } := by
  unfold write_x_dir x_dir_writes
  split_ifs <;> simp [State.emit]

theorem x_dir_writes_quiet (cfg : Config) (b : block_t) (s : State) (level : Bool) :
    ∀ e ∈ x_dir_writes cfg b s level, Event.quiet e = true := by
  unfold x_dir_writes
  split_ifs <;> simp [Event.quiet]

theorem direction_log_quiet (cfg : Config) (b : block_t) (s : State) :
    ∀ e ∈ direction_log cfg b s, Event.quiet e = true := by
  intro e he
  unfold direction_log xy_dir_log at he
  simp only [List.mem_append, List.mem_singleton] at he
  rcases he with ((he | he) | he) | he
  · split_ifs at he <;> exact x_dir_writes_quiet _ _ _ _ e he
  · subst he; rfl
  · exact z_dir_log_quiet _ _ e he
  · exact e_dir_log_quiet _ _ e he

theorem set_xy_directions_eq2 (cfg : Config) (b : block_t) (s : State) :
    set_xy_directions cfg b s =
      { s with out_bits := b.direction_bits,
               count_direction_x := b.direction 0,
               count_direction_y := b.direction 1,
               log := s.log ++ xy_dir_log cfg b s } := by
  unfold set_xy_directions block_t.direction xy_dir_log X_AXIS Y_AXIS
  simp only [write_x_dir_eq2, x_dir_writes]
  split_ifs <;> simp [State.emit]

/-- The direction and endstop pass, in closed form. -/
theorem set_directions_check_endstops_eq (cfg : Config) (pins : Pins) (b : block_t) (s : State) :
    set_directions_check_endstops cfg pins b s =
      { s with out_bits := b.direction_bits,
               count_direction_x := b.direction 0,
               count_direction_y := b.direction 1,
               count_direction_z := b.direction 2,
               count_direction_e := if cfg.ADVANCE then s.count_direction_e else b.direction 3,
               endstops_trigsteps_x :=
                 if axis_trigger cfg pins s b 0 then s.count_position_x
                 else s.endstops_trigsteps_x,
               endstops_trigsteps_y :=
                 if axis_trigger cfg pins s b 1 then s.count_position_y
                 else s.endstops_trigsteps_y,
               endstops_trigsteps_z :=
                 if axis_trigger cfg pins s b 2 then s.count_position_z
                 else s.endstops_trigsteps_z,
               endstop_x_hit := s.endstop_x_hit || axis_trigger cfg pins s b 0,
               endstop_y_hit := s.endstop_y_hit || axis_trigger cfg pins s b 1,
               endstop_z_hit := s.endstop_z_hit || axis_trigger cfg pins s b 2,
               old_x_min_endstop := endstop_stored cfg pins s b Endstop.x_min,
               old_x_max_endstop := endstop_stored cfg pins s b Endstop.x_max,
               old_y_min_endstop := endstop_stored cfg pins s b Endstop.y_min,
               old_y_max_endstop := endstop_stored cfg pins s b Endstop.y_max,
               old_z_min_endstop := endstop_stored cfg pins s b Endstop.z_min,
               old_z_max_endstop := endstop_stored cfg pins s b Endstop.z_max,
               step_events_completed :=
                 if axis_trigger cfg pins s b 0 || axis_trigger cfg pins s b 1
                     || axis_trigger cfg pins s b 2 then b.step_event_count % 4294967296
                 else s.step_events_completed,
               log := s.log ++ direction_log cfg b s } := by
  unfold set_directions_check_endstops
  rw [set_xy_directions_eq2, check_x_endstops_eq _ _ _ _ rfl, check_y_endstops_eq _ _ _ _ rfl,
    set_z_direction_check_endstops_eq _ _ _ _ rfl, set_e_direction_eq _ b _ rfl]
  simp only [axis_trigger, endstop_trigger, endstop_stored, State.old_endstop, direction_log,
    List.append_assoc]
  rcases Bool.eq_false_or_eq_true (endstop_sampled cfg s.check_endstops b Endstop.x_min
      && endstop_reading cfg pins Endstop.x_min && s.old_x_min_endstop
      && decide (0 < b.steps Endstop.x_min.axis)
    || endstop_sampled cfg s.check_endstops b Endstop.x_max
      && endstop_reading cfg pins Endstop.x_max && s.old_x_max_endstop
      && decide (0 < b.steps Endstop.x_max.axis)) with hx | hx <;>
  rcases Bool.eq_false_or_eq_true (endstop_sampled cfg s.check_endstops b Endstop.y_min
      && endstop_reading cfg pins Endstop.y_min && s.old_y_min_endstop
      && decide (0 < b.steps Endstop.y_min.axis)
    || endstop_sampled cfg s.check_endstops b Endstop.y_max
      && endstop_reading cfg pins Endstop.y_max && s.old_y_max_endstop
      && decide (0 < b.steps Endstop.y_max.axis)) with hy | hy <;>
  rcases Bool.eq_false_or_eq_true (endstop_sampled cfg s.check_endstops b Endstop.z_min
      && endstop_reading cfg pins Endstop.z_min && s.old_z_min_endstop
      && decide (0 < b.steps Endstop.z_min.axis)
    || endstop_sampled cfg s.check_endstops b Endstop.z_max
      && endstop_reading cfg pins Endstop.z_max && s.old_z_max_endstop
      && decide (0 < b.steps Endstop.z_max.axis)) with hz | hz <;>
  simp only [hx, hy, hz, if_true, if_false, Bool.false_eq_true, Bool.or_true, Bool.or_false,
    Bool.true_or, Bool.false_or]

/-! ## The step loop -/

theorem write_x_step_eq (cfg : Config) (b : block_t) (level : Bool) (s : State) :
    write_x_step cfg b level s
      = { s with log := s.log ++ (x_step_pins cfg b s).map (fun p => Event.write p level) } := by
  unfold write_x_step x_step_pins
  split_ifs <;> simp [State.emit]

theorem step_x_eq (cfg : Config) (b : block_t) (s : State) :
    step_x cfg b s =
      if 0 < wrapLong (s.counter_x + b.steps_x) then
        { s with counter_x := wrapLong (wrapLong (s.counter_x + b.steps_x) - b.step_event_count),
                 count_position_x := s.count_position_x + s.count_direction_x,
                 log := s.log ++ x_pulse cfg b s }
      else { s with counter_x := wrapLong (s.counter_x + b.steps_x) } := by
  unfold step_x x_pulse
  simp only [write_x_step_eq, x_step_pins]
  split_ifs <;> simp

theorem step_y_eq (cfg : Config) (b : block_t) (s : State) :
    step_y cfg b s =
      if 0 < wrapLong (s.counter_y + b.steps_y) then
        { s with counter_y := wrapLong (wrapLong (s.counter_y + b.steps_y) - b.step_event_count),
                 count_position_y := s.count_position_y + s.count_direction_y,
                 log := s.log ++ [Event.write Pin.y_step (!cfg.INVERT_Y_STEP_PIN),
                                  Event.write Pin.y_step cfg.INVERT_Y_STEP_PIN] }
      else { s with counter_y := wrapLong (s.counter_y + b.steps_y) } := by
  unfold step_y
  simp only []
  split_ifs <;> simp [State.emit]

theorem step_z_eq (cfg : Config) (b : block_t) (s : State) :
    step_z cfg b s =
      if 0 < wrapLong (s.counter_z + b.steps_z) then
        { s with counter_z := wrapLong (wrapLong (s.counter_z + b.steps_z) - b.step_event_count),
                 count_position_z := s.count_position_z + s.count_direction_z,
                 log := s.log ++ z_pulse cfg }
      else { s with counter_z := wrapLong (s.counter_z + b.steps_z) } := by
  unfold step_z z_pulse
  simp only []
  split_ifs <;> first | rfl | simp [State.emit]

theorem step_e_eq (cfg : Config) (b : block_t) (s : State) (hA : cfg.ADVANCE = false) :
    step_e cfg b s =
      if 0 < wrapLong (s.counter_e + b.steps_e) then
        { s with counter_e := wrapLong (wrapLong (s.counter_e + b.steps_e) - b.step_event_count),
                 count_position_e := s.count_position_e + s.count_direction_e,
                 log := s.log ++ [Event.write Pin.e_step (!cfg.INVERT_E_STEP_PIN),
                                  Event.write Pin.e_step cfg.INVERT_E_STEP_PIN] }
      else { s with counter_e := wrapLong (s.counter_e + b.steps_e) } := by
  unfold step_e
  simp only [hA, Bool.false_eq_true, if_false]
  split_ifs <;> first | rfl | simp [State.emit]

theorem step_advance_e_off (cfg : Config) (b : block_t) (s : State) (hA : cfg.ADVANCE = false) :
    step_advance_e cfg b s = s := by
  unfold step_advance_e
  simp [hA]

theorem step_e_on (cfg : Config) (b : block_t) (s : State) (hA : cfg.ADVANCE = true) :
    step_e cfg b s = s := by
  unfold step_e
  simp [hA]

theorem step_advance_e_shape (cfg : Config) (b : block_t) (s : State) :
    ∃ c e0 e1 e2,
      step_advance_e cfg b s
        = { s with counter_e := c, e_steps_0 := e0, e_steps_1 := e1, e_steps_2 := e2 } := by
  refine ⟨(step_advance_e cfg b s).counter_e, (step_advance_e cfg b s).e_steps_0,
    (step_advance_e cfg b s).e_steps_1, (step_advance_e cfg b s).e_steps_2, ?_⟩
  unfold step_advance_e State.e_steps_add
  simp only []
  split_ifs <;> first | rfl | (split <;> rfl)

theorem wrapLong_of_range (x : Int) (h1 : -2147483648 ≤ x) (h2 : x < 2147483648) :
    wrapLong x = x := by
  unfold wrapLong
  rw [Int.emod_eq_of_lt (by omega) (by omega)]
  omega

/-- One step of the digital differential analyser on an axis, in integers. -/
theorem dda_step (N st k p : Nat) (c : Int)
    (hc : c = -((N >>> 1 : Nat) : Int) + (k : Int) * (st : Int) - (p : Int) * (N : Int))
    (h1 : -(N : Int) < c) (h2 : c ≤ 0) (hst : st ≤ N) (hN : N < 2147483648) :
    wrapLong (c + st) = c + st ∧
    (0 < c + (st : Int) →
      wrapLong (c + st - N) = c + st - N ∧ -(N : Int) < c + st - N ∧ c + st - N ≤ 0 ∧
      c + st - N
        = -((N >>> 1 : Nat) : Int) + ((k + 1 : Nat) : Int) * (st : Int)
            - ((p + 1 : Nat) : Int) * (N : Int)) ∧
    (¬ 0 < c + (st : Int) →
      -(N : Int) < c + st ∧ c + st ≤ 0 ∧
      c + st = -((N >>> 1 : Nat) : Int) + ((k + 1 : Nat) : Int) * (st : Int)
            - (p : Int) * (N : Int)) := by
  have hst2 : (st : Int) ≤ N := by exact_mod_cast hst
  have hN2 : (N : Int) < 2147483648 := by exact_mod_cast hN
  have hst0 : (0 : Int) ≤ st := by positivity
  refine ⟨wrapLong_of_range _ (by omega) (by omega), ?_, ?_⟩
  · intro hpos
    refine ⟨wrapLong_of_range _ (by omega) (by omega), by omega, by omega, ?_⟩
    rw [hc]; push_cast; ring
  · intro hneg
    refine ⟨by omega, by omega, ?_⟩
    rw [hc]; push_cast; ring

/-- After N step events the number of pulses equals the step count. -/
theorem dda_final (N st p : Nat) (c : Int)
    (hc : c = -((N >>> 1 : Nat) : Int) + (N : Int) * (st : Int) - (p : Int) * (N : Int))
    (h1 : -(N : Int) < c) (h2 : c ≤ 0) (hN : 1 ≤ N) : p = st := by
  have hhalf : ((N >>> 1 : Nat) : Int) < N := by
    have : N >>> 1 < N := by
      rw [Nat.shiftRight_eq_div_pow]
      omega
    exact_mod_cast this
  have hhalf0 : (0 : Int) ≤ ((N >>> 1 : Nat) : Int) := by positivity
  have hNpos : (0 : Int) < N := by exact_mod_cast hN
  have key : (N : Int) * ((st : Int) - (p : Int)) = c + ((N >>> 1 : Nat) : Int) := by
    rw [hc]; ring
  have hlt : (N : Int) * ((st : Int) - (p : Int)) < N * 1 := by rw [key]; omega
  have hgt : (N : Int) * (-1) < N * ((st : Int) - (p : Int)) := by rw [key]; omega
  have h3 : (st : Int) - p < 1 := lt_of_mul_lt_mul_left hlt hNpos.le
  have h4 : (-1 : Int) < (st : Int) - p := lt_of_mul_lt_mul_left hgt hNpos.le
  omega

theorem pin_writes_append (p : Pin) (lvl : Bool) (l1 l2 : List Event) :
    pin_writes p lvl (l1 ++ l2) = pin_writes p lvl l1 + pin_writes p lvl l2 := by
  unfold pin_writes
  exact List.count_append _ _ _

theorem step_events_append (l1 l2 : List Event) :
    step_events (l1 ++ l2) = step_events l1 + step_events l2 := by
  unfold step_events
  exact List.count_append _ _ _

theorem discards_append (l1 l2 : List Event) :
    discards (l1 ++ l2) = discards l1 + discards l2 := by
  unfold discards
  exact List.count_append _ _ _

theorem step_events_quiet (l : List Event) (h : ∀ e ∈ l, Event.quiet e = true) :
    step_events l = 0 := by
  unfold step_events
  rw [List.count_eq_zero]
  intro hm
  have := h _ hm
  simp [Event.quiet] at this

theorem discards_quiet (l : List Event) (h : ∀ e ∈ l, Event.quiet e = true) :
    discards l = 0 := by
  unfold discards
  rw [List.count_eq_zero]
  intro hm
  have := h _ hm
  simp [Event.quiet] at this

theorem axis_pins_not_quiet (cfg : Config) (b : block_t) (s : State) (a : Nat) (q : Pin × Bool)
    (hq : q ∈ axis_pins cfg b s a) : Event.quiet (Event.write q.1 q.2) = false := by
  unfold axis_pins at hq
  split at hq
  · simp only [List.mem_map] at hq
    obtain ⟨p, hp, rfl⟩ := hq
    unfold x_step_pins at hp
    split_ifs at hp <;> simp at hp <;>
      first
      | (rcases hp with hp | hp <;> subst hp <;> rfl)
      | (subst hp; rfl)
  · simp at hq; subst hq; rfl
  · simp at hq; subst hq; rfl
  · simp at hq; subst hq; rfl
  · simp at hq

theorem pin_writes_quiet (cfg : Config) (b : block_t) (s : State) (a : Nat) (q : Pin × Bool)
    (hq : q ∈ axis_pins cfg b s a) (l : List Event) (h : ∀ e ∈ l, Event.quiet e = true) :
    pin_writes q.1 q.2 l = 0 := by
  unfold pin_writes
  rw [List.count_eq_zero]
  intro hm
  have h1 := h _ hm
  rw [axis_pins_not_quiet cfg b s a q hq] at h1
  exact Bool.noConfusion h1

theorem axis_pins_axis (cfg : Config) (b : block_t) (s : State) (a : Nat) (q : Pin × Bool)
    (hq : q ∈ axis_pins cfg b s a) : Pin.axis q.1 = some a := by
  unfold axis_pins at hq
  split at hq
  · simp only [List.mem_map] at hq
    obtain ⟨p, hp, rfl⟩ := hq
    unfold x_step_pins at hp
    split_ifs at hp <;> simp at hp <;>
      first
      | (rcases hp with hp | hp <;> subst hp <;> rfl)
      | (subst hp; rfl)
  · simp at hq; subst hq; rfl
  · simp at hq; subst hq; rfl
  · simp at hq; subst hq; rfl
  · simp at hq

theorem axis_pulse_axis (cfg : Config) (b : block_t) (s : State) (a : Nat) :
    ∀ e ∈ axis_pulse cfg b s a, Event.pin_axis e = some a := by
  unfold axis_pulse
  split
  · unfold x_pulse x_step_pins
    split_ifs <;> simp [Event.pin_axis, Pin.axis]
  · simp [Event.pin_axis, Pin.axis]
  · unfold z_pulse
    split_ifs <;> simp [Event.pin_axis, Pin.axis]
  · simp [Event.pin_axis, Pin.axis]
  · simp

theorem pulse_count_other (cfg : Config) (b : block_t) (s s' : State) (a a' : Nat)
    (q : Pin × Bool) (hq : q ∈ axis_pins cfg b s a) (hne : a ≠ a') :
    pin_writes q.1 q.2 (axis_pulse cfg b s' a') = 0 := by
  unfold pin_writes
  rw [List.count_eq_zero]
  intro hm
  have h0 := axis_pulse_axis cfg b s' a' _ hm
  have h1 := axis_pins_axis cfg b s a q hq
  simp only [Event.pin_axis] at h0
  rw [h0] at h1
  exact hne (Option.some.inj h1).symm

theorem pulse_count_self (cfg : Config) (b : block_t) (s : State) (a : Nat)
    (q : Pin × Bool) (hq : q ∈ axis_pins cfg b s a) :
    pin_writes q.1 q.2 (axis_pulse cfg b s a) = 1 := by
  unfold axis_pins at hq
  unfold axis_pulse pin_writes
  split at hq
  · simp only [List.mem_map] at hq
    obtain ⟨p, hp, rfl⟩ := hq
    unfold x_pulse
    unfold x_step_pins at hp ⊢
    split_ifs at hp ⊢ <;> simp at hp <;>
      first
      | (rcases hp with hp | hp <;> subst hp <;> cases cfg.INVERT_X_STEP_PIN <;> rfl)
      | (subst hp; cases cfg.INVERT_X_STEP_PIN <;> rfl)
  · simp at hq; subst hq
    cases cfg.INVERT_Y_STEP_PIN <;> rfl
  · simp at hq; subst hq
    unfold z_pulse
    cases cfg.Z_DUAL_STEPPER_DRIVERS <;> cases cfg.INVERT_Z_STEP_PIN <;>
      cases cfg.INVER_Z_STEP_PIN <;> rfl
  · simp at hq; subst hq
    cases cfg.INVERT_E_STEP_PIN <;> rfl
  · simp at hq

/-! ## Tracking one axis through the step loop -/

theorem Tracking_congr (cfg : Config) (b : block_t) (base : State) (a k : Nat) (s s' : State)
    (hc : s'.counter a = s.counter a) (hp : s'.count_position a = s.count_position a)
    (hl : ∀ q ∈ axis_pins cfg b base a, pin_writes q.1 q.2 s'.log = pin_writes q.1 q.2 s.log)
    (h : Tracking cfg b base a k s) : Tracking cfg b base a k s' := by
  obtain ⟨p, h1, h2, h3, h4, h5⟩ := h
  refine ⟨p, ?_, ?_, ?_, ?_, ?_⟩
  · rw [hc]; exact h1
  · rw [hc]; exact h2
  · rw [hc]; exact h3
  · rw [hp]; exact h4
  · intro q hq
    rw [hl q hq]; exact h5 q hq

/-- A step of another axis does not disturb the tracking of this one. -/
theorem Tracking_other (cfg : Config) (b : block_t) (base : State) (a a' k : Nat)
    (s s' t : State) (hne : a ≠ a')
    (hc : s'.counter a = s.counter a) (hp : s'.count_position a = s.count_position a)
    (hl : s'.log = s.log ∨ s'.log = s.log ++ axis_pulse cfg b t a')
    (h : Tracking cfg b base a k s) : Tracking cfg b base a k s' := by
  refine Tracking_congr cfg b base a k s s' hc hp ?_ h
  intro q hq
  rcases hl with hl | hl
  · rw [hl]
  · rw [hl, pin_writes_append, pulse_count_other cfg b base t a a' q hq hne, Nat.add_zero]

/-- A step of this axis advances its tracking by one step event. -/
theorem Tracking_own (cfg : Config) (b : block_t) (base : State) (a k : Nat) (s s' : State)
    (hst : b.steps a ≤ b.step_event_count) (hN : b.step_event_count < 2147483648)
    (hpulse : 0 < wrapLong (s.counter a + b.steps a) →
      s'.counter a = wrapLong (wrapLong (s.counter a + b.steps a) - b.step_event_count) ∧
      s'.count_position a = s.count_position a + b.direction a ∧
      s'.log = s.log ++ axis_pulse cfg b base a)
    (hquiet : ¬ 0 < wrapLong (s.counter a + b.steps a) →
      s'.counter a = wrapLong (s.counter a + b.steps a) ∧
      s'.count_position a = s.count_position a ∧ s'.log = s.log)
    (h : Tracking cfg b base a k s) : Tracking cfg b base a (k + 1) s' := by
  obtain ⟨p, h1, h2, h3, h4, h5⟩ := h
  obtain ⟨w1, w2, w3⟩ := dda_step b.step_event_count (b.steps a) k p (s.counter a) h1 h2 h3 hst hN
  by_cases hpos : 0 < wrapLong (s.counter a + b.steps a)
  · obtain ⟨e1, e2, e3⟩ := hpulse hpos
    rw [w1] at hpos e1
    obtain ⟨v1, v2, v3, v4⟩ := w2 hpos
    rw [v1] at e1
    refine ⟨p + 1, ?_, ?_, ?_, ?_, ?_⟩
    · rw [e1]; exact v4
    · rw [e1]; exact v2
    · rw [e1]; exact v3
    · rw [e2, h4]; push_cast; ring
    · intro q hq
      rw [e3, pin_writes_append, pulse_count_self cfg b base a q hq, h5 q hq]
      ring
  · obtain ⟨e1, e2, e3⟩ := hquiet hpos
    rw [w1] at hpos e1
    obtain ⟨v1, v2, v3⟩ := w3 hpos
    refine ⟨p, ?_, ?_, ?_, ?_, ?_⟩
    · rw [e1]; exact v3
    · rw [e1]; exact v1
    · rw [e1]; exact v2
    · rw [e2, h4]
    · intro q hq
      rw [e3]; exact h5 q hq

theorem x_pulse_dup (cfg : Config) (b : block_t) (s base : State)
    (h : s.extruder_duplication_enabled = base.extruder_duplication_enabled) :
    x_pulse cfg b s = axis_pulse cfg b base 0 := by
  unfold axis_pulse x_pulse x_step_pins
  rw [h]

theorem step_x_own (cfg : Config) (b : block_t) (base s : State) (k : Nat)
    (hst : b.steps 0 ≤ b.step_event_count) (hN : b.step_event_count < 2147483648)
    (hd : s.count_direction_x = b.direction 0)
    (hdup : s.extruder_duplication_enabled = base.extruder_duplication_enabled)
    (h : Tracking cfg b base 0 k s) : Tracking cfg b base 0 (k + 1) (step_x cfg b s) := by
  refine Tracking_own cfg b base 0 k s _ hst hN ?_ ?_ h
  · intro hpos
    rw [step_x_eq]
    simp only [State.counter, block_t.steps, State.count_position] at hpos ⊢
    rw [if_pos hpos]
    exact ⟨rfl, by rw [← hd], by rw [← x_pulse_dup cfg b s base hdup]⟩
  · intro hneg
    rw [step_x_eq]
    simp only [State.counter, block_t.steps, State.count_position] at hneg ⊢
    rw [if_neg hneg]
    exact ⟨rfl, rfl, rfl⟩

theorem step_x_other (cfg : Config) (b : block_t) (base s : State) (a k : Nat) (hne : a ≠ 0)
    (hdup : s.extruder_duplication_enabled = base.extruder_duplication_enabled)
    (h : Tracking cfg b base a k s) : Tracking cfg b base a k (step_x cfg b s) := by
  refine Tracking_other cfg b base a 0 k s _ base hne ?_ ?_ ?_ h
  · rw [step_x_eq]
    split_ifs <;> rcases a with _ | _ | _ | _ | a <;> first | rfl | exact absurd rfl hne
  · rw [step_x_eq]
    split_ifs <;> rcases a with _ | _ | _ | _ | a <;> first | rfl | exact absurd rfl hne
  · rw [step_x_eq]
    split_ifs
    · right; rw [← x_pulse_dup cfg b s base hdup]
    · left; rfl

theorem axis_pulse_step_events (cfg : Config) (b : block_t) (s : State) (a : Nat) :
    step_events (axis_pulse cfg b s a) = 0 ∧ discards (axis_pulse cfg b s a) = 0 := by
  have h := axis_pulse_axis cfg b s a
  constructor
  · unfold step_events
    rw [List.count_eq_zero]
    intro hm
    have := h _ hm
    simp [Event.pin_axis] at this
  · unfold discards
    rw [List.count_eq_zero]
    intro hm
    have := h _ hm
    simp [Event.pin_axis] at this

theorem step_y_own (cfg : Config) (b : block_t) (base s : State) (k : Nat)
    (hst : b.steps 1 ≤ b.step_event_count) (hN : b.step_event_count < 2147483648)
    (hd : s.count_direction_y = b.direction 1)
    (h : Tracking cfg b base 1 k s) : Tracking cfg b base 1 (k + 1) (step_y cfg b s) := by
  refine Tracking_own cfg b base 1 k s _ hst hN ?_ ?_ h
  · intro hpos
    rw [step_y_eq]
    simp only [State.counter, block_t.steps, State.count_position] at hpos ⊢
    rw [if_pos hpos]
    exact ⟨rfl, by rw [← hd], rfl⟩
  · intro hneg
    rw [step_y_eq]
    simp only [State.counter, block_t.steps, State.count_position] at hneg ⊢
    rw [if_neg hneg]
    exact ⟨rfl, rfl, rfl⟩

theorem step_y_other (cfg : Config) (b : block_t) (base s : State) (a k : Nat)
    (hne : a ≠ 1) (h : Tracking cfg b base a k s) :
    Tracking cfg b base a k (step_y cfg b s) := by
  refine Tracking_other cfg b base a 1 k s _ base hne ?_ ?_ ?_ h
  · rw [step_y_eq]
    split_ifs <;> rcases a with _ | _ | _ | _ | a <;> first | rfl | exact absurd rfl hne
  · rw [step_y_eq]
    split_ifs <;> rcases a with _ | _ | _ | _ | a <;> first | rfl | exact absurd rfl hne
  · rw [step_y_eq]
    split_ifs
    · right; rfl
    · left; rfl

theorem step_z_own (cfg : Config) (b : block_t) (base s : State) (k : Nat)
    (hst : b.steps 2 ≤ b.step_event_count) (hN : b.step_event_count < 2147483648)
    (hd : s.count_direction_z = b.direction 2)
    (h : Tracking cfg b base 2 k s) : Tracking cfg b base 2 (k + 1) (step_z cfg b s) := by
  refine Tracking_own cfg b base 2 k s _ hst hN ?_ ?_ h
  · intro hpos
    rw [step_z_eq]
    simp only [State.counter, block_t.steps, State.count_position] at hpos ⊢
    rw [if_pos hpos]
    exact ⟨rfl, by rw [← hd], rfl⟩
  · intro hneg
    rw [step_z_eq]
    simp only [State.counter, block_t.steps, State.count_position] at hneg ⊢
    rw [if_neg hneg]
    exact ⟨rfl, rfl, rfl⟩

theorem step_z_other (cfg : Config) (b : block_t) (base s : State) (a k : Nat)
    (hne : a ≠ 2) (h : Tracking cfg b base a k s) :
    Tracking cfg b base a k (step_z cfg b s) := by
  refine Tracking_other cfg b base a 2 k s _ base hne ?_ ?_ ?_ h
  · rw [step_z_eq]
    split_ifs <;> rcases a with _ | _ | _ | _ | a <;> first | rfl | exact absurd rfl hne
  · rw [step_z_eq]
    split_ifs <;> rcases a with _ | _ | _ | _ | a <;> first | rfl | exact absurd rfl hne
  · rw [step_z_eq]
    split_ifs
    · right; rfl
    · left; rfl

theorem step_e_own (cfg : Config) (b : block_t) (base s : State) (k : Nat) (hA : cfg.ADVANCE = false)
    (hst : b.steps 3 ≤ b.step_event_count) (hN : b.step_event_count < 2147483648)
    (hd : s.count_direction_e = b.direction 3)
    (h : Tracking cfg b base 3 k s) : Tracking cfg b base 3 (k + 1) (step_e cfg b s) := by
  refine Tracking_own cfg b base 3 k s _ hst hN ?_ ?_ h
  · intro hpos
    rw [step_e_eq _ _ _ hA]
    simp only [State.counter, block_t.steps, State.count_position] at hpos ⊢
    rw [if_pos hpos]
    exact ⟨rfl, by rw [← hd], rfl⟩
  · intro hneg
    rw [step_e_eq _ _ _ hA]
    simp only [State.counter, block_t.steps, State.count_position] at hneg ⊢
    rw [if_neg hneg]
    exact ⟨rfl, rfl, rfl⟩

theorem step_e_other (cfg : Config) (b : block_t) (base s : State) (a k : Nat)
    (hne : a ≠ 3) (h : Tracking cfg b base a k s) :
    Tracking cfg b base a k (step_e cfg b s) := by
  rcases Bool.eq_false_or_eq_true cfg.ADVANCE with hA | hA
  · rw [step_e_on _ _ _ hA]
    exact h
  · refine Tracking_other cfg b base a 3 k s _ base hne ?_ ?_ ?_ h
    · rw [step_e_eq _ _ _ hA]
      split_ifs <;> rcases a with _ | _ | _ | _ | a <;> first | rfl | exact absurd rfl hne
    · rw [step_e_eq _ _ _ hA]
      split_ifs <;> rcases a with _ | _ | _ | _ | a <;> first | rfl | exact absurd rfl hne
    · rw [step_e_eq _ _ _ hA]
      split_ifs
      · right; rfl
      · left; rfl

/-- The E bookkeeping of ADVANCE leaves the tracking of X, Y and Z alone. -/
theorem step_advance_e_other (cfg : Config) (b : block_t) (base s : State) (a k : Nat)
    (hne : a ≠ 3) (h : Tracking cfg b base a k s) :
    Tracking cfg b base a k (step_advance_e cfg b s) := by
  obtain ⟨c, e0, e1, e2, h0⟩ := step_advance_e_shape cfg b s
  rw [h0]
  refine Tracking_congr cfg b base a k s _ ?_ ?_ (fun _ _ => rfl) h
  · rcases a with _ | _ | _ | _ | a <;> first | rfl | exact absurd rfl hne
  · rcases a with _ | _ | _ | _ | a <;> rfl

theorem step_advance_e_dirs (cfg : Config) (b : block_t) (s : State) :
    (step_advance_e cfg b s).count_direction_x = s.count_direction_x ∧
    (step_advance_e cfg b s).count_direction_y = s.count_direction_y ∧
    (step_advance_e cfg b s).count_direction_z = s.count_direction_z ∧
    (step_advance_e cfg b s).count_direction_e = s.count_direction_e ∧
    (step_advance_e cfg b s).extruder_duplication_enabled = s.extruder_duplication_enabled := by
  obtain ⟨c, e0, e1, e2, h⟩ := step_advance_e_shape cfg b s
  rw [h]
  exact ⟨rfl, rfl, rfl, rfl, rfl⟩

theorem step_x_shape (cfg : Config) (b : block_t) (s : State) :
    ∃ c p l,
      step_x cfg b s
        = { s with counter_x := c, count_position_x := p, log := s.log ++ l } ∧
      step_events l = 0 ∧ discards l = 0 ∧
      (p = s.count_position_x ∨ p = s.count_position_x + s.count_direction_x) := by
  rw [step_x_eq]
  split_ifs
  · exact ⟨_, _, _, rfl, (axis_pulse_step_events cfg b s 0).1, (axis_pulse_step_events cfg b s 0).2, Or.inr rfl⟩
  · exact ⟨wrapLong (s.counter_x + b.steps_x), s.count_position_x, [],
      by simp, rfl, rfl, Or.inl rfl⟩

theorem step_y_shape (cfg : Config) (b : block_t) (s : State) :
    ∃ c p l,
      step_y cfg b s
        = { s with counter_y := c, count_position_y := p, log := s.log ++ l } ∧
      step_events l = 0 ∧ discards l = 0 ∧
      (p = s.count_position_y ∨ p = s.count_position_y + s.count_direction_y) := by
  rw [step_y_eq]
  split_ifs
  · exact ⟨_, _, _, rfl, (axis_pulse_step_events cfg b s 1).1, (axis_pulse_step_events cfg b s 1).2, Or.inr rfl⟩
  · exact ⟨wrapLong (s.counter_y + b.steps_y), s.count_position_y, [],
      by simp, rfl, rfl, Or.inl rfl⟩

theorem step_z_shape (cfg : Config) (b : block_t) (s : State) :
    ∃ c p l,
      step_z cfg b s
        = { s with counter_z := c, count_position_z := p, log := s.log ++ l } ∧
      step_events l = 0 ∧ discards l = 0 ∧
      (p = s.count_position_z ∨ p = s.count_position_z + s.count_direction_z) := by
  rw [step_z_eq]
  split_ifs
  · exact ⟨_, _, _, rfl, (axis_pulse_step_events cfg b s 2).1, (axis_pulse_step_events cfg b s 2).2, Or.inr rfl⟩
  · exact ⟨wrapLong (s.counter_z + b.steps_z), s.count_position_z, [],
      by simp, rfl, rfl, Or.inl rfl⟩

theorem step_e_shape (cfg : Config) (b : block_t) (s : State) :
    ∃ c p l,
      step_e cfg b s
        = { s with counter_e := c, count_position_e := p, log := s.log ++ l } ∧
      step_events l = 0 ∧ discards l = 0 ∧
      (p = s.count_position_e ∨ p = s.count_position_e + s.count_direction_e) := by
  rcases Bool.eq_false_or_eq_true cfg.ADVANCE with hA | hA
  · rw [step_e_on _ _ _ hA]
    exact ⟨s.counter_e, s.count_position_e, [], by simp, rfl, rfl, Or.inl rfl⟩
  · rw [step_e_eq _ _ _ hA]
    split_ifs
    · exact ⟨_, _, _, rfl, (axis_pulse_step_events cfg b s 3).1, (axis_pulse_step_events cfg b s 3).2, Or.inr rfl⟩
    · exact ⟨wrapLong (s.counter_e + b.steps_e), s.count_position_e, [], by simp, rfl, rfl,
        Or.inl rfl⟩

/-- What one step event may change. -/
theorem step_event_shape (cfg : Config) (b : block_t) (s : State) :
    ∃ cx cy cz ce px py pz pe e0 e1 e2 l,
      step_event cfg b s
        = { s with counter_x := cx, counter_y := cy, counter_z := cz, counter_e := ce,
                   count_position_x := px, count_position_y := py, count_position_z := pz,
                   count_position_e := pe, e_steps_0 := e0, e_steps_1 := e1, e_steps_2 := e2,
                   step_events_completed := (s.step_events_completed + 1) % 4294967296,
                   log := s.log ++ l } ∧
      step_events l = 1 ∧ discards l = 0 ∧
      (px = s.count_position_x ∨ px = s.count_position_x + s.count_direction_x) ∧
      (py = s.count_position_y ∨ py = s.count_position_y + s.count_direction_y) ∧
      (pz = s.count_position_z ∨ pz = s.count_position_z + s.count_direction_z) ∧
      (pe = s.count_position_e ∨ pe = s.count_position_e + s.count_direction_e) := by
  unfold step_event
  obtain ⟨c0, e0, e1, e2, h0⟩ := step_advance_e_shape cfg b s
  rw [h0]
  obtain ⟨cx, px, lx, hx, ex, dx, qx⟩ := step_x_shape cfg b
    { s with counter_e := c0, e_steps_0 := e0, e_steps_1 := e1, e_steps_2 := e2 }
  rw [hx]
  obtain ⟨cy, py, ly, hy, ey, dy, qy⟩ := step_y_shape cfg b
    { s with counter_e := c0, e_steps_0 := e0, e_steps_1 := e1, e_steps_2 := e2,
             counter_x := cx, count_position_x := px, log := s.log ++ lx }
  rw [hy]
  obtain ⟨cz, pz, lz, hz, ez, dz, qz⟩ := step_z_shape cfg b
    { s with counter_e := c0, e_steps_0 := e0, e_steps_1 := e1, e_steps_2 := e2,
             counter_x := cx, count_position_x := px,
             counter_y := cy, count_position_y := py, log := s.log ++ lx ++ ly }
  rw [hz]
  obtain ⟨ce, pe, le, he, ee, de, qe⟩ := step_e_shape cfg b
    { s with counter_e := c0, e_steps_0 := e0, e_steps_1 := e1, e_steps_2 := e2,
             counter_x := cx, count_position_x := px,
             counter_y := cy, count_position_y := py,
             counter_z := cz, count_position_z := pz, log := s.log ++ lx ++ ly ++ lz }
  rw [he]
  refine ⟨cx, cy, cz, ce, px, py, pz, pe, e0, e1, e2, lx ++ ly ++ lz ++ le ++ [Event.step_event],
    ?_, ?_, ?_, qx, qy, qz, qe⟩
  · simp
  · simp only [step_events_append, ex, ey, ez, ee]
    rfl
  · simp only [discards_append, dx, dy, dz, de]
    rfl

theorem step_x_dirs (cfg : Config) (b : block_t) (s : State) :
    (step_x cfg b s).count_direction_x = s.count_direction_x ∧
    (step_x cfg b s).count_direction_y = s.count_direction_y ∧
    (step_x cfg b s).count_direction_z = s.count_direction_z ∧
    (step_x cfg b s).count_direction_e = s.count_direction_e ∧
    (step_x cfg b s).extruder_duplication_enabled = s.extruder_duplication_enabled := by
  obtain ⟨c, p, l, h, -⟩ := step_x_shape cfg b s
  rw [h]
  exact ⟨rfl, rfl, rfl, rfl, rfl⟩

theorem step_y_dirs (cfg : Config) (b : block_t) (s : State) :
    (step_y cfg b s).count_direction_x = s.count_direction_x ∧
    (step_y cfg b s).count_direction_y = s.count_direction_y ∧
    (step_y cfg b s).count_direction_z = s.count_direction_z ∧
    (step_y cfg b s).count_direction_e = s.count_direction_e ∧
    (step_y cfg b s).extruder_duplication_enabled = s.extruder_duplication_enabled := by
  obtain ⟨c, p, l, h, -⟩ := step_y_shape cfg b s
  rw [h]
  exact ⟨rfl, rfl, rfl, rfl, rfl⟩

theorem step_z_dirs (cfg : Config) (b : block_t) (s : State) :
    (step_z cfg b s).count_direction_x = s.count_direction_x ∧
    (step_z cfg b s).count_direction_y = s.count_direction_y ∧
    (step_z cfg b s).count_direction_z = s.count_direction_z ∧
    (step_z cfg b s).count_direction_e = s.count_direction_e ∧
    (step_z cfg b s).extruder_duplication_enabled = s.extruder_duplication_enabled := by
  obtain ⟨c, p, l, h, -⟩ := step_z_shape cfg b s
  rw [h]
  exact ⟨rfl, rfl, rfl, rfl, rfl⟩

theorem step_e_dirs (cfg : Config) (b : block_t) (s : State) :
    (step_e cfg b s).count_direction_x = s.count_direction_x ∧
    (step_e cfg b s).count_direction_y = s.count_direction_y ∧
    (step_e cfg b s).count_direction_z = s.count_direction_z ∧
    (step_e cfg b s).count_direction_e = s.count_direction_e ∧
    (step_e cfg b s).extruder_duplication_enabled = s.extruder_duplication_enabled := by
  obtain ⟨c, p, l, h, -⟩ := step_e_shape cfg b s
  rw [h]
  exact ⟨rfl, rfl, rfl, rfl, rfl⟩

/-- One step event advances the tracking of every tracked axis by one: X, Y and
Z always, E when it is stepped inline. -/
theorem step_event_tracking (cfg : Config) (b : block_t) (base s : State) (k : Nat)
    (na : Nat) (hna : na ≤ 4) (hA : na = 4 → cfg.ADVANCE = false)
    (hst : ∀ a, a < na → b.steps a ≤ b.step_event_count)
    (hN : b.step_event_count < 2147483648)
    (hd : ∀ a, a < na → s.count_direction a = b.direction a)
    (hdup : s.extruder_duplication_enabled = base.extruder_duplication_enabled)
    (hT : ∀ a, a < na → Tracking cfg b base a k s) :
    ∀ a, a < na → Tracking cfg b base a (k + 1) (step_event cfg b s) := by
  have hbump : ∀ (a j : Nat) (t : State), Tracking cfg b base a j t →
      Tracking cfg b base a j
        { t with step_events_completed := (t.step_events_completed + 1) % 4294967296,
                 log := t.log ++ [Event.step_event] } := by
    intro a j t ht
    refine Tracking_congr cfg b base a j t _ ?_ ?_ ?_ ht
    · rcases a with _ | _ | _ | _ | a <;> rfl
    · rcases a with _ | _ | _ | _ | a <;> rfl
    · intro q hq
      rw [pin_writes_append]
      simp [pin_writes]
  have da := step_advance_e_dirs cfg b s
  have dx := step_x_dirs cfg b (step_advance_e cfg b s)
  have dy := step_y_dirs cfg b (step_x cfg b (step_advance_e cfg b s))
  have dz := step_z_dirs cfg b (step_y cfg b (step_x cfg b (step_advance_e cfg b s)))
  have hdup0 : (step_advance_e cfg b s).extruder_duplication_enabled
      = base.extruder_duplication_enabled := da.2.2.2.2.trans hdup
  intro a ha
  unfold step_event
  apply hbump
  have ha4 : a < 4 := by omega
  interval_cases a
  · have h0 := hd 0 ha
    simp only [State.count_direction] at h0
    exact step_e_other cfg b base _ 0 _ (by omega)
      (step_z_other cfg b base _ 0 _ (by omega)
        (step_y_other cfg b base _ 0 _ (by omega)
          (step_x_own cfg b base _ k (hst 0 ha) hN (by rw [da.1, h0]) hdup0
            (step_advance_e_other cfg b base s 0 k (by omega) (hT 0 ha)))))
  · have h1 := hd 1 ha
    simp only [State.count_direction] at h1
    exact step_e_other cfg b base _ 1 _ (by omega)
      (step_z_other cfg b base _ 1 _ (by omega)
        (step_y_own cfg b base _ k (hst 1 ha) hN (by rw [dx.2.1, da.2.1, h1])
          (step_x_other cfg b base _ 1 k (by omega) hdup0
            (step_advance_e_other cfg b base s 1 k (by omega) (hT 1 ha)))))
  · have h2 := hd 2 ha
    simp only [State.count_direction] at h2
    exact step_e_other cfg b base _ 2 _ (by omega)
      (step_z_own cfg b base _ k (hst 2 ha) hN (by rw [dy.2.2.1, dx.2.2.1, da.2.2.1, h2])
        (step_y_other cfg b base _ 2 _ (by omega)
          (step_x_other cfg b base _ 2 k (by omega) hdup0
            (step_advance_e_other cfg b base s 2 k (by omega) (hT 2 ha)))))
  · have hoff : cfg.ADVANCE = false := hA (by omega)
    have h3 := hd 3 ha
    simp only [State.count_direction] at h3
    have hsame := step_advance_e_off cfg b s hoff
    rw [hsame] at dx dy dz hdup0 ⊢
    exact step_e_own cfg b base _ k hoff (hst 3 ha) hN
      (by rw [dz.2.2.2.1, dy.2.2.2.1, dx.2.2.2.1, h3])
      (step_z_other cfg b base _ 3 _ (by omega)
        (step_y_other cfg b base _ 3 _ (by omega)
          (step_x_other cfg b base s 3 k (by omega) hdup (hT 3 ha))))

/-- What the step loop may change. -/
theorem step_loop_shape (cfg : Config) (b : block_t) (n : Nat) (s : State) :
    ∃ cx cy cz ce px py pz pe e0 e1 e2 sec l,
      step_loop cfg b n s
        = { s with counter_x := cx, counter_y := cy, counter_z := cz, counter_e := ce,
                   count_position_x := px, count_position_y := py, count_position_z := pz,
                   count_position_e := pe, e_steps_0 := e0, e_steps_1 := e1, e_steps_2 := e2,
                   step_events_completed := sec, log := s.log ++ l } ∧
      discards l = 0 := by
  induction n generalizing s with
  | zero =>
    unfold step_loop
    exact ⟨s.counter_x, s.counter_y, s.counter_z, s.counter_e, s.count_position_x,
      s.count_position_y, s.count_position_z, s.count_position_e, s.e_steps_0, s.e_steps_1,
      s.e_steps_2, s.step_events_completed, [], by simp, rfl⟩
  | succ n ih =>
    unfold step_loop
    obtain ⟨cx, cy, cz, ce, px, py, pz, pe, e0, e1, e2, l, h, -, hd, -⟩ :=
      step_event_shape cfg b s
    simp only []
    split_ifs
    · rw [h]
      exact ⟨_, _, _, _, _, _, _, _, _, _, _, _, l, rfl, hd⟩
    · obtain ⟨cx', cy', cz', ce', px', py', pz', pe', e0', e1', e2', sec', l', h', hd'⟩ :=
        ih (step_event cfg b s)
      rw [h', h]
      refine ⟨cx', cy', cz', ce', px', py', pz', pe', e0', e1', e2', sec', l ++ l', ?_, ?_⟩
      · simp
      · rw [discards_append, hd, hd']

/-- The step loop entered with the block already complete (an endstop forced
step_events_completed) still executes one step event, unless step_loops is 0. -/
theorem step_loop_done (cfg : Config) (b : block_t) (n : Nat) (s : State)
    (h : b.step_event_count ≤ s.step_events_completed)
    (hlt : s.step_events_completed + 1 < 4294967296) :
    step_loop cfg b n s = if n = 0 then s else step_event cfg b s := by
  cases n with
  | zero => unfold step_loop; rfl
  | succ n =>
    unfold step_loop
    obtain ⟨cx, cy, cz, ce, px, py, pz, pe, e0, e1, e2, l, hs, -⟩ := step_event_shape cfg b s
    have hsec : (step_event cfg b s).step_events_completed = s.step_events_completed + 1 := by
      rw [hs]
      exact Nat.mod_eq_of_lt hlt
    simp only [Nat.succ_ne_zero, if_false, Nat.add_one_ne_zero]
    rw [if_pos (by rw [hsec]; omega)]

/-- The step loop without endstop latch: it executes min(n, N - k) step events. -/
theorem step_loop_tracking (cfg : Config) (b : block_t) (base : State) (n : Nat)
    (na : Nat) (hna : na ≤ 4) (hA : na = 4 → cfg.ADVANCE = false)
    (hst : ∀ a, a < na → b.steps a ≤ b.step_event_count)
    (hN : b.step_event_count < 2147483648) :
    ∀ (s : State) (k : Nat), s.step_events_completed = k → k < b.step_event_count →
      (∀ a, a < na → s.count_direction a = b.direction a) →
      s.extruder_duplication_enabled = base.extruder_duplication_enabled →
      (∀ a, a < na → Tracking cfg b base a k s) →
      (step_loop cfg b n s).step_events_completed = k + min n (b.step_event_count - k) ∧
      (∀ a, a < na →
        Tracking cfg b base a (k + min n (b.step_event_count - k)) (step_loop cfg b n s)) ∧
      step_events (step_loop cfg b n s).log
        = step_events s.log + min n (b.step_event_count - k) := by
  induction n with
  | zero =>
    intro s k hk hlt hd hdup hT
    unfold step_loop
    simp only [Nat.zero_min, Nat.add_zero]
    exact ⟨hk, hT, trivial⟩
  | succ n ih =>
    intro s k hk hlt hd hdup hT
    unfold step_loop
    obtain ⟨cx, cy, cz, ce, px, py, pz, pe, e0, e1, e2, l, hs, hev, -⟩ :=
      step_event_shape cfg b s
    have hT1 := step_event_tracking cfg b base s k na hna hA hst hN hd hdup hT
    have hsec : (step_event cfg b s).step_events_completed = k + 1 := by
      rw [hs]
      simp only []
      rw [hk]
      exact Nat.mod_eq_of_lt (by omega)
    have hlog : step_events (step_event cfg b s).log = step_events s.log + 1 := by
      rw [hs]
      simp only [step_events_append, hev]
    have hd1 : ∀ a, a < na → (step_event cfg b s).count_direction a = b.direction a := by
      intro a ha
      rw [← hd a ha, hs]
      rcases a with _ | _ | _ | _ | a <;> rfl
    have hdup1 : (step_event cfg b s).extruder_duplication_enabled
        = base.extruder_duplication_enabled := by
      rw [← hdup, hs]
    simp only []
    by_cases hfin : (step_event cfg b s).step_events_completed ≥ b.step_event_count
    · rw [if_pos hfin]
      rw [hsec] at hfin
      have hm : min (n + 1) (b.step_event_count - k) = 1 := by omega
      rw [hm]
      exact ⟨hsec, hT1, hlog⟩
    · rw [if_neg hfin]
      rw [hsec] at hfin
      obtain ⟨r1, r2, r3⟩ := ih (step_event cfg b s) (k + 1) hsec (by omega) hd1 hdup1 hT1
      have hm : k + 1 + min n (b.step_event_count - (k + 1))
          = k + min (n + 1) (b.step_event_count - k) := by omega
      rw [hm] at r1 r2
      refine ⟨r1, r2, ?_⟩
      rw [r3, hlog]
      omega

/-! ## Timer update, retirement and the handler -/

theorem advance_loop_shape (d : Int) (n : Nat) (s : State) :
    ∃ adv, advance_loop d n s = { s with advance := adv } := by
  induction n generalizing s with
  | zero => exact ⟨s.advance, by unfold advance_loop; rfl⟩
  | succ n ih =>
    unfold advance_loop
    obtain ⟨adv, h⟩ := ih { s with advance := s.advance + d }
    exact ⟨adv, by rw [h]⟩

theorem push_advance_shape (b : block_t) (s : State) :
    ∃ oadv e0 e1 e2,
      push_advance b s
        = { s with old_advance := oadv, e_steps_0 := e0, e_steps_1 := e1, e_steps_2 := e2 } := by
  unfold push_advance
  obtain ⟨e0, e1, e2, h⟩ := e_steps_add_shape s b.active_extruder ((s.advance >>> 8) - s.old_advance)
  simp only []
  rw [h]
  exact ⟨_, _, _, _, rfl⟩

theorem timer_log_quiet (l : List Event) (x : Int)
    (h : ∀ e ∈ l, Event.quiet e = true) :
    ∀ e ∈ l ++ [Event.timer_detach, Event.timer_attach_us x], Event.quiet e = true := by
  intro e he
  simp only [List.mem_append, List.mem_cons, List.mem_singleton, List.not_mem_nil,
    or_false] at he
  rcases he with he | he | he
  · exact h e he
  · subst he; rfl
  · subst he; rfl

/-- What the timer update may change. -/
theorem update_timer_shape (cfg : Config) (tb : Tables) (b : block_t) (s : State) :
    ∃ asr sl atm dt adv oadv e0 e1 e2 l,
      update_timer cfg tb b s
        = { s with acc_step_rate := asr, step_loops := sl, acceleration_time := atm,
                   deceleration_time := dt, advance := adv, old_advance := oadv,
                   e_steps_0 := e0, e_steps_1 := e1, e_steps_2 := e2, log := s.log ++ l } ∧
      (∀ e ∈ l, Event.quiet e = true) ∧
      (sl = s.step_loops_nominal % 256 ∨ sl = 1 ∨ sl = 2 ∨ sl = 4) := by
  unfold update_timer
  simp only [calc_timer_eq, State.emit]
  by_cases h1 : s.step_events_completed ≤ b.accelerate_until
  · rw [if_pos h1]
    rcases Bool.eq_false_or_eq_true cfg.ADVANCE with hA | hA
    · simp only [hA, if_true]
      split_ifs
      all_goals
        simp only []
        obtain ⟨adv, ha⟩ := advance_loop_shape _ _ _
        rw [ha]
        obtain ⟨oadv, e0, e1, e2, hp⟩ := push_advance_shape b _
        rw [hp]
        exact ⟨_, _, _, _, _, _, _, _, _, _, by simp only [List.append_assoc]; rfl,
          timer_log_quiet _ _ (calc_timer_log_quiet _ _ _),
          Or.inr (calc_timer_step_loops_cases _ _)⟩
    · simp only [hA, Bool.false_eq_true, if_false]
      split_ifs
      all_goals
        exact ⟨_, _, _, s.deceleration_time, s.advance, s.old_advance, s.e_steps_0, s.e_steps_1,
          s.e_steps_2, _, by simp only [List.append_assoc]; rfl,
          timer_log_quiet _ _ (calc_timer_log_quiet _ _ _),
          Or.inr (calc_timer_step_loops_cases _ _)⟩
  · rw [if_neg h1]
    by_cases h2 : s.step_events_completed > b.decelerate_after
    · rw [if_pos h2]
      rcases Bool.eq_false_or_eq_true cfg.ADVANCE with hA | hA
      · simp only [hA, if_true]
        obtain ⟨adv, ha⟩ := advance_loop_shape _ _ _
        rw [ha]
        simp only []
        split_ifs
        all_goals
          obtain ⟨oadv, e0, e1, e2, hp⟩ := push_advance_shape b _
          rw [hp]
          exact ⟨s.acc_step_rate, _, s.acceleration_time, _, _, _, _, _, _, _,
            by simp only [List.append_assoc]; rfl,
            timer_log_quiet _ _ (calc_timer_log_quiet _ _ _),
            Or.inr (calc_timer_step_loops_cases _ _)⟩
      · simp only [hA, Bool.false_eq_true, if_false]
        exact ⟨s.acc_step_rate, _, s.acceleration_time, _, s.advance, s.old_advance, s.e_steps_0,
          s.e_steps_1, s.e_steps_2, _, by simp only [List.append_assoc]; rfl,
          timer_log_quiet _ _ (calc_timer_log_quiet _ _ _),
          Or.inr (calc_timer_step_loops_cases _ _)⟩
    · rw [if_neg h2]
      exact ⟨s.acc_step_rate, _, s.acceleration_time, s.deceleration_time, s.advance,
        s.old_advance, s.e_steps_0, s.e_steps_1, s.e_steps_2,
        [Event.timer_detach, Event.timer_attach_us s.OCR1A_nominal],
        by simp, timer_log_quiet [] _ (by simp), Or.inl rfl⟩

theorem Tracking_quiet (cfg : Config) (b : block_t) (base : State) (a k : Nat) (s s' : State)
    (l : List Event)
    (hx : s'.counter_x = s.counter_x) (hy : s'.counter_y = s.counter_y)
    (hz : s'.counter_z = s.counter_z) (he : s'.counter_e = s.counter_e)
    (px : s'.count_position_x = s.count_position_x)
    (py : s'.count_position_y = s.count_position_y)
    (pz : s'.count_position_z = s.count_position_z)
    (pe : s'.count_position_e = s.count_position_e)
    (hl : s'.log = s.log ++ l) (hq : ∀ e ∈ l, Event.quiet e = true)
    (h : Tracking cfg b base a k s) : Tracking cfg b base a k s' := by
  refine Tracking_congr cfg b base a k s s' ?_ ?_ ?_ h
  · rcases a with _ | _ | _ | _ | a <;> simp only [State.counter, hx, hy, hz, he]
  · rcases a with _ | _ | _ | _ | a <;> simp only [State.count_position, px, py, pz, pe]
  · intro q hq'
    rw [hl, pin_writes_append, pin_writes_quiet cfg b base a q hq' l hq, Nat.add_zero]

theorem retire_block_eq (b : block_t) (s : State) :
    retire_block b s =
      if s.step_events_completed ≥ b.step_event_count then
        { s with current_block := none, queue := s.queue.tail,
                 log := s.log ++ [Event.plan_discard_current_block] }
      else s := by
  unfold retire_block plan_discard_current_block
  rfl

theorem stepper_int_handler_gated (cfg : Config) (tb : Tables) (pins : Pins) (s : State)
    (h : s.do_int = 0) : stepper_int_handler cfg tb pins s = s := by
  unfold stepper_int_handler
  rw [if_pos h]

theorem stepper_int_handler_current (cfg : Config) (tb : Tables) (pins : Pins) (s : State)
    (b : block_t) (h : s.do_int ≠ 0) (hcb : s.current_block = some b) :
    stepper_int_handler cfg tb pins s = trace_block cfg tb pins b s := by
  unfold stepper_int_handler
  rw [if_neg h]
  have ha : acquire_block cfg tb s = (s, false) := by
    unfold acquire_block
    rw [hcb]
  simp only [ha, Bool.false_eq_true, if_false, hcb]

theorem stepper_int_handler_idle (cfg : Config) (tb : Tables) (pins : Pins) (s : State)
    (h : s.do_int ≠ 0) (hcb : s.current_block = none) (hq : s.queue = []) :
    stepper_int_handler cfg tb pins s
      = { s with log := s.log ++ [Event.timer_detach, Event.timer_attach_us 1000] } := by
  unfold stepper_int_handler
  rw [if_neg h]
  have ha : acquire_block cfg tb s
      = ({ s with log := s.log ++ [Event.timer_detach, Event.timer_attach_us 1000] }, false) := by
    unfold acquire_block plan_get_current_block
    rw [hcb, hq]
    simp [State.emit]
    exact ⟨hcb, hq⟩
  simp only [ha, Bool.false_eq_true, if_false, hcb]

theorem stepper_int_handler_eq (cfg : Config) (tb : Tables) (pins : Pins) (s : State)
    (h : s.do_int ≠ 0) :
    stepper_int_handler cfg tb pins s =
      match isr_block cfg tb s with
      | some b => trace_block cfg tb pins b (acquire_block cfg tb s).1
      | none => (acquire_block cfg tb s).1 := by
  unfold stepper_int_handler isr_block
  rw [if_neg h, if_neg h]
  simp only []
  split_ifs with h2
  · rfl
  · rfl

theorem Untouched.andThen {s s' s'' : State} (h1 : Untouched s s') (h2 : Untouched s' s'') :
    Untouched s s'' :=
  ⟨h2.do_int.trans h1.do_int, h2.check_endstops.trans h1.check_endstops, h2.dup.trans h1.dup,
    h2.advance_rate.trans h1.advance_rate, h2.step_loops_nominal.trans h1.step_loops_nominal,
    h2.OCR1A_nominal.trans h1.OCR1A_nominal, h2.final_advance.trans h1.final_advance⟩

theorem SameBlock.followedBy {s s' s'' : State} (h1 : SameBlock s s') (h2 : SameBlock s' s'') :
    SameBlock s s'' :=
  ⟨h2.current_block.trans h1.current_block, h2.queue.trans h1.queue,
    h2.discards.trans h1.discards⟩

theorem SameEndstops.chain {s s' s'' : State} (h1 : SameEndstops s s')
    (h2 : SameEndstops s' s'') : SameEndstops s s'' :=
  ⟨h2.hit_x.trans h1.hit_x, h2.hit_y.trans h1.hit_y, h2.hit_z.trans h1.hit_z,
    h2.trig_x.trans h1.trig_x, h2.trig_y.trans h1.trig_y, h2.trig_z.trans h1.trig_z,
    h2.old_x_min.trans h1.old_x_min, h2.old_x_max.trans h1.old_x_max,
    h2.old_y_min.trans h1.old_y_min, h2.old_y_max.trans h1.old_y_max,
    h2.old_z_min.trans h1.old_z_min, h2.old_z_max.trans h1.old_z_max⟩

theorem SamePosition.compose {s s' s'' : State} (h1 : SamePosition s s')
    (h2 : SamePosition s' s'') : SamePosition s s'' :=
  ⟨h2.x.trans h1.x, h2.y.trans h1.y, h2.z.trans h1.z, h2.e.trans h1.e⟩

theorem SameTrace.tracking {s s' : State} (h : SameTrace s s') (cfg : Config) (b : block_t)
    (base : State) (a k : Nat) (hT : Tracking cfg b base a k s) : Tracking cfg b base a k s' := by
  obtain ⟨l, hl, hq⟩ := h.log
  exact Tracking_quiet cfg b base a k s s' l h.counter_x h.counter_y h.counter_z h.counter_e
    h.pos.x h.pos.y h.pos.z h.pos.e hl hq hT

theorem SameTrace.step_events {s s' : State} (h : SameTrace s s') :
    step_events s'.log = step_events s.log ∧ discards s'.log = discards s.log := by
  obtain ⟨l, hl, hq⟩ := h.log
  rw [hl, step_events_append, discards_append, step_events_quiet l hq, discards_quiet l hq]
  exact ⟨rfl, rfl⟩

/-! ### Frames of the phases -/

theorem acquire_block_frame (cfg : Config) (tb : Tables) (s : State) :
    SameEndstops s (acquire_block cfg tb s).1 ∧ SamePosition s (acquire_block cfg tb s).1 ∧
    (acquire_block cfg tb s).1.do_int = s.do_int ∧
    (acquire_block cfg tb s).1.check_endstops = s.check_endstops ∧
    (acquire_block cfg tb s).1.extruder_duplication_enabled = s.extruder_duplication_enabled ∧
    ∃ l, (acquire_block cfg tb s).1.log = s.log ++ l ∧ ∀ e ∈ l, Event.quiet e = true := by
  obtain ⟨cb, q, adv, fadv, oadv, e0, e1, e2, dt, ocr, sln, asr, sl, atm, cx, cy, cz, ce, sec, l,
    hl, h⟩ := acquire_block_shape cfg tb s
  rw [h]
  exact ⟨⟨rfl, rfl, rfl, rfl, rfl, rfl, rfl, rfl, rfl, rfl, rfl, rfl⟩, ⟨rfl, rfl, rfl, rfl⟩,
    rfl, rfl, rfl, l, rfl, hl⟩

theorem pass_frame (cfg : Config) (pins : Pins) (b : block_t) (s : State) :
    Untouched s (set_directions_check_endstops cfg pins b s) ∧
    SameBlock s (set_directions_check_endstops cfg pins b s) ∧
    SamePosition s (set_directions_check_endstops cfg pins b s) ∧
    (set_directions_check_endstops cfg pins b s).step_loops = s.step_loops ∧
    (set_directions_check_endstops cfg pins b s).counter_x = s.counter_x ∧
    (set_directions_check_endstops cfg pins b s).counter_y = s.counter_y ∧
    (set_directions_check_endstops cfg pins b s).counter_z = s.counter_z ∧
    (set_directions_check_endstops cfg pins b s).counter_e = s.counter_e ∧
    (set_directions_check_endstops cfg pins b s).log = s.log ++ direction_log cfg b s ∧
    (cfg.ADVANCE = false → ∀ a, a < 4 →
      (set_directions_check_endstops cfg pins b s).count_direction a = b.direction a) ∧
    (∀ a, a < 3 → (set_directions_check_endstops cfg pins b s).count_direction a
      = b.direction a) := by
  rw [set_directions_check_endstops_eq]
  refine ⟨⟨rfl, rfl, rfl, rfl, rfl, rfl, rfl⟩, ⟨rfl, rfl, ?_⟩, ⟨rfl, rfl, rfl, rfl⟩, rfl, rfl,
    rfl, rfl, rfl, rfl, ?_, ?_⟩
  · simp only [discards_append, discards_quiet _ (direction_log_quiet cfg b s), Nat.add_zero]
  · intro hA a ha
    interval_cases a
    · rfl
    · rfl
    · rfl
    · simp only [State.count_direction, hA, Bool.false_eq_true, if_false]
  · intro a ha
    interval_cases a <;> rfl

theorem step_loop_frame (cfg : Config) (b : block_t) (n : Nat) (s : State) :
    Untouched s (step_loop cfg b n s) ∧ SameBlock s (step_loop cfg b n s) ∧
    SameEndstops s (step_loop cfg b n s) ∧
    (step_loop cfg b n s).step_loops = s.step_loops ∧
    (∀ a, (step_loop cfg b n s).count_direction a = s.count_direction a) := by
  obtain ⟨cx, cy, cz, ce, px, py, pz, pe, e0, e1, e2, sec, l, h, hd⟩ := step_loop_shape cfg b n s
  rw [h]
  refine ⟨⟨rfl, rfl, rfl, rfl, rfl, rfl, rfl⟩, ⟨rfl, rfl, ?_⟩,
    ⟨rfl, rfl, rfl, rfl, rfl, rfl, rfl, rfl, rfl, rfl, rfl, rfl⟩, rfl, ?_⟩
  · simp only [discards_append, hd, Nat.add_zero]
  · intro a
    rcases a with _ | _ | _ | _ | a <;> rfl

theorem update_timer_frame (cfg : Config) (tb : Tables) (b : block_t) (s : State) :
    Untouched s (update_timer cfg tb b s) ∧ SameBlock s (update_timer cfg tb b s) ∧
    SameEndstops s (update_timer cfg tb b s) ∧ SameTrace s (update_timer cfg tb b s) ∧
    ((update_timer cfg tb b s).step_loops = s.step_loops_nominal % 256 ∨
      (update_timer cfg tb b s).step_loops = 1 ∨ (update_timer cfg tb b s).step_loops = 2 ∨
      (update_timer cfg tb b s).step_loops = 4) := by
  obtain ⟨asr, sl, atm, dt, adv, oadv, e0, e1, e2, l, h, hq, hsl⟩ :=
    update_timer_shape cfg tb b s
  rw [h]
  refine ⟨⟨rfl, rfl, rfl, rfl, rfl, rfl, rfl⟩, ⟨rfl, rfl, ?_⟩,
    ⟨rfl, rfl, rfl, rfl, rfl, rfl, rfl, rfl, rfl, rfl, rfl, rfl⟩,
    ⟨rfl, rfl, rfl, rfl, ⟨rfl, rfl, rfl, rfl⟩, rfl, l, rfl, hq⟩, hsl⟩
  simp only [discards_append, discards_quiet l hq, Nat.add_zero]

theorem retire_block_frame (b : block_t) (s : State) :
    Untouched s (retire_block b s) ∧ SameEndstops s (retire_block b s) ∧
    SamePosition s (retire_block b s) ∧
    (retire_block b s).step_events_completed = s.step_events_completed ∧
    (retire_block b s).step_loops = s.step_loops ∧
    (retire_block b s).counter_x = s.counter_x ∧ (retire_block b s).counter_y = s.counter_y ∧
    (retire_block b s).counter_z = s.counter_z ∧ (retire_block b s).counter_e = s.counter_e ∧
    step_events (retire_block b s).log = step_events s.log ∧
    (∀ p lvl, pin_writes p lvl (retire_block b s).log = pin_writes p lvl s.log) ∧
    (s.step_events_completed < b.step_event_count → retire_block b s = s) ∧
    (b.step_event_count ≤ s.step_events_completed →
      (retire_block b s).current_block = none ∧ (retire_block b s).queue = s.queue.tail ∧
      discards (retire_block b s).log = discards s.log + 1) := by
  rw [retire_block_eq]
  by_cases h : s.step_events_completed ≥ b.step_event_count
  · rw [if_pos h]
    refine ⟨⟨rfl, rfl, rfl, rfl, rfl, rfl, rfl⟩,
      ⟨rfl, rfl, rfl, rfl, rfl, rfl, rfl, rfl, rfl, rfl, rfl, rfl⟩, ⟨rfl, rfl, rfl, rfl⟩,
      rfl, rfl, rfl, rfl, rfl, rfl, ?_, ?_, ?_, ?_⟩
    · simp [step_events_append, step_events]
    · intro p lvl
      simp [pin_writes_append, pin_writes]
    · intro h2; omega
    · intro _
      refine ⟨rfl, rfl, ?_⟩
      simp [discards_append, discards]
  · rw [if_neg h]
    refine ⟨⟨rfl, rfl, rfl, rfl, rfl, rfl, rfl⟩,
      ⟨rfl, rfl, rfl, rfl, rfl, rfl, rfl, rfl, rfl, rfl, rfl, rfl⟩, ⟨rfl, rfl, rfl, rfl⟩,
      rfl, rfl, rfl, rfl, rfl, rfl, rfl, fun _ _ => rfl, fun _ => rfl, ?_⟩
    intro h2; omega

/-- One invocation tracing block b without an endstop latch: the step loop
executes min(step_loops, N - k) step events; the block is retired exactly
when that completes it. -/
theorem trace_block_no_latch (cfg : Config) (tb : Tables) (pins : Pins) (b : block_t)
    (base s : State) (k : Nat)
    (na : Nat) (hna : na ≤ 4) (hA : na = 4 → cfg.ADVANCE = false)
    (hst : ∀ a, a < na → b.steps a ≤ b.step_event_count)
    (hN : b.step_event_count < 2147483648)
    (hk : s.step_events_completed = k) (hlt : k < b.step_event_count)
    (hdup : s.extruder_duplication_enabled = base.extruder_duplication_enabled)
    (hT : ∀ a, a < na → Tracking cfg b base a k s)
    (hnl : ∀ a, a < 3 → axis_trigger cfg pins s b a = false) :
    (trace_block cfg tb pins b s).step_events_completed
        = k + min s.step_loops (b.step_event_count - k) ∧
    (∀ a, a < na → Tracking cfg b base a (k + min s.step_loops (b.step_event_count - k))
        (trace_block cfg tb pins b s)) ∧
    step_events (trace_block cfg tb pins b s).log
        = step_events s.log + min s.step_loops (b.step_event_count - k) ∧
    Untouched s (trace_block cfg tb pins b s) ∧
    ((trace_block cfg tb pins b s).step_loops = s.step_loops_nominal % 256 ∨
      (trace_block cfg tb pins b s).step_loops = 1 ∨
      (trace_block cfg tb pins b s).step_loops = 2 ∨
      (trace_block cfg tb pins b s).step_loops = 4) ∧
    (k + min s.step_loops (b.step_event_count - k) < b.step_event_count →
      SameBlock s (trace_block cfg tb pins b s)) ∧
    (k + min s.step_loops (b.step_event_count - k) = b.step_event_count →
      (trace_block cfg tb pins b s).current_block = none ∧
      (trace_block cfg tb pins b s).queue = s.queue.tail ∧
      discards (trace_block cfg tb pins b s).log = discards s.log + 1) := by
  unfold trace_block
  simp only []
  obtain ⟨u1, b1, p1, l1, c1x, c1y, c1z, c1e, lg1, d1, d2⟩ := pass_frame cfg pins b s
  have hdm : ∀ a, a < na →
      (set_directions_check_endstops cfg pins b s).count_direction a = b.direction a :=
    fun a ha => if h3 : a < 3 then d2 a h3 else d1 (hA (by omega)) a (by omega)
  have sec1 : (set_directions_check_endstops cfg pins b s).step_events_completed = k := by
    rw [set_directions_check_endstops_eq]
    simp only [hnl 0 (by omega), hnl 1 (by omega), hnl 2 (by omega), Bool.or_false, if_false,
      Bool.false_eq_true]
    exact hk
  have T1 : ∀ a, a < na → Tracking cfg b base a k (set_directions_check_endstops cfg pins b s) :=
    fun a ha => Tracking_quiet cfg b base a k s _ (direction_log cfg b s) c1x c1y c1z c1e
      p1.x p1.y p1.z p1.e lg1 (direction_log_quiet cfg b s) (hT a ha)
  have ev1 : step_events (set_directions_check_endstops cfg pins b s).log = step_events s.log := by
    rw [lg1, step_events_append, step_events_quiet _ (direction_log_quiet cfg b s)]
    rfl
  generalize set_directions_check_endstops cfg pins b s = s1 at *
  obtain ⟨r1, r2, r3⟩ := step_loop_tracking cfg b base s1.step_loops na hna hA hst hN s1 k sec1 hlt
    hdm (u1.dup.trans hdup) T1
  obtain ⟨u2, b2, -, l2, -⟩ := step_loop_frame cfg b s1.step_loops s1
  generalize step_loop cfg b s1.step_loops s1 = s2 at *
  rw [l1] at r1 r2 r3
  obtain ⟨u3, b3, -, t3, sl3⟩ := update_timer_frame cfg tb b s2
  have T3 := fun a (ha : a < na) => t3.tracking cfg b base a _ (r2 a ha)
  generalize update_timer cfg tb b s2 = s3 at *
  obtain ⟨u4, -, p4, sec4, l4, cx4, cy4, cz4, ce4, ev4, pw4, keep4, ret4⟩ :=
    retire_block_frame b s3
  have sec3 : s3.step_events_completed = k + min s.step_loops (b.step_event_count - k) :=
    t3.sec.trans r1
  refine ⟨sec4.trans sec3, ?_, ?_, ((u1.andThen u2).andThen u3).andThen u4, ?_, ?_, ?_⟩
  · intro a ha
    refine Tracking_congr cfg b base a _ s3 _ ?_ ?_ (fun q _ => pw4 q.1 q.2) (T3 a ha)
    · rcases a with _ | _ | _ | _ | a <;> simp only [State.counter, cx4, cy4, cz4, ce4]
    · rcases a with _ | _ | _ | _ | a <;>
        simp only [State.count_position, p4.x, p4.y, p4.z, p4.e]
  · rw [ev4, t3.step_events.1, r3, ev1]
  · rw [l4]
    rcases sl3 with h | h | h | h
    · left
      rw [h, u2.step_loops_nominal, u1.step_loops_nominal]
    · exact Or.inr (Or.inl h)
    · exact Or.inr (Or.inr (Or.inl h))
    · exact Or.inr (Or.inr (Or.inr h))
  · intro hlt2
    rw [keep4 (by rw [sec3]; exact hlt2)]
    exact (b1.followedBy b2).followedBy b3
  · intro heq
    obtain ⟨q1, q2, q3⟩ := ret4 (by rw [sec3, heq])
    refine ⟨q1, ?_, ?_⟩
    · rw [q2, b3.queue, b2.queue, b1.queue]
    · rw [q3, b3.discards, b2.discards, b1.discards]

/-- One invocation in which an endstop latches: the block is retired at the end
of the invocation, after at most one more step event. -/
theorem trace_block_latch (cfg : Config) (tb : Tables) (pins : Pins) (b : block_t)
    (s : State) (hN : b.step_event_count < 2147483648)
    (hl : axis_trigger cfg pins s b 0 = true ∨ axis_trigger cfg pins s b 1 = true
      ∨ axis_trigger cfg pins s b 2 = true) :
    (trace_block cfg tb pins b s).current_block = none ∧
    (trace_block cfg tb pins b s).queue = s.queue.tail ∧
    discards (trace_block cfg tb pins b s).log = discards s.log + 1 ∧
    (trace_block cfg tb pins b s).step_events_completed
      = (if s.step_loops = 0 then b.step_event_count else b.step_event_count + 1) ∧
    step_events (trace_block cfg tb pins b s).log
      = step_events s.log + (if s.step_loops = 0 then 0 else 1) ∧
    (∀ a, a < 4 →
      (trace_block cfg tb pins b s).count_position a = s.count_position a ∨
      (trace_block cfg tb pins b s).count_position a
        = s.count_position a + (set_directions_check_endstops cfg pins b s).count_direction a) := by
  unfold trace_block
  simp only []
  obtain ⟨u1, b1, p1, l1, -, -, -, -, lg1, -, -⟩ := pass_frame cfg pins b s
  have sec1 : (set_directions_check_endstops cfg pins b s).step_events_completed
      = b.step_event_count := by
    rw [set_directions_check_endstops_eq]
    have : (axis_trigger cfg pins s b 0 || axis_trigger cfg pins s b 1
        || axis_trigger cfg pins s b 2) = true := by
      rcases hl with h | h | h <;> simp [h]
    simp only [this, if_true]
    exact Nat.mod_eq_of_lt (by omega)
  have ev1 : step_events (set_directions_check_endstops cfg pins b s).log = step_events s.log := by
    rw [lg1, step_events_append, step_events_quiet _ (direction_log_quiet cfg b s)]
    rfl
  generalize set_directions_check_endstops cfg pins b s = s1 at *
  have hloop := step_loop_done cfg b s1.step_loops s1 (by omega) (by omega)
  obtain ⟨u2, b2, -, l2, -⟩ := step_loop_frame cfg b s1.step_loops s1
  obtain ⟨cx, cy, cz, ce, px, py, pz, pe, e0, e1, e2, l, hs, hev, -, qx, qy, qz, qe⟩ :=
    step_event_shape cfg b s1
  have sec2 : (step_loop cfg b s1.step_loops s1).step_events_completed
      = if s.step_loops = 0 then b.step_event_count else b.step_event_count + 1 := by
    rw [hloop, l1]
    split_ifs
    · exact sec1
    · rw [hs]
      simp only []
      rw [sec1]
      exact Nat.mod_eq_of_lt (by omega)
  have ev2 : step_events (step_loop cfg b s1.step_loops s1).log
      = step_events s.log + (if s.step_loops = 0 then 0 else 1) := by
    rw [hloop, l1]
    split_ifs
    · exact ev1
    · rw [hs]
      simp only [step_events_append, hev, ev1]
  have pos2 : ∀ a, a < 4 →
      (step_loop cfg b s1.step_loops s1).count_position a = s.count_position a ∨
      (step_loop cfg b s1.step_loops s1).count_position a
        = s.count_position a + s1.count_direction a := by
    intro a ha
    rw [hloop]
    split_ifs
    · left
      interval_cases a
      · exact p1.x
      · exact p1.y
      · exact p1.z
      · exact p1.e
    · rw [hs]
      interval_cases a
      · simp only [State.count_position, State.count_direction, ← p1.x]; exact qx
      · simp only [State.count_position, State.count_direction, ← p1.y]; exact qy
      · simp only [State.count_position, State.count_direction, ← p1.z]; exact qz
      · simp only [State.count_position, State.count_direction, ← p1.e]; exact qe
  generalize step_loop cfg b s1.step_loops s1 = s2 at *
  obtain ⟨u3, b3, -, t3, -⟩ := update_timer_frame cfg tb b s2
  generalize update_timer cfg tb b s2 = s3 at *
  obtain ⟨u4, -, p4, sec4, -, -, -, -, -, ev4, -, -, ret4⟩ := retire_block_frame b s3
  have sec3 : s3.step_events_completed
      = if s.step_loops = 0 then b.step_event_count else b.step_event_count + 1 :=
    t3.sec.trans sec2
  obtain ⟨q1, q2, q3⟩ := ret4 (by rw [sec3]; split_ifs <;> omega)
  refine ⟨q1, ?_, ?_, sec4.trans sec3, ?_, ?_⟩
  · rw [q2, b3.queue, b2.queue, b1.queue]
  · rw [q3, b3.discards, b2.discards, b1.discards]
  · rw [ev4, t3.step_events.1, ev2]
  · intro a ha
    have h := pos2 a ha
    interval_cases a
    · simp only [State.count_position] at h ⊢; rw [p4.x, t3.pos.x]; exact h
    · simp only [State.count_position] at h ⊢; rw [p4.y, t3.pos.y]; exact h
    · simp only [State.count_position] at h ⊢; rw [p4.z, t3.pos.z]; exact h
    · simp only [State.count_position] at h ⊢; rw [p4.e, t3.pos.e]; exact h

/-! ### Endstop outcome of one invocation -/

theorem SameEndstops.olds {s s' : State} (h : SameEndstops s s') :
    ∀ e, s'.old_endstop e = s.old_endstop e := by
  intro e
  cases e
  · exact h.old_x_min
  · exact h.old_x_max
  · exact h.old_y_min
  · exact h.old_y_max
  · exact h.old_z_min
  · exact h.old_z_max

theorem axis_trigger_congr (cfg : Config) (pins : Pins) (b : block_t) (s s' : State) (a : Nat)
    (hc : s'.check_endstops = s.check_endstops)
    (ho : ∀ e, s'.old_endstop e = s.old_endstop e) :
    axis_trigger cfg pins s' b a = axis_trigger cfg pins s b a := by
  unfold axis_trigger endstop_trigger
  simp only [hc, ho]

theorem endstop_stored_congr (cfg : Config) (pins : Pins) (b : block_t) (s s' : State)
    (e : Endstop) (hc : s'.check_endstops = s.check_endstops)
    (ho : ∀ e, s'.old_endstop e = s.old_endstop e) :
    endstop_stored cfg pins s' b e = endstop_stored cfg pins s b e := by
  unfold endstop_stored
  simp only [hc, ho]

theorem acquire_block_idle (cfg : Config) (tb : Tables) (s : State)
    (hcb : s.current_block = none) (hq : s.queue = []) :
    acquire_block cfg tb s
      = ({ s with log := s.log ++ [Event.timer_detach, Event.timer_attach_us 1000] },
         false) := by
  unfold acquire_block plan_get_current_block
  rw [hcb, hq]
  simp [State.emit]
  exact ⟨hcb, hq⟩

theorem acquire_block_current (cfg : Config) (tb : Tables) (s : State) (b : block_t)
    (hcb : s.current_block = some b) : acquire_block cfg tb s = (s, false) := by
  unfold acquire_block
  rw [hcb]

theorem SameEndstops.refl (s : State) : SameEndstops s s :=
  ⟨rfl, rfl, rfl, rfl, rfl, rfl, rfl, rfl, rfl, rfl, rfl, rfl⟩

theorem endstops_hit_on_purpose_olds (s : State) :
    (endstops_hit_on_purpose s).check_endstops = s.check_endstops ∧
    ∀ e, (endstops_hit_on_purpose s).old_endstop e = s.old_endstop e := by
  refine ⟨rfl, ?_⟩
  intro e
  cases e <;> rfl

/-- The latches, trigger positions and stored readings after tracing block b
for one invocation are those the endstop pass leaves. -/
theorem trace_block_endstops (cfg : Config) (tb : Tables) (pins : Pins) (b : block_t)
    (s : State) :
    (∀ a, a < 3 → (trace_block cfg tb pins b s).endstop_hit a
      = (s.endstop_hit a || axis_trigger cfg pins s b a)) ∧
    (∀ a, a < 3 → (trace_block cfg tb pins b s).endstops_trigsteps a
      = (if axis_trigger cfg pins s b a then s.count_position a else s.endstops_trigsteps a)) ∧
    (∀ e, (trace_block cfg tb pins b s).old_endstop e = endstop_stored cfg pins s b e) ∧
    Untouched s (trace_block cfg tb pins b s) := by
  unfold trace_block
  simp only []
  obtain ⟨u1, -⟩ := pass_frame cfg pins b s
  have h1 := set_directions_check_endstops_eq cfg pins b s
  obtain ⟨u2, -, e2, -⟩ := step_loop_frame cfg b
    (set_directions_check_endstops cfg pins b s).step_loops
    (set_directions_check_endstops cfg pins b s)
  generalize step_loop cfg b (set_directions_check_endstops cfg pins b s).step_loops
    (set_directions_check_endstops cfg pins b s) = s2 at *
  obtain ⟨u3, -, e3, -⟩ := update_timer_frame cfg tb b s2
  generalize update_timer cfg tb b s2 = s3 at *
  obtain ⟨u4, e4, -⟩ := retire_block_frame b s3
  have e := (e2.chain e3).chain e4
  generalize retire_block b s3 = s4 at *
  rw [h1] at e
  refine ⟨?_, ?_, ?_, ((u1.andThen u2).andThen u3).andThen u4⟩
  · intro a ha
    interval_cases a
    · exact e.hit_x
    · exact e.hit_y
    · exact e.hit_z
  · intro a ha
    interval_cases a
    · exact e.trig_x
    · exact e.trig_y
    · exact e.trig_z
  · intro en
    cases en
    · exact e.old_x_min
    · exact e.old_x_max
    · exact e.old_y_min
    · exact e.old_y_max
    · exact e.old_z_min
    · exact e.old_z_max

theorem isr_block_clear (cfg : Config) (tb : Tables) (s : State) :
    isr_block cfg tb (endstops_hit_on_purpose s) = isr_block cfg tb s := by
  unfold isr_block
  have hd : (endstops_hit_on_purpose s).do_int = s.do_int := rfl
  rw [hd]
  by_cases h0 : s.do_int = 0
  · rw [if_pos h0, if_pos h0]
  · rw [if_neg h0, if_neg h0]
    rcases hcb : s.current_block with _ | b
    · rcases hq : s.queue with _ | ⟨b0, rest⟩
      · rw [acquire_block_idle cfg tb s hcb hq,
          acquire_block_idle cfg tb (endstops_hit_on_purpose s) hcb hq]
        rfl
      · obtain ⟨_, _, _, _, _, _, _, -, h1⟩ := acquire_block_some cfg tb s b0 rest hcb hq
        obtain ⟨_, _, _, _, _, _, _, -, h2⟩ :=
          acquire_block_some cfg tb (endstops_hit_on_purpose s) b0 rest hcb hq
        rw [h1, h2]
    · rw [acquire_block_current cfg tb s b hcb,
        acquire_block_current cfg tb (endstops_hit_on_purpose s) b hcb]
      rfl

/-- An endstop latches in an invocation exactly when the invocation traces a
block and one of the three axes meets the latch condition. -/
theorem isr_latches_eq (cfg : Config) (tb : Tables) (pins : Pins) (s : State) :
    isr_latches cfg tb pins s =
      match isr_block cfg tb s with
      | some b => axis_trigger cfg pins s b 0 || axis_trigger cfg pins s b 1
          || axis_trigger cfg pins s b 2
      | none => false := by
  unfold isr_latches
  simp only []
  by_cases h0 : s.do_int = 0
  · have hb : isr_block cfg tb s = none := by
      unfold isr_block
      rw [if_pos h0]
    rw [hb, stepper_int_handler_gated cfg tb pins (endstops_hit_on_purpose s) h0]
    rfl
  · rw [stepper_int_handler_eq cfg tb pins (endstops_hit_on_purpose s) h0, isr_block_clear]
    obtain ⟨fe, -, -, fc, -, -⟩ := acquire_block_frame cfg tb (endstops_hit_on_purpose s)
    rcases hb : isr_block cfg tb s with _ | b
    · simp only []
      rw [fe.hit_x, fe.hit_y, fe.hit_z]
      rfl
    · simp only []
      obtain ⟨h1, -, -, -⟩ := trace_block_endstops cfg tb pins b
        (acquire_block cfg tb (endstops_hit_on_purpose s)).1
      have hx := h1 0 (by omega)
      have hy := h1 1 (by omega)
      have hz := h1 2 (by omega)
      simp only [State.endstop_hit] at hx hy hz
      rw [hx, hy, hz, fe.hit_x, fe.hit_y, fe.hit_z]
      have hc : ∀ a, axis_trigger cfg pins (acquire_block cfg tb (endstops_hit_on_purpose s)).1 b a
          = axis_trigger cfg pins s b a := by
        intro a
        rw [axis_trigger_congr cfg pins b (endstops_hit_on_purpose s) _ a fc fe.olds]
        exact axis_trigger_congr cfg pins b s _ a rfl (endstops_hit_on_purpose_olds s).2
      rw [hc 0, hc 1, hc 2]
      rfl

theorem isr_run_front (cfg : Config) (tb : Tables) (inp : Nat → Pins) (j : Nat) (s : State) :
    isr_run cfg tb inp (j + 1) s
      = isr_run cfg tb (fun i => inp (i + 1)) j (stepper_int_handler cfg tb (inp 0) s) := by
  induction j with
  | zero => rw [isr_run_succ, isr_run_zero, isr_run_zero]
  | succ j ih => rw [isr_run_succ, ih, isr_run_succ]

theorem isr_run_add (cfg : Config) (tb : Tables) (inp : Nat → Pins) (j k : Nat) (s : State) :
    isr_run cfg tb inp (j + k) s
      = isr_run cfg tb (fun i => inp (j + i)) k (isr_run cfg tb inp j s) := by
  induction k with
  | zero => rw [Nat.add_zero, isr_run_zero]
  | succ k ih => rw [← Nat.add_assoc, isr_run_succ, ih, isr_run_succ]

theorem isr_block_current (cfg : Config) (tb : Tables) (s : State) (b : block_t)
    (h0 : s.do_int ≠ 0) (hcb : s.current_block = some b) : isr_block cfg tb s = some b := by
  unfold isr_block
  rw [if_neg h0, acquire_block_current cfg tb s b hcb]
  simp only [Bool.false_eq_true, if_false]
  exact hcb

theorem no_latch_of (cfg : Config) (tb : Tables) (pins : Pins) (s : State) (b : block_t)
    (hb : isr_block cfg tb s = some b) (h : isr_latches cfg tb pins s = false) :
    ∀ a, a < 3 → axis_trigger cfg pins s b a = false := by
  rw [isr_latches_eq, hb] at h
  simp only [Bool.or_eq_false_iff] at h
  intro a ha
  interval_cases a
  · exact h.1.1
  · exact h.1.2
  · exact h.2

/-- One invocation on a current block without endstop latch. -/
theorem active_step (cfg : Config) (tb : Tables) (pins : Pins) (b : block_t) (base s : State)
    (k : Nat) (na : Nat) (hna : na ≤ 4) (hA : na = 4 → cfg.ADVANCE = false)
    (hst : ∀ a, a < na → b.steps a ≤ b.step_event_count)
    (hN : b.step_event_count < 2147483648)
    (h0 : s.do_int ≠ 0) (hcb : s.current_block = some b) (hk : s.step_events_completed = k)
    (hlt : k < b.step_event_count)
    (hdup : s.extruder_duplication_enabled = base.extruder_duplication_enabled)
    (hT : ∀ a, a < na → Tracking cfg b base a k s) (hL : LoopsOK s)
    (hnl : isr_latches cfg tb pins s = false) :
    ∃ k', k < k' ∧ k' ≤ b.step_event_count ∧
      (stepper_int_handler cfg tb pins s).step_events_completed = k' ∧
      (∀ a, a < na → Tracking cfg b base a k' (stepper_int_handler cfg tb pins s)) ∧
      step_events (stepper_int_handler cfg tb pins s).log = step_events s.log + (k' - k) ∧
      Untouched s (stepper_int_handler cfg tb pins s) ∧
      (k' < b.step_event_count →
        SameBlock s (stepper_int_handler cfg tb pins s) ∧
        LoopsOK (stepper_int_handler cfg tb pins s)) ∧
      (k' = b.step_event_count →
        (stepper_int_handler cfg tb pins s).current_block = none ∧
        (stepper_int_handler cfg tb pins s).queue = s.queue.tail ∧
        discards (stepper_int_handler cfg tb pins s).log = discards s.log + 1) := by
  have hb := isr_block_current cfg tb s b h0 hcb
  have htr := no_latch_of cfg tb pins s b hb hnl
  rw [stepper_int_handler_current cfg tb pins s b h0 hcb]
  obtain ⟨t1, t2, t3, t4, t5, t6, t7⟩ :=
    trace_block_no_latch cfg tb pins b base s k na hna hA hst hN hk hlt hdup hT htr
  have hm : 1 ≤ min s.step_loops (b.step_event_count - k) := by
    rcases hL.1 with h | h | h <;> rw [h] <;> omega
  have hmle : min s.step_loops (b.step_event_count - k) ≤ b.step_event_count - k :=
    Nat.min_le_right _ _
  generalize min s.step_loops (b.step_event_count - k) = m at *
  generalize trace_block cfg tb pins b s = s' at *
  refine ⟨k + m, by omega, by omega, t1, t2, by rw [t3]; omega, t4, ?_, t7⟩
  intro hlt2
  refine ⟨t6 hlt2, ?_, ?_⟩
  · rcases t5 with h | h
    · rw [h]
      rcases hL.2 with h2 | h2 | h2 <;> rw [h2] <;> simp
    · exact h
  · rw [t4.step_loops_nominal]
    exact hL.2

/-- A block that is current with k < N step events done and meets no endstop
latch while it is current is retired after at most N - k further invocations,
having executed exactly N step events. -/
theorem block_active (cfg : Config) (tb : Tables) (b : block_t) (base : State)
    (na : Nat) (hna : na ≤ 4) (hA : na = 4 → cfg.ADVANCE = false)
    (hst : ∀ a, a < na → b.steps a ≤ b.step_event_count)
    (hN : b.step_event_count < 2147483648) (Q : State → Prop)
    (hQ : ∀ (pins : Pins) (t : State) (k : Nat), t.do_int ≠ 0 → t.current_block = some b →
      t.step_events_completed = k → k < b.step_event_count → LoopsOK t →
      isr_latches cfg tb pins t = false → Q t → Q (stepper_int_handler cfg tb pins t)) :
    ∀ (r : Nat) (inp : Nat → Pins) (s : State) (k : Nat),
      b.step_event_count - k ≤ r →
      s.do_int ≠ 0 → s.current_block = some b → s.step_events_completed = k →
      k < b.step_event_count →
      s.extruder_duplication_enabled = base.extruder_duplication_enabled →
      (∀ a, a < na → Tracking cfg b base a k s) → LoopsOK s → Q s →
      (∀ i, i < r → (∀ m, m ≤ i → (isr_run cfg tb inp m s).current_block = some b) →
        isr_latches cfg tb (inp i) (isr_run cfg tb inp i s) = false) →
      ∃ j, 1 ≤ j ∧ j ≤ b.step_event_count - k ∧
        (∀ i, i < j → (isr_run cfg tb inp i s).current_block = some b) ∧
        (isr_run cfg tb inp j s).current_block = none ∧
        (isr_run cfg tb inp j s).queue = s.queue.tail ∧
        (isr_run cfg tb inp j s).step_events_completed = b.step_event_count ∧
        (∀ a, a < na → Tracking cfg b base a b.step_event_count (isr_run cfg tb inp j s)) ∧
        step_events (isr_run cfg tb inp j s).log
          = step_events s.log + (b.step_event_count - k) ∧
        Untouched s (isr_run cfg tb inp j s) ∧
        discards (isr_run cfg tb inp j s).log = discards s.log + 1 ∧
        ∀ i, i ≤ j → Q (isr_run cfg tb inp i s) ∧
          (1 ≤ i → k < (isr_run cfg tb inp i s).step_events_completed) := by
  intro r
  induction r with
  | zero =>
    intro inp s k hr _ _ _ hlt
    omega
  | succ r ih =>
    intro inp s k hr h0 hcb hk hlt hdup hT hL hQs hnl
    have hnl0 := hnl 0 (by omega) (by
      intro m hm
      have : m = 0 := by omega
      subst this
      rw [isr_run_zero]
      exact hcb)
    rw [isr_run_zero] at hnl0
    have hQ1 := hQ (inp 0) s k h0 hcb hk hlt hL hnl0 hQs
    obtain ⟨k', a1, a2, a3, a4, a5, a6, a7, a8⟩ :=
      active_step cfg tb (inp 0) b base s k na hna hA hst hN h0 hcb hk hlt hdup hT hL hnl0
    have e1 : isr_run cfg tb inp 1 s = stepper_int_handler cfg tb (inp 0) s := by
      rw [isr_run_succ, isr_run_zero]
    have hfront := fun j => isr_run_front cfg tb inp j s
    generalize stepper_int_handler cfg tb (inp 0) s = s1 at *
    by_cases hfin : k' = b.step_event_count
    · obtain ⟨q1, q2, q3⟩ := a8 hfin
      subst hfin
      refine ⟨1, le_refl _, by omega, ?_, ?_⟩
      · intro i hi
        have : i = 0 := by omega
        subst this
        rw [isr_run_zero]
        exact hcb
      · rw [e1]
        refine ⟨q1, q2, a3, a4, a5, a6, q3, ?_⟩
        intro i hi
        rcases i with _ | i
        · rw [isr_run_zero]
          exact ⟨hQs, fun h => absurd h (by omega)⟩
        · have : i = 0 := by omega
          subst this
          rw [e1]
          exact ⟨hQ1, fun _ => by rw [a3]; exact a1⟩
    · obtain ⟨sb, hL1⟩ := a7 (by omega)
      obtain ⟨j, j1, j2, j3, j4, j5, j6, j7, j8, j9, j10, j11⟩ :=
        ih (fun i => inp (i + 1)) s1 k' (by omega)
          (by rw [a6.do_int]; exact h0) (by rw [sb.current_block]; exact hcb) a3 (by omega)
          (a6.dup.trans hdup) a4 hL1 hQ1
          (by
            intro i hi hm
            rw [← hfront]
            refine hnl (i + 1) (by omega) ?_
            intro m hmi
            rcases m with _ | m
            · rw [isr_run_zero]
              exact hcb
            · rw [hfront]
              exact hm m (by omega))
      refine ⟨j + 1, by omega, by omega, ?_, ?_⟩
      · intro i hi
        rcases i with _ | i
        · rw [isr_run_zero]
          exact hcb
        · rw [hfront]
          exact j3 i (by omega)
      · rw [hfront]
        refine ⟨j4, by rw [j5, sb.queue], j6, j7, by rw [j8, a5]; omega, a6.andThen j9,
          by rw [j10, sb.discards], ?_⟩
        intro i hi
        rcases i with _ | i
        · rw [isr_run_zero]
          exact ⟨hQs, fun h => absurd h (by omega)⟩
        · rw [hfront]
          refine ⟨(j11 i (by omega)).1, fun _ => ?_⟩
          rcases i with _ | i
          · rw [isr_run_zero, a3]
            exact a1
          · have := (j11 (i + 1) (by omega)).2 (by omega)
            omega

/-- The state in which a block has just been acquired. -/
theorem acquire_block_tracking (cfg : Config) (tb : Tables) (s : State) (b0 : block_t)
    (rest : List block_t) (hcb : s.current_block = none) (hq : s.queue = b0 :: rest)
    (hN1 : 1 ≤ b0.step_event_count) (hN : b0.step_event_count < 2147483648) :
    ∃ S, acquire_block cfg tb s = (S, cfg.Z_LATE_ENABLE && decide (b0.steps_z > 0)) ∧
      S.current_block = some { b0 with busy := true } ∧
      S.queue = { b0 with busy := true } :: rest ∧
      S.step_events_completed = 0 ∧
      S.do_int = s.do_int ∧ S.check_endstops = s.check_endstops ∧
      S.extruder_duplication_enabled = s.extruder_duplication_enabled ∧
      SameEndstops s S ∧ SamePosition s S ∧ LoopsOK S ∧
      step_events S.log = step_events s.log ∧ discards S.log = discards s.log ∧
      ∀ a, a < 4 → Tracking cfg { b0 with busy := true } s a 0 S := by
  obtain ⟨adv, fadv, oadv, e0, e1, e2, l, hl, h⟩ := acquire_block_some cfg tb s b0 rest hcb hq
  refine ⟨_, h, rfl, rfl, rfl, rfl, rfl, rfl,
    ⟨rfl, rfl, rfl, rfl, rfl, rfl, rfl, rfl, rfl, rfl, rfl, rfl⟩, ⟨rfl, rfl, rfl, rfl⟩,
    ⟨calc_timer_step_loops_cases _ _, calc_timer_step_loops_cases _ _⟩, ?_, ?_, ?_⟩
  · simp only [step_events_append, step_events_quiet l hl, Nat.add_zero]
  · simp only [discards_append, discards_quiet l hl, Nat.add_zero]
  · intro a ha
    have hhalf : ((b0.step_event_count >>> 1 : Nat) : Int) < b0.step_event_count := by
      have : b0.step_event_count >>> 1 < b0.step_event_count := by
        rw [Nat.shiftRight_eq_div_pow]
        omega
      exact_mod_cast this
    have hhalf0 : (0 : Int) ≤ ((b0.step_event_count >>> 1 : Nat) : Int) := by positivity
    have hN2 : (b0.step_event_count : Int) < 2147483648 := by exact_mod_cast hN
    have hw : wrapLong (-((b0.step_event_count >>> 1 : Nat) : Int))
        = -((b0.step_event_count >>> 1 : Nat) : Int) :=
      wrapLong_of_range _ (by omega) (by omega)
    refine ⟨0, ?_, ?_, ?_, ?_, ?_⟩
    · interval_cases a <;> simp only [State.counter, hw] <;> simp
    · interval_cases a <;> simp only [State.counter, hw] <;> omega
    · interval_cases a <;> simp only [State.counter, hw] <;> omega
    · interval_cases a <;> simp [State.count_position]
    · intro q hq'
      simp only [pin_writes_append,
        pin_writes_quiet cfg { b0 with busy := true } s a q hq' l hl, Nat.add_zero]

theorem stepper_int_handler_acquire (cfg : Config) (tb : Tables) (pins : Pins) (s S : State)
    (b : block_t) (flag : Bool) (h0 : s.do_int ≠ 0) (ha : acquire_block cfg tb s = (S, flag))
    (hS : S.current_block = some b) :
    stepper_int_handler cfg tb pins s = if flag then S else trace_block cfg tb pins b S := by
  unfold stepper_int_handler
  rw [if_neg h0, ha]
  simp only [hS]

theorem isr_block_acquire (cfg : Config) (tb : Tables) (s S : State)
    (b : block_t) (flag : Bool) (h0 : s.do_int ≠ 0) (ha : acquire_block cfg tb s = (S, flag))
    (hS : S.current_block = some b) :
    isr_block cfg tb s = if flag then none else some b := by
  unfold isr_block
  rw [if_neg h0, ha]
  simp only [hS]

/-- At the end of a block the number of pulses of an axis is its step count. -/
theorem Tracking_final (cfg : Config) (b : block_t) (base s : State) (a : Nat)
    (hN1 : 1 ≤ b.step_event_count)
    (hT : Tracking cfg b base a b.step_event_count s) :
    s.count_position a = base.count_position a + b.direction a * (b.steps a : Int) ∧
    ∀ q ∈ axis_pins cfg b base a,
      pin_writes q.1 q.2 s.log = pin_writes q.1 q.2 base.log + b.steps a := by
  obtain ⟨p, h1, h2, h3, h4, h5⟩ := hT
  have hp : p = b.steps a := dda_final b.step_event_count (b.steps a) p _ h1 h2 h3 hN1
  subst hp
  exact ⟨h4, h5⟩

/-- A block taken from the queue and meeting no endstop latch while it is traced
is retired after at most N + 1 invocations, having executed exactly N step
events, pulsed every axis steps[a] times and moved it steps[a] positions. -/
theorem block_run (cfg : Config) (tb : Tables) (inp : Nat → Pins) (s : State) (b0 : block_t)
    (rest : List block_t) (na : Nat) (hna : na ≤ 4) (hA : na = 4 → cfg.ADVANCE = false)
    (h0 : s.do_int ≠ 0) (hcb : s.current_block = none) (hq : s.queue = b0 :: rest)
    (hN1 : 1 ≤ b0.step_event_count) (hN : b0.step_event_count < 2147483648)
    (hst : ∀ a, a < na → b0.steps a ≤ b0.step_event_count)
    (hnl : ∀ i, i ≤ b0.step_event_count →
      (∀ m, 1 ≤ m → m ≤ i →
        (isr_run cfg tb inp m s).current_block = some { b0 with busy := true }) →
      isr_latches cfg tb (inp i) (isr_run cfg tb inp i s) = false)
    (Q : State → Prop)
    (hQ : ∀ (pins : Pins) (t : State) (k : Nat), t.do_int ≠ 0 →
      t.current_block = some { b0 with busy := true } →
      t.step_events_completed = k → k < b0.step_event_count → LoopsOK t →
      isr_latches cfg tb pins t = false → Q t → Q (stepper_int_handler cfg tb pins t))
    (hQ0 : Q (acquire_block cfg tb s).1) :
    ∃ j, 1 ≤ j ∧ j ≤ b0.step_event_count + 1 ∧
      (∀ i, 1 ≤ i → i < j →
        (isr_run cfg tb inp i s).current_block = some { b0 with busy := true }) ∧
      (isr_run cfg tb inp j s).current_block = none ∧
      (isr_run cfg tb inp j s).queue = rest ∧
      (isr_run cfg tb inp j s).step_events_completed = b0.step_event_count ∧
      step_events (isr_run cfg tb inp j s).log = step_events s.log + b0.step_event_count ∧
      discards (isr_run cfg tb inp j s).log = discards s.log + 1 ∧
      (∀ a, a < na → ∀ q ∈ axis_pins cfg b0 s a,
        pin_writes q.1 q.2 (isr_run cfg tb inp j s).log
          = pin_writes q.1 q.2 s.log + b0.steps a) ∧
      (∀ a, a < na → (isr_run cfg tb inp j s).count_position a
        = s.count_position a + b0.direction a * (b0.steps a : Int)) ∧
      (isr_run cfg tb inp j s).do_int = s.do_int ∧
      (isr_run cfg tb inp j s).check_endstops = s.check_endstops ∧
      (isr_run cfg tb inp j s).extruder_duplication_enabled
        = s.extruder_duplication_enabled ∧
      ∀ i, 1 ≤ i → i ≤ j → Q (isr_run cfg tb inp i s) ∧
        ((cfg.Z_LATE_ENABLE && decide (b0.steps_z > 0)) = false →
          0 < (isr_run cfg tb inp i s).step_events_completed) := by
  obtain ⟨S, ha, s1, s2, s3, s4, s5, s6, s7, s8, s9, s10, s11, s12⟩ :=
    acquire_block_tracking cfg tb s b0 rest hcb hq hN1 hN
  have hQS : Q S := by
    rw [ha] at hQ0
    exact hQ0
  clear hQ0
  have hst' : ∀ a, a < na → ({ b0 with busy := true } : block_t).steps a
      ≤ ({ b0 with busy := true } : block_t).step_event_count := hst
  have hbN : ({ b0 with busy := true } : block_t).step_event_count = b0.step_event_count := rfl
  have hfin : ∀ (s' : State) (a : Nat),
      Tracking cfg { b0 with busy := true } s a
        ({ b0 with busy := true } : block_t).step_event_count s' →
      s'.count_position a = s.count_position a + b0.direction a * (b0.steps a : Int) ∧
      ∀ q ∈ axis_pins cfg b0 s a,
        pin_writes q.1 q.2 s'.log = pin_writes q.1 q.2 s.log + b0.steps a :=
    fun s' a hT => Tracking_final cfg { b0 with busy := true } s s' a hN1 hT
  generalize ({ b0 with busy := true } : block_t) = b at *
  have hact := block_active cfg tb b s na hna hA hst' (by omega) Q
    (fun pins t k h1 h2 h3 h4 => hQ pins t k h1 h2 h3 (by omega))
    b0.step_event_count
  have hh := stepper_int_handler_acquire cfg tb (inp 0) s S _ _ h0 ha s1
  have hib := isr_block_acquire cfg tb s S _ _ h0 ha s1
  have hfront := fun j => isr_run_front cfg tb inp j s
  have hnl0 := hnl 0 (by omega) (by intro m h1 h2; omega)
  rw [isr_run_zero] at hnl0
  have hS0 : S.do_int ≠ 0 := by rw [s4]; exact h0
  rcases Bool.eq_false_or_eq_true (cfg.Z_LATE_ENABLE && decide (b0.steps_z > 0)) with hz | hz
  · -- the handler returns at line 259 and traces from the next invocation on
    rw [hz] at hh
    simp only [if_true] at hh
    rw [hh] at hfront
    obtain ⟨j, j1, j2, j3, j4, j5, j6, j7, j8, j9, j10, j11⟩ :=
      hact (fun i => inp (i + 1)) S 0 (by omega) hS0 s1 s3 (by omega) s6
        (fun a ha => s12 a (by omega)) s9 hQS
        (by
          intro i hi hm
          rw [← hfront]
          refine hnl (i + 1) (by omega) ?_
          intro m hm1 hm2
          obtain ⟨m', rfl⟩ : ∃ m', m = m' + 1 := ⟨m - 1, by omega⟩
          rw [hfront]
          exact hm m' (by omega))
    refine ⟨j + 1, by omega, by omega, ?_, ?_⟩
    · intro i hi1 hi2
      obtain ⟨i', rfl⟩ : ∃ i', i = i' + 1 := ⟨i - 1, by omega⟩
      rw [hfront]
      exact j3 i' (by omega)
    · rw [hfront]
      refine ⟨j4, by rw [j5, s2]; rfl, by rw [j6, hbN], by rw [j8, s10]; omega,
        by rw [j10, s11], fun a ha => (hfin _ a (j7 a ha)).2, fun a ha => (hfin _ a (j7 a ha)).1,
        by rw [j9.do_int, s4], by rw [j9.check_endstops, s5], by rw [j9.dup, s6], ?_⟩
      intro i hi1 hi2
      obtain ⟨i', rfl⟩ : ∃ i', i = i' + 1 := ⟨i - 1, by omega⟩
      rw [hfront]
      exact ⟨(j11 i' (by omega)).1, fun h => by rw [hz] at h; exact absurd h (by decide)⟩
  · -- the acquiring invocation traces the block at once
    rw [hz] at hh hib
    simp only [Bool.false_eq_true, if_false] at hh hib
    have hhS := stepper_int_handler_current cfg tb (inp 0) S _ hS0 s1
    have hfrontS := fun j => isr_run_front cfg tb inp j S
    rw [hhS, ← hh] at hfrontS
    have hsame : ∀ j, isr_run cfg tb inp (j + 1) S = isr_run cfg tb inp (j + 1) s := by
      intro j
      rw [hfrontS, hfront]
    have hnlS : ∀ i, i < b0.step_event_count →
        (∀ m, m ≤ i → (isr_run cfg tb inp m S).current_block = some b) →
        isr_latches cfg tb (inp i) (isr_run cfg tb inp i S) = false := by
      intro i hi hm
      rcases i with _ | i
      · rw [isr_run_zero, isr_latches_eq, isr_block_current cfg tb S _ hS0 s1]
        rw [isr_latches_eq, hib] at hnl0
        simp only [] at hnl0 ⊢
        rw [axis_trigger_congr cfg (inp 0) b s S 0 s5 s7.olds,
          axis_trigger_congr cfg (inp 0) b s S 1 s5 s7.olds,
          axis_trigger_congr cfg (inp 0) b s S 2 s5 s7.olds]
        exact hnl0
      · rw [hsame]
        refine hnl (i + 1) (by omega) ?_
        intro m hm1 hm2
        obtain ⟨m', rfl⟩ : ∃ m', m = m' + 1 := ⟨m - 1, by omega⟩
        rw [← hsame]
        exact hm (m' + 1) hm2
    obtain ⟨j, j1, j2, j3, j4, j5, j6, j7, j8, j9, j10, j11⟩ :=
      hact inp S 0 (by omega) hS0 s1 s3 (by omega) s6 (fun a ha => s12 a (by omega)) s9 hQS
        hnlS
    obtain ⟨j', rfl⟩ : ∃ j', j = j' + 1 := ⟨j - 1, by omega⟩
    rw [hsame] at j4 j5 j6 j7 j8 j9 j10
    refine ⟨j' + 1, by omega, by omega, ?_, ?_⟩
    · intro i hi1 hi2
      obtain ⟨i', rfl⟩ : ∃ i', i = i' + 1 := ⟨i - 1, by omega⟩
      rw [← hsame]
      exact j3 (i' + 1) hi2
    · refine ⟨j4, by rw [j5, s2]; rfl, by rw [j6, hbN], by rw [j8, s10]; omega,
        by rw [j10, s11], fun a ha => (hfin _ a (j7 a ha)).2, fun a ha => (hfin _ a (j7 a ha)).1,
        by rw [j9.do_int, s4], by rw [j9.check_endstops, s5], by rw [j9.dup, s6], ?_⟩
      intro i hi1 hi2
      obtain ⟨i', rfl⟩ : ∃ i', i = i' + 1 := ⟨i - 1, by omega⟩
      rw [← hsame]
      exact ⟨(j11 (i' + 1) hi2).1, fun _ => (j11 (i' + 1) hi2).2 (by omega)⟩


/-! ### One invocation, by the block it traces -/

theorem isr_block_do_int (cfg : Config) (tb : Tables) (s : State) (b : block_t)
    (hb : isr_block cfg tb s = some b) : s.do_int ≠ 0 := by
  intro h0
  unfold isr_block at hb
  rw [if_pos h0] at hb
  exact Option.noConfusion hb

/-- An invocation that traces block b runs trace_block on the state the
acquisition leaves, which differs from the entry state by quiet effects only. -/
theorem stepper_int_handler_trace (cfg : Config) (tb : Tables) (pins : Pins) (s : State)
    (b : block_t) (hb : isr_block cfg tb s = some b) :
    ∃ S, stepper_int_handler cfg tb pins s = trace_block cfg tb pins b S ∧
      SameEndstops s S ∧ SamePosition s S ∧ S.do_int = s.do_int ∧
      S.check_endstops = s.check_endstops ∧
      S.extruder_duplication_enabled = s.extruder_duplication_enabled ∧
      ∃ l, S.log = s.log ++ l ∧ ∀ e ∈ l, Event.quiet e = true := by
  have h0 := isr_block_do_int cfg tb s b hb
  refine ⟨(acquire_block cfg tb s).1, ?_, acquire_block_frame cfg tb s⟩
  rw [stepper_int_handler_eq cfg tb pins s h0, hb]

/-- An invocation that traces no block leaves the endstop variables, the
positions and the endstop gate alone and adds quiet effects only. -/
theorem stepper_int_handler_rest (cfg : Config) (tb : Tables) (pins : Pins) (s : State)
    (hb : isr_block cfg tb s = none) :
    SameEndstops s (stepper_int_handler cfg tb pins s) ∧
    SamePosition s (stepper_int_handler cfg tb pins s) ∧
    (stepper_int_handler cfg tb pins s).do_int = s.do_int ∧
    (stepper_int_handler cfg tb pins s).check_endstops = s.check_endstops ∧
    (stepper_int_handler cfg tb pins s).extruder_duplication_enabled
      = s.extruder_duplication_enabled ∧
    ∃ l, (stepper_int_handler cfg tb pins s).log = s.log ++ l ∧
      ∀ e ∈ l, Event.quiet e = true := by
  by_cases h0 : s.do_int = 0
  · rw [stepper_int_handler_gated cfg tb pins s h0]
    exact ⟨SameEndstops.refl s, ⟨rfl, rfl, rfl, rfl⟩, rfl, rfl, rfl, [],
      (List.append_nil _).symm, fun e he => absurd he (List.not_mem_nil e)⟩
  · rw [stepper_int_handler_eq cfg tb pins s h0, hb]
    exact acquire_block_frame cfg tb s

/-- The endstop outcome of an invocation that traces block b. -/
theorem stepper_int_handler_endstops (cfg : Config) (tb : Tables) (pins : Pins) (s : State)
    (b : block_t) (hb : isr_block cfg tb s = some b) :
    (∀ a, a < 3 → (stepper_int_handler cfg tb pins s).endstop_hit a
      = (s.endstop_hit a || axis_trigger cfg pins s b a)) ∧
    (∀ a, a < 3 → (stepper_int_handler cfg tb pins s).endstops_trigsteps a
      = (if axis_trigger cfg pins s b a then s.count_position a else s.endstops_trigsteps a)) ∧
    (∀ e, (stepper_int_handler cfg tb pins s).old_endstop e = endstop_stored cfg pins s b e) ∧
    (stepper_int_handler cfg tb pins s).check_endstops = s.check_endstops ∧
    (stepper_int_handler cfg tb pins s).do_int = s.do_int := by
  obtain ⟨S, hS, fe, fp, fd, fc, -, -⟩ := stepper_int_handler_trace cfg tb pins s b hb
  rw [hS]
  obtain ⟨h1, h2, h3, u⟩ := trace_block_endstops cfg tb pins b S
  have hc : ∀ a, axis_trigger cfg pins S b a = axis_trigger cfg pins s b a :=
    fun a => axis_trigger_congr cfg pins b s S a fc fe.olds
  refine ⟨?_, ?_, ?_, u.check_endstops.trans fc, u.do_int.trans fd⟩
  · intro a ha
    rw [h1 a ha, hc]
    interval_cases a
    · simp only [State.endstop_hit, fe.hit_x]
    · simp only [State.endstop_hit, fe.hit_y]
    · simp only [State.endstop_hit, fe.hit_z]
  · intro a ha
    rw [h2 a ha, hc]
    interval_cases a
    · simp only [State.endstops_trigsteps, State.count_position, fe.trig_x, fp.x]
    · simp only [State.endstops_trigsteps, State.count_position, fe.trig_y, fp.y]
    · simp only [State.endstops_trigsteps, State.count_position, fe.trig_z, fp.z]
  · intro e
    rw [h3 e]
    exact endstop_stored_congr cfg pins b s S e fc fe.olds

/-- No limit switch meets the latch condition while every reading is
de-asserted. -/
theorem axis_trigger_low (cfg : Config) (pins : Pins) (s : State) (b : block_t) (a : Nat)
    (hlow : ∀ e, endstop_reading cfg pins e = false) : axis_trigger cfg pins s b a = false := by
  unfold axis_trigger endstop_trigger
  rcases a with _ | _ | _ | a <;> simp [hlow]

/-- No endstop latches in an invocation that reads every limit switch
de-asserted. -/
theorem isr_latches_low (cfg : Config) (tb : Tables) (pins : Pins) (s : State)
    (hlow : ∀ e, endstop_reading cfg pins e = false) : isr_latches cfg tb pins s = false := by
  rw [isr_latches_eq]
  rcases isr_block cfg tb s with _ | b
  · rfl
  · simp only [axis_trigger_low cfg pins s b _ hlow, Bool.or_false]

theorem endstop_sampled_gate (cfg : Config) (b : block_t) (e : Endstop) :
    endstop_sampled cfg false b e = false := by
  cases e <;> simp [endstop_sampled]

/-- No limit switch meets the latch condition while the endstop gate is off. -/
theorem axis_trigger_gate (cfg : Config) (pins : Pins) (s : State) (b : block_t) (a : Nat)
    (hc : s.check_endstops = false) : axis_trigger cfg pins s b a = false := by
  unfold axis_trigger endstop_trigger
  rcases a with _ | _ | _ | a <;> simp [hc, endstop_sampled_gate]

theorem endstop_stored_gate (cfg : Config) (pins : Pins) (s : State) (b : block_t) (e : Endstop)
    (hc : s.check_endstops = false) : endstop_stored cfg pins s b e = s.old_endstop e := by
  unfold endstop_stored
  rw [hc, endstop_sampled_gate]
  rfl

/-- The stored previous reading of a limit switch is the reading of its last
sampling, or the start value when it has not been sampled yet. -/
theorem prev_reading_eq (cfg : Config) (tb : Tables) (inp : Nat → Pins) (s : State)
    (e : Endstop) (i : Nat) :
    (isr_run cfg tb inp i s).old_endstop e = prev_reading cfg tb inp s e i := by
  induction i with
  | zero => rw [isr_run_zero]; rfl
  | succ i ih =>
    rw [isr_run_succ]
    unfold prev_reading isr_samples
    rcases hb : isr_block cfg tb (isr_run cfg tb inp i s) with _ | b
    · simp only [Bool.false_eq_true, if_false]
      rw [← ih]
      exact (stepper_int_handler_rest cfg tb (inp i) _ hb).1.olds e
    · simp only []
      rw [(stepper_int_handler_endstops cfg tb (inp i) _ b hb).2.2.1 e, ← ih]
      rfl

/-- The limit switch sampled on an axis excludes the opposite one. -/
theorem axis_trigger_sampled (cfg : Config) (pins : Pins) (s : State) (b : block_t)
    (e : Endstop) (hs : endstop_sampled cfg s.check_endstops b e = true) :
    axis_trigger cfg pins s b e.axis
      = (endstop_reading cfg pins e && s.old_endstop e && decide (0 < b.steps e.axis)) := by
  unfold axis_trigger endstop_trigger
  cases e <;> simp only [Endstop.axis] <;> simp only [endstop_sampled] at hs ⊢ <;>
    simp only [Bool.and_eq_true, Bool.not_eq_true'] at hs <;> simp [hs]

/-! ### One step event, axis by axis -/

theorem step_x_moves (cfg : Config) (b : block_t) (s : State) :
    ∃ (d : Bool) (c : Int),
      step_x cfg b s
        = { s with counter_x := c,
                   count_position_x := s.count_position_x + (if d then s.count_direction_x else 0),
                   log := s.log ++ (if d then axis_pulse cfg b s 0 else []) } := by
  rw [step_x_eq]
  split_ifs
  · exact ⟨true, _, rfl⟩
  · exact ⟨false, wrapLong (s.counter_x + b.steps_x), by simp⟩

theorem step_y_moves (cfg : Config) (b : block_t) (s : State) :
    ∃ (d : Bool) (c : Int),
      step_y cfg b s
        = { s with counter_y := c,
                   count_position_y := s.count_position_y + (if d then s.count_direction_y else 0),
                   log := s.log ++ (if d then axis_pulse cfg b s 1 else []) } := by
  rw [step_y_eq]
  split_ifs
  · exact ⟨true, _, rfl⟩
  · exact ⟨false, wrapLong (s.counter_y + b.steps_y), by simp⟩

theorem step_z_moves (cfg : Config) (b : block_t) (s : State) :
    ∃ (d : Bool) (c : Int),
      step_z cfg b s
        = { s with counter_z := c,
                   count_position_z := s.count_position_z + (if d then s.count_direction_z else 0),
                   log := s.log ++ (if d then axis_pulse cfg b s 2 else []) } := by
  rw [step_z_eq]
  split_ifs
  · exact ⟨true, _, rfl⟩
  · exact ⟨false, wrapLong (s.counter_z + b.steps_z), by simp⟩

theorem step_e_moves (cfg : Config) (b : block_t) (s : State) :
    ∃ (d : Bool) (c : Int),
      step_e cfg b s
        = { s with counter_e := c,
                   count_position_e := s.count_position_e + (if d then s.count_direction_e else 0),
                   log := s.log ++ (if d then axis_pulse cfg b s 3 else []) } ∧
      (d = true → cfg.ADVANCE = false) := by
  rcases Bool.eq_false_or_eq_true cfg.ADVANCE with hA | hA
  · rw [step_e_on cfg b s hA]
    exact ⟨false, s.counter_e, by simp, fun h => Bool.noConfusion h⟩
  · rw [step_e_eq cfg b s hA]
    split_ifs
    · exact ⟨true, _, rfl, fun _ => hA⟩
    · exact ⟨false, wrapLong (s.counter_e + b.steps_e), by simp, fun _ => hA⟩

/-- One step event pulses each axis at most once, and moves the position of
exactly the axes it pulses by count_direction. -/
theorem step_event_moves (cfg : Config) (b : block_t) (s : State) :
    ∃ dx dy dz de : Bool,
      (step_event cfg b s).log
        = s.log ++ ((if dx then axis_pulse cfg b s 0 else [])
            ++ (if dy then axis_pulse cfg b s 1 else [])
            ++ (if dz then axis_pulse cfg b s 2 else [])
            ++ (if de then axis_pulse cfg b s 3 else []) ++ [Event.step_event]) ∧
      (step_event cfg b s).count_position_x
        = s.count_position_x + (if dx then s.count_direction_x else 0) ∧
      (step_event cfg b s).count_position_y
        = s.count_position_y + (if dy then s.count_direction_y else 0) ∧
      (step_event cfg b s).count_position_z
        = s.count_position_z + (if dz then s.count_direction_z else 0) ∧
      (step_event cfg b s).count_position_e
        = s.count_position_e + (if de then s.count_direction_e else 0) ∧
      (de = true → cfg.ADVANCE = false) := by
  unfold step_event
  obtain ⟨c0, e0, e1, e2, h0⟩ := step_advance_e_shape cfg b s
  obtain ⟨dx, cx, hx⟩ := step_x_moves cfg b (step_advance_e cfg b s)
  obtain ⟨dy, cy, hy⟩ := step_y_moves cfg b (step_x cfg b (step_advance_e cfg b s))
  obtain ⟨dz, cz, hz⟩ := step_z_moves cfg b
    (step_y cfg b (step_x cfg b (step_advance_e cfg b s)))
  obtain ⟨de, ce, he, hde⟩ := step_e_moves cfg b
    (step_z cfg b (step_y cfg b (step_x cfg b (step_advance_e cfg b s))))
  refine ⟨dx, dy, dz, de, ?_, ?_, ?_, ?_, ?_, hde⟩
  all_goals
    simp only []
    rw [he]
    simp only []
    rw [hz]
    simp only []
    rw [hy]
    simp only []
    rw [hx]
    simp only []
    rw [h0]
  simp only [List.append_assoc]
  rfl
theorem pin_writes_if (p : Pin) (lvl : Bool) (d : Bool) (l : List Event) :
    pin_writes p lvl (if d then l else []) = if d then pin_writes p lvl l else 0 := by
  cases d <;> rfl

theorem axis_pulse_dup (cfg : Config) (b : block_t) (s base : State) (a : Nat)
    (h : s.extruder_duplication_enabled = base.extruder_duplication_enabled) :
    axis_pulse cfg b s a = axis_pulse cfg b base a := by
  unfold axis_pulse x_pulse x_step_pins
  rw [h]

theorem axis_pins_dup (cfg : Config) (b : block_t) (s base : State) (a : Nat)
    (h : s.extruder_duplication_enabled = base.extruder_duplication_enabled) :
    axis_pins cfg b s a = axis_pins cfg b base a := by
  unfold axis_pins x_step_pins
  rw [h]

/-- One step event, per axis: n ≤ 1 pulses on each step pin of the axis and
the position moved n times count_direction. -/
theorem step_event_axis (cfg : Config) (b : block_t) (s : State) (a : Nat) (ha : a < 4) :
    ∃ n : Nat, n ≤ 1 ∧
      (∀ q ∈ axis_pins cfg b s a,
        pin_writes q.1 q.2 (step_event cfg b s).log = pin_writes q.1 q.2 s.log + n) ∧
      (step_event cfg b s).count_position a
        = s.count_position a + (n : Int) * s.count_direction a ∧
      (n = 1 → a = 3 → cfg.ADVANCE = false) := by
  obtain ⟨dx, dy, dz, de, hlog, px, py, pz, pe, hde⟩ := step_event_moves cfg b s
  have hcount : ∀ q ∈ axis_pins cfg b s a, ∀ a', a' < 4 →
      pin_writes q.1 q.2 (axis_pulse cfg b s a') = if a = a' then 1 else 0 := by
    intro q hq a' _
    by_cases h : a = a'
    · subst h
      rw [if_pos rfl]
      exact pulse_count_self cfg b s a q hq
    · rw [if_neg h]
      exact pulse_count_other cfg b s s a a' q hq h
  have hmark : ∀ q : Pin × Bool, pin_writes q.1 q.2 [Event.step_event] = 0 := by
    intro q
    simp [pin_writes]
  interval_cases a
  · refine ⟨if dx then 1 else 0, by split_ifs <;> omega, ?_, ?_, ?_⟩
    · intro q hq
      rw [hlog]
      simp only [pin_writes_append, pin_writes_if, hcount q hq _ (by omega : 0 < 4),
        hcount q hq _ (by omega : 1 < 4), hcount q hq _ (by omega : 2 < 4),
        hcount q hq _ (by omega : 3 < 4), hmark]
      cases dx <;> simp
    · simp only [State.count_position, State.count_direction, px]
      cases dx <;> simp
    · intro _ h
      omega
  · refine ⟨if dy then 1 else 0, by split_ifs <;> omega, ?_, ?_, ?_⟩
    · intro q hq
      rw [hlog]
      simp only [pin_writes_append, pin_writes_if, hcount q hq _ (by omega : 0 < 4),
        hcount q hq _ (by omega : 1 < 4), hcount q hq _ (by omega : 2 < 4),
        hcount q hq _ (by omega : 3 < 4), hmark]
      cases dy <;> simp
    · simp only [State.count_position, State.count_direction, py]
      cases dy <;> simp
    · intro _ h
      omega
  · refine ⟨if dz then 1 else 0, by split_ifs <;> omega, ?_, ?_, ?_⟩
    · intro q hq
      rw [hlog]
      simp only [pin_writes_append, pin_writes_if, hcount q hq _ (by omega : 0 < 4),
        hcount q hq _ (by omega : 1 < 4), hcount q hq _ (by omega : 2 < 4),
        hcount q hq _ (by omega : 3 < 4), hmark]
      cases dz <;> simp
    · simp only [State.count_position, State.count_direction, pz]
      cases dz <;> simp
    · intro _ h
      omega
  · refine ⟨if de then 1 else 0, by split_ifs <;> omega, ?_, ?_, ?_⟩
    · intro q hq
      rw [hlog]
      simp only [pin_writes_append, pin_writes_if, hcount q hq _ (by omega : 0 < 4),
        hcount q hq _ (by omega : 1 < 4), hcount q hq _ (by omega : 2 < 4),
        hcount q hq _ (by omega : 3 < 4), hmark]
      cases de <;> simp
    · simp only [State.count_position, State.count_direction, pe]
      cases de <;> simp
    · intro h _
      apply hde
      revert h
      cases de <;> simp

/-- One invocation in which an endstop latches, per axis: at most one pulse on
each step pin of the axis, and the position moved by as many steps in the
direction of the block. -/
theorem trace_block_latch_axis (cfg : Config) (tb : Tables) (pins : Pins) (b : block_t)
    (s : State) (hN : b.step_event_count < 2147483648)
    (hl : axis_trigger cfg pins s b 0 = true ∨ axis_trigger cfg pins s b 1 = true
      ∨ axis_trigger cfg pins s b 2 = true) (a : Nat) (ha : a < 4) :
    ∃ n : Nat, n ≤ 1 ∧
      (∀ q ∈ axis_pins cfg b s a,
        pin_writes q.1 q.2 (trace_block cfg tb pins b s).log = pin_writes q.1 q.2 s.log + n) ∧
      (trace_block cfg tb pins b s).count_position a
        = s.count_position a + (n : Int) * b.direction a := by
  unfold trace_block
  simp only []
  obtain ⟨u1, b1, p1, l1, -, -, -, -, lg1, d1, d2⟩ := pass_frame cfg pins b s
  have sec1 : (set_directions_check_endstops cfg pins b s).step_events_completed
      = b.step_event_count := by
    rw [set_directions_check_endstops_eq]
    have : (axis_trigger cfg pins s b 0 || axis_trigger cfg pins s b 1
        || axis_trigger cfg pins s b 2) = true := by
      rcases hl with h | h | h <;> simp [h]
    simp only [this, if_true]
    exact Nat.mod_eq_of_lt (by omega)
  have pw1 : ∀ q ∈ axis_pins cfg b s a,
      pin_writes q.1 q.2 (set_directions_check_endstops cfg pins b s).log
        = pin_writes q.1 q.2 s.log := by
    intro q hq
    rw [lg1, pin_writes_append, pin_writes_quiet cfg b s a q hq _ (direction_log_quiet cfg b s)]
    rfl
  have pos1 : (set_directions_check_endstops cfg pins b s).count_position a
      = s.count_position a := by
    interval_cases a
    · exact p1.x
    · exact p1.y
    · exact p1.z
    · exact p1.e
  have hpins : axis_pins cfg b (set_directions_check_endstops cfg pins b s) a
      = axis_pins cfg b s a := axis_pins_dup cfg b _ s a u1.dup
  generalize set_directions_check_endstops cfg pins b s = s1 at *
  have hloop := step_loop_done cfg b s1.step_loops s1 (by omega) (by omega)
  obtain ⟨n, hn, hpw, hpos, hadv⟩ := step_event_axis cfg b s1 a ha
  rw [hpins] at hpw
  have hdir : n = 1 → s1.count_direction a = b.direction a := by
    intro h1
    by_cases h3 : a = 3
    · exact d1 (hadv h1 h3) a ha
    · exact d2 a (by omega)
  have step2 : ∃ n : Nat, n ≤ 1 ∧
      (∀ q ∈ axis_pins cfg b s a,
        pin_writes q.1 q.2 (step_loop cfg b s1.step_loops s1).log
          = pin_writes q.1 q.2 s.log + n) ∧
      (step_loop cfg b s1.step_loops s1).count_position a
        = s.count_position a + (n : Int) * b.direction a := by
    rw [hloop]
    split_ifs
    · exact ⟨0, by omega, fun q hq => pw1 q hq, by rw [pos1]; simp⟩
    · refine ⟨n, hn, fun q hq => by rw [hpw q hq, pw1 q hq], ?_⟩
      rw [hpos, pos1]
      have : n = 0 ∨ n = 1 := by omega
      rcases this with h | h
      · subst h
        simp
      · rw [hdir h]
  generalize step_loop cfg b s1.step_loops s1 = s2 at *
  obtain ⟨-, -, -, t3, -⟩ := update_timer_frame cfg tb b s2
  obtain ⟨l3, hl3, hq3⟩ := t3.log
  obtain ⟨m, hm, hmp, hmq⟩ := step2
  have pos3 : (update_timer cfg tb b s2).count_position a = s2.count_position a := by
    interval_cases a
    · exact t3.pos.x
    · exact t3.pos.y
    · exact t3.pos.z
    · exact t3.pos.e
  generalize update_timer cfg tb b s2 = s3 at *
  obtain ⟨-, -, p4, -, -, -, -, -, -, -, pw4, -, -⟩ := retire_block_frame b s3
  have pos4 : (retire_block b s3).count_position a = s3.count_position a := by
    interval_cases a
    · exact p4.x
    · exact p4.y
    · exact p4.z
    · exact p4.e
  refine ⟨m, hm, ?_, ?_⟩
  · intro q hq
    rw [pw4, hl3, pin_writes_append, pin_writes_quiet cfg b s a q hq l3 hq3, hmp q hq]
    rfl
  · rw [pos4, pos3, hmq]

/-! ### Latching invocations, idle invocations, quickStop -/

/-- An invocation in which a limit switch meets the latch condition: the block
is retired with one discard after at most one more step event, and each axis
is pulsed at most once and moved by as many steps. -/
theorem stepper_int_handler_latch (cfg : Config) (tb : Tables) (pins : Pins) (s : State)
    (b : block_t) (hb : isr_block cfg tb s = some b) (hN : b.step_event_count < 2147483648)
    (hl : axis_trigger cfg pins s b 0 = true ∨ axis_trigger cfg pins s b 1 = true
      ∨ axis_trigger cfg pins s b 2 = true) :
    (stepper_int_handler cfg tb pins s).current_block = none ∧
    discards (stepper_int_handler cfg tb pins s).log = discards s.log + 1 ∧
    step_events (stepper_int_handler cfg tb pins s).log ≤ step_events s.log + 1 ∧
    b.step_event_count ≤ (stepper_int_handler cfg tb pins s).step_events_completed ∧
    ∀ a, a < 4 → ∃ n : Nat, n ≤ 1 ∧
      (∀ q ∈ axis_pins cfg b s a,
        pin_writes q.1 q.2 (stepper_int_handler cfg tb pins s).log
          = pin_writes q.1 q.2 s.log + n) ∧
      (stepper_int_handler cfg tb pins s).count_position a
        = s.count_position a + (n : Int) * b.direction a := by
  obtain ⟨S, hS, fe, fp, fd, fc, fdup, l, hl1, hl2⟩ :=
    stepper_int_handler_trace cfg tb pins s b hb
  rw [hS]
  have hl' : axis_trigger cfg pins S b 0 = true ∨ axis_trigger cfg pins S b 1 = true
      ∨ axis_trigger cfg pins S b 2 = true := by
    rw [axis_trigger_congr cfg pins b s S 0 fc fe.olds,
      axis_trigger_congr cfg pins b s S 1 fc fe.olds,
      axis_trigger_congr cfg pins b s S 2 fc fe.olds]
    exact hl
  obtain ⟨t1, -, t3, t4, t5, -⟩ := trace_block_latch cfg tb pins b S hN hl'
  have hd : discards S.log = discards s.log := by
    rw [hl1, discards_append, discards_quiet l hl2]
    rfl
  have he : step_events S.log = step_events s.log := by
    rw [hl1, step_events_append, step_events_quiet l hl2]
    rfl
  refine ⟨t1, by rw [t3, hd], ?_, ?_, ?_⟩
  · rw [t5, he]
    split_ifs <;> omega
  · rw [t4]
    split_ifs <;> omega
  · intro a ha
    obtain ⟨n, hn, hp, hq⟩ := trace_block_latch_axis cfg tb pins b S hN hl' a ha
    refine ⟨n, hn, ?_, ?_⟩
    · intro q hq'
      have hq2 : q ∈ axis_pins cfg b S a := by
        rw [axis_pins_dup cfg b S s a fdup]
        exact hq'
      rw [hp q hq2, hl1, pin_writes_append, pin_writes_quiet cfg b s a q hq' l hl2]
      rfl
    · rw [hq]
      interval_cases a
      · simp only [State.count_position, fp.x]
      · simp only [State.count_position, fp.y]
      · simp only [State.count_position, fp.z]
      · simp only [State.count_position, fp.e]

/-- An invocation of the idle generator keeps it idle, moves no position and
writes no step pin. -/
theorem stepper_int_handler_idle_frame (cfg : Config) (tb : Tables) (pins : Pins) (s : State)
    (h : s.idle) :
    (stepper_int_handler cfg tb pins s).idle ∧
    SamePosition s (stepper_int_handler cfg tb pins s) := by
  by_cases h0 : s.do_int = 0
  · rw [stepper_int_handler_gated cfg tb pins s h0]
    exact ⟨h, rfl, rfl, rfl, rfl⟩
  · rcases h with h | ⟨hcb, hq⟩
    · exact absurd h h0
    · rw [stepper_int_handler_idle cfg tb pins s h0 hcb hq]
      exact ⟨Or.inr ⟨hcb, hq⟩, rfl, rfl, rfl, rfl⟩

theorem isr_run_idle (cfg : Config) (tb : Tables) (inp : Nat → Pins) (s : State) (h : s.idle)
    (k : Nat) : (isr_run cfg tb inp k s).idle ∧ SamePosition s (isr_run cfg tb inp k s) := by
  induction k with
  | zero =>
    rw [isr_run_zero]
    exact ⟨h, rfl, rfl, rfl, rfl⟩
  | succ k ih =>
    rw [isr_run_succ]
    obtain ⟨h1, h2⟩ := stepper_int_handler_idle_frame cfg tb (inp k) _ ih.1
    exact ⟨h1, ih.2.compose h2⟩

/-- The drain loop of quickStop ends once the fuel covers the queue; it empties
the queue and leaves every other variable alone. -/
theorem quickStop_loop_drains (fuel : Nat) :
    ∀ s : State, s.queue.length ≤ fuel →
      ∃ l, quickStop_loop fuel s = some { s with queue := [], log := s.log ++ l } ∧
        ∀ e ∈ l, e = Event.plan_discard_current_block := by
  have hempty : ∀ (n : Nat) (s : State), s.queue = [] →
      ∃ l, quickStop_loop n s = some { s with queue := [], log := s.log ++ l } ∧
        ∀ e ∈ l, e = Event.plan_discard_current_block := by
    intro n s hq
    refine ⟨[], ?_, fun e he => absurd he (List.not_mem_nil e)⟩
    have hbq : blocks_queued s = false := by
      unfold blocks_queued
      rw [hq]
      rfl
    have hs : ({ s with queue := [], log := s.log ++ [] } : State) = s := by
      rw [List.append_nil, ← hq]
    rw [hs]
    cases n with
    | zero =>
      show (if blocks_queued s then none else some s) = some s
      rw [hbq]
      rfl
    | succ n =>
      show (if blocks_queued s then quickStop_loop n (plan_discard_current_block s)
        else some s) = some s
      rw [hbq]
      rfl
  induction fuel with
  | zero =>
    intro s h
    exact hempty 0 s (List.length_eq_zero.mp (Nat.le_zero.mp h))
  | succ fuel ih =>
    intro s h
    rcases hq : s.queue with _ | ⟨b0, rest⟩
    · exact hempty _ s hq
    · have hlen : (plan_discard_current_block s).queue.length ≤ fuel := by
        have : (plan_discard_current_block s).queue = rest := by
          show s.queue.tail = rest
          rw [hq]
          rfl
        rw [this]
        rw [hq] at h
        simp only [List.length_cons] at h
        omega
      obtain ⟨l, h1, h2⟩ := ih (plan_discard_current_block s) hlen
      have hbq : blocks_queued s = true := by
        unfold blocks_queued
        rw [hq]
        rfl
      refine ⟨Event.plan_discard_current_block :: l, ?_, ?_⟩
      · show (if blocks_queued s then quickStop_loop fuel (plan_discard_current_block s)
          else some s) = _
        rw [hbq, if_pos rfl, h1]
        unfold plan_discard_current_block
        simp only [List.append_assoc, List.singleton_append]
      · intro e he
        rcases List.mem_cons.mp he with h3 | h3
        · exact h3
        · exact h2 e h3
theorem SameEndstops.hits {s s' : State} (h : SameEndstops s s') :
    ∀ a, s'.endstop_hit a = s.endstop_hit a := by
  intro a
  rcases a with _ | _ | _ | a
  · exact h.hit_x
  · exact h.hit_y
  · exact h.hit_z
  · rfl

theorem SameEndstops.trigs {s s' : State} (h : SameEndstops s s') :
    ∀ a, s'.endstops_trigsteps a = s.endstops_trigsteps a := by
  intro a
  rcases a with _ | _ | _ | a
  · exact h.trig_x
  · exact h.trig_y
  · exact h.trig_z
  · rfl

theorem Endstop.axis_lt (e : Endstop) : e.axis < 3 := by
  cases e <;> decide

theorem endstop_sampled_check (cfg : Config) (c : Bool) (b : block_t) (e : Endstop)
    (hs : endstop_sampled cfg c b e = true) : c = true := by
  cases c
  · rw [endstop_sampled_gate] at hs
    exact hs
  · rfl

/-- The limit switch that meets the latch condition triggers its axis. -/
theorem axis_trigger_of (cfg : Config) (pins : Pins) (s : State) (b : block_t) (e : Endstop)
    (hs : endstop_sampled cfg s.check_endstops b e = true)
    (hr : endstop_reading cfg pins e = true) (ho : s.old_endstop e = true)
    (hst : 0 < b.steps e.axis) : axis_trigger cfg pins s b e.axis = true := by
  rw [axis_trigger_sampled cfg pins s b e hs, hr, ho]
  simp [hst]

theorem axis_trigger_some (cfg : Config) (pins : Pins) (s : State) (b : block_t) (a : Nat)
    (ha : a < 3) (h : axis_trigger cfg pins s b a = true) :
    axis_trigger cfg pins s b 0 = true ∨ axis_trigger cfg pins s b 1 = true
      ∨ axis_trigger cfg pins s b 2 = true := by
  interval_cases a
  · exact Or.inl h
  · exact Or.inr (Or.inl h)
  · exact Or.inr (Or.inr h)

/-- With the endstop gate off no run of the interrupt touches the endstop
variables. -/
theorem isr_run_gate (cfg : Config) (tb : Tables) (inp : Nat → Pins) (s : State)
    (hc : s.check_endstops = false) (k : Nat) :
    (isr_run cfg tb inp k s).check_endstops = false ∧
    (∀ a, a < 3 → (isr_run cfg tb inp k s).endstop_hit a = s.endstop_hit a) ∧
    (∀ a, a < 3 → (isr_run cfg tb inp k s).endstops_trigsteps a = s.endstops_trigsteps a) ∧
    (∀ e, (isr_run cfg tb inp k s).old_endstop e = s.old_endstop e) := by
  induction k with
  | zero =>
    rw [isr_run_zero]
    exact ⟨hc, fun _ _ => rfl, fun _ _ => rfl, fun _ => rfl⟩
  | succ k ih =>
    rw [isr_run_succ]
    obtain ⟨i1, i2, i3, i4⟩ := ih
    rcases hb : isr_block cfg tb (isr_run cfg tb inp k s) with _ | b
    · obtain ⟨fe, -, -, fc, -⟩ := stepper_int_handler_rest cfg tb (inp k) _ hb
      exact ⟨fc.trans i1, fun a ha => (fe.hits a).trans (i2 a ha),
        fun a ha => (fe.trigs a).trans (i3 a ha), fun e => (fe.olds e).trans (i4 e)⟩
    · obtain ⟨h1, h2, h3, h4, -⟩ := stepper_int_handler_endstops cfg tb (inp k) _ b hb
      refine ⟨h4.trans i1, ?_, ?_, ?_⟩
      · intro a ha
        rw [h1 a ha, axis_trigger_gate cfg (inp k) _ b a i1, Bool.or_false]
        exact i2 a ha
      · intro a ha
        rw [h2 a ha, axis_trigger_gate cfg (inp k) _ b a i1]
        exact i3 a ha
      · intro e
        rw [h3 e, endstop_stored_gate cfg (inp k) _ b e i1]
        exact i4 e

/-! ### The E position under ADVANCE -/

/-- With ADVANCE on the step loop never writes count_position[E]. -/
theorem step_loop_e_position (cfg : Config) (b : block_t) (hA : cfg.ADVANCE = true) (n : Nat) :
    ∀ s : State, (step_loop cfg b n s).count_position_e = s.count_position_e := by
  induction n with
  | zero =>
    intro s
    unfold step_loop
    rfl
  | succ n ih =>
    intro s
    unfold step_loop
    obtain ⟨dx, dy, dz, de, -, -, -, -, pe, hde⟩ := step_event_moves cfg b s
    have hde2 : de = false := by
      cases de
      · rfl
      · have h := hde rfl
        rw [hA] at h
        exact Bool.noConfusion h
    rw [hde2] at pe
    simp only [Bool.false_eq_true, if_false, add_zero] at pe
    simp only []
    split_ifs
    · exact pe
    · rw [ih, pe]

theorem trace_block_e_position (cfg : Config) (tb : Tables) (pins : Pins) (b : block_t)
    (s : State) (hA : cfg.ADVANCE = true) :
    (trace_block cfg tb pins b s).count_position_e = s.count_position_e := by
  unfold trace_block
  simp only []
  obtain ⟨-, -, p1, -⟩ := pass_frame cfg pins b s
  have h2 := step_loop_e_position cfg b hA
    (set_directions_check_endstops cfg pins b s).step_loops
    (set_directions_check_endstops cfg pins b s)
  generalize step_loop cfg b (set_directions_check_endstops cfg pins b s).step_loops
    (set_directions_check_endstops cfg pins b s) = s2 at *
  obtain ⟨-, -, -, t3, -⟩ := update_timer_frame cfg tb b s2
  generalize update_timer cfg tb b s2 = s3 at *
  obtain ⟨-, -, p4, -⟩ := retire_block_frame b s3
  rw [p4.e, t3.pos.e, h2, p1.e]

theorem stepper_int_handler_e_position (cfg : Config) (tb : Tables) (pins : Pins) (s : State)
    (hA : cfg.ADVANCE = true) :
    (stepper_int_handler cfg tb pins s).count_position_e = s.count_position_e := by
  rcases hb : isr_block cfg tb s with _ | b
  · exact (stepper_int_handler_rest cfg tb pins s hb).2.1.e
  · obtain ⟨S, hS, -, fp, -⟩ := stepper_int_handler_trace cfg tb pins s b hb
    rw [hS, trace_block_e_position cfg tb pins b S hA, fp.e]

/-- With ADVANCE on no run of the interrupt writes count_position[E]. -/
theorem isr_run_e_position (cfg : Config) (tb : Tables) (inp : Nat → Pins) (s : State)
    (hA : cfg.ADVANCE = true) (k : Nat) :
    (isr_run cfg tb inp k s).count_position_e = s.count_position_e := by
  induction k with
  | zero => rw [isr_run_zero]
  | succ k ih => rw [isr_run_succ, stepper_int_handler_e_position cfg tb _ _ hA, ih]

/-! ## The speed lookup -/

theorem calc_timer_period_floor (cfg : Config) (tb : Tables) (r : Nat) :
    100 ≤ calc_timer_period cfg tb r := by
  unfold calc_timer_period
  split_ifs with h
  · exact le_refl 100
  · omega

/-- The reduced step rate of a step rate that needs no reduction. -/
theorem calc_timer_step_rate_low (cfg : Config) (x : Nat) (h1 : x ≤ 10000)
    (h2 : x ≤ cfg.MAX_STEP_FREQUENCY) : calc_timer_step_rate cfg x = x := by
  unfold calc_timer_step_rate
  simp only []
  have hx : x % 4294967296 = x := Nat.mod_eq_of_lt (by omega)
  have hmin : (if x > cfg.MAX_STEP_FREQUENCY then cfg.MAX_STEP_FREQUENCY else x) = x :=
    if_neg (by omega)
  rw [hx, hmin, if_neg (by omega), if_neg (by omega)]

theorem and_mask_14 (x : Nat) (h : x < 16384) : x &&& 0x3fff = x := by
  have := Nat.and_pow_two_sub_one_eq_mod x 14
  norm_num at this
  rw [this]
  exact Nat.mod_eq_of_lt h

theorem and_mask_15 (x : Nat) (h : x < 32768) : x &&& 0x7fff = x := by
  have := Nat.and_pow_two_sub_one_eq_mod x 15
  norm_num at this
  rw [this]
  exact Nat.mod_eq_of_lt h

/-- The reduced step rate, by class. -/
theorem calc_timer_step_rate_cases (cfg : Config) (r : Nat) (hr : r < 4294967296) :
    (20000 < min r cfg.MAX_STEP_FREQUENCY →
      calc_timer_step_rate cfg r = (min r cfg.MAX_STEP_FREQUENCY >>> 2) &&& 0x3fff ∧
      calc_timer_step_loops cfg r = 4) ∧
    (min r cfg.MAX_STEP_FREQUENCY ≤ 20000 → 10000 < min r cfg.MAX_STEP_FREQUENCY →
      calc_timer_step_rate cfg r = min r cfg.MAX_STEP_FREQUENCY >>> 1 ∧
      calc_timer_step_loops cfg r = 2) ∧
    (min r cfg.MAX_STEP_FREQUENCY ≤ 10000 →
      calc_timer_step_rate cfg r = min r cfg.MAX_STEP_FREQUENCY ∧
      calc_timer_step_loops cfg r = 1) := by
  have hx : r % 4294967296 = r := Nat.mod_eq_of_lt hr
  have hmin : (if r > cfg.MAX_STEP_FREQUENCY then cfg.MAX_STEP_FREQUENCY else r)
      = min r cfg.MAX_STEP_FREQUENCY := by
    split_ifs <;> omega
  unfold calc_timer_step_rate calc_timer_step_loops
  simp only []
  rw [hx, hmin]
  generalize min r cfg.MAX_STEP_FREQUENCY = m
  refine ⟨?_, ?_, ?_⟩
  · intro h
    rw [if_pos h, if_pos h]
    exact ⟨rfl, rfl⟩
  · intro h1 h2
    rw [if_neg (by omega), if_pos h2, if_neg (by omega), if_pos h2]
    refine ⟨and_mask_15 _ ?_, rfl⟩
    rw [Nat.shiftRight_eq_div_pow]
    omega
  · intro h
    rw [if_neg (by omega), if_neg (by omega), if_neg (by omega), if_neg (by omega)]
    exact ⟨rfl, rfl⟩

/-- The fast segment as the source computes it: gain >> 16 is 0 for an
unsigned short gain, so the lookup is the period entry of the row. -/
theorem calc_timer_lookup_fast (tb : Tables) (r : Nat) (h : 2048 ≤ r) :
    calc_timer_lookup tb r = tb.speed_lookuptable_fast (2 * ((r >>> 8) % 256)) % 65536 := by
  unfold calc_timer_lookup
  rw [if_pos (by omega)]
  simp only []
  have hg : (tb.speed_lookuptable_fast (2 * ((r >>> 8) % 256) + 2) % 65536) >>> 16 = 0 := by
    rw [Nat.shiftRight_eq_div_pow]
    have := Nat.mod_lt (tb.speed_lookuptable_fast (2 * ((r >>> 8) % 256) + 2))
      (by norm_num : 65536 > 0)
    omega
  rw [hg, Nat.mul_zero, Nat.zero_mod, Nat.sub_zero]
  have := Nat.mod_lt (tb.speed_lookuptable_fast (2 * ((r >>> 8) % 256)))
    (by norm_num : 65536 > 0)
  omega
/-- The period of a step rate in the fast segment is the period entry of its
row, floored at 100. -/
theorem calc_timer_period_fast (cfg : Config) (tb : Tables) (r : Nat)
    (h : 2048 ≤ calc_timer_step_rate cfg r) :
    calc_timer_period cfg tb r
      = max 100 (tb.speed_lookuptable_fast
          (2 * ((calc_timer_step_rate cfg r >>> 8) % 256)) % 65536) := by
  unfold calc_timer_period
  rw [calc_timer_lookup_fast tb _ h]
  split_ifs with h1
  · omega
  · omega

/-- Within one step_loops class the reduced step rate grows with the step
rate, when MAX_STEP_FREQUENCY fits 16 bits. -/
theorem calc_timer_step_rate_mono (cfg : Config) (a b : Nat) (hab : a ≤ b)
    (hb : b < 4294967296) (hmax : cfg.MAX_STEP_FREQUENCY < 65536)
    (hl : calc_timer_step_loops cfg a = calc_timer_step_loops cfg b) :
    calc_timer_step_rate cfg a ≤ calc_timer_step_rate cfg b ∧
    calc_timer_step_rate cfg b < 16384 := by
  obtain ⟨a4, a2, a1⟩ := calc_timer_step_rate_cases cfg a (by omega)
  obtain ⟨b4, b2, b1⟩ := calc_timer_step_rate_cases cfg b hb
  have hm : min a cfg.MAX_STEP_FREQUENCY ≤ min b cfg.MAX_STEP_FREQUENCY := by omega
  have hma : min a cfg.MAX_STEP_FREQUENCY < 65536 := by omega
  have hmb : min b cfg.MAX_STEP_FREQUENCY < 65536 := by omega
  generalize min a cfg.MAX_STEP_FREQUENCY = ma at *
  generalize min b cfg.MAX_STEP_FREQUENCY = mb at *
  by_cases hb4 : 20000 < mb
  · obtain ⟨rb, lb⟩ := b4 hb4
    have ha4 : 20000 < ma := by
      by_contra hc
      by_cases hc2 : 10000 < ma
      · have := (a2 (by omega) hc2).2
        omega
      · have := (a1 (by omega)).2
        omega
    obtain ⟨ra, -⟩ := a4 ha4
    rw [ra, rb, and_mask_14 _ (by rw [Nat.shiftRight_eq_div_pow]; omega),
      and_mask_14 _ (by rw [Nat.shiftRight_eq_div_pow]; omega)]
    simp only [Nat.shiftRight_eq_div_pow]
    omega
  · by_cases hb2 : 10000 < mb
    · obtain ⟨rb, lb⟩ := b2 (by omega) hb2
      have ha2 : 10000 < ma := by
        by_contra hc
        have := (a1 (by omega)).2
        omega
      obtain ⟨ra, -⟩ := a2 (by omega) ha2
      rw [ra, rb]
      simp only [Nat.shiftRight_eq_div_pow]
      omega
    · obtain ⟨rb, -⟩ := b1 (by omega)
      obtain ⟨ra, -⟩ := a1 (by omega)
      rw [ra, rb]
      omega

/-! ## The three branches of the timer update -/

theorem attach_periods_append (l1 l2 : List Event) :
    attach_periods (l1 ++ l2) = attach_periods l1 ++ attach_periods l2 := by
  induction l1 with
  | nil => rfl
  | cons e l ih =>
    rw [List.cons_append]
    cases e <;> simp only [attach_periods, ih, List.cons_append]

theorem attach_periods_calc_timer_log (cfg : Config) (tb : Tables) (r : Nat) :
    attach_periods (calc_timer_log cfg tb r) = [] := by
  unfold calc_timer_log
  split_ifs <;> rfl

/-- The acceleration branch, lines 546-557 (and 558-566 under ADVANCE). -/
theorem update_timer_accelerate (cfg : Config) (tb : Tables) (b : block_t) (s : State)
    (h1 : s.step_events_completed ≤ b.accelerate_until) :
    (update_timer cfg tb b s).acc_step_rate = accelerate_rate b s ∧
    (update_timer cfg tb b s).acceleration_time
      = s.acceleration_time + ((calc_timer_period cfg tb (accelerate_rate b s) % 65536 : Nat) : Int) ∧
    (update_timer cfg tb b s).deceleration_time = s.deceleration_time ∧
    (update_timer cfg tb b s).step_loops = calc_timer_step_loops cfg (accelerate_rate b s) ∧
    (update_timer cfg tb b s).log
      = s.log ++ (calc_timer_log cfg tb (accelerate_rate b s)
          ++ [Event.timer_detach,
              Event.timer_attach_us
                ((calc_timer_period cfg tb (accelerate_rate b s) % 65536 : Nat) : Int)]) := by
  unfold update_timer
  rw [if_pos h1]
  simp only [calc_timer_eq, State.emit]
  have hr : ∀ t : State,
      (if (u16 (s.acceleration_time * ((b.acceleration_rate >>> 24 : Nat) : Int))
            + b.initial_rate) % 65536 > b.nominal_rate
        then ({ t with acc_step_rate := b.nominal_rate % 65536 } : State)
        else { t with acc_step_rate :=
                (u16 (s.acceleration_time * ((b.acceleration_rate >>> 24 : Nat) : Int))
                  + b.initial_rate) % 65536 })
      = { t with acc_step_rate := accelerate_rate b s } := by
    intro t
    unfold accelerate_rate MultiU24X24toH16
    split_ifs <;> rfl
  rcases Bool.eq_false_or_eq_true cfg.ADVANCE with hA | hA
  · simp only [hA, if_true]
    split_ifs
    all_goals
      simp only []
      obtain ⟨adv, ha⟩ := advance_loop_shape _ _ _
      rw [ha]
      obtain ⟨oadv, e0, e1, e2, hp⟩ := push_advance_shape b _
      rw [hp]
      unfold accelerate_rate MultiU24X24toH16
      simp [*]
  · simp only [hA, Bool.false_eq_true, if_false]
    split_ifs
    all_goals
      unfold accelerate_rate MultiU24X24toH16
      simp [*]
/-- The deceleration branch, lines 569-586 (and 587-596 under ADVANCE). -/
theorem update_timer_decelerate (cfg : Config) (tb : Tables) (b : block_t) (s : State)
    (h1 : ¬ s.step_events_completed ≤ b.accelerate_until)
    (h2 : s.step_events_completed > b.decelerate_after) :
    (update_timer cfg tb b s).acc_step_rate = s.acc_step_rate ∧
    (update_timer cfg tb b s).acceleration_time = s.acceleration_time ∧
    (update_timer cfg tb b s).deceleration_time
      = s.deceleration_time + ((calc_timer_period cfg tb (decelerate_rate b s) % 65536 : Nat) : Int) ∧
    (update_timer cfg tb b s).step_loops = calc_timer_step_loops cfg (decelerate_rate b s) ∧
    (update_timer cfg tb b s).log
      = s.log ++ (calc_timer_log cfg tb (decelerate_rate b s)
          ++ [Event.timer_detach,
              Event.timer_attach_us
                ((calc_timer_period cfg tb (decelerate_rate b s) % 65536 : Nat) : Int)]) := by
  unfold update_timer
  rw [if_neg h1, if_pos h2]
  simp only [calc_timer_eq, State.emit]
  rcases Bool.eq_false_or_eq_true cfg.ADVANCE with hA | hA
  · simp only [hA, if_true]
    obtain ⟨adv, ha⟩ := advance_loop_shape _ _ _
    rw [ha]
    simp only []
    split_ifs
    all_goals
      obtain ⟨oadv, e0, e1, e2, hp⟩ := push_advance_shape b _
      rw [hp]
      unfold decelerate_rate decelerate_delta MultiU24X24toH16
      simp [*]
  · simp only [hA, Bool.false_eq_true, if_false]
    unfold decelerate_rate decelerate_delta MultiU24X24toH16
    simp

/-- The cruise branch, lines 598-604. -/
theorem update_timer_cruise (cfg : Config) (tb : Tables) (b : block_t) (s : State)
    (h1 : ¬ s.step_events_completed ≤ b.accelerate_until)
    (h2 : ¬ s.step_events_completed > b.decelerate_after) :
    update_timer cfg tb b s
      = { s with step_loops := s.step_loops_nominal % 256,
                 log := s.log ++ [Event.timer_detach, Event.timer_attach_us s.OCR1A_nominal] } := by
  unfold update_timer
  rw [if_neg h1, if_neg h2]
  simp [State.emit]

theorem attach_periods_writes (l : List Pin) (lvl : Bool) :
    attach_periods (l.map (fun p => Event.write p lvl)) = [] := by
  induction l with
  | nil => rfl
  | cons p l ih => simp only [List.map_cons, attach_periods, ih]

theorem attach_periods_axis_pulse (cfg : Config) (b : block_t) (s : State) (a : Nat) :
    attach_periods (axis_pulse cfg b s a) = [] := by
  unfold axis_pulse
  split
  · unfold x_pulse
    rw [attach_periods_append, attach_periods_writes, attach_periods_writes]
    rfl
  · rfl
  · unfold z_pulse
    split_ifs <;> rfl
  · rfl
  · rfl

theorem attach_periods_direction_log (cfg : Config) (b : block_t) (s : State) :
    attach_periods (direction_log cfg b s) = [] := by
  unfold direction_log xy_dir_log z_dir_log e_dir_log x_dir_writes z_dir_writes
  simp only [attach_periods_append]
  split_ifs <;> rfl

theorem attach_periods_if (d : Bool) (l : List Event) (h : attach_periods l = []) :
    attach_periods (if d then l else []) = [] := by
  cases d
  · rfl
  · exact h

theorem step_event_attach (cfg : Config) (b : block_t) (s : State) :
    attach_periods (step_event cfg b s).log = attach_periods s.log := by
  obtain ⟨dx, dy, dz, de, hl, -⟩ := step_event_moves cfg b s
  rw [hl]
  simp only [attach_periods_append,
    attach_periods_if _ _ (attach_periods_axis_pulse cfg b s _), List.append_nil]
  simp [attach_periods]

theorem step_loop_attach (cfg : Config) (b : block_t) (n : Nat) :
    ∀ s : State, attach_periods (step_loop cfg b n s).log = attach_periods s.log := by
  induction n with
  | zero =>
    intro s
    unfold step_loop
    rfl
  | succ n ih =>
    intro s
    unfold step_loop
    simp only []
    split_ifs
    · exact step_event_attach cfg b s
    · rw [ih, step_event_attach]

/-- The timer update as one invocation sees it: the endstop pass and the step
loop leave the ramp variables and the armed periods alone, and the retirement
keeps what the update wrote. -/
theorem trace_block_timer (cfg : Config) (tb : Tables) (pins : Pins) (b : block_t)
    (s : State) :
    ∃ s2 : State,
      (trace_block cfg tb pins b s).step_events_completed = s2.step_events_completed ∧
      s2.acceleration_time = s.acceleration_time ∧
      s2.deceleration_time = s.deceleration_time ∧
      s2.acc_step_rate = s.acc_step_rate ∧
      s2.OCR1A_nominal = s.OCR1A_nominal ∧
      s2.step_loops_nominal = s.step_loops_nominal ∧
      attach_periods s2.log = attach_periods s.log ∧
      (trace_block cfg tb pins b s).acc_step_rate = (update_timer cfg tb b s2).acc_step_rate ∧
      (trace_block cfg tb pins b s).acceleration_time
        = (update_timer cfg tb b s2).acceleration_time ∧
      (trace_block cfg tb pins b s).deceleration_time
        = (update_timer cfg tb b s2).deceleration_time ∧
      (trace_block cfg tb pins b s).step_loops = (update_timer cfg tb b s2).step_loops ∧
      (trace_block cfg tb pins b s).OCR1A_nominal = s.OCR1A_nominal ∧
      (trace_block cfg tb pins b s).step_loops_nominal = s.step_loops_nominal ∧
      attach_periods (trace_block cfg tb pins b s).log
        = attach_periods (update_timer cfg tb b s2).log := by
  unfold trace_block
  simp only []
  have h1 := set_directions_check_endstops_eq cfg pins b s
  obtain ⟨u1, -, -, -, -, -, -, -, lg1, -⟩ := pass_frame cfg pins b s
  have r1 : (set_directions_check_endstops cfg pins b s).acceleration_time
      = s.acceleration_time := by rw [h1]
  have r2 : (set_directions_check_endstops cfg pins b s).deceleration_time
      = s.deceleration_time := by rw [h1]
  have r3 : (set_directions_check_endstops cfg pins b s).acc_step_rate
      = s.acc_step_rate := by rw [h1]
  have a1 : attach_periods (set_directions_check_endstops cfg pins b s).log
      = attach_periods s.log := by
    rw [lg1, attach_periods_append, attach_periods_direction_log, List.append_nil]
  clear h1 lg1
  generalize set_directions_check_endstops cfg pins b s = s1 at *
  obtain ⟨cx, cy, cz, ce, px, py, pz, pe, e0, e1, e2, sec, l, hs, -⟩ :=
    step_loop_shape cfg b s1.step_loops s1
  obtain ⟨u2, -⟩ := step_loop_frame cfg b s1.step_loops s1
  have q1 : (step_loop cfg b s1.step_loops s1).acceleration_time = s1.acceleration_time := by
    rw [hs]
  have q2 : (step_loop cfg b s1.step_loops s1).deceleration_time = s1.deceleration_time := by
    rw [hs]
  have q3 : (step_loop cfg b s1.step_loops s1).acc_step_rate = s1.acc_step_rate := by
    rw [hs]
  have a2 := step_loop_attach cfg b s1.step_loops s1
  clear hs
  generalize step_loop cfg b s1.step_loops s1 = s2 at *
  obtain ⟨u3, -, -, t3, -⟩ := update_timer_frame cfg tb b s2
  rw [retire_block_eq]
  refine ⟨s2, ?_, q1.trans r1, q2.trans r2, q3.trans r3,
    u2.OCR1A_nominal.trans u1.OCR1A_nominal,
    u2.step_loops_nominal.trans u1.step_loops_nominal, a2.trans a1, ?_⟩
  · split_ifs
    · exact t3.sec
    · exact t3.sec
  · split_ifs
    · refine ⟨rfl, rfl, rfl, rfl, ?_, ?_, ?_⟩
      · exact u3.OCR1A_nominal.trans (u2.OCR1A_nominal.trans u1.OCR1A_nominal)
      · exact u3.step_loops_nominal.trans (u2.step_loops_nominal.trans u1.step_loops_nominal)
      · simp only [attach_periods_append]
        simp [attach_periods]
    · exact ⟨rfl, rfl, rfl, rfl,
        u3.OCR1A_nominal.trans (u2.OCR1A_nominal.trans u1.OCR1A_nominal),
        u3.step_loops_nominal.trans (u2.step_loops_nominal.trans u1.step_loops_nominal), rfl⟩
theorem armed_of_attach (l : List Event) (l0 : List Int) (t : Int)
    (h : attach_periods l = l0 ++ [t]) : armed l = some t := by
  unfold armed
  rw [h]
  simp

/-- The periods armed by the timer update in its two ramp branches. -/
theorem attach_periods_ramp (cfg : Config) (tb : Tables) (l : List Event) (r : Nat) (t : Int) :
    attach_periods (l ++ (calc_timer_log cfg tb r
      ++ [Event.timer_detach, Event.timer_attach_us t])) = attach_periods l ++ [t] := by
  simp only [attach_periods_append, attach_periods_calc_timer_log, List.nil_append]
  rfl

/-- An invocation that ends in the acceleration phase. -/
theorem stepper_int_handler_accelerate (cfg : Config) (tb : Tables) (pins : Pins) (s : State)
    (b : block_t) (hb : isr_block cfg tb s = some b)
    (hend : (stepper_int_handler cfg tb pins s).step_events_completed ≤ b.accelerate_until) :
    (stepper_int_handler cfg tb pins s).acc_step_rate
      = accelerate_rate b (acquire_block cfg tb s).1 ∧
    (stepper_int_handler cfg tb pins s).acceleration_time
      = (acquire_block cfg tb s).1.acceleration_time
        + ((calc_timer_period cfg tb (accelerate_rate b (acquire_block cfg tb s).1) % 65536
            : Nat) : Int) ∧
    (stepper_int_handler cfg tb pins s).step_loops
      = calc_timer_step_loops cfg (accelerate_rate b (acquire_block cfg tb s).1) ∧
    armed (stepper_int_handler cfg tb pins s).log
      = some ((calc_timer_period cfg tb (accelerate_rate b (acquire_block cfg tb s).1) % 65536
          : Nat) : Int) := by
  have h0 := isr_block_do_int cfg tb s b hb
  rw [stepper_int_handler_eq cfg tb pins s h0, hb] at hend ⊢
  simp only [] at hend ⊢
  generalize (acquire_block cfg tb s).1 = S at *
  obtain ⟨s2, e1, e2, e3, e4, e5, e6, e7, f1, f2, f3, f4, f5, f6, f7⟩ :=
    trace_block_timer cfg tb pins b S
  rw [e1] at hend
  obtain ⟨g1, g2, g3, g4, g5⟩ := update_timer_accelerate cfg tb b s2 hend
  have hr : accelerate_rate b s2 = accelerate_rate b S := by
    unfold accelerate_rate
    rw [e2]
  rw [hr] at g1 g2 g4 g5
  refine ⟨f1.trans g1, ?_, f4.trans g4, ?_⟩
  · rw [f2, g2, e2]
  · refine armed_of_attach _ (attach_periods S.log) _ ?_
    rw [f7, g5, attach_periods_ramp, e7]

/-- An invocation that ends in the deceleration phase. -/
theorem stepper_int_handler_decelerate (cfg : Config) (tb : Tables) (pins : Pins) (s : State)
    (b : block_t) (hb : isr_block cfg tb s = some b)
    (h1 : ¬ (stepper_int_handler cfg tb pins s).step_events_completed ≤ b.accelerate_until)
    (h2 : (stepper_int_handler cfg tb pins s).step_events_completed > b.decelerate_after) :
    (stepper_int_handler cfg tb pins s).acc_step_rate = (acquire_block cfg tb s).1.acc_step_rate ∧
    (stepper_int_handler cfg tb pins s).deceleration_time
      = (acquire_block cfg tb s).1.deceleration_time
        + ((calc_timer_period cfg tb (decelerate_rate b (acquire_block cfg tb s).1) % 65536
            : Nat) : Int) ∧
    (stepper_int_handler cfg tb pins s).step_loops
      = calc_timer_step_loops cfg (decelerate_rate b (acquire_block cfg tb s).1) ∧
    armed (stepper_int_handler cfg tb pins s).log
      = some ((calc_timer_period cfg tb (decelerate_rate b (acquire_block cfg tb s).1) % 65536
          : Nat) : Int) := by
  have h0 := isr_block_do_int cfg tb s b hb
  rw [stepper_int_handler_eq cfg tb pins s h0, hb] at h1 h2 ⊢
  simp only [] at h1 h2 ⊢
  generalize (acquire_block cfg tb s).1 = S at *
  obtain ⟨s2, e1, e2, e3, e4, e5, e6, e7, f1, f2, f3, f4, f5, f6, f7⟩ :=
    trace_block_timer cfg tb pins b S
  rw [e1] at h1 h2
  obtain ⟨g1, g2, g3, g4, g5⟩ := update_timer_decelerate cfg tb b s2 h1 h2
  have hr : decelerate_rate b s2 = decelerate_rate b S := by
    unfold decelerate_rate decelerate_delta
    rw [e3, e4]
  rw [hr] at g3 g4 g5
  refine ⟨f1.trans (g1.trans e4), ?_, f4.trans g4, ?_⟩
  · rw [f3, g3, e3]
  · refine armed_of_attach _ (attach_periods S.log) _ ?_
    rw [f7, g5, attach_periods_ramp, e7]

/-! ## Step events per invocation -/

/-- The step loop started with k < N step events done executes min(n, N - k)
step events, n being the bound of its for statement. -/
theorem step_loop_count (cfg : Config) (b : block_t) (hN : b.step_event_count < 2147483648)
    (n : Nat) :
    ∀ (s : State) (k : Nat), s.step_events_completed = k → k < b.step_event_count →
      (step_loop cfg b n s).step_events_completed = k + min n (b.step_event_count - k) ∧
      step_events (step_loop cfg b n s).log
        = step_events s.log + min n (b.step_event_count - k) := by
  induction n with
  | zero =>
    intro s k hk hlt
    unfold step_loop
    simp only [Nat.zero_min, Nat.add_zero]
    exact ⟨hk, trivial⟩
  | succ n ih =>
    intro s k hk hlt
    unfold step_loop
    obtain ⟨cx, cy, cz, ce, px, py, pz, pe, e0, e1, e2, l, hs, hev, -⟩ :=
      step_event_shape cfg b s
    have hsec : (step_event cfg b s).step_events_completed = k + 1 := by
      rw [hs]
      simp only []
      rw [hk]
      exact Nat.mod_eq_of_lt (by omega)
    have hlog : step_events (step_event cfg b s).log = step_events s.log + 1 := by
      rw [hs]
      simp only [step_events_append, hev]
    simp only []
    by_cases hfin : (step_event cfg b s).step_events_completed ≥ b.step_event_count
    · rw [if_pos hfin]
      rw [hsec] at hfin
      have hm : min (n + 1) (b.step_event_count - k) = 1 := by omega
      rw [hm]
      exact ⟨hsec, hlog⟩
    · rw [if_neg hfin]
      rw [hsec] at hfin
      obtain ⟨r1, r3⟩ := ih (step_event cfg b s) (k + 1) hsec (by omega)
      have hm : k + 1 + min n (b.step_event_count - (k + 1))
          = k + min (n + 1) (b.step_event_count - k) := by omega
      rw [hm] at r1
      refine ⟨r1, ?_⟩
      rw [r3, hlog]
      omega

/-- One invocation tracing block b without an endstop latch executes
min(step_loops, N - k) step events. -/
theorem trace_block_count (cfg : Config) (tb : Tables) (pins : Pins) (b : block_t)
    (s : State) (k : Nat) (hN : b.step_event_count < 2147483648)
    (hk : s.step_events_completed = k) (hlt : k < b.step_event_count)
    (hnl : ∀ a, a < 3 → axis_trigger cfg pins s b a = false) :
    (trace_block cfg tb pins b s).step_events_completed
      = k + min s.step_loops (b.step_event_count - k) ∧
    step_events (trace_block cfg tb pins b s).log
      = step_events s.log + min s.step_loops (b.step_event_count - k) ∧
    ∃ s2 : State, s2.step_events_completed = k + min s.step_loops (b.step_event_count - k) ∧
      s2.OCR1A_nominal = s.OCR1A_nominal ∧ s2.step_loops_nominal = s.step_loops_nominal ∧
      attach_periods s2.log = attach_periods s.log ∧
      (trace_block cfg tb pins b s).step_loops = (update_timer cfg tb b s2).step_loops ∧
      attach_periods (trace_block cfg tb pins b s).log
        = attach_periods (update_timer cfg tb b s2).log := by
  unfold trace_block
  simp only []
  obtain ⟨u1, -, -, l1, -, -, -, -, lg1, -⟩ := pass_frame cfg pins b s
  have sec1 : (set_directions_check_endstops cfg pins b s).step_events_completed = k := by
    rw [set_directions_check_endstops_eq]
    simp only [hnl 0 (by omega), hnl 1 (by omega), hnl 2 (by omega), Bool.or_false, if_false,
      Bool.false_eq_true]
    exact hk
  have ev1 : step_events (set_directions_check_endstops cfg pins b s).log = step_events s.log := by
    rw [lg1, step_events_append, step_events_quiet _ (direction_log_quiet cfg b s)]
    rfl
  have a1 : attach_periods (set_directions_check_endstops cfg pins b s).log
      = attach_periods s.log := by
    rw [lg1, attach_periods_append, attach_periods_direction_log, List.append_nil]
  clear lg1
  generalize set_directions_check_endstops cfg pins b s = s1 at *
  obtain ⟨r1, r3⟩ := step_loop_count cfg b hN s1.step_loops s1 k sec1 hlt
  obtain ⟨u2, -⟩ := step_loop_frame cfg b s1.step_loops s1
  have a2 := step_loop_attach cfg b s1.step_loops s1
  generalize step_loop cfg b s1.step_loops s1 = s2 at *
  rw [l1] at r1 r3
  obtain ⟨u3, -, -, t3, -⟩ := update_timer_frame cfg tb b s2
  rw [retire_block_eq]
  refine ⟨?_, ?_, s2, r1, u2.OCR1A_nominal.trans u1.OCR1A_nominal,
    u2.step_loops_nominal.trans u1.step_loops_nominal, a2.trans a1, ?_, ?_⟩
  · split_ifs
    · exact t3.sec.trans r1
    · exact t3.sec.trans r1
  · split_ifs
    · simp only [step_events_append, t3.step_events.1, r3, ev1]
      simp [step_events]
    · rw [t3.step_events.1, r3, ev1]
  · split_ifs <;> rfl
  · split_ifs
    · simp only [attach_periods_append]
      simp [attach_periods]
    · rfl

/-! ## Blocks without ramps -/

/-- The one period trapezoid_generator_reset arms. -/
theorem trapezoid_generator_reset_attach (cfg : Config) (tb : Tables) (b : block_t) (s : State) :
    attach_periods (trapezoid_generator_reset cfg tb b s).log
      = attach_periods s.log
        ++ [wrapLong (calc_timer_period cfg tb (b.initial_rate % 65536))] := by
  unfold trapezoid_generator_reset
  cases hA : cfg.ADVANCE
  · simp [calc_timer_eq, State.emit, attach_periods_append, attach_periods_calc_timer_log,
      attach_periods]
  · obtain ⟨e0, e1, e2, he⟩ :=
      e_steps_add_shape { s with advance := b.initial_advance, final_advance := b.final_advance }
        b.active_extruder (((b.initial_advance) >>> 8) - s.old_advance)
    simp [calc_timer_eq, State.emit, he, attach_periods_append, attach_periods_calc_timer_log,
      attach_periods]

/-- The timer variables and the period armed when a block is acquired without
a stall. -/
theorem acquire_block_timer (cfg : Config) (tb : Tables) (s : State) (b0 : block_t)
    (rest : List block_t) (hcb : s.current_block = none) (hq : s.queue = b0 :: rest)
    (hz : (cfg.Z_LATE_ENABLE && decide (b0.steps_z > 0)) = false) :
    (acquire_block cfg tb s).1.OCR1A_nominal = calc_timer_period cfg tb b0.nominal_rate % 65536 ∧
    (acquire_block cfg tb s).1.step_loops_nominal = calc_timer_step_loops cfg b0.nominal_rate ∧
    (acquire_block cfg tb s).1.step_loops
      = calc_timer_step_loops cfg (b0.initial_rate % 65536) ∧
    attach_periods (acquire_block cfg tb s).1.log
      = attach_periods s.log
        ++ [wrapLong (calc_timer_period cfg tb (b0.initial_rate % 65536))] := by
  obtain ⟨adv, fadv, oadv, e0, e1, e2, l, hl, h⟩ := acquire_block_some cfg tb s b0 rest hcb hq
  refine ⟨by rw [h], by rw [h], by rw [h], ?_⟩
  have ht := trapezoid_generator_reset_attach cfg tb { b0 with busy := true }
    { s with current_block := some { b0 with busy := true },
             queue := { b0 with busy := true } :: s.queue.tail }
  unfold acquire_block plan_get_current_block
  simp only [hcb, hq, List.head?_cons, List.tail_cons] at ht ⊢
  have hz2 : (cfg.Z_LATE_ENABLE && decide (b0.steps_z > 0)) = false := hz
  simp only [hz2, Bool.false_eq_true, if_false]
  exact ht

/-- An invocation that traces a block without ramps takes the cruise branch:
it arms OCR1A_nominal once and restores step_loops = step_loops_nominal. -/
theorem stepper_int_handler_cruise (cfg : Config) (tb : Tables) (pins : Pins) (s : State)
    (b : block_t) (k : Nat) (hN : b.step_event_count < 2147483648)
    (h0 : s.do_int ≠ 0) (hcb : s.current_block = some b) (hk : s.step_events_completed = k)
    (hlt : k < b.step_event_count) (hL : 1 ≤ s.step_loops)
    (hnl : isr_latches cfg tb pins s = false)
    (hau : b.accelerate_until = 0) (hda : b.step_event_count ≤ b.decelerate_after) :
    (stepper_int_handler cfg tb pins s).OCR1A_nominal = s.OCR1A_nominal ∧
    (stepper_int_handler cfg tb pins s).step_loops_nominal = s.step_loops_nominal ∧
    (stepper_int_handler cfg tb pins s).step_loops = s.step_loops_nominal % 256 ∧
    attach_periods (stepper_int_handler cfg tb pins s).log
      = attach_periods s.log ++ [(s.OCR1A_nominal : Int)] ∧
    k < (stepper_int_handler cfg tb pins s).step_events_completed ∧
    (stepper_int_handler cfg tb pins s).step_events_completed ≤ b.step_event_count := by
  have hb := isr_block_current cfg tb s b h0 hcb
  have htr := no_latch_of cfg tb pins s b hb hnl
  rw [stepper_int_handler_current cfg tb pins s b h0 hcb]
  obtain ⟨r1, -, s2, c1, c2, c3, c4, c5, c6⟩ := trace_block_count cfg tb pins b s k hN hk hlt htr
  obtain ⟨-, -, -, -, -, -, -, -, -, -, -, -, f5, f6, -⟩ := trace_block_timer cfg tb pins b s
  have hcr := update_timer_cruise cfg tb b s2 (by rw [c1, hau]; omega) (by rw [c1]; omega)
  rw [hcr] at c5 c6
  simp only [] at c5 c6
  refine ⟨f5, f6, ?_, ?_, by rw [r1]; omega, by rw [r1]; omega⟩
  · rw [c5, c3]
  · rw [c6, attach_periods_append, c4, c2]
    rfl

/-! ## Pulse counting on one axis -/

theorem Pulsing_congr (cfg : Config) (b : block_t) (base : State) (a k p : Nat) (s s' : State)
    (hc : s'.counter a = s.counter a)
    (hl : ∀ q ∈ axis_pins cfg b base a, pin_writes q.1 q.2 s'.log = pin_writes q.1 q.2 s.log)
    (h : Pulsing cfg b base a k p s) : Pulsing cfg b base a k p s' := by
  obtain ⟨h1, h2, h3, h5⟩ := h
  refine ⟨?_, ?_, ?_, ?_⟩
  · rw [hc]; exact h1
  · rw [hc]; exact h2
  · rw [hc]; exact h3
  · intro q hq
    rw [hl q hq]; exact h5 q hq

/-- A step of another axis does not disturb the pulse count of this one. -/
theorem Pulsing_skip (cfg : Config) (b : block_t) (base : State) (a a' k p : Nat)
    (s s' t : State) (d : Bool) (hne : a ≠ a') (hc : s'.counter a = s.counter a)
    (hl : s'.log = s.log ++ (if d then axis_pulse cfg b t a' else []))
    (h : Pulsing cfg b base a k p s) : Pulsing cfg b base a k p s' := by
  refine Pulsing_congr cfg b base a k p s s' hc ?_ h
  intro q hq
  rw [hl, pin_writes_append, pin_writes_if, pulse_count_other cfg b base t a a' q hq hne]
  cases d <;> rfl

/-- A step of this axis advances its pulse count by one step event, with at
most one pulse. -/
theorem Pulsing_own (cfg : Config) (b : block_t) (base : State) (a k p : Nat) (s s' : State)
    (hst : b.steps a ≤ b.step_event_count) (hN : b.step_event_count < 2147483648)
    (hpulse : 0 < wrapLong (s.counter a + b.steps a) →
      s'.counter a = wrapLong (wrapLong (s.counter a + b.steps a) - b.step_event_count) ∧
      s'.log = s.log ++ axis_pulse cfg b base a)
    (hquiet : ¬ 0 < wrapLong (s.counter a + b.steps a) →
      s'.counter a = wrapLong (s.counter a + b.steps a) ∧ s'.log = s.log)
    (h : Pulsing cfg b base a k p s) :
    ∃ p', p ≤ p' ∧ p' ≤ p + 1 ∧ Pulsing cfg b base a (k + 1) p' s' := by
  obtain ⟨h1, h2, h3, h5⟩ := h
  obtain ⟨w1, w2, w3⟩ := dda_step b.step_event_count (b.steps a) k p (s.counter a) h1 h2 h3 hst hN
  by_cases hpos : 0 < wrapLong (s.counter a + b.steps a)
  · obtain ⟨e1, e3⟩ := hpulse hpos
    rw [w1] at hpos e1
    obtain ⟨v1, v2, v3, v4⟩ := w2 hpos
    rw [v1] at e1
    refine ⟨p + 1, by omega, le_refl _, ?_, ?_, ?_, ?_⟩
    · rw [e1]; exact v4
    · rw [e1]; exact v2
    · rw [e1]; exact v3
    · intro q hq
      rw [e3, pin_writes_append, pulse_count_self cfg b base a q hq, h5 q hq]
      ring
  · obtain ⟨e1, e3⟩ := hquiet hpos
    rw [w1] at hpos e1
    obtain ⟨v1, v2, v3⟩ := w3 hpos
    refine ⟨p, le_refl _, by omega, ?_, ?_, ?_, ?_⟩
    · rw [e1]; exact v3
    · rw [e1]; exact v1
    · rw [e1]; exact v2
    · intro q hq
      rw [e3]; exact h5 q hq

theorem step_x_pulsing (cfg : Config) (b : block_t) (base s : State) (a k p : Nat)
    (hne : a ≠ 0) (h : Pulsing cfg b base a k p s) :
    Pulsing cfg b base a k p (step_x cfg b s) := by
  obtain ⟨d, c, hs⟩ := step_x_moves cfg b s
  refine Pulsing_skip cfg b base a 0 k p s _ s d hne ?_ ?_ h
  · rw [hs]
    rcases a with _ | _ | _ | _ | a <;> first | rfl | exact absurd rfl hne
  · rw [hs]

theorem step_y_pulsing (cfg : Config) (b : block_t) (base s : State) (a k p : Nat)
    (hne : a ≠ 1) (h : Pulsing cfg b base a k p s) :
    Pulsing cfg b base a k p (step_y cfg b s) := by
  obtain ⟨d, c, hs⟩ := step_y_moves cfg b s
  refine Pulsing_skip cfg b base a 1 k p s _ s d hne ?_ ?_ h
  · rw [hs]
    rcases a with _ | _ | _ | _ | a <;> first | rfl | exact absurd rfl hne
  · rw [hs]

theorem step_z_pulsing (cfg : Config) (b : block_t) (base s : State) (a k p : Nat)
    (hne : a ≠ 2) (h : Pulsing cfg b base a k p s) :
    Pulsing cfg b base a k p (step_z cfg b s) := by
  obtain ⟨d, c, hs⟩ := step_z_moves cfg b s
  refine Pulsing_skip cfg b base a 2 k p s _ s d hne ?_ ?_ h
  · rw [hs]
    rcases a with _ | _ | _ | _ | a <;> first | rfl | exact absurd rfl hne
  · rw [hs]

theorem step_e_pulsing (cfg : Config) (b : block_t) (base s : State) (a k p : Nat)
    (hne : a ≠ 3) (h : Pulsing cfg b base a k p s) :
    Pulsing cfg b base a k p (step_e cfg b s) := by
  obtain ⟨d, c, hs, -⟩ := step_e_moves cfg b s
  refine Pulsing_skip cfg b base a 3 k p s _ s d hne ?_ ?_ h
  · rw [hs]
    rcases a with _ | _ | _ | _ | a <;> first | rfl | exact absurd rfl hne
  · rw [hs]

theorem step_advance_e_pulsing (cfg : Config) (b : block_t) (base s : State) (a k p : Nat)
    (hne : a ≠ 3) (h : Pulsing cfg b base a k p s) :
    Pulsing cfg b base a k p (step_advance_e cfg b s) := by
  obtain ⟨c, e0, e1, e2, h0⟩ := step_advance_e_shape cfg b s
  rw [h0]
  refine Pulsing_congr cfg b base a k p s _ ?_ (fun _ _ => rfl) h
  rcases a with _ | _ | _ | _ | a <;> first | rfl | exact absurd rfl hne

/-- One step event advances the pulse count of an axis by one step event, with
at most one pulse. -/
theorem step_event_pulsing (cfg : Config) (b : block_t) (base s : State) (a k p : Nat)
    (ha : a < 4) (hA : a = 3 → cfg.ADVANCE = false)
    (hst : b.steps a ≤ b.step_event_count) (hN : b.step_event_count < 2147483648)
    (hdup : s.extruder_duplication_enabled = base.extruder_duplication_enabled)
    (h : Pulsing cfg b base a k p s) :
    ∃ p', p ≤ p' ∧ p' ≤ p + 1 ∧ Pulsing cfg b base a (k + 1) p' (step_event cfg b s) := by
  have hbump : ∀ (j r : Nat) (t : State), Pulsing cfg b base a j r t →
      Pulsing cfg b base a j r
        { t with step_events_completed := (t.step_events_completed + 1) % 4294967296,
                 log := t.log ++ [Event.step_event] } := by
    intro j r t ht
    refine Pulsing_congr cfg b base a j r t _ ?_ ?_ ht
    · rcases a with _ | _ | _ | _ | a <;> rfl
    · intro q hq
      rw [pin_writes_append]
      simp [pin_writes]
  have da := step_advance_e_dirs cfg b s
  have hdup0 : (step_advance_e cfg b s).extruder_duplication_enabled
      = base.extruder_duplication_enabled := da.2.2.2.2.trans hdup
  unfold step_event
  interval_cases a
  · obtain ⟨p', q1, q2, q3⟩ := Pulsing_own cfg b base 0 k p (step_advance_e cfg b s)
      (step_x cfg b (step_advance_e cfg b s)) hst hN
      (by
        intro hpos
        rw [step_x_eq]
        simp only [State.counter, block_t.steps] at hpos ⊢
        rw [if_pos hpos]
        exact ⟨rfl, by rw [← x_pulse_dup cfg b _ base hdup0]⟩)
      (by
        intro hneg
        rw [step_x_eq]
        simp only [State.counter, block_t.steps] at hneg ⊢
        rw [if_neg hneg]
        exact ⟨rfl, rfl⟩)
      (step_advance_e_pulsing cfg b base s 0 k p (by omega) h)
    exact ⟨p', q1, q2, hbump _ _ _ (step_e_pulsing cfg b base _ 0 _ _ (by omega)
      (step_z_pulsing cfg b base _ 0 _ _ (by omega)
        (step_y_pulsing cfg b base _ 0 _ _ (by omega) q3)))⟩
  · obtain ⟨p', q1, q2, q3⟩ := Pulsing_own cfg b base 1 k p
      (step_x cfg b (step_advance_e cfg b s))
      (step_y cfg b (step_x cfg b (step_advance_e cfg b s))) hst hN
      (by
        intro hpos
        rw [step_y_eq]
        simp only [State.counter, block_t.steps] at hpos ⊢
        rw [if_pos hpos]
        exact ⟨rfl, rfl⟩)
      (by
        intro hneg
        rw [step_y_eq]
        simp only [State.counter, block_t.steps] at hneg ⊢
        rw [if_neg hneg]
        exact ⟨rfl, rfl⟩)
      (step_x_pulsing cfg b base _ 1 k p (by omega)
        (step_advance_e_pulsing cfg b base s 1 k p (by omega) h))
    exact ⟨p', q1, q2, hbump _ _ _ (step_e_pulsing cfg b base _ 1 _ _ (by omega)
      (step_z_pulsing cfg b base _ 1 _ _ (by omega) q3))⟩
  · obtain ⟨p', q1, q2, q3⟩ := Pulsing_own cfg b base 2 k p
      (step_y cfg b (step_x cfg b (step_advance_e cfg b s)))
      (step_z cfg b (step_y cfg b (step_x cfg b (step_advance_e cfg b s)))) hst hN
      (by
        intro hpos
        rw [step_z_eq]
        simp only [State.counter, block_t.steps] at hpos ⊢
        rw [if_pos hpos]
        exact ⟨rfl, rfl⟩)
      (by
        intro hneg
        rw [step_z_eq]
        simp only [State.counter, block_t.steps] at hneg ⊢
        rw [if_neg hneg]
        exact ⟨rfl, rfl⟩)
      (step_y_pulsing cfg b base _ 2 k p (by omega)
        (step_x_pulsing cfg b base _ 2 k p (by omega)
          (step_advance_e_pulsing cfg b base s 2 k p (by omega) h)))
    exact ⟨p', q1, q2, hbump _ _ _ (step_e_pulsing cfg b base _ 2 _ _ (by omega) q3)⟩
  · have hoff : cfg.ADVANCE = false := hA rfl
    rw [step_advance_e_off cfg b s hoff]
    obtain ⟨p', q1, q2, q3⟩ := Pulsing_own cfg b base 3 k p
      (step_z cfg b (step_y cfg b (step_x cfg b s)))
      (step_e cfg b (step_z cfg b (step_y cfg b (step_x cfg b s)))) hst hN
      (by
        intro hpos
        rw [step_e_eq _ _ _ hoff]
        simp only [State.counter, block_t.steps] at hpos ⊢
        rw [if_pos hpos]
        exact ⟨rfl, rfl⟩)
      (by
        intro hneg
        rw [step_e_eq _ _ _ hoff]
        simp only [State.counter, block_t.steps] at hneg ⊢
        rw [if_neg hneg]
        exact ⟨rfl, rfl⟩)
      (step_z_pulsing cfg b base _ 3 k p (by omega)
        (step_y_pulsing cfg b base _ 3 k p (by omega)
          (step_x_pulsing cfg b base _ 3 k p (by omega) h)))
    exact ⟨p', q1, q2, hbump _ _ _ q3⟩
theorem step_event_dup (cfg : Config) (b : block_t) (s : State) :
    (step_event cfg b s).extruder_duplication_enabled = s.extruder_duplication_enabled := by
  obtain ⟨cx, cy, cz, ce, px, py, pz, pe, e0, e1, e2, l, hs, -⟩ := step_event_shape cfg b s
  rw [hs]

/-- The pulse count of an axis after any number of step events in sequence. -/
theorem step_events_pulsing (cfg : Config) (b : block_t) (s : State) (a : Nat)
    (ha : a < 4) (hA : a = 3 → cfg.ADVANCE = false)
    (hst : b.steps a ≤ b.step_event_count) (hN : b.step_event_count < 2147483648)
    (h1 : 1 ≤ b.step_event_count)
    (hc : s.counter a = -((b.step_event_count >>> 1 : Nat) : Int)) (k : Nat) :
    (Nat.iterate (step_event cfg b) k s).extruder_duplication_enabled
      = s.extruder_duplication_enabled ∧
    ∃ p, Pulsing cfg b s a k p (Nat.iterate (step_event cfg b) k s) := by
  induction k with
  | zero =>
    refine ⟨rfl, 0, ?_, ?_, ?_, ?_⟩
    · simp only [Function.iterate_zero, id_eq]
      rw [hc]
      push_cast
      ring
    · simp only [Function.iterate_zero, id_eq]
      rw [hc]
      have : b.step_event_count >>> 1 < b.step_event_count := by
        rw [Nat.shiftRight_eq_div_pow]
        omega
      omega
    · simp only [Function.iterate_zero, id_eq]
      rw [hc]
      omega
    · intro q _
      rfl
  | succ k ih =>
    obtain ⟨hd, p, hp⟩ := ih
    rw [Function.iterate_succ_apply']
    obtain ⟨p', -, -, hp'⟩ := step_event_pulsing cfg b s _ a k p ha hA hst hN hd hp
    exact ⟨(step_event_dup cfg b _).trans hd, p', hp'⟩

/-- Two pulse counts G step events apart, G * steps ≥ N, differ. -/
theorem Pulsing_window (cfg : Config) (b : block_t) (base s s' : State) (a k G p p' : Nat)
    (hG : b.step_event_count ≤ G * b.steps a)
    (h : Pulsing cfg b base a k p s) (h' : Pulsing cfg b base a (k + G) p' s') : p < p' := by
  obtain ⟨c1, c2, -, -⟩ := h
  obtain ⟨d1, -, d3, -⟩ := h'
  by_contra hle
  have hmul : p' * b.step_event_count ≤ p * b.step_event_count :=
    Nat.mul_le_mul_right _ (by omega)
  have hmulZ : (p' : Int) * (b.step_event_count : Int) ≤ (p : Int) * (b.step_event_count : Int) := by
    exact_mod_cast hmul
  have hGZ : (b.step_event_count : Int) ≤ (G : Int) * (b.steps a : Int) := by
    exact_mod_cast hG
  have hsum : ((k + G : Nat) : Int) * (b.steps a : Int)
      = (k : Int) * (b.steps a : Int) + (G : Int) * (b.steps a : Int) := by
    push_cast
    ring
  rw [hsum] at d1
  linarith

/-! ## step_loops over the reachable states -/

/-- Whatever the endstops do, an invocation that traces a block leaves
step_loops and step_loops_nominal in {1, 2, 4} when step_loops_nominal was. -/
theorem trace_block_loops (cfg : Config) (tb : Tables) (pins : Pins) (b : block_t) (s : State)
    (h : s.step_loops_nominal = 1 ∨ s.step_loops_nominal = 2 ∨ s.step_loops_nominal = 4) :
    LoopsOK (trace_block cfg tb pins b s) := by
  obtain ⟨s2, -, -, -, -, -, e6, -, -, -, -, f4, -, f6, -⟩ := trace_block_timer cfg tb pins b s
  obtain ⟨-, -, -, -, hsl⟩ := update_timer_frame cfg tb b s2
  rw [e6] at hsl
  refine ⟨?_, by rw [f6]; exact h⟩
  rw [f4]
  rcases hsl with hs | hs
  · rw [hs]
    rcases h with h | h | h <;> rw [h] <;> simp
  · exact hs

theorem stepper_int_handler_do_int (cfg : Config) (tb : Tables) (pins : Pins) (s : State) :
    (stepper_int_handler cfg tb pins s).do_int = s.do_int := by
  rcases hb : isr_block cfg tb s with _ | b
  · exact (stepper_int_handler_rest cfg tb pins s hb).2.2.1
  · exact (stepper_int_handler_endstops cfg tb pins s b hb).2.2.2.2

/-- The step_loops variables after acquire_block took a block. -/
theorem acquire_block_loops (cfg : Config) (tb : Tables) (s : State) (b0 : block_t)
    (rest : List block_t) (hcb : s.current_block = none) (hq : s.queue = b0 :: rest) :
    LoopsOK (acquire_block cfg tb s).1 ∧
    (acquire_block cfg tb s).1.current_block = some { b0 with busy := true } ∧
    (acquire_block cfg tb s).2 = (cfg.Z_LATE_ENABLE && decide (b0.steps_z > 0)) := by
  obtain ⟨adv, fadv, oadv, e0, e1, e2, l, hl, h⟩ := acquire_block_some cfg tb s b0 rest hcb hq
  rw [h]
  exact ⟨⟨calc_timer_step_loops_cases cfg _, calc_timer_step_loops_cases cfg _⟩, rfl, rfl⟩

/-- One invocation and step_loops: it stays in {1, 2, 4} once there, it gets
there whenever the invocation has a block, and it is left alone otherwise. -/
theorem stepper_int_handler_loops (cfg : Config) (tb : Tables) (pins : Pins) (s : State)
    (h0 : s.do_int ≠ 0) (hinv : s.current_block ≠ none → LoopsOK s) :
    (LoopsOK s → LoopsOK (stepper_int_handler cfg tb pins s)) ∧
    ((s.current_block ≠ none ∨ s.queue ≠ []) → LoopsOK (stepper_int_handler cfg tb pins s)) ∧
    (s.current_block = none → s.queue = [] →
      (stepper_int_handler cfg tb pins s).step_loops = s.step_loops ∧
      (stepper_int_handler cfg tb pins s).current_block = none) := by
  rcases hcb : s.current_block with _ | b
  · rcases hq : s.queue with _ | ⟨b0, rest⟩
    · rw [stepper_int_handler_idle cfg tb pins s h0 hcb hq]
      refine ⟨fun h => h, fun h => ?_, fun _ _ => ⟨rfl, hcb⟩⟩
      rcases h with h | h
      · exact absurd rfl h
      · exact absurd rfl h
    · obtain ⟨a1, a2, a3⟩ := acquire_block_loops cfg tb s b0 rest hcb hq
      have hok : LoopsOK (stepper_int_handler cfg tb pins s) := by
        unfold stepper_int_handler
        rw [if_neg h0]
        simp only []
        split_ifs
        · exact a1
        · rw [a2]
          exact trace_block_loops cfg tb pins _ _ a1.2
      exact ⟨fun _ => hok, fun _ => hok, fun _ h => by cases h⟩
  · have hL := hinv (by rw [hcb]; simp)
    have hok : LoopsOK (stepper_int_handler cfg tb pins s) := by
      rw [stepper_int_handler_current cfg tb pins s b h0 hcb]
      exact trace_block_loops cfg tb pins b s hL.2
    exact ⟨fun _ => hok, fun _ => hok, fun h => by cases h⟩

theorem quickStop_loop_loops : ∀ (fuel : Nat) (s s' : State), quickStop_loop fuel s = some s' →
    s'.step_loops = s.step_loops ∧ s'.step_loops_nominal = s.step_loops_nominal := by
  intro fuel
  induction fuel with
  | zero =>
    intro s s' h
    unfold quickStop_loop at h
    split_ifs at h
    cases h
    exact ⟨rfl, rfl⟩
  | succ n ih =>
    intro s s' h
    unfold quickStop_loop at h
    split_ifs at h
    · obtain ⟨r1, r2⟩ := ih _ _ h
      exact ⟨r1, r2⟩
    · cases h
      exact ⟨rfl, rfl⟩

/-- In every reachable state the interrupt gate is open, and step_loops is 0
with no current block or step_loops and step_loops_nominal are in {1, 2, 4}. -/
theorem Reachable_loops (cfg : Config) (tb : Tables) (s : State) (h : Reachable cfg tb s) :
    s.do_int ≠ 0 ∧ ((s.step_loops = 0 ∧ s.current_block = none) ∨ LoopsOK s) := by
  induction h with
  | start =>
    unfold st_init
    simp only []
    split_ifs
    · exact ⟨by show (1 : Int) ≠ 0; decide, Or.inl ⟨rfl, rfl⟩⟩
    · exact ⟨by show (1 : Int) ≠ 0; decide, Or.inl ⟨rfl, rfl⟩⟩
  | @isr pins t _ ih =>
    obtain ⟨i0, i1⟩ := ih
    have hinv : t.current_block ≠ none → LoopsOK t := by
      intro hne
      rcases i1 with ⟨-, h⟩ | h
      · exact absurd h hne
      · exact h
    obtain ⟨l1, l2, l3⟩ := stepper_int_handler_loops cfg tb pins t i0 hinv
    refine ⟨by rw [stepper_int_handler_do_int]; exact i0, ?_⟩
    rcases i1 with ⟨z, hcb⟩ | h
    · by_cases hq : t.queue = []
      · obtain ⟨m1, m2⟩ := l3 hcb hq
        exact Or.inl ⟨m1.trans z, m2⟩
      · exact Or.inr (l2 (Or.inr hq))
    · exact Or.inr (l1 h)
  | queued b _ ih => exact ih
  | duplication d _ ih => exact ih
  | wake_up _ ih =>
    unfold st_wake_up
    exact ⟨by show (1 : Int) ≠ 0; decide, ih.2⟩
  | set_position x y z e _ ih => exact ih
  | set_e_position e _ ih => exact ih
  | endstops c _ ih => exact ih
  | hit_on_purpose _ ih => exact ih
  | @quick_stop fuel t t' _ hqs ih =>
    unfold quickStop at hqs
    split at hqs
    · cases hqs
    · rename_i s1 hs1
      cases hqs
      obtain ⟨r1, r2⟩ := quickStop_loop_loops fuel _ _ hs1
      refine ⟨by show (1 : Int) ≠ 0; decide, ?_⟩
      rcases ih.2 with ⟨z, -⟩ | h
      · exact Or.inl ⟨r1.trans z, rfl⟩
      · exact Or.inr ⟨by rw [show ({ s1 with current_block := none, do_int := 1 } : State).step_loops
            = s1.step_loops from rfl, r1]; exact h.1,
          by rw [show ({ s1 with current_block := none, do_int := 1 } : State).step_loops_nominal
            = s1.step_loops_nominal from rfl, r2]; exact h.2⟩

/-! ## The current block at the exit of an invocation -/

/-- An invocation that traces block b exits with no current block, or with b
still current, fewer than N step events done, and the counters the step loop
left. -/
theorem trace_block_exit (cfg : Config) (tb : Tables) (pins : Pins) (b : block_t) (s : State)
    (hcb : s.current_block = some b) :
    ((trace_block cfg tb pins b s).current_block = none ∨
      ((trace_block cfg tb pins b s).current_block = some b ∧
        (trace_block cfg tb pins b s).step_events_completed < b.step_event_count)) ∧
    ∀ a, (trace_block cfg tb pins b s).counter a
      = (step_loop cfg b s.step_loops (set_directions_check_endstops cfg pins b s)).counter a := by
  unfold trace_block
  simp only []
  obtain ⟨-, b1, -, l1, -⟩ := pass_frame cfg pins b s
  rw [l1]
  generalize set_directions_check_endstops cfg pins b s = s1 at *
  obtain ⟨-, b2, -⟩ := step_loop_frame cfg b s.step_loops s1
  generalize step_loop cfg b s.step_loops s1 = s2 at *
  obtain ⟨-, b3, -, t3, -⟩ := update_timer_frame cfg tb b s2
  generalize update_timer cfg tb b s2 = s3 at *
  have hc3 : s3.current_block = some b := by
    rw [b3.current_block, b2.current_block, b1.current_block, hcb]
  have hcnt : ∀ a, s3.counter a = s2.counter a := by
    intro a
    rcases a with _ | _ | _ | _ | a
    · exact t3.counter_x
    · exact t3.counter_y
    · exact t3.counter_z
    · exact t3.counter_e
    · rfl
  rw [retire_block_eq]
  split_ifs with h
  · refine ⟨Or.inl rfl, ?_⟩
    intro a
    rw [← hcnt a]
    rcases a with _ | _ | _ | _ | a <;> rfl
  · exact ⟨Or.inr ⟨hc3, by omega⟩, hcnt⟩

/-- The handler returns at line 259 only from a fresh acquisition, with no
step event done and the counters just initialised. -/
theorem acquire_block_stall (cfg : Config) (tb : Tables) (s : State)
    (h : (acquire_block cfg tb s).2 = true) :
    ∃ b0 rest, s.current_block = none ∧ s.queue = b0 :: rest ∧
      (acquire_block cfg tb s).1.step_events_completed = 0 := by
  rcases hcb : s.current_block with _ | b
  · rcases hq : s.queue with _ | ⟨b0, rest⟩
    · rw [acquire_block_idle cfg tb s hcb hq] at h
      exact Bool.noConfusion h
    · obtain ⟨adv, fadv, oadv, e0, e1, e2, l, hl, ha⟩ :=
        acquire_block_some cfg tb s b0 rest hcb hq
      refine ⟨b0, rest, rfl, rfl, ?_⟩
      rw [ha]
  · rw [acquire_block_current cfg tb s b hcb] at h
    exact Bool.noConfusion h

/-- The shape of an invocation that exits with a current block b: b is the
block the acquisition step leaves current, and the handler returned at
line 259 right after acquiring it, or traced it without completing it. -/
theorem stepper_int_handler_exit (cfg : Config) (tb : Tables) (pins : Pins) (s : State)
    (b : block_t) (h0 : s.do_int ≠ 0)
    (hcb : (stepper_int_handler cfg tb pins s).current_block = some b) :
    (acquire_block cfg tb s).1.current_block = some b ∧
    ((stepper_int_handler cfg tb pins s = (acquire_block cfg tb s).1 ∧
        s.current_block = none ∧
        (acquire_block cfg tb s).1.step_events_completed = 0) ∨
      (stepper_int_handler cfg tb pins s
          = trace_block cfg tb pins b (acquire_block cfg tb s).1 ∧
        (stepper_int_handler cfg tb pins s).step_events_completed < b.step_event_count)) := by
  rcases hS : (acquire_block cfg tb s).1.current_block with _ | b'
  · exfalso
    have hn : (stepper_int_handler cfg tb pins s).current_block = none := by
      unfold stepper_int_handler
      rw [if_neg h0]
      simp only [hS]
      split_ifs <;> exact hS
    rw [hn] at hcb
    exact absurd hcb (by simp)
  · have heq := stepper_int_handler_acquire cfg tb pins s (acquire_block cfg tb s).1 b'
      (acquire_block cfg tb s).2 h0 rfl hS
    rcases hf : (acquire_block cfg tb s).2 with _ | _
    · rw [hf] at heq
      simp only [Bool.false_eq_true, if_false] at heq
      obtain ⟨hx, -⟩ := trace_block_exit cfg tb pins b' _ hS
      rw [← heq] at hx
      rcases hx with hx | ⟨hx, hlt⟩
      · rw [hx] at hcb
        exact absurd hcb (by simp)
      · rw [hx] at hcb
        have hbb : b' = b := Option.some.inj hcb
        subst hbb
        exact ⟨rfl, Or.inr ⟨heq, hlt⟩⟩
    · rw [hf] at heq
      simp only [if_true] at heq
      obtain ⟨b0, rest, c1, -, c3⟩ := acquire_block_stall cfg tb s hf
      rw [heq, hS] at hcb
      exact ⟨hcb, Or.inl ⟨heq, c1, c3⟩⟩

/-- At the exit of an invocation with the interrupt gate open, a current
block has at most N step events done. -/
theorem stepper_int_handler_progress (cfg : Config) (tb : Tables) (pins : Pins) (s : State)
    (b : block_t) (h0 : s.do_int ≠ 0)
    (hcb : (stepper_int_handler cfg tb pins s).current_block = some b) :
    (stepper_int_handler cfg tb pins s).step_events_completed ≤ b.step_event_count := by
  obtain ⟨-, h | h⟩ := stepper_int_handler_exit cfg tb pins s b h0 hcb
  · rw [h.1, h.2.2]
    exact Nat.zero_le _
  · exact Nat.le_of_lt h.2

theorem quickStop_some (fuel : Nat) (s s' : State) (h : quickStop fuel s = some s') :
    s'.current_block = none := by
  unfold quickStop at h
  split at h
  · cases h
  · cases h
    rfl

/-- In every reachable state a current block has at most N step events done. -/
theorem Reachable_progress (cfg : Config) (tb : Tables) (s : State) (h : Reachable cfg tb s) :
    ∀ b, s.current_block = some b → s.step_events_completed ≤ b.step_event_count := by
  induction h with
  | start =>
    intro b hb
    unfold st_init at hb
    simp only [] at hb
    split_ifs at hb <;> exact absurd hb (by simp [enable_endstops, State.emit, initial_state])
  | @isr pins t ht _ =>
    intro b hb
    exact stepper_int_handler_progress cfg tb pins t b (Reachable_loops cfg tb t ht).1 hb
  | queued b _ ih => exact ih
  | duplication d _ ih => exact ih
  | wake_up _ ih => exact ih
  | set_position x y z e _ ih => exact ih
  | set_e_position e _ ih => exact ih
  | endstops c _ ih => exact ih
  | hit_on_purpose _ ih => exact ih
  | @quick_stop fuel t t' _ hqs _ =>
    intro b hb
    rw [quickStop_some fuel t t' hqs] at hb
    exact absurd hb (by simp)

/-! ## The range of the Bresenham counters -/

theorem dda_next_range (N st : Nat) (c : Int) (h1 : -(N : Int) ≤ c) (h2 : c ≤ 0)
    (hst : st ≤ N) (hN : N < 2147483648) :
    -(N : Int) ≤ dda_next N c st ∧ dda_next N c st ≤ 0 := by
  have hst2 : (st : Int) ≤ N := by exact_mod_cast hst
  have hN2 : (N : Int) < 2147483648 := by exact_mod_cast hN
  have hst0 : (0 : Int) ≤ st := by positivity
  unfold dda_next
  rw [wrapLong_of_range (c + st) (by omega) (by omega)]
  split_ifs with h
  · rw [wrapLong_of_range _ (by omega) (by omega)]
    omega
  · omega

theorem step_x_counters (cfg : Config) (b : block_t) (s : State) :
    (step_x cfg b s).counter_x = dda_next b.step_event_count s.counter_x b.steps_x ∧
    (step_x cfg b s).counter_y = s.counter_y ∧ (step_x cfg b s).counter_z = s.counter_z ∧
    (step_x cfg b s).counter_e = s.counter_e := by
  rw [step_x_eq]
  unfold dda_next
  split_ifs <;> exact ⟨rfl, rfl, rfl, rfl⟩

theorem step_y_counters (cfg : Config) (b : block_t) (s : State) :
    (step_y cfg b s).counter_x = s.counter_x ∧
    (step_y cfg b s).counter_y = dda_next b.step_event_count s.counter_y b.steps_y ∧
    (step_y cfg b s).counter_z = s.counter_z ∧ (step_y cfg b s).counter_e = s.counter_e := by
  rw [step_y_eq]
  unfold dda_next
  split_ifs <;> exact ⟨rfl, rfl, rfl, rfl⟩

theorem step_z_counters (cfg : Config) (b : block_t) (s : State) :
    (step_z cfg b s).counter_x = s.counter_x ∧ (step_z cfg b s).counter_y = s.counter_y ∧
    (step_z cfg b s).counter_z = dda_next b.step_event_count s.counter_z b.steps_z ∧
    (step_z cfg b s).counter_e = s.counter_e := by
  rw [step_z_eq]
  unfold dda_next
  split_ifs <;> exact ⟨rfl, rfl, rfl, rfl⟩

theorem step_e_counters (cfg : Config) (b : block_t) (s : State) :
    (step_e cfg b s).counter_x = s.counter_x ∧ (step_e cfg b s).counter_y = s.counter_y ∧
    (step_e cfg b s).counter_z = s.counter_z ∧
    (step_e cfg b s).counter_e
      = if cfg.ADVANCE then s.counter_e
        else dda_next b.step_event_count s.counter_e b.steps_e := by
  rcases Bool.eq_false_or_eq_true cfg.ADVANCE with hA | hA
  · rw [step_e_on cfg b s hA, hA]
    exact ⟨rfl, rfl, rfl, rfl⟩
  · rw [step_e_eq cfg b s hA, hA]
    simp only [Bool.false_eq_true, if_false]
    unfold dda_next
    split_ifs <;> exact ⟨rfl, rfl, rfl, rfl⟩

theorem step_advance_e_counters (cfg : Config) (b : block_t) (s : State) :
    (step_advance_e cfg b s).counter_x = s.counter_x ∧
    (step_advance_e cfg b s).counter_y = s.counter_y ∧
    (step_advance_e cfg b s).counter_z = s.counter_z ∧
    (step_advance_e cfg b s).counter_e
      = if cfg.ADVANCE then dda_next b.step_event_count s.counter_e b.steps_e
        else s.counter_e := by
  obtain ⟨c, e0, e1, e2, h0⟩ := step_advance_e_shape cfg b s
  refine ⟨by rw [h0], by rw [h0], by rw [h0], ?_⟩
  rcases Bool.eq_false_or_eq_true cfg.ADVANCE with hA | hA
  · rw [hA]
    simp only [if_true]
    unfold step_advance_e dda_next
    simp only [hA, if_true]
    split_ifs
    · obtain ⟨f0, f1, f2, hf⟩ := e_steps_add_shape
        { s with counter_e := wrapLong (wrapLong (s.counter_e + b.steps_e) - b.step_event_count) }
        b.active_extruder (-1)
      rw [hf]
    · obtain ⟨f0, f1, f2, hf⟩ := e_steps_add_shape
        { s with counter_e := wrapLong (wrapLong (s.counter_e + b.steps_e) - b.step_event_count) }
        b.active_extruder 1
      rw [hf]
    · rfl
  · rw [step_advance_e_off cfg b s hA, hA]
    rfl

/-- One step event applies one step of the Bresenham counter to each of the
four counters, in every configuration. -/
theorem step_event_counters (cfg : Config) (b : block_t) (s : State) (a : Nat) (ha : a < 4) :
    (step_event cfg b s).counter a = dda_next b.step_event_count (s.counter a) (b.steps a) := by
  unfold step_event
  simp only []
  obtain ⟨a1, a2, a3, a4⟩ := step_advance_e_counters cfg b s
  generalize step_advance_e cfg b s = t0 at *
  obtain ⟨x1, x2, x3, x4⟩ := step_x_counters cfg b t0
  generalize step_x cfg b t0 = t1 at *
  obtain ⟨y1, y2, y3, y4⟩ := step_y_counters cfg b t1
  generalize step_y cfg b t1 = t2 at *
  obtain ⟨z1, z2, z3, z4⟩ := step_z_counters cfg b t2
  generalize step_z cfg b t2 = t3 at *
  obtain ⟨e1, e2, e3, e4⟩ := step_e_counters cfg b t3
  generalize step_e cfg b t3 = t4 at *
  interval_cases a
  · show t4.counter_x = _
    rw [e1, z1, y1, x1, a1]
    rfl
  · show t4.counter_y = _
    rw [e2, z2, y2, x2, a2]
    rfl
  · show t4.counter_z = _
    rw [e3, z3, y3, x3, a3]
    rfl
  · show t4.counter_e = _
    rw [e4, z4, y4, x4, a4]
    cases cfg.ADVANCE <;> rfl

/-- The four counters lie in [-N, 0]. -/
theorem step_event_range (cfg : Config) (b : block_t) (s : State)
    (hst : ∀ a, a < 4 → b.steps a ≤ b.step_event_count)
    (hN : b.step_event_count < 2147483648)
    (h : ∀ a, a < 4 → -(b.step_event_count : Int) ≤ s.counter a ∧ s.counter a ≤ 0) :
    ∀ a, a < 4 → -(b.step_event_count : Int) ≤ (step_event cfg b s).counter a ∧
      (step_event cfg b s).counter a ≤ 0 := by
  intro a ha
  rw [step_event_counters cfg b s a ha]
  exact dda_next_range _ _ _ (h a ha).1 (h a ha).2 (hst a ha) hN

theorem step_loop_range (cfg : Config) (b : block_t)
    (hst : ∀ a, a < 4 → b.steps a ≤ b.step_event_count)
    (hN : b.step_event_count < 2147483648) (n : Nat) :
    ∀ s : State, (∀ a, a < 4 → -(b.step_event_count : Int) ≤ s.counter a ∧ s.counter a ≤ 0) →
      ∀ a, a < 4 → -(b.step_event_count : Int) ≤ (step_loop cfg b n s).counter a ∧
        (step_loop cfg b n s).counter a ≤ 0 := by
  induction n with
  | zero =>
    intro s h
    unfold step_loop
    exact h
  | succ n ih =>
    intro s h
    unfold step_loop
    simp only []
    split_ifs
    · exact step_event_range cfg b s hst hN h
    · exact ih _ (step_event_range cfg b s hst hN h)

theorem pass_counters (cfg : Config) (pins : Pins) (b : block_t) (s : State) (a : Nat) :
    (set_directions_check_endstops cfg pins b s).counter a = s.counter a := by
  obtain ⟨-, -, -, -, c1, c2, c3, c4, -⟩ := pass_frame cfg pins b s
  rcases a with _ | _ | _ | _ | a
  · exact c1
  · exact c2
  · exact c3
  · exact c4
  · rfl

/-- The counters of the state the acquisition step leaves are in range for
its current block, when those of the entry state are for the block current
there. -/
theorem acquire_block_range (cfg : Config) (tb : Tables) (s : State) (b : block_t)
    (hN : b.step_event_count < 2147483648)
    (hinv : s.current_block = some b →
      ∀ a, a < 4 → -(b.step_event_count : Int) ≤ s.counter a ∧ s.counter a ≤ 0)
    (hcb : (acquire_block cfg tb s).1.current_block = some b) :
    ∀ a, a < 4 → -(b.step_event_count : Int) ≤ (acquire_block cfg tb s).1.counter a ∧
      (acquire_block cfg tb s).1.counter a ≤ 0 := by
  rcases hc : s.current_block with _ | b'
  · rcases hq : s.queue with _ | ⟨b0, rest⟩
    · rw [acquire_block_idle cfg tb s hc hq] at hcb
      simp only [] at hcb
      rw [hc] at hcb
      exact absurd hcb (by simp)
    · obtain ⟨adv, fadv, oadv, e0, e1, e2, l, hl, ha⟩ :=
        acquire_block_some cfg tb s b0 rest hc hq
      rw [ha] at hcb ⊢
      simp only [] at hcb
      have hb : ({ b0 with busy := true } : block_t) = b := Option.some.inj hcb
      have hNb : b0.step_event_count = b.step_event_count := by rw [← hb]
      have hw : wrapLong (-((b0.step_event_count >>> 1 : Nat) : Int))
          = -((b0.step_event_count >>> 1 : Nat) : Int) := by
        have : b0.step_event_count >>> 1 ≤ b0.step_event_count := by
          rw [Nat.shiftRight_eq_div_pow]
          omega
        exact wrapLong_of_range _ (by omega) (by omega)
      have hh : b0.step_event_count >>> 1 ≤ b0.step_event_count := by
        rw [Nat.shiftRight_eq_div_pow]
        omega
      intro a ha4
      interval_cases a
      all_goals
        simp only [State.counter]
        rw [hw]
        omega
  · rw [acquire_block_current cfg tb s b' hc] at hcb ⊢
    simp only [] at hcb ⊢
    exact hinv hcb

/-- At the exit of an invocation the counters are in range for the block
current there, when those of the entry state are for the block current
there. -/
theorem stepper_int_handler_range (cfg : Config) (tb : Tables) (pins : Pins) (s : State)
    (b : block_t) (h0 : s.do_int ≠ 0)
    (hst : ∀ a, a < 4 → b.steps a ≤ b.step_event_count)
    (hN : b.step_event_count < 2147483648)
    (hinv : s.current_block = some b →
      ∀ a, a < 4 → -(b.step_event_count : Int) ≤ s.counter a ∧ s.counter a ≤ 0)
    (hcb : (stepper_int_handler cfg tb pins s).current_block = some b) :
    ∀ a, a < 4 → -(b.step_event_count : Int) ≤ (stepper_int_handler cfg tb pins s).counter a ∧
      (stepper_int_handler cfg tb pins s).counter a ≤ 0 := by
  obtain ⟨hS, h | h⟩ := stepper_int_handler_exit cfg tb pins s b h0 hcb
  · rw [h.1]
    exact acquire_block_range cfg tb s b hN hinv hS
  · rw [h.1]
    intro a ha
    rw [(trace_block_exit cfg tb pins b _ hS).2 a]
    refine step_loop_range cfg b hst hN _ _ ?_ a ha
    intro a' ha'
    rw [pass_counters]
    exact acquire_block_range cfg tb s b hN hinv hS a' ha'

/-- In every reachable state the counters are in [-N, 0] for a current block
with steps[a] ≤ N on every axis. -/
theorem Reachable_range (cfg : Config) (tb : Tables) (s : State) (h : Reachable cfg tb s) :
    ∀ b, s.current_block = some b → (∀ a, a < 4 → b.steps a ≤ b.step_event_count) →
      b.step_event_count < 2147483648 →
      ∀ a, a < 4 → -(b.step_event_count : Int) ≤ s.counter a ∧ s.counter a ≤ 0 := by
  induction h with
  | start =>
    intro b hb
    unfold st_init at hb
    simp only [] at hb
    split_ifs at hb <;> exact absurd hb (by simp [enable_endstops, State.emit, initial_state])
  | @isr pins t ht ih =>
    intro b hb hst hN
    exact stepper_int_handler_range cfg tb pins t b (Reachable_loops cfg tb t ht).1 hst hN
      (fun hc => ih b hc hst hN) hb
  | queued b _ ih => exact ih
  | duplication d _ ih => exact ih
  | wake_up _ ih => exact ih
  | set_position x y z e _ ih =>
    intro b hb hst hN a ha
    have := ih b hb hst hN a ha
    rcases a with _ | _ | _ | _ | a <;> exact this
  | set_e_position e _ ih =>
    intro b hb hst hN a ha
    have := ih b hb hst hN a ha
    rcases a with _ | _ | _ | _ | a <;> exact this
  | endstops c _ ih => exact ih
  | hit_on_purpose _ ih => exact ih
  | @quick_stop fuel t t' _ hqs _ =>
    intro b hb
    rw [quickStop_some fuel t t' hqs] at hb
    exact absurd hb (by simp)

/-! ## The advance interrupt -/

theorem drain_extruder_eq (step dir : EPin) (idle pulse_neg pulse_pos dir_neg : Bool) (e : Int)
    (w : List (EPin × Bool)) :
    drain_extruder step dir idle pulse_neg pulse_pos dir_neg e w
      = (toward_zero e, w ++ drain_writes step dir idle pulse_neg pulse_pos dir_neg e) := by
  unfold drain_extruder toward_zero drain_writes
  by_cases h1 : e < 0
  · have h0 : e ≠ 0 := by omega
    simp [h0, h1]
  · by_cases h2 : e > 0
    · have h0 : e ≠ 0 := by omega
      simp [h0, h1, h2]
    · have h0 : e = 0 := by omega
      simp [h0]

theorem epin_writes_append (p : EPin) (lvl : Bool) (l1 l2 : List (EPin × Bool)) :
    epin_writes p lvl (l1 ++ l2) = epin_writes p lvl l1 + epin_writes p lvl l2 := by
  unfold epin_writes
  exact List.count_append _ _ _

/-- The pins of another extruder are not written. -/
theorem drain_writes_other (p step dir : EPin) (lvl idle pulse_neg pulse_pos dir_neg : Bool)
    (e : Int) (h1 : p ≠ step) (h2 : p ≠ dir) :
    epin_writes p lvl (drain_writes step dir idle pulse_neg pulse_pos dir_neg e) = 0 := by
  unfold epin_writes drain_writes
  rw [List.count_eq_zero]
  intro hm
  split_ifs at hm
  · simp at hm
    rcases hm with ⟨h, -⟩ | ⟨h, -⟩ | ⟨h, -⟩
    · exact h1 h
    · exact h2 h
    · exact h1 h
  · simp at hm
    rcases hm with ⟨h, -⟩ | ⟨h, -⟩ | ⟨h, -⟩
    · exact h1 h
    · exact h2 h
    · exact h1 h
  · simp at hm
/-- One pass of the loop: each configured extruder makes one step toward zero
and writes its pins. -/
theorem advance_pass_eq (cfg : Config) (ac : AdvanceConfig) (r : State × Timer0) :
    advance_pass cfg ac r
      = ({ r.1 with e_steps_0 := toward_zero r.1.e_steps_0,
                    e_steps_1 := if ac.EXTRUDERS > 1 then toward_zero r.1.e_steps_1
                                 else r.1.e_steps_1,
                    e_steps_2 := if ac.EXTRUDERS > 2 then toward_zero r.1.e_steps_2
                                 else r.1.e_steps_2 },
         { r.2 with writes := r.2.writes ++ (extruder_writes cfg ac 0 r.1.e_steps_0
              ++ ((if ac.EXTRUDERS > 1 then extruder_writes cfg ac 1 r.1.e_steps_1 else [])
              ++ (if ac.EXTRUDERS > 2 then extruder_writes cfg ac 2 r.1.e_steps_2 else []))) }) := by
  unfold advance_pass extruder_writes
  simp only [drain_extruder_eq]
  by_cases h1 : ac.EXTRUDERS > 1 <;> by_cases h2 : ac.EXTRUDERS > 2 <;>
    simp [h1, h2, EPin.step_of, EPin.dir_of, AdvanceConfig.INVERT_E_DIR]

theorem extruder_writes_other (cfg : Config) (ac : AdvanceConfig) (i j : Nat) (e : Int)
    (hi : i < 3) (hj : j < 3) (hne : i ≠ j) (p : EPin)
    (hp : p = EPin.step_of i ∨ p = EPin.dir_of i) (lvl : Bool) :
    epin_writes p lvl (extruder_writes cfg ac j e) = 0 := by
  unfold extruder_writes
  apply drain_writes_other
  · rcases hp with hp | hp <;> subst hp <;> interval_cases i <;> interval_cases j <;>
      first | exact absurd rfl hne | (simp [EPin.step_of, EPin.dir_of])
  · rcases hp with hp | hp <;> subst hp <;> interval_cases i <;> interval_cases j <;>
      first | exact absurd rfl hne | (simp [EPin.step_of, EPin.dir_of])

/-- One pass of the loop, seen from a configured extruder. -/
theorem advance_pass_extruder (cfg : Config) (ac : AdvanceConfig) (r : State × Timer0)
    (i : Nat) (hi : i < 3) (hx : i < ac.EXTRUDERS) :
    (advance_pass cfg ac r).1.e_steps i = toward_zero (r.1.e_steps i) ∧
    ∀ p, p = EPin.step_of i ∨ p = EPin.dir_of i → ∀ lvl,
      epin_writes p lvl (advance_pass cfg ac r).2.writes
        = epin_writes p lvl r.2.writes
          + epin_writes p lvl (extruder_writes cfg ac i (r.1.e_steps i)) := by
  rw [advance_pass_eq]
  simp only []
  have hnil : ∀ (p : EPin) (lvl : Bool), epin_writes p lvl [] = 0 := fun _ _ => rfl
  interval_cases i
  · refine ⟨rfl, ?_⟩
    intro p hp lvl
    simp only [epin_writes_append]
    have h1 := extruder_writes_other cfg ac 0 1 r.1.e_steps_1 (by omega) (by omega) (by omega)
      p hp lvl
    have h2 := extruder_writes_other cfg ac 0 2 r.1.e_steps_2 (by omega) (by omega) (by omega)
      p hp lvl
    split_ifs <;> simp only [h1, h2, hnil, State.e_steps, Nat.add_zero]
  · have hx1 : ac.EXTRUDERS > 1 := hx
    refine ⟨by simp only [State.e_steps, hx1, if_true], ?_⟩
    intro p hp lvl
    simp only [epin_writes_append, hx1, if_true]
    have h0 := extruder_writes_other cfg ac 1 0 r.1.e_steps_0 (by omega) (by omega) (by omega)
      p hp lvl
    have h2 := extruder_writes_other cfg ac 1 2 r.1.e_steps_2 (by omega) (by omega) (by omega)
      p hp lvl
    split_ifs <;> simp only [h0, h2, hnil, State.e_steps, Nat.add_zero, Nat.zero_add]
  · have hx1 : ac.EXTRUDERS > 1 := by omega
    have hx2 : ac.EXTRUDERS > 2 := hx
    refine ⟨by simp only [State.e_steps, hx2, if_true], ?_⟩
    intro p hp lvl
    simp only [epin_writes_append, hx1, hx2, if_true]
    have h0 := extruder_writes_other cfg ac 2 0 r.1.e_steps_0 (by omega) (by omega) (by omega)
      p hp lvl
    have h1 := extruder_writes_other cfg ac 2 1 r.1.e_steps_1 (by omega) (by omega) (by omega)
      p hp lvl
    simp only [h0, h1, State.e_steps, Nat.add_zero, Nat.zero_add]

/-- The writes of an extruder depend on the sign of e_steps[i] only. -/
theorem extruder_writes_sign (cfg : Config) (ac : AdvanceConfig) (i : Nat) (e e' : Int)
    (h : (e < 0 ∧ e' < 0) ∨ (0 < e ∧ 0 < e')) :
    extruder_writes cfg ac i e = extruder_writes cfg ac i e' := by
  unfold extruder_writes drain_writes
  rcases h with ⟨h1, h2⟩ | ⟨h1, h2⟩
  · rw [if_pos h1, if_pos h2]
  · rw [if_neg (show ¬ e < 0 by omega), if_neg (show ¬ e' < 0 by omega), if_pos h1, if_pos h2]

theorem extruder_writes_zero (cfg : Config) (ac : AdvanceConfig) (i : Nat) :
    extruder_writes cfg ac i 0 = [] := by
  unfold extruder_writes drain_writes
  simp

/-- After n passes of the loop a configured extruder has made min(n, |e|) steps
toward zero, e being the value of e_steps[i] before, and has written its pins
that many times. -/
theorem advance_passes_extruder (cfg : Config) (ac : AdvanceConfig) (i : Nat) (hi : i < 3)
    (hx : i < ac.EXTRUDERS) (n : Nat) :
    ∀ r : State × Timer0,
      ((advance_passes cfg ac n r).1.e_steps i
        = if r.1.e_steps i < 0 then r.1.e_steps i + ((min n (r.1.e_steps i).natAbs : Nat) : Int)
          else r.1.e_steps i - ((min n (r.1.e_steps i).natAbs : Nat) : Int)) ∧
      ∀ p, p = EPin.step_of i ∨ p = EPin.dir_of i → ∀ lvl,
        epin_writes p lvl (advance_passes cfg ac n r).2.writes
          = epin_writes p lvl r.2.writes
            + min n (r.1.e_steps i).natAbs
              * epin_writes p lvl (extruder_writes cfg ac i (r.1.e_steps i)) := by
  induction n with
  | zero =>
    intro r
    unfold advance_passes
    refine ⟨?_, ?_⟩
    · split_ifs <;> simp
    · intro p _ lvl
      simp
  | succ n ih =>
    intro r
    unfold advance_passes
    obtain ⟨p1, p2⟩ := advance_pass_extruder cfg ac r i hi hx
    obtain ⟨q1, q2⟩ := ih (advance_pass cfg ac r)
    rw [p1] at q1 q2
    have htz : toward_zero (r.1.e_steps i)
        = if r.1.e_steps i < 0 then r.1.e_steps i + 1
          else if r.1.e_steps i > 0 then r.1.e_steps i - 1 else r.1.e_steps i := rfl
    generalize r.1.e_steps i = e at *
    refine ⟨?_, ?_⟩
    · rw [q1, htz]
      split_ifs <;> omega
    · intro p hp lvl
      rw [q2 p hp lvl, p2 p hp lvl]
      rcases lt_trichotomy e 0 with h | h | h
      · rcases eq_or_lt_of_le (show e ≤ -1 by omega) with h1 | h1
        · subst h1
          have : toward_zero (-1) = 0 := by decide
          rw [this]
          simp only [Int.natAbs_zero, Nat.min_zero, Nat.zero_mul, Nat.add_zero]
          have hm : min (n + 1) (Int.natAbs (-1)) = 1 := by
            simp
          rw [hm, Nat.one_mul]
        · have ht : toward_zero e = e + 1 := by rw [htz, if_pos h]
          rw [ht, extruder_writes_sign cfg ac i (e + 1) e (Or.inl ⟨by omega, h⟩)]
          have hm : min (n + 1) e.natAbs = min n (e + 1).natAbs + 1 := by omega
          rw [hm]
          ring
      · subst h
        have : toward_zero 0 = 0 := by decide
        rw [this, extruder_writes_zero]
        simp [epin_writes]
      · rcases eq_or_lt_of_le (show 1 ≤ e by omega) with h1 | h1
        · subst h1
          have : toward_zero 1 = 0 := by decide
          rw [this]
          simp only [Int.natAbs_zero, Nat.min_zero, Nat.zero_mul, Nat.add_zero]
          have hm : min (n + 1) (Int.natAbs 1) = 1 := by
            simp
          rw [hm, Nat.one_mul]
        · have ht : toward_zero e = e - 1 := by
            rw [htz, if_neg (by omega), if_pos h]
          rw [ht, extruder_writes_sign cfg ac i (e - 1) e (Or.inr ⟨by omega, h⟩)]
          have hm : min (n + 1) e.natAbs = min n (e - 1).natAbs + 1 := by omega
          rw [hm]
          ring
/-- The pin writes of extruder i in one pass, counted: one direction write at
the level of the sign of e_steps[i], and one step pulse, which for extruder 2
in the negative direction is written with the level spelled INVER_E_STEP_PIN. -/
theorem extruder_writes_count (cfg : Config) (ac : AdvanceConfig) (i : Nat) (hi : i < 3)
    (e : Int) :
    (e < 0 →
      epin_writes (EPin.dir_of i) (ac.INVERT_E_DIR i) (extruder_writes cfg ac i e) = 1 ∧
      epin_writes (EPin.dir_of i) (!ac.INVERT_E_DIR i) (extruder_writes cfg ac i e) = 0 ∧
      ((i = 2 → ac.INVER_E_STEP_PIN = cfg.INVERT_E_STEP_PIN) →
        epin_writes (EPin.step_of i) (!cfg.INVERT_E_STEP_PIN) (extruder_writes cfg ac i e) = 1)) ∧
    (0 < e →
      epin_writes (EPin.dir_of i) (!ac.INVERT_E_DIR i) (extruder_writes cfg ac i e) = 1 ∧
      epin_writes (EPin.dir_of i) (ac.INVERT_E_DIR i) (extruder_writes cfg ac i e) = 0 ∧
      epin_writes (EPin.step_of i) (!cfg.INVERT_E_STEP_PIN) (extruder_writes cfg ac i e) = 1) := by
  unfold extruder_writes drain_writes epin_writes
  refine ⟨fun h => ?_, fun h => ?_⟩
  · rw [if_pos h]
    refine ⟨?_, ?_, ?_⟩
    · interval_cases i <;> cases ac.INVERT_E0_DIR <;> cases ac.INVERT_E1_DIR <;>
        cases ac.INVERT_E2_DIR <;>
        simp [EPin.step_of, EPin.dir_of, AdvanceConfig.INVERT_E_DIR]
    · interval_cases i <;> cases ac.INVERT_E0_DIR <;> cases ac.INVERT_E1_DIR <;>
        cases ac.INVERT_E2_DIR <;>
        simp [EPin.step_of, EPin.dir_of, AdvanceConfig.INVERT_E_DIR]
    · intro hty
      interval_cases i
      · cases cfg.INVERT_E_STEP_PIN <;> simp [EPin.step_of, EPin.dir_of]
      · cases cfg.INVERT_E_STEP_PIN <;> simp [EPin.step_of, EPin.dir_of]
      · rw [hty rfl]
        cases cfg.INVERT_E_STEP_PIN <;> simp [EPin.step_of, EPin.dir_of]
  · rw [if_neg (show ¬ e < 0 by omega), if_pos h]
    refine ⟨?_, ?_, ?_⟩
    · interval_cases i <;> cases ac.INVERT_E0_DIR <;> cases ac.INVERT_E1_DIR <;>
        cases ac.INVERT_E2_DIR <;>
        simp [EPin.step_of, EPin.dir_of, AdvanceConfig.INVERT_E_DIR]
    · interval_cases i <;> cases ac.INVERT_E0_DIR <;> cases ac.INVERT_E1_DIR <;>
        cases ac.INVERT_E2_DIR <;>
        simp [EPin.step_of, EPin.dir_of, AdvanceConfig.INVERT_E_DIR]
    · interval_cases i <;> cases cfg.INVERT_E_STEP_PIN <;> simp [EPin.step_of, EPin.dir_of]

theorem TIMER0_COMPA_vect_eq (cfg : Config) (ac : AdvanceConfig) (s : State) (t : Timer0) :
    TIMER0_COMPA_vect cfg ac s t
      = advance_passes cfg ac 4
          (s, { t with old_OCR0A := (t.old_OCR0A + 52) % 256,
                       OCR0A := (t.old_OCR0A + 52) % 256 }) := rfl

/-! ## The reads of the slow table -/

theorem and_mask_fffc (x : Nat) (h : x < 65536) : x &&& 0xfffc = 4 * (x / 4) := by
  have h4 : 4 * (x / 4) = (x >>> 2) <<< 2 := by
    rw [Nat.shiftRight_eq_div_pow, Nat.shiftLeft_eq]
    omega
  rw [h4]
  apply Nat.eq_of_testBit_eq
  intro i
  rw [Nat.testBit_and, Nat.testBit_shiftLeft, Nat.testBit_shiftRight]
  by_cases hi : i < 16
  · have e : (0xfffc : Nat).testBit i = decide (i ≥ 2) := by
      interval_cases i <;> decide
    rw [e]
    by_cases h2 : i ≥ 2
    · have : 2 + (i - 2) = i := by omega
      rw [this]
      simp [h2]
    · simp [h2]
  · have hx : x < 2 ^ i := by
      have : (2 : Nat) ^ 16 ≤ 2 ^ i := Nat.pow_le_pow_right (by norm_num) (by omega)
      omega
    have : 2 + (i - 2) = i := by omega
    rw [this, Nat.testBit_lt_two_pow hx]
    simp

/-- The slow segment of calc_timer: for a reduced rate r < 2048 the elements
read are those at the offsets 4 * (r / 8) and 4 * (r / 8) + 2 from the start
of the slow table, counted in unsigned shorts. -/
theorem calc_timer_lookup_slow (tb : Tables) (r : Nat) (h : r < 2048) :
    calc_timer_lookup tb r
      = (tb.speed_lookuptable_slow (4 * (r / 8)) % 65536 + 4294967296
          - (((tb.speed_lookuptable_slow (4 * (r / 8) + 2) % 65536) * (r % 8)) >>> 3))
        % 4294967296 := by
  unfold calc_timer_lookup
  rw [if_neg (by omega)]
  simp only []
  have hk : (r >>> 1) &&& 0xfffc = 4 * (r / 8) := by
    rw [and_mask_fffc _ (by rw [Nat.shiftRight_eq_div_pow]; omega), Nat.shiftRight_eq_div_pow]
    omega
  have hm : (r &&& 0x0007) % 256 = r % 8 := by
    have := Nat.and_pow_two_sub_one_eq_mod r 3
    norm_num at this
    rw [this]
    omega
  rw [hk, hm]

/-! ## The claims -/

/-- C1: Bresenham exact count. A block with step_event_count N, 1 ≤ N < 2^31
(the range of the long field), and steps[a] ≤ N on each axis, taken from the
queue and traced with the E axis stepped inline (ADVANCE off) and no endstop
latch while it is traced, is retired after at most N + 1 invocations of
stepper_int_handler; exactly N step events are executed, step_events_completed
equals N at retirement, and every step pin of every axis a is pulsed exactly
steps[a] times, for all speed tables and hence whatever step_loops values are
in force on the individual invocations. -/
theorem bresenham_exact_count (cfg : Config) (tb : Tables) (inp : Nat → Pins) (s : State)
    (b0 : block_t) (rest : List block_t) (hA : cfg.ADVANCE = false)
    (h0 : s.do_int ≠ 0) (hcb : s.current_block = none) (hq : s.queue = b0 :: rest)
    (hN1 : 1 ≤ b0.step_event_count) (hN : b0.step_event_count < 2147483648)
    (hst : ∀ a, a < 4 → b0.steps a ≤ b0.step_event_count)
    (hnl : ∀ i, i ≤ b0.step_event_count →
      (∀ m, 1 ≤ m → m ≤ i →
        (isr_run cfg tb inp m s).current_block = some { b0 with busy := true }) →
      isr_latches cfg tb (inp i) (isr_run cfg tb inp i s) = false) :
    ∃ j, 1 ≤ j ∧ j ≤ b0.step_event_count + 1 ∧
      (∀ i, 1 ≤ i → i < j →
        (isr_run cfg tb inp i s).current_block = some { b0 with busy := true }) ∧
      (isr_run cfg tb inp j s).current_block = none ∧
      (isr_run cfg tb inp j s).queue = rest ∧
      discards (isr_run cfg tb inp j s).log = discards s.log + 1 ∧
      step_events (isr_run cfg tb inp j s).log = step_events s.log + b0.step_event_count ∧
      (isr_run cfg tb inp j s).step_events_completed = b0.step_event_count ∧
      ∀ a, a < 4 → ∀ q ∈ axis_pins cfg b0 s a,
        pin_writes q.1 q.2 (isr_run cfg tb inp j s).log
          = pin_writes q.1 q.2 s.log + b0.steps a := by
  obtain ⟨j, j1, j2, j3, j4, j5, j6, j7, j8, j9, -⟩ :=
    block_run cfg tb inp s b0 rest 4 (le_refl 4) (fun _ => hA) h0 hcb hq hN1 hN hst hnl
      (fun _ => True) (fun _ _ _ _ _ _ _ _ _ _ => trivial) trivial
  exact ⟨j, j1, j2, j3, j4, j5, j8, j7, j6, j9⟩

/-- C2: position accounting. A block with steps[a] ≤ step_event_count on each
axis (1 ≤ step_event_count < 2^31), taken from the queue and traced to its
retirement with ADVANCE off and no endstop latch while it is traced, leaves
count_position[a] equal to its value at acquisition minus steps[a] if bit a of
direction_bits is set and plus steps[a] if it is clear, for each of the four
axes; an axis with steps[a] = 0 is left unchanged. -/
theorem position_accounting (cfg : Config) (tb : Tables) (inp : Nat → Pins) (s : State)
    (b0 : block_t) (rest : List block_t) (hA : cfg.ADVANCE = false)
    (h0 : s.do_int ≠ 0) (hcb : s.current_block = none) (hq : s.queue = b0 :: rest)
    (hN1 : 1 ≤ b0.step_event_count) (hN : b0.step_event_count < 2147483648)
    (hst : ∀ a, a < 4 → b0.steps a ≤ b0.step_event_count)
    (hnl : ∀ i, i ≤ b0.step_event_count →
      (∀ m, 1 ≤ m → m ≤ i →
        (isr_run cfg tb inp m s).current_block = some { b0 with busy := true }) →
      isr_latches cfg tb (inp i) (isr_run cfg tb inp i s) = false) :
    ∃ j, 1 ≤ j ∧ j ≤ b0.step_event_count + 1 ∧
      (∀ i, 1 ≤ i → i < j →
        (isr_run cfg tb inp i s).current_block = some { b0 with busy := true }) ∧
      (isr_run cfg tb inp j s).current_block = none ∧
      (isr_run cfg tb inp j s).queue = rest ∧
      (∀ a, a < 4 → (isr_run cfg tb inp j s).count_position a
        = (if bit_set b0.direction_bits a then s.count_position a - (b0.steps a : Int)
           else s.count_position a + (b0.steps a : Int))) ∧
      (∀ a, a < 4 → b0.steps a = 0 →
        (isr_run cfg tb inp j s).count_position a = s.count_position a) := by
  obtain ⟨j, j1, j2, j3, j4, j5, -, -, -, -, j10, -⟩ :=
    block_run cfg tb inp s b0 rest 4 (le_refl 4) (fun _ => hA) h0 hcb hq hN1 hN hst hnl
      (fun _ => True) (fun _ _ _ _ _ _ _ _ _ _ => trivial) trivial
  refine ⟨j, j1, j2, j3, j4, j5, ?_, ?_⟩
  · intro a ha
    rw [j10 a ha]
    unfold block_t.direction
    split_ifs
    · ring
    · ring
  · intro a ha hz
    rw [j10 a ha, hz]
    simp

/-- C3, amended: two-sample endstop debounce. In a run of the interrupt from
any start state, let invocation i sample limit switch e: it traces a block b
that moves toward e with the endstop gate on (so check_endstops is true).
Then the latch of that axis is set in this invocation exactly when the reading
sampled now and the reading stored by the previous sampling are both asserted
and b has steps on the axis of e (steps > 0): the latch after the invocation
is the latch before or-ed with that conjunction. The reading sampled now is
stored as the new previous reading, also when b has no steps on the axis. The
previous reading of the first sampling is the start value, false after static
initialisation. Hence when either of the two samples is de-asserted the latch
keeps its value, so one asserted sample between two de-asserted ones never
latches. -/
theorem endstop_debounce (cfg : Config) (tb : Tables) (inp : Nat → Pins) (s : State)
    (e : Endstop) (i : Nat) (b : block_t)
    (hb : isr_block cfg tb (isr_run cfg tb inp i s) = some b)
    (hs : endstop_sampled cfg (isr_run cfg tb inp i s).check_endstops b e = true) :
    (isr_run cfg tb inp i s).check_endstops = true ∧
    (isr_run cfg tb inp (i + 1) s).endstop_hit e.axis
      = ((isr_run cfg tb inp i s).endstop_hit e.axis
          || (endstop_reading cfg (inp i) e && prev_reading cfg tb inp s e i
              && decide (0 < b.steps e.axis))) ∧
    ((isr_run cfg tb inp i s).endstop_hit e.axis = false →
      ((isr_run cfg tb inp (i + 1) s).endstop_hit e.axis = true ↔
        (endstop_reading cfg (inp i) e = true ∧ prev_reading cfg tb inp s e i = true ∧
          0 < b.steps e.axis))) ∧
    (isr_run cfg tb inp (i + 1) s).old_endstop e = endstop_reading cfg (inp i) e ∧
    prev_reading cfg tb inp s e (i + 1) = endstop_reading cfg (inp i) e ∧
    prev_reading cfg tb inp s e 0 = s.old_endstop e ∧
    initial_state.old_endstop e = false ∧
    ((endstop_reading cfg (inp i) e = false ∨ prev_reading cfg tb inp s e i = false) →
      (isr_run cfg tb inp (i + 1) s).endstop_hit e.axis
        = (isr_run cfg tb inp i s).endstop_hit e.axis) := by
  obtain ⟨h1, -, h3, -, -⟩ := stepper_int_handler_endstops cfg tb (inp i) _ b hb
  have hlatch : (isr_run cfg tb inp (i + 1) s).endstop_hit e.axis
      = ((isr_run cfg tb inp i s).endstop_hit e.axis
          || (endstop_reading cfg (inp i) e && prev_reading cfg tb inp s e i
              && decide (0 < b.steps e.axis))) := by
    rw [isr_run_succ, h1 e.axis e.axis_lt, axis_trigger_sampled cfg (inp i) _ b e hs,
      prev_reading_eq]
  have hstore : (isr_run cfg tb inp (i + 1) s).old_endstop e = endstop_reading cfg (inp i) e := by
    rw [isr_run_succ, h3 e]
    unfold endstop_stored
    rw [if_pos hs]
  refine ⟨endstop_sampled_check cfg _ b e hs, hlatch, ?_, hstore, ?_, rfl, ?_, ?_⟩
  · intro hclear
    rw [hlatch, hclear]
    simp [and_assoc]
  · rw [← prev_reading_eq]
    exact hstore
  · cases e <;> rfl
  · intro hlow
    rw [hlatch]
    rcases hlow with h | h <;> simp [h]

/-- C4: endstop trigger retires the block. In every invocation that traces a
block b (step_event_count < 2^31, the range of the long field) and in which
limit switch e latches (it is sampled, so check_endstops is true, the current
and the previous reading are asserted, and b has steps on the axis), the latch
of the axis is set, endstops_trigsteps of the axis is the count_position the
axis had when the invocation sampled the switch, and at the end of the same
invocation current_block is null and plan_discard_current_block has been
called exactly once, whatever step_events_completed was. -/
theorem endstop_trigger_retires_block (cfg : Config) (tb : Tables) (pins : Pins) (s : State)
    (b : block_t) (e : Endstop) (hb : isr_block cfg tb s = some b)
    (hN : b.step_event_count < 2147483648)
    (hs : endstop_sampled cfg s.check_endstops b e = true)
    (hr : endstop_reading cfg pins e = true) (ho : s.old_endstop e = true)
    (hst : 0 < b.steps e.axis) :
    (stepper_int_handler cfg tb pins s).endstop_hit e.axis = true ∧
    (stepper_int_handler cfg tb pins s).endstops_trigsteps e.axis = s.count_position e.axis ∧
    (stepper_int_handler cfg tb pins s).current_block = none ∧
    discards (stepper_int_handler cfg tb pins s).log = discards s.log + 1 := by
  have ht := axis_trigger_of cfg pins s b e hs hr ho hst
  obtain ⟨h1, h2, -, -, -⟩ := stepper_int_handler_endstops cfg tb pins s b hb
  obtain ⟨l1, l2, -, -, -⟩ := stepper_int_handler_latch cfg tb pins s b hb hN
    (axis_trigger_some cfg pins s b e.axis e.axis_lt ht)
  refine ⟨?_, ?_, l1, l2⟩
  · rw [h1 e.axis e.axis_lt, ht, Bool.or_true]
  · rw [h2 e.axis e.axis_lt, ht, if_pos rfl]

/-- C5, amended: truncation on endstop trigger. In the invocation in which
limit switch e latches on block b (step_event_count < 2^31), the remaining
steps of the block are abandoned after at most one more step event: the block
is retired in this invocation, at most one step event is executed, every step
pin of every axis is pulsed at most once, count_position of an axis moves by
as many steps (0 or 1) in the direction of the block as the axis is pulsed,
and endstops_trigsteps of the latched axis is the count_position of that axis
at the entry of the invocation. -/
theorem endstop_truncation (cfg : Config) (tb : Tables) (pins : Pins) (s : State)
    (b : block_t) (e : Endstop) (hb : isr_block cfg tb s = some b)
    (hN : b.step_event_count < 2147483648)
    (hs : endstop_sampled cfg s.check_endstops b e = true)
    (hr : endstop_reading cfg pins e = true) (ho : s.old_endstop e = true)
    (hst : 0 < b.steps e.axis) :
    (stepper_int_handler cfg tb pins s).current_block = none ∧
    step_events (stepper_int_handler cfg tb pins s).log ≤ step_events s.log + 1 ∧
    (stepper_int_handler cfg tb pins s).endstops_trigsteps e.axis = s.count_position e.axis ∧
    ∀ a, a < 4 → ∃ n : Nat, n ≤ 1 ∧
      (∀ q ∈ axis_pins cfg b s a,
        pin_writes q.1 q.2 (stepper_int_handler cfg tb pins s).log
          = pin_writes q.1 q.2 s.log + n) ∧
      (stepper_int_handler cfg tb pins s).count_position a
        = s.count_position a + (n : Int) * b.direction a := by
  have ht := axis_trigger_of cfg pins s b e hs hr ho hst
  obtain ⟨-, h2, -, -, -⟩ := stepper_int_handler_endstops cfg tb pins s b hb
  obtain ⟨l1, -, l3, -, l5⟩ := stepper_int_handler_latch cfg tb pins s b hb hN
    (axis_trigger_some cfg pins s b e.axis e.axis_lt ht)
  refine ⟨l1, l3, ?_, l5⟩
  rw [h2 e.axis e.axis_lt, ht, if_pos rfl]

/-- C6: ISR enable gate. For every generator state with do_int = 0, one
invocation of stepper_int_handler returns the state unchanged, the record of
effects included: no pin is written, no block is acquired or discarded, no
endstop is sampled or latched, count_position and the Bresenham counters keep
their values and the timer is not re-armed. -/
theorem isr_enable_gate (cfg : Config) (tb : Tables) (pins : Pins) (s : State)
    (h : s.do_int = 0) : stepper_int_handler cfg tb pins s = s :=
  stepper_int_handler_gated cfg tb pins s h

/-- C7: position set/get round trip. For all x, y, z, e, after
st_set_position(x, y, z, e) on an idle generator (do_int = 0, or current_block
null and the planner queue empty) followed by any number k of interrupt
invocations, st_get_position returns x, y, z and e for the four axes. -/
theorem position_round_trip (cfg : Config) (tb : Tables) (inp : Nat → Pins) (s : State)
    (x y z e : Int) (k : Nat) (h : s.idle) :
    st_get_position (isr_run cfg tb inp k (st_set_position x y z e s)) X_AXIS = some x ∧
    st_get_position (isr_run cfg tb inp k (st_set_position x y z e s)) Y_AXIS = some y ∧
    st_get_position (isr_run cfg tb inp k (st_set_position x y z e s)) Z_AXIS = some z ∧
    st_get_position (isr_run cfg tb inp k (st_set_position x y z e s)) E_AXIS = some e ∧
    ∀ i, i ≤ k → (isr_run cfg tb inp i (st_set_position x y z e s)).idle := by
  have hidle : (st_set_position x y z e s).idle := h
  obtain ⟨-, p⟩ := isr_run_idle cfg tb inp _ hidle k
  refine ⟨?_, ?_, ?_, ?_, fun i _ => (isr_run_idle cfg tb inp _ hidle i).1⟩
  · show some _ = some x
    rw [p.x]
    rfl
  · show some _ = some y
    rw [p.y]
    rfl
  · show some _ = some z
    rw [p.z]
    rfl
  · show some _ = some e
    rw [p.e]
    rfl

/-- C8: out-and-back law. For every N with 1 ≤ N < 2^31 and every axis a, let
the queue hold a block that moves only axis a by N steps with its direction
bit clear, followed by a block that moves only axis a by N steps with its
direction bit set. Tracing both to completion (no endstop latch in the at most
2 N + 2 invocations this takes) leaves count_position equal on all four axes
to its value before the first block, in every configuration. -/
theorem out_and_back (cfg : Config) (tb : Tables) (inp : Nat → Pins) (s : State)
    (b1 b2 : block_t) (rest : List block_t) (a N : Nat)
    (h0 : s.do_int ≠ 0) (hcb : s.current_block = none) (hq : s.queue = b1 :: b2 :: rest)
    (ha : a < 4) (hN1 : 1 ≤ N) (hN : N < 2147483648)
    (h1N : b1.step_event_count = N) (h2N : b2.step_event_count = N)
    (h1s : ∀ c, c < 4 → b1.steps c = if c = a then N else 0)
    (h2s : ∀ c, c < 4 → b2.steps c = if c = a then N else 0)
    (h1d : bit_set b1.direction_bits a = false) (h2d : bit_set b2.direction_bits a = true)
    (hnl : ∀ i, i < 2 * N + 2 → isr_latches cfg tb (inp i) (isr_run cfg tb inp i s) = false) :
    ∃ j, 2 ≤ j ∧ j ≤ 2 * N + 2 ∧
      (isr_run cfg tb inp j s).current_block = none ∧
      (isr_run cfg tb inp j s).queue = rest ∧
      discards (isr_run cfg tb inp j s).log = discards s.log + 2 ∧
      step_events (isr_run cfg tb inp j s).log = step_events s.log + 2 * N ∧
      ∀ c, c < 4 → (isr_run cfg tb inp j s).count_position c = s.count_position c := by
  obtain ⟨na, hna, hA, hna3, hE⟩ : ∃ na, na ≤ 4 ∧ (na = 4 → cfg.ADVANCE = false) ∧ 3 ≤ na ∧
      (na = 3 → cfg.ADVANCE = true) := by
    rcases Bool.eq_false_or_eq_true cfg.ADVANCE with h | h
    · exact ⟨3, by omega, fun h4 => by omega, le_refl 3, fun _ => h⟩
    · exact ⟨4, le_refl 4, fun _ => h, by omega, fun h3 => by omega⟩
  have hst1 : ∀ c, c < na → b1.steps c ≤ b1.step_event_count := by
    intro c hc
    rw [h1s c (by omega), h1N]
    split_ifs <;> omega
  have hst2 : ∀ c, c < na → b2.steps c ≤ b2.step_event_count := by
    intro c hc
    rw [h2s c (by omega), h2N]
    split_ifs <;> omega
  obtain ⟨j1, a1, a2, -, a4, a5, -, a7, a8, -, a10, a11, -, -⟩ :=
    block_run cfg tb inp s b1 (b2 :: rest) na hna hA h0 hcb hq (by omega) (by omega) hst1
      (fun i hi _ => hnl i (by omega))
      (fun _ => True) (fun _ _ _ _ _ _ _ _ _ _ => trivial) trivial
  have hadd := fun k => isr_run_add cfg tb inp j1 k s
  obtain ⟨j2, c1, c2, -, c4, c5, -, c7, c8, -, c10, -⟩ :=
    block_run cfg tb (fun i => inp (j1 + i)) (isr_run cfg tb inp j1 s) b2 rest na hna hA
      (by rw [a11]; exact h0) a4 a5 (by omega) (by omega) hst2
      (fun i hi _ => by
        rw [← hadd]
        exact hnl (j1 + i) (by omega))
      (fun _ => True) (fun _ _ _ _ _ _ _ _ _ _ => trivial) trivial
  refine ⟨j1 + j2, by omega, by omega, ?_⟩
  rw [hadd]
  refine ⟨c4, c5, by rw [c8, a8], by rw [c7, a7, h1N, h2N]; omega, ?_⟩
  intro c hc
  by_cases hcn : c < na
  · rw [c10 c hcn, a10 c hcn, h1s c hc, h2s c hc]
    by_cases hca : c = a
    · subst hca
      unfold block_t.direction
      rw [h1d, h2d]
      simp
    · rw [if_neg hca]
      simp
  · have hc3 : c = 3 := by omega
    have hon : cfg.ADVANCE = true := hE (by omega)
    subst hc3
    show (isr_run cfg tb (fun i => inp (j1 + i)) j2 (isr_run cfg tb inp j1 s)).count_position_e
      = s.count_position_e
    rw [isr_run_e_position cfg tb _ _ hon, isr_run_e_position cfg tb _ _ hon]

/-- C9: quickStop postcondition. For every generator state and every planner
queue content, with plan_discard_current_block removing the head of the queue,
quickStop returns once its loop has run as often as the queue is long (every
fuel of at least that length gives the result); afterwards the planner queue
is empty, current_block is null and do_int is 1, and count_position, the three
endstop latches and endstops_trigsteps are unchanged. A following invocation
of the interrupt with the queue still empty writes no pin, leaves current_block
null and the queue empty, and its only effect is to re-arm the timer at
1000 µs. -/
theorem quickStop_postcondition (cfg : Config) (tb : Tables) (pins : Pins) (s : State)
    (fuel : Nat) (hf : s.queue.length ≤ fuel) :
    ∃ s', quickStop fuel s = some s' ∧
      s'.queue = [] ∧ s'.current_block = none ∧ s'.do_int = 1 ∧
      (∀ a, a < 4 → s'.count_position a = s.count_position a) ∧
      (∀ a, a < 3 → s'.endstop_hit a = s.endstop_hit a) ∧
      (∀ a, a < 3 → s'.endstops_trigsteps a = s.endstops_trigsteps a) ∧
      (stepper_int_handler cfg tb pins s').log
        = s'.log ++ [Event.timer_detach, Event.timer_attach_us 1000] ∧
      (∀ p lvl, pin_writes p lvl (stepper_int_handler cfg tb pins s').log
        = pin_writes p lvl s'.log) ∧
      (stepper_int_handler cfg tb pins s').current_block = none ∧
      (stepper_int_handler cfg tb pins s').queue = [] := by
  obtain ⟨l, h1, -⟩ := quickStop_loop_drains fuel { s with do_int := 0 } hf
  unfold quickStop
  rw [h1]
  refine ⟨_, rfl, rfl, rfl, rfl, ?_, ?_, ?_, ?_⟩
  · intro a ha
    interval_cases a <;> rfl
  · intro a ha
    interval_cases a <;> rfl
  · intro a ha
    interval_cases a <;> rfl
  · rw [stepper_int_handler_idle cfg tb pins _ (by simp) rfl rfl]
    refine ⟨rfl, ?_, rfl, rfl⟩
    intro p lvl
    simp [pin_writes]

/-- C10: endstop gate. After enable_endstops(false), whatever the endstop pins
read and whatever blocks run, no number k of invocations of stepper_int_handler
sets endstop_x_hit, endstop_y_hit or endstop_z_hit, modifies endstops_trigsteps
or changes a stored previous endstop reading; the gate stays off, no endstop
latches in the next invocation, and the endstop pass of lines 275-454 leaves
step_events_completed alone for every block and every pin reading. -/
theorem endstop_gate (cfg : Config) (tb : Tables) (inp : Nat → Pins) (s : State) (k : Nat) :
    (isr_run cfg tb inp k (enable_endstops false s)).check_endstops = false ∧
    (∀ a, a < 3 →
      (isr_run cfg tb inp k (enable_endstops false s)).endstop_hit a = s.endstop_hit a) ∧
    (∀ a, a < 3 →
      (isr_run cfg tb inp k (enable_endstops false s)).endstops_trigsteps a
        = s.endstops_trigsteps a) ∧
    (∀ e, (isr_run cfg tb inp k (enable_endstops false s)).old_endstop e = s.old_endstop e) ∧
    isr_latches cfg tb (inp k) (isr_run cfg tb inp k (enable_endstops false s)) = false ∧
    ∀ (b : block_t) (pins : Pins),
      (set_directions_check_endstops cfg pins b
          (isr_run cfg tb inp k (enable_endstops false s))).step_events_completed
        = (isr_run cfg tb inp k (enable_endstops false s)).step_events_completed := by
  obtain ⟨g1, g2, g3, g4⟩ := isr_run_gate cfg tb inp (enable_endstops false s) rfl k
  refine ⟨g1, ?_, ?_, ?_, ?_, ?_⟩
  · intro a ha
    rw [g2 a ha]
    interval_cases a <;> rfl
  · intro a ha
    rw [g3 a ha]
    interval_cases a <;> rfl
  · intro e
    rw [g4 e]
    cases e <;> rfl
  · rw [isr_latches_eq]
    rcases isr_block cfg tb (isr_run cfg tb inp k (enable_endstops false s)) with _ | b
    · rfl
    · simp only [axis_trigger_gate cfg (inp k) _ b _ g1, Bool.or_false]
  · intro b pins
    rw [set_directions_check_endstops_eq]
    simp only [axis_trigger_gate cfg pins _ b _ g1, Bool.or_false, Bool.false_eq_true, if_false]

/-- C11: period floor. For every step rate, every content of the two speed
lookup tables, every configuration and every generator state, the value
calc_timer returns is at least 100 (µs). -/
theorem calc_timer_floor (cfg : Config) (tb : Tables) (step_rate : Nat) (s : State) :
    100 ≤ (calc_timer cfg tb step_rate s).1 := by
  rw [calc_timer_eq]
  exact calc_timer_period_floor cfg tb step_rate

/-- C12: multi-step rate reduction in calc_timer. For every step rate r (an
unsigned int) with r' = min(r, MAX_STEP_FREQUENCY), where MAX_STEP_FREQUENCY,
a constant of Configuration_adv.h, is at most 40003 (so that r' >> 2 needs no
second reduction; Marlin sets 40000): if r' > 20000, step_loops is set to 4
and the period returned is the one calc_timer returns for r' >> 2; else if
r' > 10000, step_loops is set to 2 and the period returned is the one
calc_timer returns for r' >> 1; otherwise step_loops is set to 1. -/
theorem calc_timer_rate_reduction (cfg : Config) (tb : Tables) (r : Nat) (s : State)
    (hr : r < 4294967296) (hmax : cfg.MAX_STEP_FREQUENCY ≤ 40003) :
    (20000 < min r cfg.MAX_STEP_FREQUENCY →
      (calc_timer cfg tb r s).2.step_loops = 4 ∧
      (calc_timer cfg tb r s).1
        = (calc_timer cfg tb (min r cfg.MAX_STEP_FREQUENCY >>> 2) s).1) ∧
    (min r cfg.MAX_STEP_FREQUENCY ≤ 20000 → 10000 < min r cfg.MAX_STEP_FREQUENCY →
      (calc_timer cfg tb r s).2.step_loops = 2 ∧
      (calc_timer cfg tb r s).1
        = (calc_timer cfg tb (min r cfg.MAX_STEP_FREQUENCY >>> 1) s).1) ∧
    (min r cfg.MAX_STEP_FREQUENCY ≤ 10000 → (calc_timer cfg tb r s).2.step_loops = 1) := by
  obtain ⟨c4, c2, c1⟩ := calc_timer_step_rate_cases cfg r hr
  have hm : min r cfg.MAX_STEP_FREQUENCY ≤ cfg.MAX_STEP_FREQUENCY := Nat.min_le_right _ _
  simp only [calc_timer_eq]
  generalize min r cfg.MAX_STEP_FREQUENCY = m at *
  refine ⟨?_, ?_, ?_⟩
  · intro h
    obtain ⟨hrate, hloops⟩ := c4 h
    refine ⟨hloops, ?_⟩
    have hsmall : m >>> 2 ≤ 10000 := by
      rw [Nat.shiftRight_eq_div_pow]
      omega
    have hle : m >>> 2 ≤ cfg.MAX_STEP_FREQUENCY := by
      rw [Nat.shiftRight_eq_div_pow]
      omega
    unfold calc_timer_period
    rw [hrate, and_mask_14 _ (by omega), calc_timer_step_rate_low cfg _ hsmall hle]
  · intro h1 h2
    obtain ⟨hrate, hloops⟩ := c2 h1 h2
    refine ⟨hloops, ?_⟩
    have hsmall : m >>> 1 ≤ 10000 := by
      rw [Nat.shiftRight_eq_div_pow]
      omega
    have hle : m >>> 1 ≤ cfg.MAX_STEP_FREQUENCY := by
      rw [Nat.shiftRight_eq_div_pow]
      omega
    unfold calc_timer_period
    rw [hrate, calc_timer_step_rate_low cfg _ hsmall hle]
  · intro h
    exact (c1 h).2

/-- C13, amended: calc_timer is weakly monotone decreasing in the step rate
within one step_loops class on the fast table segment. For step rates a ≤ b
(unsigned int) for which calc_timer sets the same step_loops and whose reduced
rate is at least 2048, calc_timer(a) ≥ calc_timer(b), given unsigned short
table entries, a fast period column that falls weakly with the row index, and
MAX_STEP_FREQUENCY below 65536. -/
theorem calc_timer_monotone (cfg : Config) (tb : Tables) (a b : Nat) (s t : State)
    (hu : tb.entries_u16) (hdec : tb.fast_periods_decreasing)
    (hmax : cfg.MAX_STEP_FREQUENCY < 65536) (hab : a ≤ b) (hb : b < 4294967296)
    (hl : calc_timer_step_loops cfg a = calc_timer_step_loops cfg b)
    (hfast : 2048 ≤ calc_timer_step_rate cfg a) :
    (calc_timer cfg tb b t).1 ≤ (calc_timer cfg tb a s).1 := by
  obtain ⟨hmono, hlt⟩ := calc_timer_step_rate_mono cfg a b hab hb hmax hl
  simp only [calc_timer_eq]
  rw [calc_timer_period_fast cfg tb a hfast, calc_timer_period_fast cfg tb b (by omega)]
  have hrow : (calc_timer_step_rate cfg a >>> 8) % 256
      ≤ (calc_timer_step_rate cfg b >>> 8) % 256 := by
    simp only [Nat.shiftRight_eq_div_pow]
    omega
  have h1 := hdec _ _ hrow
  have h2 := (hu (2 * ((calc_timer_step_rate cfg a >>> 8) % 256))).1
  have h3 := (hu (2 * ((calc_timer_step_rate cfg b >>> 8) % 256))).1
  rw [Nat.mod_eq_of_lt h2, Nat.mod_eq_of_lt h3]
  omega

/-- C16, amended: acceleration-phase update. In every invocation that traces a
block b (nominal_rate an unsigned short) and ends with step_events_completed
≤ accelerate_until, the new acc_step_rate equals min(nominal_rate,
initial_rate + d) in unsigned short arithmetic, d being the unsigned short
value the macro MultiU24X24toH16 delivers for acceleration_time and
acceleration_rate; the timer is re-armed with the unsigned short value of
calc_timer(new acc_step_rate), and acceleration_time is increased by exactly
the period armed. The state (acquire_block cfg tb s).1 is the state in which
the body runs: s itself for a block that was current, the state after
trapezoid_generator_reset for a block acquired in this invocation. -/
theorem acceleration_update (cfg : Config) (tb : Tables) (pins : Pins) (s : State)
    (b : block_t) (hb : isr_block cfg tb s = some b) (hnom : b.nominal_rate < 65536)
    (hend : (stepper_int_handler cfg tb pins s).step_events_completed ≤ b.accelerate_until) :
    (stepper_int_handler cfg tb pins s).acc_step_rate
      = min b.nominal_rate
          ((u16 (MultiU24X24toH16 (acquire_block cfg tb s).1.acceleration_time
              b.acceleration_rate) + b.initial_rate) % 65536) ∧
    armed (stepper_int_handler cfg tb pins s).log
      = some (((calc_timer cfg tb (stepper_int_handler cfg tb pins s).acc_step_rate
          (acquire_block cfg tb s).1).1 % 65536 : Nat) : Int) ∧
    (stepper_int_handler cfg tb pins s).acceleration_time
      = (acquire_block cfg tb s).1.acceleration_time
        + (((calc_timer cfg tb (stepper_int_handler cfg tb pins s).acc_step_rate
            (acquire_block cfg tb s).1).1 % 65536 : Nat) : Int) := by
  obtain ⟨a1, a2, -, a4⟩ := stepper_int_handler_accelerate cfg tb pins s b hb hend
  simp only [calc_timer_eq]
  rw [a1]
  refine ⟨?_, a4, a2⟩
  unfold accelerate_rate
  split_ifs with h
  · rw [Nat.mod_eq_of_lt hnom]
    omega
  · omega

/-- C17: deceleration never undershoots. In every invocation that traces a
block b (final_rate an unsigned short) and takes the decelerate branch
(it ends with step_events_completed > accelerate_until and > decelerate_after),
for all values of deceleration_time, acceleration_rate and acc_step_rate, the
step rate r = decelerate_rate passed to calc_timer satisfies r ≥ final_rate and
(r ≤ acc_step_rate or r = final_rate); r is final_rate or the difference
acc_step_rate - delta taken with delta ≤ acc_step_rate, so the subtraction
never wraps; the timer is re-armed with the unsigned short value of
calc_timer(r) and deceleration_time is increased by exactly the period armed. -/
theorem deceleration_update (cfg : Config) (tb : Tables) (pins : Pins) (s : State)
    (b : block_t) (hb : isr_block cfg tb s = some b) (hfin : b.final_rate < 65536)
    (h1 : (stepper_int_handler cfg tb pins s).step_events_completed > b.accelerate_until)
    (h2 : (stepper_int_handler cfg tb pins s).step_events_completed > b.decelerate_after) :
    b.final_rate ≤ decelerate_rate b (acquire_block cfg tb s).1 ∧
    (decelerate_rate b (acquire_block cfg tb s).1 ≤ (acquire_block cfg tb s).1.acc_step_rate ∨
      decelerate_rate b (acquire_block cfg tb s).1 = b.final_rate) ∧
    (decelerate_rate b (acquire_block cfg tb s).1 = b.final_rate ∨
      (decelerate_delta b (acquire_block cfg tb s).1 ≤ (acquire_block cfg tb s).1.acc_step_rate ∧
        decelerate_rate b (acquire_block cfg tb s).1
            + decelerate_delta b (acquire_block cfg tb s).1
          = (acquire_block cfg tb s).1.acc_step_rate)) ∧
    (stepper_int_handler cfg tb pins s).step_loops
      = (calc_timer cfg tb (decelerate_rate b (acquire_block cfg tb s).1)
          (acquire_block cfg tb s).1).2.step_loops ∧
    armed (stepper_int_handler cfg tb pins s).log
      = some (((calc_timer cfg tb (decelerate_rate b (acquire_block cfg tb s).1)
          (acquire_block cfg tb s).1).1 % 65536 : Nat) : Int) ∧
    (stepper_int_handler cfg tb pins s).deceleration_time
      = (acquire_block cfg tb s).1.deceleration_time
        + (((calc_timer cfg tb (decelerate_rate b (acquire_block cfg tb s).1)
            (acquire_block cfg tb s).1).1 % 65536 : Nat) : Int) := by
  obtain ⟨-, a2, a3, a4⟩ :=
    stepper_int_handler_decelerate cfg tb pins s b hb (by omega) h2
  simp only [calc_timer_eq]
  refine ⟨?_, ?_, ?_, a3, a4, a2⟩
  all_goals
    unfold decelerate_rate
    simp only []
    have hf := Nat.mod_eq_of_lt hfin
    split_ifs <;> omega

/-- C19: step events per interrupt. In every invocation that traces a block b
(step_event_count N below 2^31) without an endstop latch, entered with
step_events_completed = c < N when the step loop starts, the step loop
executes exactly min(step_loops, N - c) step events, step_loops being its
value when the loop starts, and leaves step_events_completed
= min(c + step_loops, N). -/
theorem step_events_per_interrupt (cfg : Config) (tb : Tables) (pins : Pins) (s : State)
    (b : block_t) (c : Nat) (hb : isr_block cfg tb s = some b)
    (hN : b.step_event_count < 2147483648)
    (hnl : isr_latches cfg tb pins s = false)
    (hc : (acquire_block cfg tb s).1.step_events_completed = c)
    (hlt : c < b.step_event_count) :
    step_events (stepper_int_handler cfg tb pins s).log
      = step_events s.log
        + min (acquire_block cfg tb s).1.step_loops (b.step_event_count - c) ∧
    (stepper_int_handler cfg tb pins s).step_events_completed
      = min (c + (acquire_block cfg tb s).1.step_loops) b.step_event_count := by
  have h0 := isr_block_do_int cfg tb s b hb
  obtain ⟨fe, -, -, fc, -, l, hl, hq⟩ := acquire_block_frame cfg tb s
  rw [isr_latches_eq, hb] at hnl
  simp only [Bool.or_eq_false_iff] at hnl
  have hnlS : ∀ a, a < 3 → axis_trigger cfg pins (acquire_block cfg tb s).1 b a = false := by
    intro a ha
    rw [axis_trigger_congr cfg pins b s _ a fc fe.olds]
    interval_cases a
    · exact hnl.1.1
    · exact hnl.1.2
    · exact hnl.2
  rw [stepper_int_handler_eq cfg tb pins s h0, hb]
  simp only []
  obtain ⟨r1, r2, -⟩ := trace_block_count cfg tb pins b _ c hN hc hlt hnlS
  rw [r1, r2, hl, step_events_append, step_events_quiet l hq]
  refine ⟨rfl, ?_⟩
  omega

/-- C18: constant period without ramps. A block b0 (N step events, rates
unsigned short) with initial_rate = nominal_rate, accelerate_until = 0 and
decelerate_after ≥ N, acquired without the Z_LATE_ENABLE stall and traced
without an endstop latch, with the period T = calc_timer(nominal_rate) an
unsigned short, is retired after j ≤ N + 1 invocations, and at the exit of
each of them: every period armed since the start state equals T (there are at
least two of them, the one of trapezoid_generator_reset and one per
invocation), the timer is left armed with OCR1A_nominal = T,
step_events_completed lies in (accelerate_until, decelerate_after], which
selects the cruise branch, and step_loops equals step_loops_nominal. -/
theorem constant_period (cfg : Config) (tb : Tables) (inp : Nat → Pins) (s : State)
    (b0 : block_t) (rest : List block_t) (h0 : s.do_int ≠ 0) (hcb : s.current_block = none)
    (hq : s.queue = b0 :: rest) (hN1 : 1 ≤ b0.step_event_count)
    (hN : b0.step_event_count < 2147483648)
    (hrate : b0.initial_rate = b0.nominal_rate) (hu : b0.nominal_rate < 65536)
    (hau : b0.accelerate_until = 0) (hda : b0.step_event_count ≤ b0.decelerate_after)
    (hz : (cfg.Z_LATE_ENABLE && decide (b0.steps_z > 0)) = false)
    (hT : (calc_timer cfg tb b0.nominal_rate s).1 < 65536)
    (hnl : ∀ i, i ≤ b0.step_event_count →
      (∀ m, 1 ≤ m → m ≤ i →
        (isr_run cfg tb inp m s).current_block = some { b0 with busy := true }) →
      isr_latches cfg tb (inp i) (isr_run cfg tb inp i s) = false) :
    ∃ j, 1 ≤ j ∧ j ≤ b0.step_event_count + 1 ∧
      (∀ i, 1 ≤ i → i < j →
        (isr_run cfg tb inp i s).current_block = some { b0 with busy := true }) ∧
      (isr_run cfg tb inp j s).current_block = none ∧
      ∀ i, 1 ≤ i → i ≤ j →
        (∃ n, 2 ≤ n ∧ attach_periods (isr_run cfg tb inp i s).log
          = attach_periods s.log
            ++ List.replicate n (((calc_timer cfg tb b0.nominal_rate s).1 : Nat) : Int)) ∧
        (isr_run cfg tb inp i s).OCR1A_nominal = (calc_timer cfg tb b0.nominal_rate s).1 ∧
        armed (isr_run cfg tb inp i s).log
          = some (((isr_run cfg tb inp i s).OCR1A_nominal : Nat) : Int) ∧
        b0.accelerate_until < (isr_run cfg tb inp i s).step_events_completed ∧
        (isr_run cfg tb inp i s).step_events_completed ≤ b0.decelerate_after ∧
        (isr_run cfg tb inp i s).step_loops = (isr_run cfg tb inp i s).step_loops_nominal := by
  simp only [calc_timer_eq] at hT ⊢
  obtain ⟨q1, q2, q3, q4⟩ := acquire_block_timer cfg tb s b0 rest hcb hq hz
  rw [hrate, Nat.mod_eq_of_lt hu] at q3 q4
  rw [Nat.mod_eq_of_lt hT] at q1
  have hw : wrapLong ((calc_timer_period cfg tb b0.nominal_rate : Nat) : Int)
      = ((calc_timer_period cfg tb b0.nominal_rate : Nat) : Int) := by
    unfold wrapLong
    omega
  rw [hw] at q4
  have hLc := calc_timer_step_loops_cases cfg b0.nominal_rate
  obtain ⟨j, j1, j2, j3, j4, -, -, -, -, -, -, -, -, -, j14⟩ :=
    block_run cfg tb inp s b0 rest 0 (by omega) (fun h => absurd h (by omega)) h0 hcb hq hN1 hN
      (fun a ha => absurd ha (by omega)) hnl
      (fun t => t.OCR1A_nominal = calc_timer_period cfg tb b0.nominal_rate ∧
        t.step_loops_nominal = calc_timer_step_loops cfg b0.nominal_rate ∧
        t.step_loops = calc_timer_step_loops cfg b0.nominal_rate ∧
        ∃ n, 1 ≤ n ∧ attach_periods t.log = attach_periods s.log
            ++ List.replicate n ((calc_timer_period cfg tb b0.nominal_rate : Nat) : Int) ∧
          (0 < t.step_events_completed →
            2 ≤ n ∧ t.step_events_completed ≤ b0.decelerate_after))
      (by
        intro pins t k t0 tcb tk tlt tL tnl hQt
        obtain ⟨p1, p2, p3, n, p4, p5, -⟩ := hQt
        obtain ⟨c1, c2, c3, c4, c5, c6⟩ :=
          stepper_int_handler_cruise cfg tb pins t { b0 with busy := true } k hN t0 tcb tk tlt
            (by rw [p3]; rcases hLc with h | h | h <;> rw [h] <;> omega) tnl hau hda
        refine ⟨c1.trans p1, c2.trans p2, ?_, n + 1, by omega, ?_, fun _ => ⟨by omega, ?_⟩⟩
        · rw [c3, p2]
          rcases hLc with h | h | h <;> rw [h]
        · rw [c4, p5, p1, List.append_assoc, List.replicate_succ']
        · exact le_trans c6 hda)
      ⟨q1, q2, q3, 1, le_refl 1, q4, (fun h => by
        exfalso
        obtain ⟨S, ha, -, -, s3, -⟩ := acquire_block_tracking cfg tb s b0 rest hcb hq hN1 hN
        rw [ha] at h
        simp only [] at h
        omega)⟩
  refine ⟨j, j1, j2, j3, j4, ?_⟩
  intro i hi1 hi2
  obtain ⟨⟨p1, p2, p3, n, p4, p5, p6⟩, hpos⟩ := j14 i hi1 hi2
  have hpos := hpos hz
  obtain ⟨p7, p8⟩ := p6 hpos
  refine ⟨⟨n, p7, p5⟩, p1, ?_, by rw [hau]; exact hpos, p8, p3.trans p2.symm⟩
  rw [p1]
  obtain ⟨m, rfl⟩ : ∃ m, n = m + 1 := ⟨n - 1, by omega⟩
  refine armed_of_attach _ (attach_periods s.log
    ++ List.replicate m ((calc_timer_period cfg tb b0.nominal_rate : Nat) : Int)) _ ?_
  rw [p5, List.append_assoc, List.replicate_succ']

/-- C14, amended: Bresenham fairness. For every block b with N < 2^31 step
events and every axis a stepped inline (X, Y, Z, and E when ADVANCE is off)
with 0 < steps[a] ≤ N, traced from counter[a] = -(N >> 1) by step events in
sequence: whatever the number k of step events already executed, the next
⌈N / steps[a]⌉ step events put at least one pulse on each step pin of the
axis, so that the first pulse comes within the first ⌈N / steps[a]⌉ step
events (k = 0) and at most ⌈N / steps[a]⌉ step events lead from one pulse to
the next; one step event puts at most one pulse on the pin. -/
theorem bresenham_fairness (cfg : Config) (b : block_t) (s : State) (a : Nat)
    (ha : a < 4) (hA : a = 3 → cfg.ADVANCE = false)
    (h0 : 0 < b.steps a) (hst : b.steps a ≤ b.step_event_count)
    (hN : b.step_event_count < 2147483648)
    (hc : s.counter a = -((b.step_event_count >>> 1 : Nat) : Int)) (k : Nat)
    (q : Pin × Bool) (hq : q ∈ axis_pins cfg b s a) :
    pin_writes q.1 q.2 (Nat.iterate (step_event cfg b) k s).log + 1
      ≤ pin_writes q.1 q.2 (Nat.iterate (step_event cfg b)
          (k + (b.step_event_count + b.steps a - 1) / b.steps a) s).log ∧
    pin_writes q.1 q.2 (Nat.iterate (step_event cfg b) (k + 1) s).log
      ≤ pin_writes q.1 q.2 (Nat.iterate (step_event cfg b) k s).log + 1 := by
  have hG : b.step_event_count
      ≤ (b.step_event_count + b.steps a - 1) / b.steps a * b.steps a := by
    have h1 := Nat.div_add_mod (b.step_event_count + b.steps a - 1) (b.steps a)
    have h2 := Nat.mod_lt (b.step_event_count + b.steps a - 1) h0
    rw [Nat.mul_comm] at h1
    generalize (b.step_event_count + b.steps a - 1) / b.steps a * b.steps a = m at *
    omega
  obtain ⟨hd, p, hp⟩ := step_events_pulsing cfg b s a ha hA hst hN (by omega) hc k
  obtain ⟨-, p', hp'⟩ := step_events_pulsing cfg b s a ha hA hst hN (by omega) hc
    (k + (b.step_event_count + b.steps a - 1) / b.steps a)
  have hlt := Pulsing_window cfg b s _ _ a k _ p p' hG hp hp'
  obtain ⟨r, -, hr, hp1⟩ := step_event_pulsing cfg b s _ a k p ha hA hst hN hd hp
  rw [Function.iterate_succ_apply', hp.2.2.2 q hq, hp'.2.2.2 q hq, hp1.2.2.2 q hq]
  omega

/-- C20, amended: step_loops invariant. In every state s reachable from the
initial state (static initialisation followed by st_init), at the exit of an
invocation of stepper_int_handler step_loops is one of 1, 2 or 4 if the
invocation has a block (a current one, or one to acquire from a non-empty
queue) or if step_loops was non-zero at entry, hence from the first
acquisition of a block on; an invocation that finds no block to acquire
leaves step_loops at its value at entry, which is 0 as long as no block was
acquired; step_loops is one of 0, 1, 2 or 4 at every exit. -/
theorem step_loops_invariant (cfg : Config) (tb : Tables) (s : State)
    (hs : Reachable cfg tb s) (pins : Pins) :
    ((s.current_block ≠ none ∨ s.queue ≠ [] ∨ s.step_loops ≠ 0) →
      (stepper_int_handler cfg tb pins s).step_loops = 1 ∨
      (stepper_int_handler cfg tb pins s).step_loops = 2 ∨
      (stepper_int_handler cfg tb pins s).step_loops = 4) ∧
    (s.current_block = none → s.queue = [] →
      (stepper_int_handler cfg tb pins s).step_loops = s.step_loops) ∧
    ((stepper_int_handler cfg tb pins s).step_loops = 0 ∨
      (stepper_int_handler cfg tb pins s).step_loops = 1 ∨
      (stepper_int_handler cfg tb pins s).step_loops = 2 ∨
      (stepper_int_handler cfg tb pins s).step_loops = 4) := by
  obtain ⟨i0, i1⟩ := Reachable_loops cfg tb s hs
  have hinv : s.current_block ≠ none → LoopsOK s := by
    intro hne
    rcases i1 with ⟨-, h⟩ | h
    · exact absurd h hne
    · exact h
  obtain ⟨l1, l2, l3⟩ := stepper_int_handler_loops cfg tb pins s i0 hinv
  refine ⟨?_, fun hcb hq => (l3 hcb hq).1, ?_⟩
  · intro h
    rcases h with h | h | h
    · exact (l2 (Or.inl h)).1
    · exact (l2 (Or.inr h)).1
    · rcases i1 with ⟨z, -⟩ | hL
      · exact absurd z h
      · exact (l1 hL).1
  · rcases i1 with ⟨z, hcb⟩ | hL
    · by_cases hq : s.queue = []
      · exact Or.inl ((l3 hcb hq).1.trans z)
      · exact Or.inr (l2 (Or.inr hq)).1
    · exact Or.inr (l1 hL).1

/-- C21: progress-counter invariant. In every state s reachable from the
initial state and for all endstop levels, at the exit of the invocation of
stepper_int_handler from s at which current_block is a block b,
0 ≤ step_events_completed ≤ b.step_event_count; no hypothesis excludes an
endstop latch. -/
theorem progress_counter_invariant (cfg : Config) (tb : Tables) (s : State)
    (hs : Reachable cfg tb s) (pins : Pins) (b : block_t)
    (hcb : (stepper_int_handler cfg tb pins s).current_block = some b) :
    0 ≤ (stepper_int_handler cfg tb pins s).step_events_completed ∧
    (stepper_int_handler cfg tb pins s).step_events_completed ≤ b.step_event_count :=
  ⟨Nat.zero_le _, Reachable_progress cfg tb _ (Reachable.isr pins hs) b hcb⟩

/-- C22: DDA counter range invariant. In every state s reachable from the
initial state, for every block b with steps[a] ≤ N on every axis
(N = step_event_count, a long): if b is the current block after the
acquisition step of an invocation from s (b was current, or is acquired
there), each of counter_x, counter_y, counter_z, counter_e lies in [-N, +N]
after the acquisition and after every number n of iterations of the step
loop; and if b is current at the exit of the invocation, each counter lies in
[-N, +N] there. The configuration, the endstop levels and the step_loops
values are arbitrary. -/
theorem dda_counter_range (cfg : Config) (tb : Tables) (s : State)
    (hs : Reachable cfg tb s) (pins : Pins) (b : block_t)
    (hst : ∀ a, a < 4 → b.steps a ≤ b.step_event_count)
    (hN : b.step_event_count < 2147483648) :
    ((acquire_block cfg tb s).1.current_block = some b →
      (∀ a, a < 4 →
        -(b.step_event_count : Int) ≤ (acquire_block cfg tb s).1.counter a ∧
        (acquire_block cfg tb s).1.counter a ≤ (b.step_event_count : Int)) ∧
      ∀ n a, a < 4 →
        -(b.step_event_count : Int)
          ≤ (step_loop cfg b n
              (set_directions_check_endstops cfg pins b (acquire_block cfg tb s).1)).counter a ∧
        (step_loop cfg b n
            (set_directions_check_endstops cfg pins b (acquire_block cfg tb s).1)).counter a
          ≤ (b.step_event_count : Int)) ∧
    ((stepper_int_handler cfg tb pins s).current_block = some b →
      ∀ a, a < 4 →
        -(b.step_event_count : Int) ≤ (stepper_int_handler cfg tb pins s).counter a ∧
        (stepper_int_handler cfg tb pins s).counter a ≤ (b.step_event_count : Int)) := by
  have hinv := fun hc => Reachable_range cfg tb s hs b hc hst hN
  refine ⟨fun hS => ⟨?_, ?_⟩, ?_⟩
  · intro a ha
    have := acquire_block_range cfg tb s b hN hinv hS a ha
    omega
  · intro n a ha
    have := step_loop_range cfg b hst hN n
      (set_directions_check_endstops cfg pins b (acquire_block cfg tb s).1) (fun a' ha' => by
        rw [pass_counters]
        exact acquire_block_range cfg tb s b hN hinv hS a' ha') a ha
    omega
  · intro hcb a ha
    have := Reachable_range cfg tb _ (Reachable.isr pins hs) b hcb hst hN a ha
    omega

/-- C23: trapezoid reset postcondition. For every block b, state,
configuration and table content, with initial_rate an unsigned short, the
period calc_timer(nominal_rate) an unsigned short and the period
calc_timer(initial_rate) a non-negative long: immediately after
trapezoid_generator_reset, OCR1A_nominal equals calc_timer(nominal_rate),
step_loops_nominal equals the step_loops value calc_timer(nominal_rate) sets,
acc_step_rate equals initial_rate, acceleration_time equals
calc_timer(initial_rate), deceleration_time equals 0, the timer is armed with
the period acceleration_time, and step_loops equals the value
calc_timer(initial_rate) sets. -/
theorem trapezoid_reset_postcondition (cfg : Config) (tb : Tables) (b : block_t) (s : State)
    (hinit : b.initial_rate < 65536)
    (hnom : (calc_timer cfg tb b.nominal_rate s).1 < 65536)
    (hacc : (calc_timer cfg tb b.initial_rate s).1 < 2147483648) :
    (trapezoid_generator_reset cfg tb b s).OCR1A_nominal
      = (calc_timer cfg tb b.nominal_rate s).1 ∧
    (trapezoid_generator_reset cfg tb b s).step_loops_nominal
      = (calc_timer cfg tb b.nominal_rate s).2.step_loops ∧
    (trapezoid_generator_reset cfg tb b s).acc_step_rate = b.initial_rate ∧
    (trapezoid_generator_reset cfg tb b s).acceleration_time
      = (((calc_timer cfg tb b.initial_rate s).1 : Nat) : Int) ∧
    (trapezoid_generator_reset cfg tb b s).deceleration_time = 0 ∧
    armed (trapezoid_generator_reset cfg tb b s).log
      = some (trapezoid_generator_reset cfg tb b s).acceleration_time ∧
    (trapezoid_generator_reset cfg tb b s).step_loops
      = (calc_timer cfg tb b.initial_rate s).2.step_loops := by
  simp only [calc_timer_eq] at hnom hacc ⊢
  have hat := trapezoid_generator_reset_attach cfg tb b s
  obtain ⟨adv, fadv, oadv, e0, e1, e2, l, hl, h⟩ := trapezoid_generator_reset_shape cfg tb b s
  have hw : wrapLong ((calc_timer_period cfg tb b.initial_rate : Nat) : Int)
      = ((calc_timer_period cfg tb b.initial_rate : Nat) : Int) :=
    wrapLong_of_range _ (by omega) (by omega)
  rw [Nat.mod_eq_of_lt hinit, hw] at hat h
  rw [Nat.mod_eq_of_lt hnom] at h
  have hacc2 : (trapezoid_generator_reset cfg tb b s).acceleration_time
      = ((calc_timer_period cfg tb b.initial_rate : Nat) : Int) := by rw [h]
  refine ⟨by rw [h], by rw [h], by rw [h], hacc2, by rw [h], ?_, by rw [h]⟩
  rw [hacc2]
  exact armed_of_attach _ (attach_periods s.log) _ hat

/-- C24, amended: advance compensator drain. In every tick of the advance
interrupt, for each configured extruder i (i < EXTRUDERS ≤ 3) the loop body
runs four times: with e_steps[i] ≠ 0, min(4, |e_steps[i]|) direction writes at
the level of the sign of e_steps[i] and as many step pulses are emitted and
e_steps[i] moves toward zero by that number; with e_steps[i] = 0 nothing is
written to the pins of the extruder and e_steps[i] stays 0. The pulse count
of extruder 2 in the negative direction is stated for INVER_E_STEP_PIN equal
to INVERT_E_STEP_PIN. -/
theorem advance_drain (cfg : Config) (ac : AdvanceConfig) (s : State) (t : Timer0) (i : Nat)
    (hi : i < 3) (hx : i < ac.EXTRUDERS) :
    (s.e_steps i < 0 →
      (TIMER0_COMPA_vect cfg ac s t).1.e_steps i
        = s.e_steps i + ((min 4 (s.e_steps i).natAbs : Nat) : Int) ∧
      epin_writes (EPin.dir_of i) (ac.INVERT_E_DIR i) (TIMER0_COMPA_vect cfg ac s t).2.writes
        = epin_writes (EPin.dir_of i) (ac.INVERT_E_DIR i) t.writes
          + min 4 (s.e_steps i).natAbs ∧
      epin_writes (EPin.dir_of i) (!ac.INVERT_E_DIR i) (TIMER0_COMPA_vect cfg ac s t).2.writes
        = epin_writes (EPin.dir_of i) (!ac.INVERT_E_DIR i) t.writes ∧
      ((i = 2 → ac.INVER_E_STEP_PIN = cfg.INVERT_E_STEP_PIN) →
        epin_writes (EPin.step_of i) (!cfg.INVERT_E_STEP_PIN)
            (TIMER0_COMPA_vect cfg ac s t).2.writes
          = epin_writes (EPin.step_of i) (!cfg.INVERT_E_STEP_PIN) t.writes
            + min 4 (s.e_steps i).natAbs)) ∧
    (0 < s.e_steps i →
      (TIMER0_COMPA_vect cfg ac s t).1.e_steps i
        = s.e_steps i - ((min 4 (s.e_steps i).natAbs : Nat) : Int) ∧
      epin_writes (EPin.dir_of i) (!ac.INVERT_E_DIR i) (TIMER0_COMPA_vect cfg ac s t).2.writes
        = epin_writes (EPin.dir_of i) (!ac.INVERT_E_DIR i) t.writes
          + min 4 (s.e_steps i).natAbs ∧
      epin_writes (EPin.dir_of i) (ac.INVERT_E_DIR i) (TIMER0_COMPA_vect cfg ac s t).2.writes
        = epin_writes (EPin.dir_of i) (ac.INVERT_E_DIR i) t.writes ∧
      epin_writes (EPin.step_of i) (!cfg.INVERT_E_STEP_PIN)
          (TIMER0_COMPA_vect cfg ac s t).2.writes
        = epin_writes (EPin.step_of i) (!cfg.INVERT_E_STEP_PIN) t.writes
          + min 4 (s.e_steps i).natAbs) ∧
    (s.e_steps i = 0 →
      (TIMER0_COMPA_vect cfg ac s t).1.e_steps i = 0 ∧
      ∀ p, p = EPin.step_of i ∨ p = EPin.dir_of i → ∀ lvl,
        epin_writes p lvl (TIMER0_COMPA_vect cfg ac s t).2.writes
          = epin_writes p lvl t.writes) := by
  rw [TIMER0_COMPA_vect_eq]
  obtain ⟨q1, q2⟩ := advance_passes_extruder cfg ac i hi hx 4
    (s, { t with old_OCR0A := (t.old_OCR0A + 52) % 256, OCR0A := (t.old_OCR0A + 52) % 256 })
  simp only [] at q1 q2
  obtain ⟨c1, c2⟩ := extruder_writes_count cfg ac i hi (s.e_steps i)
  refine ⟨fun h => ?_, fun h => ?_, fun h => ?_⟩
  · obtain ⟨d1, d2, d3⟩ := c1 h
    refine ⟨by rw [q1, if_pos h], ?_, ?_, fun hty => ?_⟩
    · rw [q2 _ (Or.inr rfl), d1, Nat.mul_one]
    · rw [q2 _ (Or.inr rfl), d2, Nat.mul_zero, Nat.add_zero]
    · rw [q2 _ (Or.inl rfl), d3 hty, Nat.mul_one]
  · obtain ⟨d1, d2, d3⟩ := c2 h
    refine ⟨by rw [q1, if_neg (show ¬ s.e_steps i < 0 by omega)], ?_, ?_, ?_⟩
    · rw [q2 _ (Or.inr rfl), d1, Nat.mul_one]
    · rw [q2 _ (Or.inr rfl), d2, Nat.mul_zero, Nat.add_zero]
    · rw [q2 _ (Or.inl rfl), d3, Nat.mul_one]
  · refine ⟨?_, ?_⟩
    · rw [q1, h]
      simp
    · intro p hp lvl
      rw [q2 p hp lvl, h]
      simp

end Properties

/-! # Witnesses -/

/-- Witness of C1: the block with steps = (3, 4, 0, 0) and N = 4 on the sample
machine with the endstop pins low gives 3 X pulses and 4 Y pulses. -/
theorem bresenham_exact_count_witness :
    ∃ j, 1 ≤ j ∧ j ≤ 5 ∧
      (isr_run sample_config sample_tables (fun _ => pins_low) j
        (sample_start [sample_block 3 4 0 0 4 0])).current_block = none ∧
      step_events (isr_run sample_config sample_tables (fun _ => pins_low) j
        (sample_start [sample_block 3 4 0 0 4 0])).log = 4 ∧
      (isr_run sample_config sample_tables (fun _ => pins_low) j
        (sample_start [sample_block 3 4 0 0 4 0])).step_events_completed = 4 ∧
      pin_writes Pin.x_step true (isr_run sample_config sample_tables (fun _ => pins_low) j
        (sample_start [sample_block 3 4 0 0 4 0])).log = 3 ∧
      pin_writes Pin.y_step true (isr_run sample_config sample_tables (fun _ => pins_low) j
        (sample_start [sample_block 3 4 0 0 4 0])).log = 4 ∧
      pin_writes Pin.z_step true (isr_run sample_config sample_tables (fun _ => pins_low) j
        (sample_start [sample_block 3 4 0 0 4 0])).log = 0 ∧
      pin_writes Pin.e_step true (isr_run sample_config sample_tables (fun _ => pins_low) j
        (sample_start [sample_block 3 4 0 0 4 0])).log = 0 := by
  obtain ⟨j, j1, j2, -, j4, -, -, j7, j8, j9⟩ :=
    bresenham_exact_count sample_config sample_tables (fun _ => pins_low)
      (sample_start [sample_block 3 4 0 0 4 0]) (sample_block 3 4 0 0 4 0) [] rfl
      (by decide) rfl rfl (by decide) (by decide) (by decide)
      (fun i _ _ => isr_latches_low _ _ _ _ (fun e => by cases e <;> rfl))
  exact ⟨j, j1, j2, j4, j7, j8, j9 0 (by decide) (Pin.x_step, true) (by decide),
    j9 1 (by decide) (Pin.y_step, true) (by decide),
    j9 2 (by decide) (Pin.z_step, true) (by decide),
    j9 3 (by decide) (Pin.e_step, true) (by decide)⟩

/-- Witness of C2: the block with steps = (100, 0, 0, 0) and direction_bits = 0
adds 100 to count_position[X] and leaves Y, Z and E at their values. -/
theorem position_accounting_witness :
    ∃ j, 1 ≤ j ∧ j ≤ 101 ∧
      (isr_run sample_config sample_tables (fun _ => pins_low) j
        (sample_start [sample_block 100 0 0 0 100 0])).current_block = none ∧
      (isr_run sample_config sample_tables (fun _ => pins_low) j
        (sample_start [sample_block 100 0 0 0 100 0])).count_position 0 = 100 ∧
      (isr_run sample_config sample_tables (fun _ => pins_low) j
        (sample_start [sample_block 100 0 0 0 100 0])).count_position 1 = 0 ∧
      (isr_run sample_config sample_tables (fun _ => pins_low) j
        (sample_start [sample_block 100 0 0 0 100 0])).count_position 2 = 0 ∧
      (isr_run sample_config sample_tables (fun _ => pins_low) j
        (sample_start [sample_block 100 0 0 0 100 0])).count_position 3 = 0 := by
  obtain ⟨j, j1, j2, -, j4, -, j6, j7⟩ :=
    position_accounting sample_config sample_tables (fun _ => pins_low)
      (sample_start [sample_block 100 0 0 0 100 0]) (sample_block 100 0 0 0 100 0) [] rfl
      (by decide) rfl rfl (by decide) (by decide) (by decide)
      (fun i _ _ => isr_latches_low _ _ _ _ (fun e => by cases e <;> rfl))
  exact ⟨j, j1, j2, j4, j6 0 (by decide), j7 1 (by decide) rfl, j7 2 (by decide) rfl,
    j7 3 (by decide) rfl⟩
/-- Counterexample to C3 as stated: a block with steps on Z only and the X
direction bit clear runs on the sample machine with the X max pin held high.
Every invocation samples X max and stores the reading; from the second
invocation on the reading sampled and the reading stored by the previous
sampling are both asserted, yet endstop_x_hit stays clear through five
invocations, because lines 358-363 latch only with steps_x > 0. -/
theorem endstop_debounce_counterexample :
    (sample_block 0 0 10 0 10 0).steps 0 = 0 ∧
    isr_samples sample_config sample_tables
      (isr_run sample_config sample_tables (fun _ => { pins_low with x_max := true }) 1
        (sample_start [sample_block 0 0 10 0 10 0])) Endstop.x_max = true ∧
    endstop_reading sample_config { pins_low with x_max := true } Endstop.x_max = true ∧
    prev_reading sample_config sample_tables (fun _ => { pins_low with x_max := true })
      (sample_start [sample_block 0 0 10 0 10 0]) Endstop.x_max 1 = true ∧
    (isr_run sample_config sample_tables (fun _ => { pins_low with x_max := true }) 1
      (sample_start [sample_block 0 0 10 0 10 0])).endstop_hit 0 = false ∧
    (isr_run sample_config sample_tables (fun _ => { pins_low with x_max := true }) 2
      (sample_start [sample_block 0 0 10 0 10 0])).endstop_hit 0 = false ∧
    (isr_run sample_config sample_tables (fun _ => { pins_low with x_max := true }) 5
      (sample_start [sample_block 0 0 10 0 10 0])).endstop_hit 0 = false ∧
    (isr_run sample_config sample_tables (fun _ => { pins_low with x_max := true }) 5
      (sample_start [sample_block 0 0 10 0 10 0])).current_block.isSome = true := by
  decide

/-- Witness of C3 as amended: the X min readings 0, 1, 0, 1, 1 while an
X-negative block of 10 steps runs on the sample machine; the fifth sampling
(invocation 4) is the first that finds both the current and the stored reading
asserted, and the latch, clear after the first four invocations, is set by the
fifth. -/
theorem endstop_debounce_witness :
    (isr_run sample_config sample_tables (fun i => pins_x_min (i == 1 || i == 3 || i == 4)) 1
      (sample_start [sample_block 10 0 0 0 10 1])).endstop_hit 0 = false ∧
    (isr_run sample_config sample_tables (fun i => pins_x_min (i == 1 || i == 3 || i == 4)) 2
      (sample_start [sample_block 10 0 0 0 10 1])).endstop_hit 0 = false ∧
    (isr_run sample_config sample_tables (fun i => pins_x_min (i == 1 || i == 3 || i == 4)) 3
      (sample_start [sample_block 10 0 0 0 10 1])).endstop_hit 0 = false ∧
    (isr_run sample_config sample_tables (fun i => pins_x_min (i == 1 || i == 3 || i == 4)) 4
      (sample_start [sample_block 10 0 0 0 10 1])).endstop_hit 0 = false ∧
    (isr_run sample_config sample_tables (fun i => pins_x_min (i == 1 || i == 3 || i == 4)) 5
      (sample_start [sample_block 10 0 0 0 10 1])).endstop_hit 0 = true ∧
    (isr_run sample_config sample_tables (fun i => pins_x_min (i == 1 || i == 3 || i == 4)) 5
      (sample_start [sample_block 10 0 0 0 10 1])).old_endstop Endstop.x_min = true :=
  have h := endstop_debounce sample_config sample_tables
    (fun i => pins_x_min (i == 1 || i == 3 || i == 4))
    (sample_start [sample_block 10 0 0 0 10 1]) Endstop.x_min 4
    { sample_block 10 0 0 0 10 1 with busy := true } (by decide) (by decide)
  ⟨by decide, by decide, by decide, by decide, h.2.1.trans (by decide),
    h.2.2.2.1.trans (by decide)⟩

/-- Witness of C4: X min asserted in two consecutive invocations of an
X-negative block of 10 steps; the second invocation latches, records the
position -1 of its entry and retires the block with one discard. -/
theorem endstop_trigger_retires_block_witness :
    (stepper_int_handler sample_config sample_tables (pins_x_min true)
      (isr_run sample_config sample_tables (fun _ => pins_x_min true) 1
        (sample_start [sample_block 10 0 0 0 10 1]))).endstop_hit 0 = true ∧
    (stepper_int_handler sample_config sample_tables (pins_x_min true)
      (isr_run sample_config sample_tables (fun _ => pins_x_min true) 1
        (sample_start [sample_block 10 0 0 0 10 1]))).endstops_trigsteps 0 = -1 ∧
    (stepper_int_handler sample_config sample_tables (pins_x_min true)
      (isr_run sample_config sample_tables (fun _ => pins_x_min true) 1
        (sample_start [sample_block 10 0 0 0 10 1]))).current_block = none ∧
    discards (stepper_int_handler sample_config sample_tables (pins_x_min true)
      (isr_run sample_config sample_tables (fun _ => pins_x_min true) 1
        (sample_start [sample_block 10 0 0 0 10 1]))).log = 1 :=
  have h := endstop_trigger_retires_block sample_config sample_tables (pins_x_min true)
    (isr_run sample_config sample_tables (fun _ => pins_x_min true) 1
      (sample_start [sample_block 10 0 0 0 10 1]))
    { sample_block 10 0 0 0 10 1 with busy := true } Endstop.x_min
    (by decide) (by decide) (by decide) (by decide) (by decide) (by decide)
  ⟨h.1, h.2.1.trans (by decide), h.2.2.1, h.2.2.2.trans (by decide)⟩

/-- Counterexample to C5 as stated: on the sample machine an X-negative block
with steps_x = step_event_count = 10 runs with X min asserted. The first
invocation stores the reading and steps to -1. The second invocation samples
X min with both readings asserted, so the endstop latches in it (the latch
goes from clear to set) with endstops_trigsteps[X] = -1; the step loop of the
same invocation still executes one step event, which pulses X and moves
count_position[X] to -2. At the exit of the latching invocation
endstops_trigsteps[X] differs from count_position[X]. -/
theorem endstop_truncation_counterexample :
    isr_block sample_config sample_tables
      (isr_run sample_config sample_tables (fun _ => pins_x_min true) 1
        (sample_start [sample_block 10 0 0 0 10 1]))
      = some { sample_block 10 0 0 0 10 1 with busy := true } ∧
    (isr_run sample_config sample_tables (fun _ => pins_x_min true) 1
      (sample_start [sample_block 10 0 0 0 10 1])).endstop_hit 0 = false ∧
    (isr_run sample_config sample_tables (fun _ => pins_x_min true) 2
      (sample_start [sample_block 10 0 0 0 10 1])).endstop_hit 0 = true ∧
    (isr_run sample_config sample_tables (fun _ => pins_x_min true) 1
      (sample_start [sample_block 10 0 0 0 10 1])).count_position 0 = -1 ∧
    (isr_run sample_config sample_tables (fun _ => pins_x_min true) 2
      (sample_start [sample_block 10 0 0 0 10 1])).count_position 0 = -2 ∧
    (isr_run sample_config sample_tables (fun _ => pins_x_min true) 2
      (sample_start [sample_block 10 0 0 0 10 1])).endstops_trigsteps 0 = -1 ∧
    pin_writes Pin.x_step true (isr_run sample_config sample_tables (fun _ => pins_x_min true) 1
      (sample_start [sample_block 10 0 0 0 10 1])).log = 1 ∧
    pin_writes Pin.x_step true (isr_run sample_config sample_tables (fun _ => pins_x_min true) 2
      (sample_start [sample_block 10 0 0 0 10 1])).log = 2 ∧
    step_events (isr_run sample_config sample_tables (fun _ => pins_x_min true) 2
      (sample_start [sample_block 10 0 0 0 10 1])).log = 2 ∧
    (isr_run sample_config sample_tables (fun _ => pins_x_min true) 2
      (sample_start [sample_block 10 0 0 0 10 1])).endstops_trigsteps 0
      ≠ (isr_run sample_config sample_tables (fun _ => pins_x_min true) 2
          (sample_start [sample_block 10 0 0 0 10 1])).count_position 0 := by
  decide

/-- Witness of C5 as amended: the latching invocation of the counterexample. -/
theorem endstop_truncation_witness :
    (stepper_int_handler sample_config sample_tables (pins_x_min true)
      (isr_run sample_config sample_tables (fun _ => pins_x_min true) 1
        (sample_start [sample_block 10 0 0 0 10 1]))).current_block = none ∧
    step_events (stepper_int_handler sample_config sample_tables (pins_x_min true)
      (isr_run sample_config sample_tables (fun _ => pins_x_min true) 1
        (sample_start [sample_block 10 0 0 0 10 1]))).log ≤ 2 ∧
    (stepper_int_handler sample_config sample_tables (pins_x_min true)
      (isr_run sample_config sample_tables (fun _ => pins_x_min true) 1
        (sample_start [sample_block 10 0 0 0 10 1]))).endstops_trigsteps 0 = -1 :=
  have h := endstop_truncation sample_config sample_tables (pins_x_min true)
    (isr_run sample_config sample_tables (fun _ => pins_x_min true) 1
      (sample_start [sample_block 10 0 0 0 10 1]))
    { sample_block 10 0 0 0 10 1 with busy := true } Endstop.x_min
    (by decide) (by decide) (by decide) (by decide) (by decide) (by decide)
  ⟨h.1, h.2.1.trans (by decide), h.2.2.1.trans (by decide)⟩

/-- Witness of C6: a generator with a block queued and X min asserted, the
interrupt gated off. -/
theorem isr_enable_gate_witness :
    ({ sample_start [sample_block 3 4 0 0 4 0] with do_int := 0 } : State).do_int = 0 ∧
    stepper_int_handler sample_config sample_tables (pins_x_min true)
      { sample_start [sample_block 3 4 0 0 4 0] with do_int := 0 }
      = { sample_start [sample_block 3 4 0 0 4 0] with do_int := 0 } :=
  ⟨rfl, isr_enable_gate sample_config sample_tables (pins_x_min true)
    { sample_start [sample_block 3 4 0 0 4 0] with do_int := 0 } rfl⟩

/-- Witness of C7: st_set_position(10, -20, 30, 40) on the woken generator
with nothing queued, then three invocations. -/
theorem position_round_trip_witness :
    (sample_start []).idle ∧
    st_get_position (isr_run sample_config sample_tables (fun _ => pins_low) 3
      (st_set_position 10 (-20) 30 40 (sample_start []))) X_AXIS = some 10 ∧
    st_get_position (isr_run sample_config sample_tables (fun _ => pins_low) 3
      (st_set_position 10 (-20) 30 40 (sample_start []))) Y_AXIS = some (-20) ∧
    st_get_position (isr_run sample_config sample_tables (fun _ => pins_low) 3
      (st_set_position 10 (-20) 30 40 (sample_start []))) Z_AXIS = some 30 ∧
    st_get_position (isr_run sample_config sample_tables (fun _ => pins_low) 3
      (st_set_position 10 (-20) 30 40 (sample_start []))) E_AXIS = some 40 :=
  have h := position_round_trip sample_config sample_tables (fun _ => pins_low)
    (sample_start []) 10 (-20) 30 40 3 (Or.inr ⟨rfl, rfl⟩)
  ⟨Or.inr ⟨rfl, rfl⟩, h.1, h.2.1, h.2.2.1, h.2.2.2.1⟩

/-- Witness of C8: five X steps out and five back on the sample machine. -/
theorem out_and_back_witness :
    ∃ j, 2 ≤ j ∧ j ≤ 12 ∧
      (isr_run sample_config sample_tables (fun _ => pins_low) j
        (sample_start [sample_block 5 0 0 0 5 0, sample_block 5 0 0 0 5 1])).current_block
        = none ∧
      (isr_run sample_config sample_tables (fun _ => pins_low) j
        (sample_start [sample_block 5 0 0 0 5 0, sample_block 5 0 0 0 5 1])).count_position 0
        = 0 ∧
      step_events (isr_run sample_config sample_tables (fun _ => pins_low) j
        (sample_start [sample_block 5 0 0 0 5 0, sample_block 5 0 0 0 5 1])).log = 10 := by
  obtain ⟨j, j1, j2, j3, -, -, j6, j7⟩ :=
    out_and_back sample_config sample_tables (fun _ => pins_low)
      (sample_start [sample_block 5 0 0 0 5 0, sample_block 5 0 0 0 5 1])
      (sample_block 5 0 0 0 5 0) (sample_block 5 0 0 0 5 1) [] 0 5 (by decide) rfl rfl
      (by decide) (by decide) (by decide) rfl rfl (by decide) (by decide) (by decide)
      (by decide)
      (fun i _ => isr_latches_low _ _ _ _ (fun e => by cases e <;> rfl))
  exact ⟨j, j1, j2, j3, j7 0 (by decide), j6⟩

/-- Witness of C9: quickStop two invocations into a block of 10 steps with a
second block queued. -/
theorem quickStop_postcondition_witness :
    ∃ s', quickStop 2 (isr_run sample_config sample_tables (fun _ => pins_low) 2
        (sample_start [sample_block 10 0 0 0 10 0, sample_block 3 4 0 0 4 0])) = some s' ∧
      s'.queue = [] ∧ s'.current_block = none ∧ s'.do_int = 1 ∧
      s'.count_position 0 = 2 ∧
      (stepper_int_handler sample_config sample_tables pins_low s').log
        = s'.log ++ [Event.timer_detach, Event.timer_attach_us 1000] := by
  obtain ⟨s', h1, h2, h3, h4, h5, -, -, h8, -⟩ :=
    quickStop_postcondition sample_config sample_tables pins_low
      (isr_run sample_config sample_tables (fun _ => pins_low) 2
        (sample_start [sample_block 10 0 0 0 10 0, sample_block 3 4 0 0 4 0])) 2 (by decide)
  exact ⟨s', h1, h2, h3, h4, (h5 0 (by decide)).trans (by decide), h8⟩

/-- Witness of C12: calc_timer(30000) on the sample machine (MAX_STEP_FREQUENCY
= 40000) sets step_loops = 4 and returns the period of calc_timer(7500). -/
theorem calc_timer_rate_reduction_witness :
    sample_config.MAX_STEP_FREQUENCY ≤ 40003 ∧
    (calc_timer sample_config ramp_tables 30000 initial_state).2.step_loops = 4 ∧
    (calc_timer sample_config ramp_tables 30000 initial_state).1
      = (calc_timer sample_config ramp_tables 7500 initial_state).1 :=
  have h := (calc_timer_rate_reduction sample_config ramp_tables 30000 initial_state
    (by decide) (by decide)).1 (by decide)
  ⟨by decide, h.1, h.2⟩

theorem ramp_tables_entries_u16 : ramp_tables.entries_u16 := by
  intro i
  simp only [ramp_tables]
  constructor <;> split_ifs <;> omega

theorem ramp_tables_fast_decreasing : ramp_tables.fast_periods_decreasing := by
  intro i j h
  simp only [ramp_tables]
  have h1 : 2 * j % 2 = 0 := by omega
  have h2 : 2 * i % 2 = 0 := by omega
  rw [if_pos h1, if_pos h2]
  omega

theorem ramp_tables_slow_decreasing : ramp_tables.slow_periods_decreasing := by
  intro i j h
  simp only [ramp_tables]
  have h1 : 2 * j % 2 = 0 := by omega
  have h2 : 2 * i % 2 = 0 := by omega
  rw [if_pos h1, if_pos h2]
  omega

/-- Counterexample to C13 as stated: with tables whose period columns fall
strictly with the row index (10000 - 10 * row), calc_timer(10000) = 9610 is
less than calc_timer(10001) = 9810: above 10000 steps/s the rate is halved
(step_loops = 2) before the lookup, so the period rises across the
threshold. -/
theorem calc_timer_monotone_counterexample :
    ramp_tables.entries_u16 ∧ ramp_tables.fast_periods_decreasing ∧
    ramp_tables.slow_periods_decreasing ∧
    (calc_timer sample_config ramp_tables 10000 initial_state).1 = 9610 ∧
    (calc_timer sample_config ramp_tables 10001 initial_state).1 = 9810 ∧
    (calc_timer sample_config ramp_tables 10000 initial_state).2.step_loops = 1 ∧
    (calc_timer sample_config ramp_tables 10001 initial_state).2.step_loops = 2 ∧
    ¬ ((calc_timer sample_config ramp_tables 10001 initial_state).1
        ≤ (calc_timer sample_config ramp_tables 10000 initial_state).1) :=
  ⟨ramp_tables_entries_u16, ramp_tables_fast_decreasing, ramp_tables_slow_decreasing,
    by decide, by decide, by decide, by decide, by decide⟩

/-- Witness of C13 as amended: 3000 and 9000 steps/s, both with step_loops = 1
and on the fast segment. -/
theorem calc_timer_monotone_witness :
    (calc_timer sample_config ramp_tables 9000 initial_state).1
      ≤ (calc_timer sample_config ramp_tables 3000 initial_state).1 :=
  calc_timer_monotone sample_config ramp_tables 3000 9000 initial_state initial_state
    ramp_tables_entries_u16 ramp_tables_fast_decreasing (by decide) (by decide) (by decide)
    (by decide) (by decide)

/-- C15, the code at a failing input: fast-table row 8 holds the period 9920
and the slope 512. The claim gives calc_timer(2176) = 9920 - ((128 * 512) >> 16)
= 9919; the code returns 9920, and returns 9920 for the whole row 2048..2303,
because MultiU16X8toH16 expands to tmp_step_rate * (gain >> 16), which is 0 for
an unsigned short gain. -/
theorem calc_timer_fast_interpolation_divergence :
    ramp_tables.speed_lookuptable_fast (2 * (2176 >>> 8)) = 9920 ∧
    ramp_tables.speed_lookuptable_fast (2 * (2176 >>> 8) + 1) = 512 ∧
    ramp_tables.speed_lookuptable_fast (2 * (2176 >>> 8))
      - (((2176 &&& 0xff) * ramp_tables.speed_lookuptable_fast (2 * (2176 >>> 8) + 1)) >>> 16)
      = 9919 ∧
    (calc_timer sample_config ramp_tables 2176 initial_state).1 = 9920 ∧
    (calc_timer sample_config ramp_tables 2048 initial_state).1 = 9920 ∧
    (calc_timer sample_config ramp_tables 2303 initial_state).1 = 9920 := by
  decide

/-- Witness of C19: a block of 20 X steps at 30000 steps/s is acquired with
step_loops = 4; the acquiring invocation executes 4 step events with 4 X
pulses, and the invocation after it brings both counts to 8. -/
theorem step_events_per_interrupt_witness :
    (acquire_block sample_config sample_tables (sample_start [fast_block 20])).1.step_loops = 4 ∧
    step_events (stepper_int_handler sample_config sample_tables pins_low
      (sample_start [fast_block 20])).log = 4 ∧
    (stepper_int_handler sample_config sample_tables pins_low
      (sample_start [fast_block 20])).step_events_completed = 4 ∧
    pin_writes Pin.x_step true (stepper_int_handler sample_config sample_tables pins_low
      (sample_start [fast_block 20])).log = 4 ∧
    step_events (isr_run sample_config sample_tables (fun _ => pins_low) 2
      (sample_start [fast_block 20])).log = 8 ∧
    pin_writes Pin.x_step true (isr_run sample_config sample_tables (fun _ => pins_low) 2
      (sample_start [fast_block 20])).log = 8 :=
  have h := step_events_per_interrupt sample_config sample_tables pins_low
    (sample_start [fast_block 20]) { fast_block 20 with busy := true } 0
    (by decide) (by decide) (by decide) (by decide) (by decide)
  ⟨by decide, h.1.trans (by decide), h.2.trans (by decide), by decide, by decide, by decide⟩

/-- Counterexample to C16 as stated: the second invocation tracing ramp_block
on the sample machine starts with acc_step_rate = 2000 and acceleration_time
= 2000 and ends in the acceleration phase; the claim's value is
min(5000, 2000 + ((2^24 * 2000) >> 24)) = 4000, the code leaves
acc_step_rate = min(5000, 1000 + 2000) = 3000, initial_rate taking the place
of the old acc_step_rate. -/
theorem acceleration_update_counterexample :
    isr_block sample_config sample_tables
      (isr_run sample_config sample_tables (fun _ => pins_low) 1 (sample_start [ramp_block]))
      = some { ramp_block with busy := true } ∧
    (isr_run sample_config sample_tables (fun _ => pins_low) 1
      (sample_start [ramp_block])).acc_step_rate = 2000 ∧
    (isr_run sample_config sample_tables (fun _ => pins_low) 1
      (sample_start [ramp_block])).acceleration_time = 2000 ∧
    (isr_run sample_config sample_tables (fun _ => pins_low) 2
      (sample_start [ramp_block])).step_events_completed ≤ ramp_block.accelerate_until ∧
    min ramp_block.nominal_rate (2000 + ((ramp_block.acceleration_rate * 2000) >>> 24)) = 4000 ∧
    (isr_run sample_config sample_tables (fun _ => pins_low) 2
      (sample_start [ramp_block])).acc_step_rate = 3000 := by
  decide

/-- Witness of C16: the second invocation tracing ramp_block on the sample
machine leaves acc_step_rate = min(5000, 1000 + 2000) = 3000, arms the period
1000 and brings acceleration_time from 2000 to 3000. -/
theorem acceleration_update_witness :
    (stepper_int_handler sample_config sample_tables pins_low
      (isr_run sample_config sample_tables (fun _ => pins_low) 1
        (sample_start [ramp_block]))).acc_step_rate = 3000 ∧
    armed (stepper_int_handler sample_config sample_tables pins_low
      (isr_run sample_config sample_tables (fun _ => pins_low) 1
        (sample_start [ramp_block]))).log = some 1000 ∧
    (stepper_int_handler sample_config sample_tables pins_low
      (isr_run sample_config sample_tables (fun _ => pins_low) 1
        (sample_start [ramp_block]))).acceleration_time = 3000 :=
  have h := acceleration_update sample_config sample_tables pins_low
    (isr_run sample_config sample_tables (fun _ => pins_low) 1 (sample_start [ramp_block]))
    { ramp_block with busy := true } (by decide) (by decide) (by decide)
  ⟨h.1.trans (by decide), h.2.1.trans (by decide), h.2.2.trans (by decide)⟩

/-- Witness of C17: the second invocation tracing decel_block on the sample
machine takes the decelerate branch with acc_step_rate = 3000 and
deceleration_time = 1000: the rate passed to calc_timer is 3000 - 1000 = 2000,
the period armed is 1000 and deceleration_time becomes 2000. -/
theorem deceleration_update_witness :
    decelerate_delta { decel_block with busy := true }
      (isr_run sample_config sample_tables (fun _ => pins_low) 1
        (sample_start [decel_block])) = 1000 ∧
    decelerate_rate { decel_block with busy := true }
      (isr_run sample_config sample_tables (fun _ => pins_low) 1
        (sample_start [decel_block])) = 2000 ∧
    armed (stepper_int_handler sample_config sample_tables pins_low
      (isr_run sample_config sample_tables (fun _ => pins_low) 1
        (sample_start [decel_block]))).log = some 1000 ∧
    (stepper_int_handler sample_config sample_tables pins_low
      (isr_run sample_config sample_tables (fun _ => pins_low) 1
        (sample_start [decel_block]))).deceleration_time = 2000 :=
  have h := deceleration_update sample_config sample_tables pins_low
    (isr_run sample_config sample_tables (fun _ => pins_low) 1 (sample_start [decel_block]))
    { decel_block with busy := true } (by decide) (by decide) (by decide) (by decide)
  ⟨by decide, by decide, h.2.2.2.2.1.trans (by decide), h.2.2.2.2.2.trans (by decide)⟩

/-- Witness of C18: the block with steps = (100, 0, 0, 0), all rates 1000 and
decelerate_after = 100 on the sample machine: calc_timer(1000) = 1000, and
every invocation from its acquisition to its retirement leaves the timer armed
with OCR1A_nominal = calc_timer(1000), all periods armed being equal to it. -/
theorem constant_period_witness :
    (calc_timer sample_config sample_tables 1000
      (sample_start [sample_block 100 0 0 0 100 0])).1 = 1000 ∧
    ∃ j, 1 ≤ j ∧ j ≤ 101 ∧
      (isr_run sample_config sample_tables (fun _ => pins_low) j
        (sample_start [sample_block 100 0 0 0 100 0])).current_block = none ∧
      ∀ i, 1 ≤ i → i ≤ j →
        (∃ n, 2 ≤ n ∧ attach_periods (isr_run sample_config sample_tables (fun _ => pins_low) i
            (sample_start [sample_block 100 0 0 0 100 0])).log
          = attach_periods (sample_start [sample_block 100 0 0 0 100 0]).log
            ++ List.replicate n (((calc_timer sample_config sample_tables 1000
                (sample_start [sample_block 100 0 0 0 100 0])).1 : Nat) : Int)) ∧
        (isr_run sample_config sample_tables (fun _ => pins_low) i
          (sample_start [sample_block 100 0 0 0 100 0])).OCR1A_nominal
          = (calc_timer sample_config sample_tables 1000
              (sample_start [sample_block 100 0 0 0 100 0])).1 ∧
        armed (isr_run sample_config sample_tables (fun _ => pins_low) i
          (sample_start [sample_block 100 0 0 0 100 0])).log
          = some (((isr_run sample_config sample_tables (fun _ => pins_low) i
              (sample_start [sample_block 100 0 0 0 100 0])).OCR1A_nominal : Nat) : Int) ∧
        (isr_run sample_config sample_tables (fun _ => pins_low) i
          (sample_start [sample_block 100 0 0 0 100 0])).step_loops
          = (isr_run sample_config sample_tables (fun _ => pins_low) i
              (sample_start [sample_block 100 0 0 0 100 0])).step_loops_nominal := by
  refine ⟨by decide, ?_⟩
  obtain ⟨j, j1, j2, -, j4, j5⟩ :=
    constant_period sample_config sample_tables (fun _ => pins_low)
      (sample_start [sample_block 100 0 0 0 100 0]) (sample_block 100 0 0 0 100 0) []
      (by decide) rfl rfl (by decide) (by decide) rfl (by decide) rfl (by decide) rfl
      (by decide)
      (fun i _ _ => isr_latches_low _ _ _ _ (fun e => by cases e <;> rfl))
  refine ⟨j, j1, j2, j4, fun i hi1 hi2 => ?_⟩
  obtain ⟨k1, k2, k3, -, -, k6⟩ := j5 i hi1 hi2
  exact ⟨k1, k2, k3, k6⟩

/-- Counterexample to C14 as stated: with ADVANCE on, a block with
steps[E] = N = 4 (⌈N / steps[E]⌉ = 1) at 30000 steps/s is acquired with
counter_e = -(4 >> 1) and step_loops = 4 and traced to its retirement by the
four step events of one invocation; the E step pin is not pulsed once, in two
step events in sequence as in the invocation: the E steps are left pending in
e_steps[0] for the interrupt of lines 614-669. -/
theorem bresenham_fairness_counterexample :
    advance_config.ADVANCE = true ∧
    ({ fast_block 4 with steps_x := 0, steps_e := 4 } : block_t).steps 3 = 4 ∧
    (acquire_block advance_config sample_tables
      (sample_start [{ fast_block 4 with steps_x := 0, steps_e := 4 }])).1.counter 3 = -2 ∧
    (Pin.e_step, true) ∈ axis_pins advance_config { fast_block 4 with steps_x := 0, steps_e := 4 }
      (acquire_block advance_config sample_tables
        (sample_start [{ fast_block 4 with steps_x := 0, steps_e := 4 }])).1 3 ∧
    pin_writes Pin.e_step true
      (Nat.iterate (step_event advance_config { fast_block 4 with steps_x := 0, steps_e := 4 }) 2
        (acquire_block advance_config sample_tables
          (sample_start [{ fast_block 4 with steps_x := 0, steps_e := 4 }])).1).log = 0 ∧
    (stepper_int_handler advance_config sample_tables pins_low
      (sample_start [{ fast_block 4 with steps_x := 0, steps_e := 4 }])).current_block.isSome
      = false ∧
    step_events (stepper_int_handler advance_config sample_tables pins_low
      (sample_start [{ fast_block 4 with steps_x := 0, steps_e := 4 }])).log = 4 ∧
    pin_writes Pin.e_step true (stepper_int_handler advance_config sample_tables pins_low
      (sample_start [{ fast_block 4 with steps_x := 0, steps_e := 4 }])).log = 0 ∧
    (stepper_int_handler advance_config sample_tables pins_low
      (sample_start [{ fast_block 4 with steps_x := 0, steps_e := 4 }])).e_steps_0 = 4 := by
  decide

/-- Witness of C14: the X axis of the block with steps = (3, 4, 0, 0) and
N = 4, ⌈4 / 3⌉ = 2: the X step pin has one pulse after the first step event
and two after the third. -/
theorem bresenham_fairness_witness :
    pin_writes Pin.x_step true
      (Nat.iterate (step_event sample_config (sample_block 3 4 0 0 4 0)) 1
        (acquire_block sample_config sample_tables
          (sample_start [sample_block 3 4 0 0 4 0])).1).log = 1 ∧
    pin_writes Pin.x_step true
      (Nat.iterate (step_event sample_config (sample_block 3 4 0 0 4 0)) 3
        (acquire_block sample_config sample_tables
          (sample_start [sample_block 3 4 0 0 4 0])).1).log = 2 ∧
    pin_writes Pin.x_step true
        (Nat.iterate (step_event sample_config (sample_block 3 4 0 0 4 0)) 1
          (acquire_block sample_config sample_tables
            (sample_start [sample_block 3 4 0 0 4 0])).1).log + 1
      ≤ pin_writes Pin.x_step true
        (Nat.iterate (step_event sample_config (sample_block 3 4 0 0 4 0))
          (1 + (4 + 3 - 1) / 3)
          (acquire_block sample_config sample_tables
            (sample_start [sample_block 3 4 0 0 4 0])).1).log :=
  ⟨by decide, by decide,
    (bresenham_fairness sample_config (sample_block 3 4 0 0 4 0)
      (acquire_block sample_config sample_tables (sample_start [sample_block 3 4 0 0 4 0])).1
      0 (by decide) (fun h => rfl) (by decide) (by decide) (by decide) (by decide) 1
      (Pin.x_step, true) (by decide)).1⟩

/-- Counterexample to C20 as stated: the state after static initialisation
and st_init is reachable, its queue is empty, and the first invocations of
the interrupt, which find no block to acquire, exit with step_loops = 0. -/
theorem step_loops_invariant_counterexample :
    Reachable sample_config sample_tables (st_init sample_config initial_state) ∧
    (st_init sample_config initial_state).do_int = 1 ∧
    (st_init sample_config initial_state).queue.isEmpty = true ∧
    (stepper_int_handler sample_config sample_tables pins_low
      (st_init sample_config initial_state)).step_loops = 0 ∧
    (isr_run sample_config sample_tables (fun _ => pins_low) 3
      (st_init sample_config initial_state)).step_loops = 0 :=
  ⟨Reachable.start, by decide, by decide, by decide, by decide⟩

/-- Witness of C20: after st_init the planner queues a block of 20 X steps at
30000 steps/s; the invocation that acquires it exits with step_loops = 4. -/
theorem step_loops_invariant_witness :
    Reachable sample_config sample_tables
      { st_init sample_config initial_state with
        queue := (st_init sample_config initial_state).queue ++ [fast_block 20] } ∧
    (stepper_int_handler sample_config sample_tables pins_low
      { st_init sample_config initial_state with
        queue := (st_init sample_config initial_state).queue ++ [fast_block 20] }).step_loops
      = 4 ∧
    ((stepper_int_handler sample_config sample_tables pins_low
        { st_init sample_config initial_state with
          queue := (st_init sample_config initial_state).queue ++ [fast_block 20] }).step_loops
        = 1 ∨
      (stepper_int_handler sample_config sample_tables pins_low
        { st_init sample_config initial_state with
          queue := (st_init sample_config initial_state).queue ++ [fast_block 20] }).step_loops
        = 2 ∨
      (stepper_int_handler sample_config sample_tables pins_low
        { st_init sample_config initial_state with
          queue := (st_init sample_config initial_state).queue ++ [fast_block 20] }).step_loops
        = 4) :=
  ⟨Reachable.queued (fast_block 20) Reachable.start, by decide,
    (step_loops_invariant sample_config sample_tables _
      (Reachable.queued (fast_block 20) Reachable.start) pins_low).1
      (Or.inr (Or.inl (by decide)))⟩

/-- Witness of C21: after st_init the planner queues an X-negative block of
10 steps; the invocation that acquires it with the X min pin asserted exits
with the block current and step_events_completed = 1 ≤ 10. -/
theorem progress_counter_invariant_witness :
    (stepper_int_handler sample_config sample_tables (pins_x_min true)
      { st_init sample_config initial_state with
        queue := (st_init sample_config initial_state).queue
          ++ [sample_block 10 0 0 0 10 1] }).current_block
      = some { sample_block 10 0 0 0 10 1 with busy := true } ∧
    (stepper_int_handler sample_config sample_tables (pins_x_min true)
      { st_init sample_config initial_state with
        queue := (st_init sample_config initial_state).queue
          ++ [sample_block 10 0 0 0 10 1] }).step_events_completed = 1 ∧
    (stepper_int_handler sample_config sample_tables (pins_x_min true)
      { st_init sample_config initial_state with
        queue := (st_init sample_config initial_state).queue
          ++ [sample_block 10 0 0 0 10 1] }).step_events_completed
      ≤ ({ sample_block 10 0 0 0 10 1 with busy := true } : block_t).step_event_count :=
  ⟨by decide, by decide,
    (progress_counter_invariant sample_config sample_tables _
      (Reachable.queued (sample_block 10 0 0 0 10 1) Reachable.start) (pins_x_min true)
      { sample_block 10 0 0 0 10 1 with busy := true } (by decide)).2⟩

/-- Witness of C22: after st_init the planner queues the block with
steps = (3, 4, 0, 0) and N = 4; the invocation that acquires it exits with the
block current and the counters -3, -2, -2, -2, all in [-4, 4]. -/
theorem dda_counter_range_witness :
    (stepper_int_handler sample_config sample_tables pins_low
      { st_init sample_config initial_state with
        queue := (st_init sample_config initial_state).queue
          ++ [sample_block 3 4 0 0 4 0] }).counter 0 = -3 ∧
    (stepper_int_handler sample_config sample_tables pins_low
      { st_init sample_config initial_state with
        queue := (st_init sample_config initial_state).queue
          ++ [sample_block 3 4 0 0 4 0] }).counter 1 = -2 ∧
    ∀ a, a < 4 →
      -(({ sample_block 3 4 0 0 4 0 with busy := true } : block_t).step_event_count : Int)
        ≤ (stepper_int_handler sample_config sample_tables pins_low
            { st_init sample_config initial_state with
              queue := (st_init sample_config initial_state).queue
                ++ [sample_block 3 4 0 0 4 0] }).counter a ∧
      (stepper_int_handler sample_config sample_tables pins_low
          { st_init sample_config initial_state with
            queue := (st_init sample_config initial_state).queue
              ++ [sample_block 3 4 0 0 4 0] }).counter a
        ≤ (({ sample_block 3 4 0 0 4 0 with busy := true } : block_t).step_event_count : Int) :=
  ⟨by decide, by decide,
    (dda_counter_range sample_config sample_tables _
      (Reachable.queued (sample_block 3 4 0 0 4 0) Reachable.start) pins_low
      { sample_block 3 4 0 0 4 0 with busy := true } (by decide) (by decide)).2 (by decide)⟩

/-- Witness of C23: sprint_block (initial_rate 1000, nominal_rate 30000) on
the sample machine, whose tables hold the period 1000: after the reset
OCR1A_nominal = 1000, step_loops_nominal = 4, acc_step_rate = 1000,
acceleration_time = 1000, deceleration_time = 0, the timer is armed with
1000 µs and step_loops = 1. -/
theorem trapezoid_reset_postcondition_witness :
    (trapezoid_generator_reset sample_config sample_tables sprint_block
      initial_state).OCR1A_nominal = 1000 ∧
    (trapezoid_generator_reset sample_config sample_tables sprint_block
      initial_state).step_loops_nominal = 4 ∧
    (trapezoid_generator_reset sample_config sample_tables sprint_block
      initial_state).acc_step_rate = 1000 ∧
    (trapezoid_generator_reset sample_config sample_tables sprint_block
      initial_state).acceleration_time = 1000 ∧
    (trapezoid_generator_reset sample_config sample_tables sprint_block
      initial_state).deceleration_time = 0 ∧
    armed (trapezoid_generator_reset sample_config sample_tables sprint_block
      initial_state).log = some 1000 ∧
    (trapezoid_generator_reset sample_config sample_tables sprint_block
      initial_state).step_loops = 1 :=
  have h := trapezoid_reset_postcondition sample_config sample_tables sprint_block
    initial_state (by decide) (by decide) (by decide)
  ⟨h.1.trans (by decide), h.2.1.trans (by decide), h.2.2.1.trans (by decide),
    h.2.2.2.1.trans (by decide), h.2.2.2.2.1, h.2.2.2.2.2.1.trans (by decide),
    h.2.2.2.2.2.2.trans (by decide)⟩

/-- Counterexample to C24 as stated: one tick of the advance interrupt from
e_steps[0] = 4 on a machine with one extruder emits four step pulses on the
E0 step pin and leaves e_steps[0] = 0, where the claim has one pulse and
e_steps[0] = 3. -/
theorem advance_drain_counterexample :
    ({ initial_state with e_steps_0 := 4 } : State).e_steps 0 = 4 ∧
    (TIMER0_COMPA_vect sample_config sample_advance { initial_state with e_steps_0 := 4 }
      timer0_start).1.e_steps 0 = 0 ∧
    epin_writes EPin.e0_step (!sample_config.INVERT_E_STEP_PIN)
      (TIMER0_COMPA_vect sample_config sample_advance { initial_state with e_steps_0 := 4 }
        timer0_start).2.writes = 4 ∧
    (TIMER0_COMPA_vect sample_config sample_advance { initial_state with e_steps_0 := 4 }
      timer0_start).2.writes
      = [(EPin.e0_step, false), (EPin.e0_dir, true), (EPin.e0_step, true),
         (EPin.e0_step, false), (EPin.e0_dir, true), (EPin.e0_step, true),
         (EPin.e0_step, false), (EPin.e0_dir, true), (EPin.e0_step, true),
         (EPin.e0_step, false), (EPin.e0_dir, true), (EPin.e0_step, true)] := by
  decide

/-- Witness of C24 as amended: one tick from e_steps[0] = -6 on a machine with
one extruder: four step pulses, four direction writes at INVERT_E0_DIR, and
e_steps[0] = -2. -/
theorem advance_drain_witness :
    (TIMER0_COMPA_vect sample_config sample_advance { initial_state with e_steps_0 := -6 }
      timer0_start).1.e_steps 0 = -2 ∧
    epin_writes (EPin.dir_of 0) (sample_advance.INVERT_E_DIR 0)
      (TIMER0_COMPA_vect sample_config sample_advance { initial_state with e_steps_0 := -6 }
        timer0_start).2.writes = 4 ∧
    epin_writes (EPin.step_of 0) (!sample_config.INVERT_E_STEP_PIN)
      (TIMER0_COMPA_vect sample_config sample_advance { initial_state with e_steps_0 := -6 }
        timer0_start).2.writes = 4 :=
  have h := (advance_drain sample_config sample_advance { initial_state with e_steps_0 := -6 }
    timer0_start 0 (by decide) (by decide)).1 (by decide)
  ⟨h.1.trans (by decide), h.2.1.trans (by decide),
    (h.2.2.2 (fun h2 => absurd h2 (by decide))).trans (by decide)⟩

/-- C25, the code at failing inputs. For the reduced rate 9 (row 9 >> 3 = 1)
the offset is (9 >> 1) & 0xfffc = 4, the period entry of row 2; the gain entry
of that row, element 5, is not read (changing it leaves the result at 875),
the second read is element 6, the period entry of row 3 (clearing it gives
1000). For the reduced rates 1024 and 1025 the offset is 512, the first
element past a table of 256 rows of two entries: the result of
calc_timer(1024) is element 512, and that of calc_timer(1025) follows
element 514. -/
theorem calc_timer_slow_reads_divergence :
    (9 >>> 1) &&& 0xfffc = 4 ∧
    (calc_timer sample_config sample_tables 9 initial_state).1 = 875 ∧
    (calc_timer sample_config (probe_tables 5 0) 9 initial_state).1 = 875 ∧
    (calc_timer sample_config (probe_tables 6 0) 9 initial_state).1 = 1000 ∧
    (1024 >>> 1) &&& 0xfffc = 512 ∧
    (calc_timer sample_config (probe_tables 512 2000) 1024 initial_state).1 = 2000 ∧
    (calc_timer sample_config (probe_tables 512 3000) 1024 initial_state).1 = 3000 ∧
    (calc_timer sample_config sample_tables 1025 initial_state).1 = 875 ∧
    (calc_timer sample_config (probe_tables 514 0) 1025 initial_state).1 = 1000 := by
  decide

end Marlin
